import Mathlib

/-!
# dirtree: a lazily loaded directory tree

A shallow embedding of `src/dirtree/dirtree.go`.

Modelling conventions.

* `int64` values are `Int`s; every `int64` addition of the source is followed by `wrap64`
  (two's complement wrap-around), and `int64(len(..) + len(..))` is `wrap64` of the length.
* `*Dir` is `Option Dir`: `none` is the nil pointer that `NewDir` returns for a descriptor
  that is not a folder.  Calling a method on a nil `*Dir` dereferences nil; a walk that does
  so ends with `Exit.panic`.
* `*File` is a `File` value (descriptors are immutable and never nil).
* The mutable tree is passed explicitly: an operation returns the tree as it is afterwards,
  also when it fails half-way.
* The caller's closures act on a caller state `σ`, and they are modelled twice.  In the
  first part (`DirFunc`, `RetrieveNextDepthFilesFunc`) they are observers: they read the
  node they are handed and update `σ`, they do not modify the tree, an error that they
  return is one of their own (an `Err.external` code), and a callback dereferences the
  pointer it is handed, so it panics on nil.  Every invocation is appended to a ghost
  `trace`.  In the second part (`LiveFunc`, `LiveRetrieve` and the walks whose names end in
  `Live`) they are taken in full: a callback receives the live `*Dir`, so it can call
  `FillDirNoRecurse` or `DFSLoad` on the node and, through `GetSubDirs`, on the nodes below
  it, and the walk goes on with the node as the callback has left it; a closure can return
  any error value, also one of the package's own that an earlier call has returned to the
  caller; and `BfsWithFunc` calls its callback on a nil child before it dereferences it.
  The first part is the second for observers (`DfsWithFuncLive_lift`,
  `BfsWithFuncLive_lift`, `DFSLoadLive_lift`).  A callback that changes nodes other than
  the one it is handed and those below it, through pointers that it has kept, is not
  modelled.
* `dfsLoadDir` is not structurally recursive (it recurses into nodes it has just created),
  so it takes a recursion budget; `DFSLoad` supplies `Dir.loadFuel`, which is shown to be
  enough (`dfsLoadDir_fuel_enough`).
* The outer loop of `BfsWithFunc` takes a budget of iterations, one more than the height
  of the tree, which is shown to be enough (`BfsWithFunc_ne_fuel`).  The closing loop of
  `GetAllFoldersAndFilesOnLevel` takes a budget too: it does not end when `maxLevel` is the
  largest `int64`.
* With callbacks in full a walk need not end (a callback can add a level each time it is
  called), so the walks of the second part take their budget as an argument; a run that
  ends within its budget is the same with any larger one (`DfsWithFuncLive_fuel_mono`,
  `dfsLoadDirLive_fuel_mono`, `bfsLoopLive_fuel_mono`).
-/

namespace dirtree

/-! ## Machine integers -/

/-- Two's complement wrap-around of an integer into the `int64` range. -/
@[irreducible] def wrap64 (x : Int) : Int :=
  (x + 9223372036854775808) % 18446744073709551616 - 9223372036854775808

/-- The `int64` sum of a list, accumulated from the left starting at `0` as a Go loop does. -/
def sum64 (xs : List Int) : Int :=
  xs.foldl (fun acc x => wrap64 (acc + x)) 0

/-! ## Constants and errors (lines 8-31) -/

def defMaxDepth : Int := 100
def defMaxTotalCount : Int := 100000
def unKnown : Int := -1
def typeFile : Int := 1
def typeFolder : Int := 2

/-- The package's sentinel errors, plus `external` for the error values of the caller's
own, produced by the caller's callbacks or retrieval function. -/
inductive Err where
  | errDirAlreadyLoaded
  | errDirNotLoad
  | errNoRetrieveNextDepthFilesFunc
  | errNotFolderType
  | errMaxPathDepthLimit
  | errFileNumLimit
  | errTotalSizeLimit
  | external (code : Nat)
deriving DecidableEq, Repr

/-- How a call ends: it returns a nil error, returns an error, dereferences a nil `*Dir`
(run-time panic, no return), or, in the model only, exhausts its recursion budget. -/
inductive Exit where
  | nil
  | error (e : Err)
  | panic
  | fuel
deriving DecidableEq, Repr

/-! ## Data model (lines 40-74) -/

/-- The node descriptor `File`; the field `Type` of the source is `Type_` here. -/
structure File where
  Id : Int
  ParentId : Int
  VolumeId : Int
  Name : String
  Type_ : Int
  Version : Int
  Size : Int
  Ctime : Int
  Creator : Int
  Mtime : Int
  Modifier : Int
deriving DecidableEq, Repr

def File.IsFile (r : File) : Bool := r.Type_ == typeFile

def File.IsFolder (r : File) : Bool := r.Type_ == typeFolder

/-- The tree node `Dir`.  `subDirs` holds `*Dir` values, so an element may be nil. -/
inductive Dir where
  | mk (originInfo : File) (subDirs : List (Option Dir)) (subFiles : List File)
      (depth count size : Int) (loaded : Bool) : Dir

namespace Dir

abbrev originInfo : Dir → File
  | mk o _ _ _ _ _ _ => o

abbrev subDirs : Dir → List (Option Dir)
  | mk _ s _ _ _ _ _ => s

abbrev subFiles : Dir → List File
  | mk _ _ f _ _ _ _ => f

abbrev depth : Dir → Int
  | mk _ _ _ d _ _ _ => d

abbrev count : Dir → Int
  | mk _ _ _ _ c _ _ => c

abbrev size : Dir → Int
  | mk _ _ _ _ _ s _ => s

abbrev loaded : Dir → Bool
  | mk _ _ _ _ _ _ l => l

/-- Assignment to the `subDirs` field (the children are mutated in place in the source). -/
def setSubDirs (d : Dir) (subs : List (Option Dir)) : Dir :=
  mk d.originInfo subs d.subFiles d.depth d.count d.size d.loaded

end Dir

/-! ## Construction (lines 114-148) -/

def NewDir (folder : File) (depth count size : Int) : Option Dir :=
  if !folder.IsFolder then none
  else some (Dir.mk folder [] [] depth count size false)

def NewVirtualDir (virtualFolderId volumeId : Int) (folderType : Int) : Option Dir :=
  NewDir ⟨virtualFolderId, unKnown, volumeId, "", folderType, 0, 0, 0, 0, 0, 0⟩ 0 unKnown unKnown

def Dir.IsVirtualDir (d : Dir) : Bool := decide (d.originInfo.Id ≤ 0)

/-! ## Direct fill (lines 151-170) -/

/-- `FillDirNoRecurse`: the node afterwards and the returned error. -/
def Dir.FillDirNoRecurse (d : Dir) (subFiles subFolders : List File) : Dir × Option Err :=
  if d.loaded then (d, some Err.errDirAlreadyLoaded)
  else
    let count := wrap64 ((subFiles.length + subFolders.length : Nat) : Int)
    let size := subFiles.foldl (fun acc file => wrap64 (acc + file.Size)) 0
    let dirs := subFolders.map (fun folder => NewDir folder (wrap64 (d.depth + 1)) unKnown unKnown)
    (Dir.mk d.originInfo dirs subFiles d.depth count size true, none)

/-! ## Caller-supplied functions and the ghost trace (lines 33-38) -/

/-- What one call of an observer does: it returns nil, it returns an error of the
caller's own, `code`, or it panics.  A closure that returns one of the package's error
values is a `LiveFunc` or a `LiveRetrieve`, whose calls return a `GoRet`. -/
inductive CallRet where
  | nil
  | error (code : Nat)
  | panic
deriving DecidableEq, Repr

/-- How the package sees the result of such a call. -/
def CallRet.toExit : CallRet → Exit
  | CallRet.nil => Exit.nil
  | CallRet.error code => Exit.error (Err.external code)
  | CallRet.panic => Exit.panic

/-- One invocation of a caller-supplied function: the retrieval function with its two
arguments, or a visit callback (of a depth-first walk, before or after the children, or of
the breadth-first walk) with the node as it was when the callback was called. -/
inductive Event where
  | retrieve (volumeId folderId : Int)
  | preorder (dir : Dir)
  | postorder (dir : Dir)
  | bfs (dir : Dir)

/-- The caller's state together with the record of the invocations made so far. -/
structure Ctx (σ : Type) where
  world : σ
  trace : List Event

/-- `DirFunc`, for a callback that is an observer: it reads the node, updates the
caller's state and returns an error or nil, and it leaves the tree as it is.  A callback
that uses the pointer it is handed to change the tree is a `LiveFunc`. -/
abbrev DirFunc (σ : Type) := σ → Dir → σ × CallRet

/-- `RetrieveNextDepthFilesFunc`: given `volumeId` and `folderId`, updates the caller's
state and returns either an error of the caller's own or the lists `files` and `folders`.
A retrieval function that returns any error value is a `LiveRetrieve`. -/
abbrev RetrieveNextDepthFilesFunc (σ : Type) :=
  σ → Int → Int → σ × Except Nat (List File × List File)

/-- The guarded call `if f != nil { if err := f(ctx, d); err != nil { return err } }`:
the context afterwards and `Exit.nil` when the caller goes on.  `tag` says which event is
recorded. -/
def callDirFunc {σ : Type} (tag : Dir → Event) (f : Option (DirFunc σ)) (d : Dir)
    (c : Ctx σ) : Ctx σ × Exit :=
  match f with
  | none => (c, Exit.nil)
  | some g => (⟨(g c.world d).1, c.trace ++ [tag d]⟩, (g c.world d).2.toExit)

/-! ## Bounded recursive loader (lines 308-342, 369-426) -/

structure dsfLoadInfo where
  maxDepth : Int
  sizeLimit : Int
  numLimit : Int
  totalCount : Int
  totalSize : Int
deriving DecidableEq, Repr

/-- Everything `dfsLoadDir` reads and writes besides the node: the shared accumulator
`dfsInfo` and the caller's context. -/
structure LoadState (σ : Type) where
  info : dsfLoadInfo
  ctx : Ctx σ

/-- Lines 387-399 of `dfsLoadDir`: fetch and fill the node when it is not loaded.
`Exit.nil` when the function goes on. -/
def dfsLoadFetch {σ : Type} (retrieve : Option (RetrieveNextDepthFilesFunc σ))
    (d : Dir) (c : Ctx σ) : Dir × Ctx σ × Exit :=
  if d.loaded then (d, c, Exit.nil)
  else
    match retrieve with
    | none => (d, c, Exit.error Err.errNoRetrieveNextDepthFilesFunc)
    | some r =>
      let c1 : Ctx σ :=
        ⟨(r c.world d.originInfo.VolumeId d.originInfo.Id).1,
          c.trace ++ [Event.retrieve d.originInfo.VolumeId d.originInfo.Id]⟩
      match (r c.world d.originInfo.VolumeId d.originInfo.Id).2 with
      | Except.error code => (d, c1, Exit.error (Err.external code))
      | Except.ok (files, folders) =>
        match (d.FillDirNoRecurse files folders).2 with
        | some e => ((d.FillDirNoRecurse files folders).1, c1, Exit.error e)
        | none => ((d.FillDirNoRecurse files folders).1, c1, Exit.nil)

/-- Lines 401-412 of `dfsLoadDir`: add the node's `count` and `size` to the running
totals, then check the count limit and the size limit, in this order. -/
def dfsLoadAccount (count size : Int) (info : dsfLoadInfo) : dsfLoadInfo × Exit :=
  let info1 : dsfLoadInfo :=
    ⟨info.maxDepth, info.sizeLimit, info.numLimit,
      wrap64 (info.totalCount + count), wrap64 (info.totalSize + size)⟩
  if info1.totalCount > info1.numLimit then (info1, Exit.error Err.errFileNumLimit)
  else if info1.sizeLimit ≥ 0 ∧ info1.totalSize > info1.sizeLimit then
    (info1, Exit.error Err.errTotalSizeLimit)
  else (info1, Exit.nil)

/-- Lines 372-412 of `dfsLoadDir`, everything before the loop over the children: the node
and the state afterwards, and `Exit.nil` when the function goes on to the loop. -/
def dfsLoadHead {σ : Type} (retrieve : Option (RetrieveNextDepthFilesFunc σ))
    (preorderFunc : Option (DirFunc σ)) (d : Dir) (st : LoadState σ) :
    Dir × LoadState σ × Exit :=
  if !d.originInfo.IsFolder then (d, st, Exit.error Err.errNotFolderType)
  else if d.depth ≥ st.info.maxDepth then (d, st, Exit.error Err.errMaxPathDepthLimit)
  else
    let p := callDirFunc Event.preorder preorderFunc d st.ctx
    match p.2 with
    | Exit.nil =>
      let f := dfsLoadFetch retrieve d p.1
      match f.2.2 with
      | Exit.nil =>
        let a := dfsLoadAccount f.1.count f.1.size st.info
        (f.1, ⟨a.1, f.2.1⟩, a.2)
      | e => (f.1, ⟨st.info, f.2.1⟩, e)
    | e => (d, ⟨st.info, p.1⟩, e)

/-- The loop `for _, subDir := range d.subDirs { if err := walk(subDir); err != nil
{ return err } }`: the children afterwards (those after a failing child are untouched),
the state afterwards, and how the loop ended.  A nil child makes `walk` dereference nil. -/
def loopSubDirs {τ : Type} (walk : Dir → τ → Dir × τ × Exit) :
    List (Option Dir) → τ → List (Option Dir) × τ × Exit
  | [], st => ([], st, Exit.nil)
  | none :: cs, st => (none :: cs, st, Exit.panic)
  | some c :: cs, st =>
    match (walk c st).2.2 with
    | Exit.nil =>
      (some (walk c st).1 :: (loopSubDirs walk cs (walk c st).2.1).1,
        (loopSubDirs walk cs (walk c st).2.1).2)
    | e => (some (walk c st).1 :: cs, (walk c st).2.1, e)

/-- `dfsLoadDir` with a recursion budget: the node afterwards, the state afterwards and
how the call ended. -/
def dfsLoadDir {σ : Type} (retrieve : Option (RetrieveNextDepthFilesFunc σ))
    (preorderFunc postorderFunc : Option (DirFunc σ)) :
    Nat → Dir → LoadState σ → Dir × LoadState σ × Exit
  | 0, d, st => (d, st, Exit.fuel)
  | fuel + 1, d, st =>
    let h := dfsLoadHead retrieve preorderFunc d st
    match h.2.2 with
    | Exit.nil =>
      let l := loopSubDirs (dfsLoadDir retrieve preorderFunc postorderFunc fuel)
        h.1.subDirs h.2.1
      let d2 := h.1.setSubDirs l.1
      match l.2.2 with
      | Exit.nil =>
        let p := callDirFunc Event.postorder postorderFunc d2 l.2.1.ctx
        (d2, ⟨l.2.1.info, p.1⟩, p.2)
      | e => (d2, l.2.1, e)
    | e => (h.1, h.2.1, e)

/-- The loop over the children inside `dfsLoadDir` with budget `fuel + 1`, named for the
proofs. -/
def dfsLoadKids {σ : Type} (retrieve : Option (RetrieveNextDepthFilesFunc σ))
    (preorderFunc postorderFunc : Option (DirFunc σ)) (fuel : Nat) (d : Dir)
    (st : LoadState σ) : List (Option Dir) × LoadState σ × Exit :=
  loopSubDirs (dfsLoadDir retrieve preorderFunc postorderFunc fuel)
    (dfsLoadHead retrieve preorderFunc d st).1.subDirs
    (dfsLoadHead retrieve preorderFunc d st).2.1

mutual
/-- A recursion budget that suffices for `dfsLoadDir` with depth limit `maxDepth`. -/
def Dir.loadFuel (maxDepth : Int) : Dir → Nat
  | Dir.mk _ subs _ depth _ _ loaded =>
    if loaded then 1 + loadFuelList maxDepth subs else 1 + (maxDepth - depth).toNat
/-- The largest budget needed by a child. -/
def loadFuelList (maxDepth : Int) : List (Option Dir) → Nat
  | [] => 0
  | none :: cs => loadFuelList maxDepth cs
  | some c :: cs => max (Dir.loadFuel maxDepth c) (loadFuelList maxDepth cs)
end

/-- What `DFSLoad` leaves behind and returns. -/
structure LoadResult (σ : Type) where
  dir : Dir
  ctx : Ctx σ
  totalSize : Int
  totalCount : Int
  exit : Exit

/-- Lines 321-336 of `DFSLoad`: the defaults of the limits and the accumulator `dfsInfo`
with which the walk starts (a root that is not virtual counts for one). -/
def Dir.dfsInfoInit (d : Dir) (maxDepth numLimit sizeLimit : Int) : dsfLoadInfo :=
  ⟨if maxDepth < 0 then defMaxDepth else maxDepth, sizeLimit,
    if numLimit < 0 then defMaxTotalCount else numLimit,
    if !d.IsVirtualDir then wrap64 (0 + 1) else 0, 0⟩

/-- Line 337 of `DFSLoad`: the call of `dfsLoadDir` on the root. -/
def Dir.loadRun {σ : Type} (d : Dir) (maxDepth numLimit sizeLimit : Int)
    (retrieveNextDepthFiles : Option (RetrieveNextDepthFilesFunc σ))
    (preorderFunc postorderFunc : Option (DirFunc σ)) (c : Ctx σ) :
    Dir × LoadState σ × Exit :=
  dfsLoadDir retrieveNextDepthFiles preorderFunc postorderFunc
    (d.loadFuel (d.dfsInfoInit maxDepth numLimit sizeLimit).maxDepth) d
    ⟨d.dfsInfoInit maxDepth numLimit sizeLimit, c⟩

/-- `DFSLoad` (lines 317-342). -/
def Dir.DFSLoad {σ : Type} (d : Dir) (maxDepth numLimit sizeLimit : Int)
    (retrieveNextDepthFiles : Option (RetrieveNextDepthFilesFunc σ))
    (preorderFunc postorderFunc : Option (DirFunc σ)) (c : Ctx σ) : LoadResult σ :=
  let r := d.loadRun maxDepth numLimit sizeLimit retrieveNextDepthFiles
    preorderFunc postorderFunc c
  match r.2.2 with
  | Exit.nil => ⟨r.1, r.2.1.ctx, r.2.1.info.totalSize, r.2.1.info.totalCount, Exit.nil⟩
  | e => ⟨r.1, r.2.1.ctx, 0, 0, e⟩

/-! ## Generic depth-first walk (lines 429-452) -/

mutual
/-- `DfsWithFunc`: the caller's context afterwards and how the walk ended. -/
def Dir.DfsWithFunc {σ : Type} (preorderFunc postorderFunc : Option (DirFunc σ)) :
    Dir → Ctx σ → Ctx σ × Exit
  | Dir.mk o subs files depth count size loaded, c =>
    if !loaded then (c, Exit.error Err.errDirNotLoad)
    else
      let p := callDirFunc Event.preorder preorderFunc
        (Dir.mk o subs files depth count size loaded) c
      match p.2 with
      | Exit.nil =>
        let l := dfsSubDirs preorderFunc postorderFunc subs p.1
        match l.2 with
        | Exit.nil =>
          callDirFunc Event.postorder postorderFunc
            (Dir.mk o subs files depth count size loaded) l.1
        | e => (l.1, e)
      | e => (p.1, e)
/-- The loop over `d.subDirs` inside `DfsWithFunc`. -/
def dfsSubDirs {σ : Type} (preorderFunc postorderFunc : Option (DirFunc σ)) :
    List (Option Dir) → Ctx σ → Ctx σ × Exit
  | [], c => (c, Exit.nil)
  | none :: _, c => (c, Exit.panic)
  | some s :: cs, c =>
    match (Dir.DfsWithFunc preorderFunc postorderFunc s c).2 with
    | Exit.nil =>
      dfsSubDirs preorderFunc postorderFunc cs (Dir.DfsWithFunc preorderFunc postorderFunc s c).1
    | e => ((Dir.DfsWithFunc preorderFunc postorderFunc s c).1, e)
end

/-! ## Direct children (lines 189-206) -/

/-- `GetSubFolders`; `none` when a child is nil (`subDir.originInfo` dereferences it). -/
def Dir.GetSubFolders (d : Dir) : Option (List File) :=
  d.subDirs.foldl
    (fun folders subDir =>
      match folders, subDir with
      | some fs, some s => some (fs ++ [s.originInfo])
      | _, _ => none)
    (some [])

/-- `GetSubFoldersAndFiles`; `none` when a child is nil. -/
def Dir.GetSubFoldersAndFiles (d : Dir) : Option (List File) :=
  d.GetSubFolders.map (fun allFiles => allFiles ++ d.subFiles)

/-! ## Derived enumerations and totals (lines 208-247, 352-366) -/

/-- The closure `addSubFiles` of `GetAllPureFiles`; the caller state is `allFiles`. -/
def addPureFiles : DirFunc (List File) :=
  fun allFiles dir => (allFiles ++ dir.subFiles, CallRet.nil)

/-- `GetAllPureFiles`; the error of the walk is discarded, `none` when the walk panics. -/
def Dir.GetAllPureFiles (d : Dir) : Option (List File) :=
  match d.DfsWithFunc (some addPureFiles) none ⟨[], []⟩ with
  | (_, Exit.panic) => none
  | (c, _) => some c.world

/-- The closure `addSubFoldersAndFiles` of `GetAllFoldersAndFiles`. -/
def addSubFoldersAndFiles : DirFunc (List File) :=
  fun allFiles dir =>
    match dir.GetSubFoldersAndFiles with
    | none => (allFiles, CallRet.panic)
    | some l => (allFiles ++ l, CallRet.nil)

/-- `GetAllFoldersAndFiles`; the error of the walk is discarded, `none` when it panics. -/
def Dir.GetAllFoldersAndFiles (d : Dir) : Option (List File) :=
  match d.DfsWithFunc (some addSubFoldersAndFiles) none
      ⟨if !d.IsVirtualDir then [d.originInfo] else [], []⟩ with
  | (_, Exit.panic) => none
  | (c, _) => some c.world

/-- The closure `addSizeAndCount` of `GetTotalSizeAndCount`; the caller state is the pair
of named results `(totalSize, totalCount)`. -/
def addSizeAndCount : DirFunc (Int × Int) :=
  fun acc dir => ((wrap64 (acc.1 + dir.size), wrap64 (acc.2 + dir.count)), CallRet.nil)

/-- `GetTotalSizeAndCount`: `(totalSize, totalCount)` and how the call ended. -/
def Dir.GetTotalSizeAndCount (d : Dir) : Int × Int × Exit :=
  let totalCount : Int := if !d.IsVirtualDir then wrap64 (0 + 1) else 0
  let r := d.DfsWithFunc (some addSizeAndCount) none ⟨(0, totalCount), []⟩
  match r.2 with
  | Exit.nil => (r.1.world.1, r.1.world.2, Exit.nil)
  | e => (0, 0, e)

/-- The closure `addSubFiles` of `GetAllFolders`. -/
def addSubFolders : DirFunc (List File) :=
  fun allFiles dir =>
    match dir.GetSubFolders with
    | none => (allFiles, CallRet.panic)
    | some l => (allFiles ++ l, CallRet.nil)

/-- `GetAllFolders`; the error of the walk is discarded, `none` when the walk panics. -/
def Dir.GetAllFolders (d : Dir) : Option (List File) :=
  match d.DfsWithFunc (some addSubFolders) none
      ⟨if !d.IsVirtualDir then [d.originInfo] else [], []⟩ with
  | (_, Exit.panic) => none
  | (c, _) => some c.world

/-! ## Breadth-first walk (lines 454-479) -/

/-- The inner loop of `BfsWithFunc` over `currDepthDirs`, for a callback that is an
observer: the callback on each node, whose children are appended to `nextDepthDirs`.  On a
nil node the source calls the callback first, with the nil pointer.  An observer reads the
node it is handed, as all the closures of this package do, so it panics there; and with no
callback the statement `dir.subDirs` dereferences the nil pointer.  Either way the walk
panics and nothing is returned.  A callback that tests the pointer
before it reads it is a `LiveFunc`: see `bfsLevelLive`, which is this function for
observers (`bfsLevelLive_lift`). -/
def bfsLevel {σ : Type} (callBack : Option (DirFunc σ)) :
    List (Option Dir) → List (Option Dir) → Ctx σ → List (Option Dir) × Ctx σ × Exit
  | [], nextDepthDirs, c => (nextDepthDirs, c, Exit.nil)
  | none :: _, nextDepthDirs, c => (nextDepthDirs, c, Exit.panic)
  | some dir :: rest, nextDepthDirs, c =>
    match (callDirFunc Event.bfs callBack dir c).2 with
    | Exit.nil =>
      bfsLevel callBack rest (nextDepthDirs ++ dir.subDirs)
        (callDirFunc Event.bfs callBack dir c).1
    | e => (nextDepthDirs, (callDirFunc Event.bfs callBack dir c).1, e)

/-- The outer loop `for { if len(currDepthDirs) == 0 { break } ... }` of `BfsWithFunc`,
with a budget of iterations. -/
def bfsLoop {σ : Type} (callBack : Option (DirFunc σ)) :
    Nat → List (Option Dir) → Ctx σ → Ctx σ × Exit
  | 0, _, c => (c, Exit.fuel)
  | fuel + 1, currDepthDirs, c =>
    match currDepthDirs with
    | [] => (c, Exit.nil)
    | x :: xs =>
      match (bfsLevel callBack (x :: xs) [] c).2.2 with
      | Exit.nil =>
        bfsLoop callBack fuel (bfsLevel callBack (x :: xs) [] c).1
          (bfsLevel callBack (x :: xs) [] c).2.1
      | e => ((bfsLevel callBack (x :: xs) [] c).2.1, e)

mutual
/-- The number of levels of a tree. -/
def Dir.height : Dir → Nat
  | Dir.mk _ subs _ _ _ _ _ => heightList subs + 1
/-- The number of levels below a list of children. -/
def heightList : List (Option Dir) → Nat
  | [] => 0
  | none :: cs => heightList cs
  | some c :: cs => max (Dir.height c) (heightList cs)
end

/-- `BfsWithFunc`: the caller's context afterwards and how the walk ended.  Only the node
it is called on is tested for `loaded`.  The outer loop runs once per level and once more
to find the next level empty. -/
def Dir.BfsWithFunc {σ : Type} (callBack : Option (DirFunc σ)) (d : Dir) (c : Ctx σ) :
    Ctx σ × Exit :=
  if !d.loaded then (c, Exit.error Err.errDirNotLoad)
  else bfsLoop callBack (d.height + 1) [some d] c

/-- `GetAllFoldersAndFilesByBfs`; the error of the walk is discarded, `none` when the
walk panics. -/
def Dir.GetAllFoldersAndFilesByBfs (d : Dir) : Option (List File) :=
  match d.BfsWithFunc (some addSubFoldersAndFiles)
      ⟨if !d.IsVirtualDir then [d.originInfo] else [], []⟩ with
  | (_, Exit.panic) => none
  | (c, _) => some c.world

/-- The closure `addSubFoldersAndFiles` of `GetAllFoldersAndFilesOnLevel`; the caller
state is the pair of `maxLevel` and `levelFilesMap`, a Go map read as a function (a key
that is not in the map gives the nil slice). -/
def addLevelFoldersAndFiles : DirFunc (Int × (Int → List File)) :=
  fun st dir =>
    let nextLevel := wrap64 (dir.depth + 1)
    let maxLevel := if nextLevel > st.1 then nextLevel else st.1
    match dir.GetSubFoldersAndFiles with
    | none => ((maxLevel, st.2), CallRet.panic)
    | some l =>
      ((maxLevel, fun level => if level = nextLevel then st.2 level ++ l else st.2 level),
        CallRet.nil)

/-- The loop `for level := minLevel; level <= maxLevel; level++` that closes
`GetAllFoldersAndFilesOnLevel`, with a budget of iterations; `none` when the budget is
used up. -/
def collectLevels (levelFilesMap : Int → List File) (maxLevel : Int) :
    Nat → Int → List (List File) → Option (List (List File))
  | 0, _, _ => none
  | fuel + 1, level, levelAllFiles =>
    if level ≤ maxLevel then
      collectLevels levelFilesMap maxLevel fuel (wrap64 (level + 1))
        (levelAllFiles ++ [levelFilesMap level])
    else some levelAllFiles

/-- The state with which the walk of `GetAllFoldersAndFilesOnLevel` starts: `minLevel`
(which is also the first `maxLevel`) and the map. -/
def Dir.levelInit (d : Dir) : Int × (Int → List File) :=
  if !d.IsVirtualDir then
    (d.depth, fun level => if level = d.depth then [d.originInfo] else [])
  else (wrap64 (d.depth + 1), fun _ => [])

/-- `GetAllFoldersAndFilesOnLevel`; the error of the walk is discarded.  `none` when the
walk panics, and when the closing loop does not end: with `maxLevel` the largest `int64`
the test `level <= maxLevel` never fails.  Otherwise the loop makes
`maxLevel - minLevel + 1` iterations and the budget is one more. -/
def Dir.GetAllFoldersAndFilesOnLevel (d : Dir) : Option (List (List File)) :=
  match d.BfsWithFunc (some addLevelFoldersAndFiles) ⟨d.levelInit, []⟩ with
  | (_, Exit.panic) => none
  | (c, _) =>
    collectLevels c.world.2 c.world.1 (c.world.1 - d.levelInit.1 + 2).toNat d.levelInit.1 []

/-! ## The caller's functions in full

In the definitions above a callback is an observer: it reads the node it is handed and
cannot change it, its errors are the caller's own values, and on a nil pointer it
panics.  A Go `DirFunc` receives the live `*Dir`.  It can call the package's mutating
methods (`FillDirNoRecurse`, `DFSLoad`) on the node and, through `GetSubDirs`, on the nodes
below it; it can return any error value, also one of the package's own that an earlier
call has returned to the caller; and `BfsWithFunc` hands it a nil pointer when a child is
nil.  The definitions of this section are the same source functions with such callbacks.
With them the recursion need not end (a callback can keep adding levels), so every walk
takes a budget, and running out of it stands for a call that does not return.  The walks
above are these walks for callbacks that leave the tree alone (`liftFunc`). -/

/-- What one call of a caller-supplied function returns, in full: nil, any error value,
or no return (a panic). -/
inductive GoRet where
  | nil
  | error (e : Err)
  | panic
deriving DecidableEq, Repr

/-- How the package sees the result of such a call: an error is passed on as it is. -/
def GoRet.toExit : GoRet → Exit
  | GoRet.nil => Exit.nil
  | GoRet.error e => Exit.error e
  | GoRet.panic => Exit.panic

/-- The result of an observer's call, as a `GoRet`. -/
def CallRet.toGo : CallRet → GoRet
  | CallRet.nil => GoRet.nil
  | CallRet.error code => GoRet.error (Err.external code)
  | CallRet.panic => GoRet.panic

/-- A Go `DirFunc` in full.  Handed a node, it updates the caller's state, leaves the node
(and what is below it) as its calls of the package's methods have made it, and returns;
handed a nil pointer, it updates the caller's state and returns. -/
structure LiveFunc (σ : Type) where
  onDir : σ → Dir → Dir × σ × GoRet
  onNil : σ → σ × GoRet

/-- A `RetrieveNextDepthFilesFunc` that can return any error value. -/
abbrev LiveRetrieve (σ : Type) := σ → Int → Int → σ × Except Err (List File × List File)

/-- The guarded call `if f != nil { if err := f(ctx, d); err != nil { return err } }` on
a node: the node and the caller's state afterwards, and `Exit.nil` when the caller goes
on. -/
def callLive {σ : Type} (f : Option (LiveFunc σ)) (d : Dir) (w : σ) : Dir × σ × Exit :=
  match f with
  | none => (d, w, Exit.nil)
  | some g => ((g.onDir w d).1, (g.onDir w d).2.1, (g.onDir w d).2.2.toExit)

/-- Lines 387-399 of `dfsLoadDir`. -/
def dfsLoadFetchLive {σ : Type} (retrieve : Option (LiveRetrieve σ)) (d : Dir) (w : σ) :
    Dir × σ × Exit :=
  if d.loaded then (d, w, Exit.nil)
  else
    match retrieve with
    | none => (d, w, Exit.error Err.errNoRetrieveNextDepthFilesFunc)
    | some r =>
      match (r w d.originInfo.VolumeId d.originInfo.Id).2 with
      | Except.error e => (d, (r w d.originInfo.VolumeId d.originInfo.Id).1, Exit.error e)
      | Except.ok (files, folders) =>
        match (d.FillDirNoRecurse files folders).2 with
        | some e =>
          ((d.FillDirNoRecurse files folders).1,
            (r w d.originInfo.VolumeId d.originInfo.Id).1, Exit.error e)
        | none =>
          ((d.FillDirNoRecurse files folders).1,
            (r w d.originInfo.VolumeId d.originInfo.Id).1, Exit.nil)

/-- Lines 372-412 of `dfsLoadDir`, everything before the loop over the children.  What
follows the pre-order callback reads the node as the callback has left it. -/
def dfsLoadHeadLive {σ : Type} (retrieve : Option (LiveRetrieve σ))
    (preorderFunc : Option (LiveFunc σ)) (d : Dir) (st : dsfLoadInfo × σ) :
    Dir × (dsfLoadInfo × σ) × Exit :=
  if !d.originInfo.IsFolder then (d, st, Exit.error Err.errNotFolderType)
  else if d.depth ≥ st.1.maxDepth then (d, st, Exit.error Err.errMaxPathDepthLimit)
  else
    let p := callLive preorderFunc d st.2
    match p.2.2 with
    | Exit.nil =>
      let f := dfsLoadFetchLive retrieve p.1 p.2.1
      match f.2.2 with
      | Exit.nil =>
        let a := dfsLoadAccount f.1.count f.1.size st.1
        (f.1, (a.1, f.2.1), a.2)
      | e => (f.1, (st.1, f.2.1), e)
    | e => (p.1, (st.1, p.2.1), e)

/-- `dfsLoadDir` with callbacks in full and a recursion budget. -/
def dfsLoadDirLive {σ : Type} (retrieve : Option (LiveRetrieve σ))
    (preorderFunc postorderFunc : Option (LiveFunc σ)) :
    Nat → Dir → dsfLoadInfo × σ → Dir × (dsfLoadInfo × σ) × Exit
  | 0, d, st => (d, st, Exit.fuel)
  | fuel + 1, d, st =>
    let h := dfsLoadHeadLive retrieve preorderFunc d st
    match h.2.2 with
    | Exit.nil =>
      let l := loopSubDirs (dfsLoadDirLive retrieve preorderFunc postorderFunc fuel)
        h.1.subDirs h.2.1
      let d2 := h.1.setSubDirs l.1
      match l.2.2 with
      | Exit.nil =>
        let p := callLive postorderFunc d2 l.2.1.2
        (p.1, (l.2.1.1, p.2.1), p.2.2)
      | e => (d2, l.2.1, e)
    | e => (h.1, h.2.1, e)

/-- The loop over the children inside `dfsLoadDirLive` with budget `fuel + 1`, named for
the proofs. -/
def dfsLoadKidsLive {σ : Type} (retrieve : Option (LiveRetrieve σ))
    (preorderFunc postorderFunc : Option (LiveFunc σ)) (fuel : Nat) (d : Dir)
    (st : dsfLoadInfo × σ) : List (Option Dir) × (dsfLoadInfo × σ) × Exit :=
  loopSubDirs (dfsLoadDirLive retrieve preorderFunc postorderFunc fuel)
    (dfsLoadHeadLive retrieve preorderFunc d st).1.subDirs
    (dfsLoadHeadLive retrieve preorderFunc d st).2.1

/-- What `DFSLoad` leaves behind and returns, with callbacks in full. -/
structure LiveLoad (σ : Type) where
  dir : Dir
  world : σ
  totalSize : Int
  totalCount : Int
  exit : Exit

/-- `DFSLoad` (lines 317-342) with callbacks in full and a recursion budget. -/
def Dir.DFSLoadLive {σ : Type} (d : Dir) (fuel : Nat) (maxDepth numLimit sizeLimit : Int)
    (retrieveNextDepthFiles : Option (LiveRetrieve σ))
    (preorderFunc postorderFunc : Option (LiveFunc σ)) (w : σ) : LiveLoad σ :=
  let r := dfsLoadDirLive retrieveNextDepthFiles preorderFunc postorderFunc fuel d
    (d.dfsInfoInit maxDepth numLimit sizeLimit, w)
  match r.2.2 with
  | Exit.nil => ⟨r.1, r.2.1.2, r.2.1.1.totalSize, r.2.1.1.totalCount, Exit.nil⟩
  | e => ⟨r.1, r.2.1.2, 0, 0, e⟩

/-- `DfsWithFunc` (lines 429-452) with callbacks in full and a recursion budget: the
node and the caller's state afterwards, and how the walk ended. -/
def DfsWithFuncLive {σ : Type} (preorderFunc postorderFunc : Option (LiveFunc σ)) :
    Nat → Dir → σ → Dir × σ × Exit
  | 0, d, w => (d, w, Exit.fuel)
  | fuel + 1, d, w =>
    if !d.loaded then (d, w, Exit.error Err.errDirNotLoad)
    else
      let p := callLive preorderFunc d w
      match p.2.2 with
      | Exit.nil =>
        let l := loopSubDirs (DfsWithFuncLive preorderFunc postorderFunc fuel)
          p.1.subDirs p.2.1
        match l.2.2 with
        | Exit.nil => callLive postorderFunc (p.1.setSubDirs l.1) l.2.1
        | e => (p.1.setSubDirs l.1, l.2.1, e)
      | e => (p.1, p.2.1, e)

/-- The inner loop of `BfsWithFunc` (lines 466-474) with a callback in full.  On a nil
entry the callback is called first, with the nil pointer; when it returns nil, the
statement `dir.subDirs` dereferences the nil pointer. -/
def bfsLevelLive {σ : Type} (callBack : Option (LiveFunc σ)) :
    List (Option Dir) → List (Option Dir) → σ → List (Option Dir) × σ × Exit
  | [], nextDepthDirs, w => (nextDepthDirs, w, Exit.nil)
  | none :: _, nextDepthDirs, w =>
    match callBack with
    | none => (nextDepthDirs, w, Exit.panic)
    | some g =>
      match (g.onNil w).2 with
      | GoRet.nil => (nextDepthDirs, (g.onNil w).1, Exit.panic)
      | r => (nextDepthDirs, (g.onNil w).1, r.toExit)
  | some dir :: rest, nextDepthDirs, w =>
    match (callLive callBack dir w).2.2 with
    | Exit.nil =>
      bfsLevelLive callBack rest (nextDepthDirs ++ (callLive callBack dir w).1.subDirs)
        (callLive callBack dir w).2.1
    | e => (nextDepthDirs, (callLive callBack dir w).2.1, e)

/-- The outer loop of `BfsWithFunc` with a callback in full and a budget of iterations. -/
def bfsLoopLive {σ : Type} (callBack : Option (LiveFunc σ)) :
    Nat → List (Option Dir) → σ → σ × Exit
  | 0, _, w => (w, Exit.fuel)
  | fuel + 1, currDepthDirs, w =>
    match currDepthDirs with
    | [] => (w, Exit.nil)
    | x :: xs =>
      match (bfsLevelLive callBack (x :: xs) [] w).2.2 with
      | Exit.nil =>
        bfsLoopLive callBack fuel (bfsLevelLive callBack (x :: xs) [] w).1
          (bfsLevelLive callBack (x :: xs) [] w).2.1
      | e => ((bfsLevelLive callBack (x :: xs) [] w).2.1, e)

/-- `BfsWithFunc` (lines 455-479) with a callback in full: the caller's state afterwards
and how the walk ended. -/
def Dir.BfsWithFuncLive {σ : Type} (d : Dir) (fuel : Nat) (callBack : Option (LiveFunc σ))
    (w : σ) : σ × Exit :=
  if !d.loaded then (w, Exit.error Err.errDirNotLoad)
  else bfsLoopLive callBack fuel [some d] w

/-- An observer as a callback in full: it leaves the node as it is, and it dereferences
the pointer it is handed, so it panics on nil. -/
def liftFunc {σ : Type} (f : DirFunc σ) : LiveFunc σ :=
  ⟨fun w d => (d, (f w d).1, (f w d).2.toGo), fun w => (w, GoRet.panic)⟩

/-- A retrieval function whose errors are the caller's own, as one in full. -/
def liftRetrieve {σ : Type} (r : RetrieveNextDepthFilesFunc σ) : LiveRetrieve σ :=
  fun w volumeId folderId =>
    ((r w volumeId folderId).1,
      match (r w volumeId folderId).2 with
      | Except.error code => Except.error (Err.external code)
      | Except.ok lists => Except.ok lists)

/-- A callback in full made to record what each of its calls returns. -/
def loggedLive {σ : Type} (f : LiveFunc σ) : LiveFunc (σ × List GoRet) :=
  ⟨fun st dir =>
      ((f.onDir st.1 dir).1, ((f.onDir st.1 dir).2.1, st.2 ++ [(f.onDir st.1 dir).2.2]),
        (f.onDir st.1 dir).2.2),
    fun st => (((f.onNil st.1).1, st.2 ++ [(f.onNil st.1).2]), (f.onNil st.1).2)⟩

/-- What a call of a retrieval function in full returned, as a `GoRet`. -/
def fetchRet {α : Type} : Except Err α → GoRet
  | Except.ok _ => GoRet.nil
  | Except.error e => GoRet.error e

/-- A retrieval function in full made to record what each of its calls returns. -/
def loggedLiveRetrieve {σ : Type} (r : LiveRetrieve σ) : LiveRetrieve (σ × List GoRet) :=
  fun st volumeId folderId =>
    (((r st.1 volumeId folderId).1, st.2 ++ [fetchRet (r st.1 volumeId folderId).2]),
      (r st.1 volumeId folderId).2)

/-- Every call in the log returned nil. -/
def CleanGo (log : List GoRet) : Prop := ∀ r ∈ log, r = GoRet.nil

/-- The log of the calls made by a walk that ended with `e`: either no call failed, or
the call that failed is the last of the log and `e` is what it returned. -/
def FirstErrorWinsGo (log : List GoRet) (e : Exit) : Prop :=
  CleanGo log ∨ ∃ init r, log = init ++ [r] ∧ CleanGo init ∧ r ≠ GoRet.nil ∧ e = r.toExit

/-! ## Vocabulary of the specification -/

mutual
/-- The nodes of a tree in pre-order (nil children are no nodes). -/
def Dir.nodes : Dir → List Dir
  | Dir.mk o subs files depth count size loaded =>
    Dir.mk o subs files depth count size loaded :: nodesList subs
/-- The nodes below a list of children, in order. -/
def nodesList : List (Option Dir) → List Dir
  | [] => []
  | none :: cs => nodesList cs
  | some c :: cs => Dir.nodes c ++ nodesList cs
end

mutual
/-- A tree is fully loaded when every node is loaded and no child is nil. -/
def Dir.fullyLoaded : Dir → Bool
  | Dir.mk _ subs _ _ _ _ loaded => loaded && fullyLoadedList subs
/-- Every child is a fully loaded tree. -/
def fullyLoadedList : List (Option Dir) → Bool
  | [] => true
  | none :: _ => false
  | some c :: cs => Dir.fullyLoaded c && fullyLoadedList cs
end

mutual
/-- No child anywhere in the tree is nil. -/
def Dir.noNil : Dir → Bool
  | Dir.mk _ subs _ _ _ _ _ => noNilList subs
/-- No child in the list is nil, nor any child below. -/
def noNilList : List (Option Dir) → Bool
  | [] => true
  | none :: _ => false
  | some c :: cs => Dir.noNil c && noNilList cs
end

/-- The nodes of one level, left to right (nil entries are no nodes). -/
def levelDirs : List (Option Dir) → List Dir
  | [] => []
  | none :: cs => levelDirs cs
  | some d :: cs => d :: levelDirs cs

/-- The children of the nodes of one level, left to right: the next level. -/
def nextDepthDirs : List (Option Dir) → List (Option Dir)
  | [] => []
  | none :: cs => nextDepthDirs cs
  | some d :: cs => d.subDirs ++ nextDepthDirs cs

/-- The first `n` levels below (and including) a level, each left to right. -/
def bfsLevels : Nat → List (Option Dir) → List (List Dir)
  | 0, _ => []
  | _ + 1, [] => []
  | n + 1, x :: xs => levelDirs (x :: xs) :: bfsLevels n (nextDepthDirs (x :: xs))

/-- The levels of a tree: the root, its children, their children, and so on. -/
def Dir.levels (d : Dir) : List (List Dir) := bfsLevels d.height [some d]

/-- The nodes of a tree in breadth-first order. -/
def Dir.bfsNodes (d : Dir) : List Dir := d.levels.flatten

/-- The descriptors of a node's sub-directories, in stored order. -/
def Dir.subFolders (d : Dir) : List File := (levelDirs d.subDirs).map Dir.originInfo

/-- What a node contributes to `GetAllFoldersAndFiles`: the descriptors of its
sub-directories followed by its files. -/
def Dir.foldersAndFiles (d : Dir) : List File := d.subFolders ++ d.subFiles

/-- The descriptor that the enumerations put first: the root's own, unless the root is
virtual. -/
def Dir.rootEntry (d : Dir) : List File := if d.IsVirtualDir then [] else [d.originInfo]

mutual
/-- The recursive pre-order reference of the specification:
`body(d) = contribution(d) ++ body(c1) ++ ... ++ body(cn)`. -/
def Dir.body (contribution : Dir → List File) : Dir → List File
  | Dir.mk o subs files depth count size loaded =>
    contribution (Dir.mk o subs files depth count size loaded) ++ bodyList contribution subs
/-- The bodies of a list of children, concatenated in order. -/
def bodyList (contribution : Dir → List File) : List (Option Dir) → List File
  | [] => []
  | none :: cs => bodyList contribution cs
  | some c :: cs => Dir.body contribution c ++ bodyList contribution cs
end

mutual
/-- The post-order reference of the specification: `post(d) = post(c1), ..., post(cn), d`.
The pre-order `pre(d) = d, pre(c1), ..., pre(cn)` is `Dir.nodes`. -/
def Dir.post : Dir → List Dir
  | Dir.mk o subs files depth count size loaded =>
    postList subs ++ [Dir.mk o subs files depth count size loaded]
/-- The post-orders of a list of children, concatenated in order. -/
def postList : List (Option Dir) → List Dir
  | [] => []
  | none :: cs => postList cs
  | some c :: cs => Dir.post c ++ postList cs
end

mutual
/-- Every child in the tree is at its parent's depth plus one (as integers: no depth
wraps around). -/
def Dir.depthsOk : Dir → Bool
  | Dir.mk _ subs _ depth _ _ _ => depthsOkList (depth + 1) subs
/-- Every child in the list has the depth `k` and is a tree with `depthsOk`. -/
def depthsOkList (k : Int) : List (Option Dir) → Bool
  | [] => true
  | none :: cs => depthsOkList k cs
  | some c :: cs => (decide (c.depth = k) && Dir.depthsOk c) && depthsOkList k cs
end

/-- A callback that is absent, or that returns nil whatever it is called on. -/
def NonFailing {σ : Type} (f : Option (DirFunc σ)) : Prop :=
  ∀ g, f = some g → ∀ w n, (g w n).2 = CallRet.nil

/-- A deterministic retrieval function that does not fail: what it returns depends on
its two arguments only, and it leaves the caller's state as it is. -/
def pureRetrieve {σ : Type} (g : Int → Int → List File × List File) :
    RetrieveNextDepthFilesFunc σ :=
  fun w volumeId folderId => (w, Except.ok (g volumeId folderId))

/-- A visit callback made to record what each of its calls returns: the caller's state
is paired with the log of the returns. -/
def logged {σ : Type} (f : DirFunc σ) : DirFunc (σ × List CallRet) :=
  fun st dir => (((f st.1 dir).1, st.2 ++ [(f st.1 dir).2]), (f st.1 dir).2)

/-- What a call of the retrieval function returned, as a `CallRet`. -/
def retrieveRet {α : Type} : Except Nat α → CallRet
  | Except.ok _ => CallRet.nil
  | Except.error code => CallRet.error code

/-- A retrieval function made to record what each of its calls returns. -/
def loggedRetrieve {σ : Type} (r : RetrieveNextDepthFilesFunc σ) :
    RetrieveNextDepthFilesFunc (σ × List CallRet) :=
  fun st volumeId folderId =>
    (((r st.1 volumeId folderId).1, st.2 ++ [retrieveRet (r st.1 volumeId folderId).2]),
      (r st.1 volumeId folderId).2)

/-- Every call in the log returned nil. -/
def CleanLog (log : List CallRet) : Prop := ∀ r ∈ log, r = CallRet.nil

/-- The log of the calls made by a walk that ended with `e`: either no call failed, or
the call that failed is the last of the log and `e` is what it returned. -/
def FirstErrorWins (log : List CallRet) (e : Exit) : Prop :=
  CleanLog log ∨
    ∃ init r, log = init ++ [r] ∧ CleanLog init ∧ r ≠ CallRet.nil ∧ e = r.toExit

/-- A closure that appends to the list it is handed and looks at nothing else of it. -/
def Appends (f : DirFunc (List File)) : Prop :=
  ∀ (a w : List File) (n : Dir), f (a ++ w) n = (a ++ (f w n).1, (f w n).2)

/-- What a depth-first enumeration collects from the nodes it traverses: the walk with
the closure `f`, started from the empty list. -/
def Dir.dfsEntries (f : DirFunc (List File)) (d : Dir) : Option (List File) :=
  match d.DfsWithFunc (some f) none ⟨[], []⟩ with
  | (_, Exit.panic) => none
  | (c, _) => some c.world

/-- What the breadth-first enumeration collects from the nodes it traverses. -/
def Dir.bfsEntries (f : DirFunc (List File)) (d : Dir) : Option (List File) :=
  match d.BfsWithFunc (some f) ⟨[], []⟩ with
  | (_, Exit.panic) => none
  | (c, _) => some c.world

/-- The same node with another descriptor. -/
def Dir.withOrigin (d : Dir) (o : File) : Dir :=
  Dir.mk o d.subDirs d.subFiles d.depth d.count d.size d.loaded

/-- What the levels `ls` leave in `levelFilesMap` under the key `level`, when the nodes of
the first of them write to the key `base`, those of the second to `base + 1`, and so on. -/
def levelEntries : List (List Dir) → Int → Int → List File
  | [], _, _ => []
  | l :: ls, base, level =>
    (if level = base then l.flatMap Dir.foldersAndFiles else []) ++
      levelEntries ls (base + 1) level

/-- The node reached from `d` by following child indices, if there is one. -/
def Dir.nodeAt : List Nat → Dir → Option Dir
  | [], d => some d
  | i :: p, d =>
    match d.subDirs.get? i with
    | some (some c) => Dir.nodeAt p c
    | _ => none

mutual
/-- The positions of the nodes of a tree, each as the path of child indices that leads to
it from the root, in pre-order. -/
def Dir.paths : Dir → List (List Nat)
  | Dir.mk _ subs _ _ _ _ _ => [] :: pathsList 0 subs
/-- The positions below a list of children of which the first has index `i`. -/
def pathsList (i : Nat) : List (Option Dir) → List (List Nat)
  | [] => []
  | none :: cs => pathsList (i + 1) cs
  | some c :: cs => (Dir.paths c).map (fun p => i :: p) ++ pathsList (i + 1) cs
end

/-- The tree after the node at a path has been replaced by `f` of it (the effect of
calling a mutating method on that node); a path that leads nowhere changes nothing. -/
def Dir.modifyAt (f : Dir → Dir) : List Nat → Dir → Dir
  | [], d => f d
  | i :: p, d =>
    match d.subDirs.get? i with
    | some (some c) => d.setSubDirs (d.subDirs.set i (some (Dir.modifyAt f p c)))
    | _ => d

/-- The trees that the package's exported functions can build: `NewDir` (and so
`NewVirtualDir`) followed by any calls of `FillDirNoRecurse` and `DFSLoad`, with any
arguments, on any node of the tree. -/
inductive Built : Dir → Prop where
  | newDir {d : Dir} (folder : File) (depth count size : Int) :
      NewDir folder depth count size = some d → Built d
  | fill {d : Dir} (path : List Nat) (subFiles subFolders : List File) :
      Built d → Built (d.modifyAt (fun n => (n.FillDirNoRecurse subFiles subFolders).1) path)
  | load {σ : Type} {d : Dir} (path : List Nat) (maxDepth numLimit sizeLimit : Int)
      (retrieve : Option (RetrieveNextDepthFilesFunc σ))
      (preorderFunc postorderFunc : Option (DirFunc σ)) (c : Ctx σ) :
      Built d →
      Built (d.modifyAt
        (fun n => (n.DFSLoad maxDepth numLimit sizeLimit retrieve
          preorderFunc postorderFunc c).dir) path)

/-- The bookkeeping of one node: a loaded node has `count == int64(len(subFiles) +
len(subDirs))` and `size` equal to the `int64` sum of its files' sizes; a node that is
not loaded has no children. -/
def NodeInv (n : Dir) : Prop :=
  (n.loaded = true →
    n.count = wrap64 ((n.subFiles.length + n.subDirs.length : Nat) : Int) ∧
    n.size = sum64 (n.subFiles.map File.Size)) ∧
  (n.loaded = false → n.subDirs = [] ∧ n.subFiles = [])

/-- A finite backing hierarchy: a folder's descriptor, the descriptors of its files and
the hierarchies of its sub-folders, in the order in which the store lists them. -/
inductive Hier where
  | mk (folder : File) (files : List File) (subs : List Hier) : Hier

def Hier.folder : Hier → File
  | Hier.mk f _ _ => f

def Hier.files : Hier → List File
  | Hier.mk _ fs _ => fs

def Hier.subs : Hier → List Hier
  | Hier.mk _ _ ss => ss

mutual
/-- The retrieval function serves the hierarchy and never fails on it: whatever the
caller's state, asked for a folder of the hierarchy it returns that folder's files and
the descriptors of its sub-folders; every folder's descriptor is of Folder kind. -/
def Hier.Serves {σ : Type} (r : RetrieveNextDepthFilesFunc σ) : Hier → Prop
  | Hier.mk folder files subs =>
    folder.IsFolder = true ∧
    (∀ w, (r w folder.VolumeId folder.Id).2 = Except.ok (files, subs.map Hier.folder)) ∧
    servesList r subs
/-- The retrieval function serves every hierarchy of the list. -/
def servesList {σ : Type} (r : RetrieveNextDepthFilesFunc σ) : List Hier → Prop
  | [] => True
  | h :: hs => Hier.Serves r h ∧ servesList r hs
end

mutual
/-- The folders of a hierarchy in pre-order, each with the depth its tree node gets when
the root's node has depth `depth`, its number of direct entries as `FillDirNoRecurse`
computes `count`, and the `int64` sum of its direct files' sizes. -/
def Hier.steps (depth : Int) : Hier → List (Int × Int × Int)
  | Hier.mk _ files subs =>
    (depth, wrap64 ((files.length + subs.length : Nat) : Int), sum64 (files.map File.Size)) ::
      stepsList (wrap64 (depth + 1)) subs
/-- The folders of a list of hierarchies, all rooted at the same depth. -/
def stepsList (depth : Int) : List Hier → List (Int × Int × Int)
  | [] => []
  | h :: hs => Hier.steps depth h ++ stepsList depth hs
end

mutual
/-- The number of entries (files and folders) below the root of a hierarchy. -/
def Hier.entries : Hier → Nat
  | Hier.mk _ files subs => files.length + subs.length + entriesList subs
/-- The number of entries below the roots of a list of hierarchies. -/
def entriesList : List Hier → Nat
  | [] => 0
  | h :: hs => Hier.entries h + entriesList hs
end

mutual
/-- The sizes of all files of a hierarchy. -/
def Hier.fileSizes : Hier → List Int
  | Hier.mk _ files subs => files.map File.Size ++ fileSizesList subs
/-- The sizes of all files of a list of hierarchies. -/
def fileSizesList : List Hier → List Int
  | [] => []
  | h :: hs => Hier.fileSizes h ++ fileSizesList hs
end

/-- The walk of `dfsLoadDir` reduced to what decides its result on a hierarchy that is
served without failure and walked without callbacks: for each folder in pre-order the
depth check of line 376, then the accounting and the limit checks of lines 401-412. -/
def walkSteps (info : dsfLoadInfo) : List (Int × Int × Int) → dsfLoadInfo × Exit
  | [] => (info, Exit.nil)
  | s :: rest =>
    if s.1 ≥ info.maxDepth then (info, Exit.error Err.errMaxPathDepthLimit)
    else
      match (dfsLoadAccount s.2.1 s.2.2 info).2 with
      | Exit.nil => walkSteps (dfsLoadAccount s.2.1 s.2.2 info).1 rest
      | e => ((dfsLoadAccount s.2.1 s.2.2 info).1, e)

/-- The running totals `(totalCount, totalSize)` after each folder of a walk that starts
with the totals `(tc, ts)`. -/
def runningTotals (tc ts : Int) : List (Int × Int × Int) → List (Int × Int)
  | [] => []
  | s :: rest =>
    (wrap64 (tc + s.2.1), wrap64 (ts + s.2.2)) ::
      runningTotals (wrap64 (tc + s.2.1)) (wrap64 (ts + s.2.2)) rest

/-- What `dfsLoadDir` reads of a node that it does not have to fetch: its depth, its
`count` and its `size`. -/
def Dir.step (n : Dir) : Int × Int × Int := (n.depth, n.count, n.size)

/-- The walk of `dfsLoadDir` when there is no retrieval function and no callback fails,
reduced to what decides its result: for each node in pre-order the checks of lines
372-379, the test of lines 387-390 (a node that is not loaded ends the walk with
`errNoRetrieveNextDepthFilesFunc`), then the accounting and the limit checks of lines
401-412. -/
def walkLoaded (info : dsfLoadInfo) : List Dir → dsfLoadInfo × Exit
  | [] => (info, Exit.nil)
  | n :: rest =>
    if !n.originInfo.IsFolder then (info, Exit.error Err.errNotFolderType)
    else if n.depth ≥ info.maxDepth then (info, Exit.error Err.errMaxPathDepthLimit)
    else if !n.loaded then (info, Exit.error Err.errNoRetrieveNextDepthFilesFunc)
    else
      match (dfsLoadAccount n.count n.size info).2 with
      | Exit.nil => walkLoaded (dfsLoadAccount n.count n.size info).1 rest
      | e => ((dfsLoadAccount n.count n.size info).1, e)

/-- The nodes respect the limits of `info`: each is a folder below the depth limit, and
the running totals, taken over the nodes in order, never exceed the count limit nor, when
there is one, the size limit. -/
def WithinLimits (info : dsfLoadInfo) (ns : List Dir) : Prop :=
  (∀ n ∈ ns, n.originInfo.IsFolder = true ∧ n.depth < info.maxDepth) ∧
  ∀ t ∈ runningTotals info.totalCount info.totalSize (ns.map Dir.step),
    t.1 ≤ info.numLimit ∧ (info.sizeLimit ≥ 0 → t.2 ≤ info.sizeLimit)

/-- No invocation of the retrieval function is recorded in `new`. -/
def NoRetrieve (new : List Event) : Prop := ∀ v i, Event.retrieve v i ∉ new

/-- Every invocation of the retrieval function recorded in `new` was made for one of the
`nodes`, a node of depth below `m`, with that node's volume id and id. -/
def RetrievesFor (new : List Event) (nodes : List Dir) (m : Int) : Prop :=
  ∀ v i, Event.retrieve v i ∈ new →
    ∃ x ∈ nodes, x.depth < m ∧ x.originInfo.VolumeId = v ∧ x.originInfo.Id = i

/-- Two accumulators carry the same three limits. -/
def sameLimits (a b : dsfLoadInfo) : Prop :=
  a.maxDepth = b.maxDepth ∧ a.sizeLimit = b.sizeLimit ∧ a.numLimit = b.numLimit

/-- The callback never returns the error `e` when it is handed a node. -/
def FuncNeverReturns {σ : Type} (e : Err) (f : Option (LiveFunc σ)) : Prop :=
  ∀ g, f = some g → ∀ w d, (g.onDir w d).2.2 ≠ GoRet.error e

/-- The retrieval function never returns the error `e`. -/
def RetrieveNeverReturns {σ : Type} (e : Err) (r : Option (LiveRetrieve σ)) : Prop :=
  ∀ g, r = some g → ∀ w volumeId folderId, (g w volumeId folderId).2 ≠ Except.error e

/-- Every node of the tree keeps its books. -/
def TreeInv (d : Dir) : Prop := ∀ n ∈ d.nodes, NodeInv n

/-! ## The fixture of `dirtree_test.go` (lines 11-139) -/

/-- `findParentNodeById` on the map `fakeParentAndSons`, kept as an association list in
insertion order (the ids of the fixture are distinct, so the map's iteration order does
not matter). -/
def findParentNodeById (m : List (File × List File)) (parentId : Int) : Option File :=
  (m.find? (fun kv => kv.1.Id == parentId)).map (fun kv => kv.1)

/-- `initRootFakeParent` on an empty map. -/
def initRootFakeParent (volumeId rootId : Int) : List (File × List File) :=
  [(⟨rootId, 0, volumeId, "", typeFolder, 0, 0, 0, 0, 0, 0⟩, [])]

/-- `insertFakeFile`; the source panics when the parent is missing, the model then leaves
the map as it is (`buildTreeForTest` never gets there). -/
def insertFakeFile (m : List (File × List File))
    (volumeId parentId fileId fileSize : Int) (fileType : Int) : List (File × List File) :=
  let newFile : File :=
    ⟨fileId, parentId, volumeId, toString parentId ++ "-" ++ toString fileId, fileType, 1,
      if fileType = typeFolder then 0 else fileSize, 0, 0, 0, 0⟩
  match findParentNodeById m parentId with
  | none => m
  | some _ =>
    let m1 := m.map (fun kv => if kv.1.Id = parentId then (kv.1, kv.2 ++ [newFile]) else kv)
    if newFile.Type_ = typeFolder then m1 ++ [(newFile, [])] else m1

def filterFilesAndFolders (allFiles : List File) : List File × List File :=
  (allFiles.filter File.IsFile, allFiles.filter File.IsFolder)

/-- `buildTreeForTest`: the nineteen entries below the root `0`. -/
def buildTreeForTest : List (File × List File) :=
  [((0 : Int), (10 : Int), (1 : Int), typeFile), (0, 11, 1, typeFile), (0, 12, 0, typeFolder),
    (0, 13, 0, typeFolder), (12, 20, 1, typeFile), (12, 21, 1, typeFile),
    (12, 22, 0, typeFolder), (12, 23, 0, typeFolder), (13, 24, 0, typeFolder),
    (22, 30, 1, typeFile), (22, 31, 1, typeFile), (22, 32, 1, typeFile),
    (22, 33, 0, typeFolder), (23, 34, 1, typeFile), (23, 35, 0, typeFolder),
    (23, 36, 0, typeFolder), (24, 37, 0, typeFolder), (33, 41, 1, typeFile),
    (37, 42, 1, typeFile)].foldl
    (fun m e => insertFakeFile m 1 e.1 e.2.1 e.2.2.1 e.2.2.2) (initRootFakeParent 1 0)

/-- What `getSubFilesMock` returns for `parentId`: nothing when no folder of the map has
that id, else the folder's entries split by `filterFilesAndFolders`. -/
def mockAnswer (m : List (File × List File)) (parentId : Int) : List File × List File :=
  match m.find? (fun kv => kv.1.Id == parentId) with
  | none => ([], [])
  | some kv => filterFilesAndFolders kv.2

/-- `getSubFilesMock` over a given map; it has no state of its own and never fails. -/
def getSubFilesMock (m : List (File × List File)) : RetrieveNextDepthFilesFunc Unit :=
  fun w _ parentId => (w, Except.ok (mockAnswer m parentId))

/-- The hierarchy that the map describes below `folder`, down to `levels` levels. -/
def hierOf (m : List (File × List File)) : Nat → File → Hier
  | 0, folder => Hier.mk folder [] []
  | levels + 1, folder =>
    Hier.mk folder (mockAnswer m folder.Id).1
      ((mockAnswer m folder.Id).2.map (hierOf m levels))

mutual
/-- A check that `getSubFilesMock m` serves the hierarchy. -/
def Hier.servedByMock (m : List (File × List File)) : Hier → Bool
  | Hier.mk folder files subs =>
    folder.IsFolder && decide (mockAnswer m folder.Id = (files, subs.map Hier.folder)) &&
      servedByMockList m subs
/-- The check for every hierarchy of a list. -/
def servedByMockList (m : List (File × List File)) : List Hier → Bool
  | [] => true
  | h :: hs => Hier.servedByMock m h && servedByMockList m hs
end

/-- `newNewVirtualDirForTest`. -/
def newNewVirtualDirForTest : Option Dir := NewVirtualDir 0 1 typeFolder

/-- The node that `newNewVirtualDirForTest` returns. -/
def fixtureRoot : Dir :=
  Dir.mk ⟨0, unKnown, 1, "", typeFolder, 0, 0, 0, 0, 0, 0⟩ [] [] 0 unKnown unKnown false

/-! ## A tree in which two folders have the same id -/

/-- A retrieval function that finds every folder empty. -/
def emptyStore : RetrieveNextDepthFilesFunc Unit :=
  fun w _ _ => (w, Except.ok ([], []))

/-- A folder descriptor with the given id and parent in volume 1. -/
def folderDesc (id parentId : Int) : File :=
  ⟨id, parentId, 1, "", typeFolder, 0, 0, 0, 0, 0, 0⟩

/-- The virtual root of the fixture filled by hand with the folders 7 and 8, and then the
folder 8 filled by hand with a folder whose id is 7 again. -/
def dupTree : Dir :=
  ((fixtureRoot.FillDirNoRecurse [] [folderDesc 7 0, folderDesc 8 0]).1).modifyAt
    (fun n => (n.FillDirNoRecurse [] [folderDesc 7 8]).1) [1]

/-- The node of the second folder with id 7: depth 2, not loaded. -/
def dupDeepNode : Dir := Dir.mk (folderDesc 7 8) [] [] 2 unKnown unKnown false

/-! ## The fixture with only its first level loaded -/

/-- The virtual root of the fixture after `FillDirNoRecurse` with the lists that the mock
returns for it, as in `ExampleManualLoadTraverse`: the root is loaded, its sub-directories
12 and 13 are not. -/
def seededRoot : Dir :=
  (fixtureRoot.FillDirNoRecurse (mockAnswer buildTreeForTest 0).1
    (mockAnswer buildTreeForTest 0).2).1

/-- The root of `seededRoot` with its two sub-directories loaded and empty: what
`DFSLoad` makes of `seededRoot` when the retrieval function finds every folder empty. -/
def seededEmpty : Dir :=
  (seededRoot.DFSLoad (-1) (-1) (-1) (some emptyStore) none none ⟨(), []⟩).dir

/-- The virtual root of the fixture filled by hand with no files and no folders: a fully
loaded tree with nothing in it. -/
def emptyRoot : Dir := (fixtureRoot.FillDirNoRecurse [] []).1

/-! ## Callbacks for the examples -/

/-- A callback that records the id of the node it is called on and returns nil. -/
def recordId : DirFunc (List Int) :=
  fun ids dir => (ids ++ [dir.originInfo.Id], CallRet.nil)

/-- A callback that records the id of the node it is called on and fails with the error
`code` on the node with the id `failAt`. -/
def recordIdFailAt (failAt : Int) (code : Nat) : DirFunc (List Int) :=
  fun ids dir =>
    (ids ++ [dir.originInfo.Id],
      if dir.originInfo.Id = failAt then CallRet.error code else CallRet.nil)

/-! ## A tree at the largest depth -/

/-- The folder 7 as `NewDir` creates it at depth 2^63 - 1, filled by hand with no files
and no folders: a fully loaded tree of one node. -/
def deepLeaf : Dir :=
  ((Dir.mk (folderDesc 7 0) [] [] 9223372036854775807 unKnown unKnown false).FillDirNoRecurse
    [] []).1

/-! ## Hierarchies whose file sizes overflow `int64` -/

/-- A file of 2^62 bytes. -/
def bigFile : File := ⟨10, 0, 1, "", typeFile, 0, 4611686018427387904, 0, 0, 0, 0⟩

/-- Two files of 2^62 bytes below the virtual root. -/
def bigHier : Hier := Hier.mk fixtureRoot.originInfo [bigFile, bigFile] []

/-- The retrieval function that serves `bigHier`. -/
def bigStore : RetrieveNextDepthFilesFunc Unit :=
  fun w _ _ => (w, Except.ok ([bigFile, bigFile], []))

/-- A file of 2^63 - 1 bytes, the largest `int64`. -/
def maxFile : File := ⟨10, 0, 1, "", typeFile, 0, 9223372036854775807, 0, 0, 0, 0⟩

/-- A file of 2 bytes. -/
def twoFile : File := ⟨11, 0, 1, "", typeFile, 0, 2, 0, 0, 0, 0⟩

/-- One file of 2^63 - 1 bytes below the virtual root, and a folder 12 that holds another
one and a file of 2 bytes: 2^64 bytes in all. -/
def wrapHier : Hier :=
  Hier.mk fixtureRoot.originInfo [maxFile]
    [Hier.mk (folderDesc 12 0) [maxFile, twoFile] []]

/-- The retrieval function that serves `wrapHier`. -/
def wrapStore : RetrieveNextDepthFilesFunc Unit :=
  fun w _ folderId =>
    (w, Except.ok (if folderId = 0 then ([maxFile], [folderDesc 12 0])
      else ([maxFile, twoFile], [])))

/-- The fixture's hierarchy below the virtual root. -/
def fixtureHier : Hier := hierOf buildTreeForTest 5 fixtureRoot.originInfo

/-- The fixture's `DFSLoad` with the given limits, as the tests call it. -/
def fixtureLoad (maxDepth numLimit sizeLimit : Int) : LoadResult Unit :=
  fixtureRoot.DFSLoad maxDepth numLimit sizeLimit (some (getSubFilesMock buildTreeForTest))
    none none ⟨(), []⟩

/-! ## A root made by `NewVirtualDir` with a positive id -/

/-- The node that `NewVirtualDir` returns for the id 5 in volume 1. -/
def rootFive : Dir :=
  Dir.mk ⟨5, unKnown, 1, "", typeFolder, 0, 0, 0, 0, 0, 0⟩ [] [] 0 unKnown unKnown false

/-! ## Roots for the level-grouped enumeration -/

/-- A file of one byte in the folder 7. -/
def smallFile : File := ⟨10, 7, 1, "", typeFile, 0, 1, 0, 0, 0, 0⟩

/-- The folder 7 as `NewDir` creates it at depth 0, filled by hand with one file and no
folders: a fully loaded tree whose root is not virtual. -/
def folderSeven : Dir :=
  ((Dir.mk (folderDesc 7 0) [] [] 0 unKnown unKnown false).FillDirNoRecurse [smallFile] []).1

/-- The folder with the virtual id 0 as `NewDir` creates it at depth 2^63 - 2, filled by
hand with no files and no folders: a fully loaded tree of one node, a virtual root. -/
def deepVirtual : Dir :=
  ((Dir.mk (folderDesc 0 0) [] [] 9223372036854775806 unKnown unKnown false).FillDirNoRecurse
    [] []).1

/-! ## A backing store without a bottom -/

/-- A retrieval function for which every folder holds one more folder and no files: the
folder `folderId` holds the folder `folderId + 1`. -/
def oneMoreFolder : RetrieveNextDepthFilesFunc Unit :=
  fun w volumeId folderId =>
    (w, Except.ok ([],
      [⟨wrap64 (folderId + 1), folderId, volumeId, "", typeFolder, 0, 0, 0, 0, 0, 0⟩]))

/-- A retrieval function that, whatever it is asked and whatever the caller's state,
returns no files and exactly one folder: it describes a hierarchy without a bottom (which
may be a cycle, when the folder it returns is one it was asked for before). -/
def Bottomless {σ : Type} (r : RetrieveNextDepthFilesFunc σ) : Prop :=
  ∀ w volumeId folderId, ∃ folder : File,
    folder.IsFolder = true ∧ (r w volumeId folderId).2 = Except.ok ([], [folder])

/-- A retrieval function for which every folder holds itself and nothing else: a cycle. -/
def selfFolder : RetrieveNextDepthFilesFunc Unit :=
  fun w volumeId folderId =>
    (w, Except.ok ([], [⟨folderId, folderId, volumeId, "", typeFolder, 0, 0, 0, 0, 0, 0⟩]))

/-! ## Callbacks and stores that use the package -/

/-- The loop `for _, s := range dir.GetSubDirs() { _ = s.FillDirNoRecurse(ctx, nil, nil) }`:
the children afterwards, and a panic when one of them is nil. -/
def fillEach : List (Option Dir) → List (Option Dir) × GoRet
  | [] => ([], GoRet.nil)
  | none :: cs => (none :: cs, GoRet.panic)
  | some c :: cs => (some (c.FillDirNoRecurse [] []).1 :: (fillEach cs).1, (fillEach cs).2)

/-- A callback that fills every child of the node it is handed with no files and no
folders (a child that is loaded already stays as it is), and returns nil. -/
def fillSubDirs : LiveFunc Unit :=
  ⟨fun w dir => (dir.setSubDirs (fillEach dir.subDirs).1, w, (fillEach dir.subDirs).2),
    fun w => (w, GoRet.panic)⟩

/-- A callback that fills the node it is handed with no files and no folders, by
`dir.FillDirNoRecurse(ctx, nil, nil)` (a node that is loaded already stays as it is), and
returns nil. -/
def fillSelf : LiveFunc Unit :=
  ⟨fun w dir => ((dir.FillDirNoRecurse [] []).1, w, GoRet.nil), fun w => (w, GoRet.panic)⟩

/-- A retrieval function that returns the error `errTotalSizeLimit`, which an earlier
`DFSLoad` with a size limit has returned to the caller. -/
def sizeLimitStore : LiveRetrieve Unit :=
  fun w _ _ => (w, Except.error Err.errTotalSizeLimit)

/-- A callback in full that records whether it was handed a node or nil and fails with the
error `e` when it is handed nil. -/
def failOnNil (e : Err) : LiveFunc (List Bool) :=
  ⟨fun w dir => (dir, w ++ [true], GoRet.nil), fun w => (w ++ [false], GoRet.error e)⟩

/-! ## Trees with a nil child -/

/-- The virtual root of the fixture filled by hand with, as its one sub-folder, a
descriptor that is a file: the root is loaded and its one child is nil. -/
def nilChildRoot : Dir := (fixtureRoot.FillDirNoRecurse [] [smallFile]).1

/-- The same with the folder 7 after the file: the children are nil and a node that is
not loaded. -/
def nilAndFolder : Dir := (fixtureRoot.FillDirNoRecurse [] [smallFile, folderDesc 7 0]).1

/-- The folder 7 as `NewDir` creates it at depth 2^63 - 1: a root that is not loaded. -/
def deepUnloaded : Dir :=
  Dir.mk (folderDesc 7 0) [] [] 9223372036854775807 unKnown unKnown false

/-- The folder with the virtual id 0 as `NewDir` creates it at depth 2^63 - 2: a virtual
root that is not loaded. -/
def deepVirtualUnloaded : Dir :=
  Dir.mk (folderDesc 0 0) [] [] 9223372036854775806 unKnown unKnown false

/-! # Lemmas -/

/-! ## `int64` arithmetic -/

theorem wrap64_of_range (x : Int) (h1 : -9223372036854775808 ≤ x)
    (h2 : x < 9223372036854775808) : wrap64 x = x := by
  unfold wrap64; omega

theorem wrap64_range (x : Int) :
    -9223372036854775808 ≤ wrap64 x ∧ wrap64 x < 9223372036854775808 := by
  unfold wrap64; omega

theorem wrap64_add_left (a b : Int) : wrap64 (wrap64 a + b) = wrap64 (a + b) := by
  unfold wrap64; omega

theorem wrap64_add_right (a b : Int) : wrap64 (a + wrap64 b) = wrap64 (a + b) := by
  unfold wrap64; omega

theorem wrap64_idem (a : Int) : wrap64 (wrap64 a) = wrap64 a := by
  unfold wrap64; omega

theorem foldl_wrap64_add (xs : List Int) (a : Int) :
    xs.foldl (fun acc x => wrap64 (acc + x)) (wrap64 a) = wrap64 (a + xs.sum) := by
  induction xs generalizing a with
  | nil => simp
  | cons x xs ih =>
    simp only [List.foldl_cons, List.sum_cons]
    rw [wrap64_add_left, ih, add_assoc]

theorem sum64_eq (xs : List Int) : sum64 xs = wrap64 xs.sum := by
  have h := foldl_wrap64_add xs 0
  have h0 : wrap64 0 = 0 := wrap64_of_range 0 (by decide) (by decide)
  rw [h0] at h
  simpa [sum64] using h

theorem foldl_size_eq (files : List File) (a : Int) :
    files.foldl (fun acc file => wrap64 (acc + file.Size)) a =
      (files.map File.Size).foldl (fun acc x => wrap64 (acc + x)) a := by
  induction files generalizing a with
  | nil => rfl
  | cons f fs ih => simp [List.foldl_cons, ih]

/-! ## Fields -/

@[simp] theorem Dir.originInfo_mk (o : File) (s : List (Option Dir)) (f : List File)
    (d c z : Int) (l : Bool) : (Dir.mk o s f d c z l).originInfo = o := rfl

@[simp] theorem Dir.subDirs_mk (o : File) (s : List (Option Dir)) (f : List File)
    (d c z : Int) (l : Bool) : (Dir.mk o s f d c z l).subDirs = s := rfl

@[simp] theorem Dir.subFiles_mk (o : File) (s : List (Option Dir)) (f : List File)
    (d c z : Int) (l : Bool) : (Dir.mk o s f d c z l).subFiles = f := rfl

@[simp] theorem Dir.depth_mk (o : File) (s : List (Option Dir)) (f : List File)
    (d c z : Int) (l : Bool) : (Dir.mk o s f d c z l).depth = d := rfl

@[simp] theorem Dir.count_mk (o : File) (s : List (Option Dir)) (f : List File)
    (d c z : Int) (l : Bool) : (Dir.mk o s f d c z l).count = c := rfl

@[simp] theorem Dir.size_mk (o : File) (s : List (Option Dir)) (f : List File)
    (d c z : Int) (l : Bool) : (Dir.mk o s f d c z l).size = z := rfl

@[simp] theorem Dir.loaded_mk (o : File) (s : List (Option Dir)) (f : List File)
    (d c z : Int) (l : Bool) : (Dir.mk o s f d c z l).loaded = l := rfl

theorem Dir.eta (d : Dir) :
    Dir.mk d.originInfo d.subDirs d.subFiles d.depth d.count d.size d.loaded = d := by
  cases d; rfl

@[simp] theorem Dir.setSubDirs_subDirs (d : Dir) (s : List (Option Dir)) :
    (d.setSubDirs s).subDirs = s := rfl

@[simp] theorem Dir.setSubDirs_originInfo (d : Dir) (s : List (Option Dir)) :
    (d.setSubDirs s).originInfo = d.originInfo := rfl

@[simp] theorem Dir.setSubDirs_subFiles (d : Dir) (s : List (Option Dir)) :
    (d.setSubDirs s).subFiles = d.subFiles := rfl

@[simp] theorem Dir.setSubDirs_depth (d : Dir) (s : List (Option Dir)) :
    (d.setSubDirs s).depth = d.depth := rfl

@[simp] theorem Dir.setSubDirs_count (d : Dir) (s : List (Option Dir)) :
    (d.setSubDirs s).count = d.count := rfl

@[simp] theorem Dir.setSubDirs_size (d : Dir) (s : List (Option Dir)) :
    (d.setSubDirs s).size = d.size := rfl

@[simp] theorem Dir.setSubDirs_loaded (d : Dir) (s : List (Option Dir)) :
    (d.setSubDirs s).loaded = d.loaded := rfl

theorem Dir.setSubDirs_self (d : Dir) : d.setSubDirs d.subDirs = d := by
  cases d; rfl

/-- Induction over trees: a property holds of every tree when it holds of a node whose
non-nil children have it. -/
theorem Dir.induct_subDirs (P : Dir → Prop)
    (step : ∀ (o : File) (subs : List (Option Dir)) (files : List File)
      (depth count size : Int) (loaded : Bool),
      (∀ c, some c ∈ subs → P c) → P (Dir.mk o subs files depth count size loaded))
    (d : Dir) : P d := by
  refine Dir.rec (motive_1 := P)
    (motive_2 := fun l => ∀ c, some c ∈ l → P c)
    (motive_3 := fun o => ∀ c, o = some c → P c)
    ?_ ?_ ?_ ?_ ?_ d
  · intro o subs files depth count size loaded ih
    exact step o subs files depth count size loaded ih
  · intro c hc; simp at hc
  · intro hd tl ihd itl c hc
    rcases List.mem_cons.1 hc with h | h
    · exact ihd c h.symm
    · exact itl c h
  · intro c hc; cases hc
  · intro v ih c hc
    cases hc; exact ih

/-! ## Nodes of a tree -/

theorem Dir.nodes_eq (d : Dir) : d.nodes = d :: nodesList d.subDirs := by
  cases d; simp [Dir.nodes]

@[simp] theorem nodesList_nil : nodesList [] = [] := by simp [nodesList]

@[simp] theorem nodesList_none (cs : List (Option Dir)) :
    nodesList (none :: cs) = nodesList cs := by simp [nodesList]

@[simp] theorem nodesList_some (c : Dir) (cs : List (Option Dir)) :
    nodesList (some c :: cs) = c.nodes ++ nodesList cs := by simp [nodesList]

theorem Dir.self_mem_nodes (d : Dir) : d ∈ d.nodes := by
  rw [Dir.nodes_eq]; exact List.mem_cons_self _ _

theorem mem_nodesList {n : Dir} {subs : List (Option Dir)} :
    n ∈ nodesList subs ↔ ∃ c, some c ∈ subs ∧ n ∈ c.nodes := by
  induction subs with
  | nil => simp
  | cons hd tl ih =>
    cases hd with
    | none =>
      rw [nodesList_none, ih]
      constructor
      · rintro ⟨c, hc, hn⟩; exact ⟨c, List.mem_cons_of_mem _ hc, hn⟩
      · rintro ⟨c, hc, hn⟩
        rcases List.mem_cons.1 hc with h | h
        · cases h
        · exact ⟨c, h, hn⟩
    | some c0 =>
      rw [nodesList_some, List.mem_append, ih]
      constructor
      · rintro (h | ⟨c, hc, hn⟩)
        · exact ⟨c0, List.mem_cons_self _ _, h⟩
        · exact ⟨c, List.mem_cons_of_mem _ hc, hn⟩
      · rintro ⟨c, hc, hn⟩
        rcases List.mem_cons.1 hc with h | h
        · cases h; exact Or.inl hn
        · exact Or.inr ⟨c, h, hn⟩

/-! ## `FillDirNoRecurse` -/

theorem FillDirNoRecurse_loaded (d : Dir) (subFiles subFolders : List File)
    (h : d.loaded = true) :
    d.FillDirNoRecurse subFiles subFolders = (d, some Err.errDirAlreadyLoaded) := by
  simp [Dir.FillDirNoRecurse, h]

theorem FillDirNoRecurse_unloaded (d : Dir) (subFiles subFolders : List File)
    (h : d.loaded = false) :
    d.FillDirNoRecurse subFiles subFolders =
      (Dir.mk d.originInfo
        (subFolders.map (fun folder => NewDir folder (wrap64 (d.depth + 1)) unKnown unKnown))
        subFiles d.depth
        (wrap64 ((subFiles.length + subFolders.length : Nat) : Int))
        (sum64 (subFiles.map File.Size)) true, none) := by
  simp [Dir.FillDirNoRecurse, h, sum64, foldl_size_eq]

/-! ## The bookkeeping invariant -/

theorem TreeInv_iff (d : Dir) :
    TreeInv d ↔ NodeInv d ∧ ∀ c, some c ∈ d.subDirs → TreeInv c := by
  unfold TreeInv
  rw [Dir.nodes_eq]
  constructor
  · intro h
    refine ⟨h d (List.mem_cons_self _ _), ?_⟩
    intro c hc n hn
    exact h n (List.mem_cons_of_mem _ (mem_nodesList.2 ⟨c, hc, hn⟩))
  · rintro ⟨h1, h2⟩ n hn
    rcases List.mem_cons.1 hn with h | h
    · rw [h]; exact h1
    · obtain ⟨c, hc, hn⟩ := mem_nodesList.1 h
      exact h2 c hc n hn

theorem NodeInv_setSubDirs (d : Dir) (s : List (Option Dir))
    (hlen : s.length = d.subDirs.length) (h : NodeInv d) : NodeInv (d.setSubDirs s) := by
  obtain ⟨h1, h2⟩ := h
  constructor
  · intro hl
    have := h1 hl
    simpa [hlen] using this
  · intro hl
    have := h2 hl
    simp only [Dir.setSubDirs_subDirs, Dir.setSubDirs_subFiles]
    refine ⟨?_, this.2⟩
    rw [this.1] at hlen
    exact List.length_eq_zero.1 hlen

theorem TreeInv_setSubDirs (d : Dir) (s : List (Option Dir))
    (hlen : s.length = d.subDirs.length) (h : NodeInv d)
    (hs : ∀ c, some c ∈ s → TreeInv c) : TreeInv (d.setSubDirs s) := by
  rw [TreeInv_iff]
  exact ⟨NodeInv_setSubDirs d s hlen h, hs⟩

theorem TreeInv_NewDir {folder : File} {depth count size : Int} {d : Dir}
    (h : NewDir folder depth count size = some d) : TreeInv d := by
  unfold NewDir at h
  split at h
  · cases h
  · cases h
    rw [TreeInv_iff]
    refine ⟨⟨?_, ?_⟩, ?_⟩
    · intro hl; simp at hl
    · intro _; exact ⟨rfl, rfl⟩
    · intro c hc; simp at hc

theorem TreeInv_fill (d : Dir) (subFiles subFolders : List File) (h : TreeInv d) :
    TreeInv (d.FillDirNoRecurse subFiles subFolders).1 := by
  cases hl : d.loaded with
  | true => rw [FillDirNoRecurse_loaded d _ _ hl]; exact h
  | false =>
    rw [FillDirNoRecurse_unloaded d _ _ hl]
    refine (TreeInv_iff _).2 ⟨⟨?_, ?_⟩, ?_⟩
    · intro _
      exact ⟨by rw [Dir.count_mk, Dir.subFiles_mk, Dir.subDirs_mk, List.length_map],
        by rw [Dir.size_mk, Dir.subFiles_mk]⟩
    · intro hf; cases hf
    · intro c hc
      obtain ⟨folder, _, hfc⟩ := List.mem_map.1 hc
      exact TreeInv_NewDir hfc

/-! ## The loop over the children -/

theorem loopSubDirs_nil {τ : Type} (walk : Dir → τ → Dir × τ × Exit) (st : τ) :
    loopSubDirs walk [] st = ([], st, Exit.nil) := rfl

theorem loopSubDirs_none {τ : Type} (walk : Dir → τ → Dir × τ × Exit)
    (cs : List (Option Dir)) (st : τ) :
    loopSubDirs walk (none :: cs) st = (none :: cs, st, Exit.panic) := rfl

theorem loopSubDirs_some {τ : Type} (walk : Dir → τ → Dir × τ × Exit) (c : Dir)
    (cs : List (Option Dir)) (st : τ) :
    loopSubDirs walk (some c :: cs) st =
      match (walk c st).2.2 with
      | Exit.nil =>
        (some (walk c st).1 :: (loopSubDirs walk cs (walk c st).2.1).1,
          (loopSubDirs walk cs (walk c st).2.1).2)
      | e => (some (walk c st).1 :: cs, (walk c st).2.1, e) := rfl

theorem loopSubDirs_some_nil {τ : Type} (walk : Dir → τ → Dir × τ × Exit) (c : Dir)
    (cs : List (Option Dir)) (st : τ) (h : (walk c st).2.2 = Exit.nil) :
    loopSubDirs walk (some c :: cs) st =
      (some (walk c st).1 :: (loopSubDirs walk cs (walk c st).2.1).1,
        (loopSubDirs walk cs (walk c st).2.1).2) := by
  rw [loopSubDirs_some, h]

theorem loopSubDirs_some_stop {τ : Type} (walk : Dir → τ → Dir × τ × Exit) (c : Dir)
    (cs : List (Option Dir)) (st : τ) (h : (walk c st).2.2 ≠ Exit.nil) :
    loopSubDirs walk (some c :: cs) st =
      (some (walk c st).1 :: cs, (walk c st).2.1, (walk c st).2.2) := by
  rw [loopSubDirs_some]
  split
  · rename_i e; exact absurd e h
  · rfl

theorem loopSubDirs_length {τ : Type} (walk : Dir → τ → Dir × τ × Exit)
    (cs : List (Option Dir)) (st : τ) : (loopSubDirs walk cs st).1.length = cs.length := by
  induction cs generalizing st with
  | nil => rfl
  | cons hd tl ih =>
    cases hd with
    | none => rfl
    | some c =>
      by_cases h : (walk c st).2.2 = Exit.nil
      · rw [loopSubDirs_some_nil walk c tl st h]; simp [ih]
      · rw [loopSubDirs_some_stop walk c tl st h]; simp

theorem loopSubDirs_forall {τ : Type} (walk : Dir → τ → Dir × τ × Exit) (Q : Dir → Prop)
    (hw : ∀ c st, Q c → Q (walk c st).1) (cs : List (Option Dir)) (st : τ)
    (h : ∀ c, some c ∈ cs → Q c) : ∀ c, some c ∈ (loopSubDirs walk cs st).1 → Q c := by
  induction cs generalizing st with
  | nil => intro c hc; simp [loopSubDirs_nil] at hc
  | cons hd tl ih =>
    cases hd with
    | none => rw [loopSubDirs_none]; exact h
    | some c0 =>
      have h0 : Q c0 := h c0 (List.mem_cons_self _ _)
      have ht : ∀ c, some c ∈ tl → Q c := fun c hc => h c (List.mem_cons_of_mem _ hc)
      by_cases hx : (walk c0 st).2.2 = Exit.nil
      · rw [loopSubDirs_some_nil walk c0 tl st hx]
        intro c hc
        rcases List.mem_cons.1 hc with e | e
        · cases e; exact hw c0 st h0
        · exact ih _ ht c e
      · rw [loopSubDirs_some_stop walk c0 tl st hx]
        intro c hc
        rcases List.mem_cons.1 hc with e | e
        · cases e; exact hw c0 st h0
        · exact ht c e

/-! ## The loader keeps the books -/

theorem dfsLoadFetch_dir {σ : Type} (retrieve : Option (RetrieveNextDepthFilesFunc σ))
    (d : Dir) (c : Ctx σ) :
    (dfsLoadFetch retrieve d c).1 = d ∨
      ∃ files folders, (dfsLoadFetch retrieve d c).1 = (d.FillDirNoRecurse files folders).1 := by
  unfold dfsLoadFetch
  split
  · exact Or.inl rfl
  · split
    · exact Or.inl rfl
    · split
      · exact Or.inl rfl
      · rename_i files folders _
        refine Or.inr ⟨files, folders, ?_⟩
        split <;> rfl

theorem dfsLoadHead_dir {σ : Type} (retrieve : Option (RetrieveNextDepthFilesFunc σ))
    (pre : Option (DirFunc σ)) (d : Dir) (st : LoadState σ) :
    (dfsLoadHead retrieve pre d st).1 = d ∨
      ∃ files folders,
        (dfsLoadHead retrieve pre d st).1 = (d.FillDirNoRecurse files folders).1 := by
  unfold dfsLoadHead
  split
  · exact Or.inl rfl
  · split
    · exact Or.inl rfl
    · simp only
      split
      · split
        · exact dfsLoadFetch_dir retrieve d _
        · exact dfsLoadFetch_dir retrieve d _
      · exact Or.inl rfl

theorem TreeInv_dfsLoadHead {σ : Type} (retrieve : Option (RetrieveNextDepthFilesFunc σ))
    (pre : Option (DirFunc σ)) (d : Dir) (st : LoadState σ) (h : TreeInv d) :
    TreeInv (dfsLoadHead retrieve pre d st).1 := by
  rcases dfsLoadHead_dir retrieve pre d st with e | ⟨files, folders, e⟩
  · rw [e]; exact h
  · rw [e]; exact TreeInv_fill d files folders h

theorem dfsLoadDir_zero {σ : Type} (retrieve : Option (RetrieveNextDepthFilesFunc σ))
    (pre post : Option (DirFunc σ)) (d : Dir) (st : LoadState σ) :
    dfsLoadDir retrieve pre post 0 d st = (d, st, Exit.fuel) := rfl

theorem dfsLoadDir_succ {σ : Type} (retrieve : Option (RetrieveNextDepthFilesFunc σ))
    (pre post : Option (DirFunc σ)) (fuel : Nat) (d : Dir) (st : LoadState σ) :
    dfsLoadDir retrieve pre post (fuel + 1) d st =
      match (dfsLoadHead retrieve pre d st).2.2 with
      | Exit.nil =>
        match (dfsLoadKids retrieve pre post fuel d st).2.2 with
        | Exit.nil =>
          ((dfsLoadHead retrieve pre d st).1.setSubDirs
              (dfsLoadKids retrieve pre post fuel d st).1,
            ⟨(dfsLoadKids retrieve pre post fuel d st).2.1.info,
              (callDirFunc Event.postorder post
                ((dfsLoadHead retrieve pre d st).1.setSubDirs
                  (dfsLoadKids retrieve pre post fuel d st).1)
                (dfsLoadKids retrieve pre post fuel d st).2.1.ctx).1⟩,
            (callDirFunc Event.postorder post
                ((dfsLoadHead retrieve pre d st).1.setSubDirs
                  (dfsLoadKids retrieve pre post fuel d st).1)
                (dfsLoadKids retrieve pre post fuel d st).2.1.ctx).2)
        | e =>
          ((dfsLoadHead retrieve pre d st).1.setSubDirs
              (dfsLoadKids retrieve pre post fuel d st).1,
            (dfsLoadKids retrieve pre post fuel d st).2.1, e)
      | e => ((dfsLoadHead retrieve pre d st).1, (dfsLoadHead retrieve pre d st).2.1, e) := rfl

theorem dfsLoadDir_head_stop {σ : Type} (retrieve : Option (RetrieveNextDepthFilesFunc σ))
    (pre post : Option (DirFunc σ)) (fuel : Nat) (d : Dir) (st : LoadState σ)
    (h : (dfsLoadHead retrieve pre d st).2.2 ≠ Exit.nil) :
    dfsLoadDir retrieve pre post (fuel + 1) d st =
      ((dfsLoadHead retrieve pre d st).1, (dfsLoadHead retrieve pre d st).2.1,
        (dfsLoadHead retrieve pre d st).2.2) := by
  rw [dfsLoadDir_succ]
  split
  · rename_i e; exact absurd e h
  · rfl

theorem dfsLoadDir_kids_stop {σ : Type} (retrieve : Option (RetrieveNextDepthFilesFunc σ))
    (pre post : Option (DirFunc σ)) (fuel : Nat) (d : Dir) (st : LoadState σ)
    (h : (dfsLoadHead retrieve pre d st).2.2 = Exit.nil)
    (hk : (dfsLoadKids retrieve pre post fuel d st).2.2 ≠ Exit.nil) :
    dfsLoadDir retrieve pre post (fuel + 1) d st =
      ((dfsLoadHead retrieve pre d st).1.setSubDirs
          (dfsLoadKids retrieve pre post fuel d st).1,
        (dfsLoadKids retrieve pre post fuel d st).2.1,
        (dfsLoadKids retrieve pre post fuel d st).2.2) := by
  rw [dfsLoadDir_succ, h]
  simp only

theorem dfsLoadDir_kids_done {σ : Type} (retrieve : Option (RetrieveNextDepthFilesFunc σ))
    (pre post : Option (DirFunc σ)) (fuel : Nat) (d : Dir) (st : LoadState σ)
    (h : (dfsLoadHead retrieve pre d st).2.2 = Exit.nil)
    (hk : (dfsLoadKids retrieve pre post fuel d st).2.2 = Exit.nil) :
    dfsLoadDir retrieve pre post (fuel + 1) d st =
      ((dfsLoadHead retrieve pre d st).1.setSubDirs
          (dfsLoadKids retrieve pre post fuel d st).1,
        ⟨(dfsLoadKids retrieve pre post fuel d st).2.1.info,
          (callDirFunc Event.postorder post
            ((dfsLoadHead retrieve pre d st).1.setSubDirs
              (dfsLoadKids retrieve pre post fuel d st).1)
            (dfsLoadKids retrieve pre post fuel d st).2.1.ctx).1⟩,
        (callDirFunc Event.postorder post
            ((dfsLoadHead retrieve pre d st).1.setSubDirs
              (dfsLoadKids retrieve pre post fuel d st).1)
            (dfsLoadKids retrieve pre post fuel d st).2.1.ctx).2) := by
  rw [dfsLoadDir_succ, h, hk]

theorem dfsLoadDir_dir {σ : Type} (retrieve : Option (RetrieveNextDepthFilesFunc σ))
    (pre post : Option (DirFunc σ)) (fuel : Nat) (d : Dir) (st : LoadState σ) :
    (dfsLoadDir retrieve pre post (fuel + 1) d st).1 =
      (dfsLoadHead retrieve pre d st).1 ∨
    (dfsLoadDir retrieve pre post (fuel + 1) d st).1 =
      (dfsLoadHead retrieve pre d st).1.setSubDirs
        (dfsLoadKids retrieve pre post fuel d st).1 := by
  by_cases h : (dfsLoadHead retrieve pre d st).2.2 = Exit.nil
  · by_cases hk : (dfsLoadKids retrieve pre post fuel d st).2.2 = Exit.nil
    · rw [dfsLoadDir_kids_done retrieve pre post fuel d st h hk]; exact Or.inr rfl
    · rw [dfsLoadDir_kids_stop retrieve pre post fuel d st h hk]; exact Or.inr rfl
  · rw [dfsLoadDir_head_stop retrieve pre post fuel d st h]; exact Or.inl rfl

theorem TreeInv_dfsLoadDir {σ : Type} (retrieve : Option (RetrieveNextDepthFilesFunc σ))
    (pre post : Option (DirFunc σ)) (fuel : Nat) :
    ∀ (d : Dir) (st : LoadState σ), TreeInv d →
      TreeInv (dfsLoadDir retrieve pre post fuel d st).1 := by
  induction fuel with
  | zero => intro d st h; rw [dfsLoadDir_zero]; exact h
  | succ fuel ih =>
    intro d st h
    have hh := TreeInv_dfsLoadHead retrieve pre d st h
    rcases dfsLoadDir_dir retrieve pre post fuel d st with e | e
    · rw [e]; exact hh
    · rw [e]
      have hh2 := (TreeInv_iff _).1 hh
      refine TreeInv_setSubDirs _ _ (loopSubDirs_length _ _ _) hh2.1 ?_
      exact loopSubDirs_forall _ TreeInv (fun c st hc => ih c st hc) _ _ hh2.2

theorem DFSLoad_dir {σ : Type} (d : Dir) (maxDepth numLimit sizeLimit : Int)
    (retrieve : Option (RetrieveNextDepthFilesFunc σ)) (pre post : Option (DirFunc σ))
    (c : Ctx σ) :
    (d.DFSLoad maxDepth numLimit sizeLimit retrieve pre post c).dir =
      (d.loadRun maxDepth numLimit sizeLimit retrieve pre post c).1 := by
  unfold Dir.DFSLoad
  simp only
  split <;> rfl

theorem DFSLoad_ctx {σ : Type} (d : Dir) (maxDepth numLimit sizeLimit : Int)
    (retrieve : Option (RetrieveNextDepthFilesFunc σ)) (pre post : Option (DirFunc σ))
    (c : Ctx σ) :
    (d.DFSLoad maxDepth numLimit sizeLimit retrieve pre post c).ctx =
      (d.loadRun maxDepth numLimit sizeLimit retrieve pre post c).2.1.ctx := by
  unfold Dir.DFSLoad
  simp only
  split <;> rfl

theorem DFSLoad_exit {σ : Type} (d : Dir) (maxDepth numLimit sizeLimit : Int)
    (retrieve : Option (RetrieveNextDepthFilesFunc σ)) (pre post : Option (DirFunc σ))
    (c : Ctx σ) :
    (d.DFSLoad maxDepth numLimit sizeLimit retrieve pre post c).exit =
      (d.loadRun maxDepth numLimit sizeLimit retrieve pre post c).2.2 := by
  unfold Dir.DFSLoad
  simp only
  split
  · rename_i h; exact h.symm
  · rfl

theorem DFSLoad_totals {σ : Type} (d : Dir) (maxDepth numLimit sizeLimit : Int)
    (retrieve : Option (RetrieveNextDepthFilesFunc σ)) (pre post : Option (DirFunc σ))
    (c : Ctx σ)
    (h : (d.loadRun maxDepth numLimit sizeLimit retrieve pre post c).2.2 = Exit.nil) :
    (d.DFSLoad maxDepth numLimit sizeLimit retrieve pre post c).totalSize =
      (d.loadRun maxDepth numLimit sizeLimit retrieve pre post c).2.1.info.totalSize ∧
    (d.DFSLoad maxDepth numLimit sizeLimit retrieve pre post c).totalCount =
      (d.loadRun maxDepth numLimit sizeLimit retrieve pre post c).2.1.info.totalCount := by
  unfold Dir.DFSLoad
  simp only [h]
  trivial

theorem DFSLoad_totals_fail {σ : Type} (d : Dir) (maxDepth numLimit sizeLimit : Int)
    (retrieve : Option (RetrieveNextDepthFilesFunc σ)) (pre post : Option (DirFunc σ))
    (c : Ctx σ)
    (h : (d.loadRun maxDepth numLimit sizeLimit retrieve pre post c).2.2 ≠ Exit.nil) :
    (d.DFSLoad maxDepth numLimit sizeLimit retrieve pre post c).totalSize = 0 ∧
    (d.DFSLoad maxDepth numLimit sizeLimit retrieve pre post c).totalCount = 0 := by
  unfold Dir.DFSLoad
  simp only
  trivial

theorem TreeInv_DFSLoad {σ : Type} (d : Dir) (maxDepth numLimit sizeLimit : Int)
    (retrieve : Option (RetrieveNextDepthFilesFunc σ)) (pre post : Option (DirFunc σ))
    (c : Ctx σ) (h : TreeInv d) :
    TreeInv (d.DFSLoad maxDepth numLimit sizeLimit retrieve pre post c).dir := by
  rw [DFSLoad_dir]
  exact TreeInv_dfsLoadDir retrieve pre post _ d _ h

/-! ## Mutating a node of the tree -/

theorem Dir.modifyAt_nil (f : Dir → Dir) (d : Dir) : d.modifyAt f [] = f d := rfl

theorem Dir.modifyAt_cons (f : Dir → Dir) (i : Nat) (p : List Nat) (d : Dir) :
    d.modifyAt f (i :: p) =
      match d.subDirs.get? i with
      | some (some c) => d.setSubDirs (d.subDirs.set i (some (Dir.modifyAt f p c)))
      | _ => d := rfl

theorem TreeInv_modifyAt (f : Dir → Dir) (hf : ∀ n, TreeInv n → TreeInv (f n))
    (p : List Nat) : ∀ d, TreeInv d → TreeInv (Dir.modifyAt f p d) := by
  induction p with
  | nil => intro d h; exact hf d h
  | cons i p ih =>
    intro d h
    rw [Dir.modifyAt_cons]
    split
    · rename_i c hc
      have hd := (TreeInv_iff d).1 h
      have hcmem : some c ∈ d.subDirs := List.get?_mem hc
      refine TreeInv_setSubDirs d _ (by simp) hd.1 ?_
      intro x hx
      rcases List.mem_or_eq_of_mem_set hx with hx | hx
      · exact hd.2 x hx
      · cases hx; exact ih c (hd.2 c hcmem)
    · exact h

theorem Built.treeInv {d : Dir} (h : Built d) : TreeInv d := by
  induction h with
  | newDir folder depth count size h => exact TreeInv_NewDir h
  | fill path subFiles subFolders _ ih =>
    exact TreeInv_modifyAt _ (fun n hn => TreeInv_fill n _ _ hn) path _ ih
  | load path maxDepth numLimit sizeLimit retrieve pre post c _ ih =>
    exact TreeInv_modifyAt _ (fun n hn => TreeInv_DFSLoad n _ _ _ _ _ _ _ hn) path _ ih

/-! ## The generic walk -/

theorem DfsWithFunc_eq {σ : Type} (pre post : Option (DirFunc σ)) (d : Dir) (c : Ctx σ) :
    d.DfsWithFunc pre post c =
      if !d.loaded then (c, Exit.error Err.errDirNotLoad)
      else
        match (callDirFunc Event.preorder pre d c).2 with
        | Exit.nil =>
          match (dfsSubDirs pre post d.subDirs (callDirFunc Event.preorder pre d c).1).2 with
          | Exit.nil =>
            callDirFunc Event.postorder post d
              (dfsSubDirs pre post d.subDirs (callDirFunc Event.preorder pre d c).1).1
          | e => ((dfsSubDirs pre post d.subDirs (callDirFunc Event.preorder pre d c).1).1, e)
        | e => ((callDirFunc Event.preorder pre d c).1, e) := by
  cases d; rfl

theorem dfsSubDirs_nil {σ : Type} (pre post : Option (DirFunc σ)) (c : Ctx σ) :
    dfsSubDirs pre post [] c = (c, Exit.nil) := rfl

theorem dfsSubDirs_none {σ : Type} (pre post : Option (DirFunc σ))
    (cs : List (Option Dir)) (c : Ctx σ) :
    dfsSubDirs pre post (none :: cs) c = (c, Exit.panic) := rfl

theorem dfsSubDirs_some {σ : Type} (pre post : Option (DirFunc σ)) (s : Dir)
    (cs : List (Option Dir)) (c : Ctx σ) :
    dfsSubDirs pre post (some s :: cs) c =
      match (s.DfsWithFunc pre post c).2 with
      | Exit.nil => dfsSubDirs pre post cs (s.DfsWithFunc pre post c).1
      | e => ((s.DfsWithFunc pre post c).1, e) := rfl

theorem Dir.fullyLoaded_eq (d : Dir) :
    d.fullyLoaded = (d.loaded && fullyLoadedList d.subDirs) := by
  cases d; rfl

theorem fullyLoadedList_nil : fullyLoadedList [] = true := rfl

theorem fullyLoadedList_none (cs : List (Option Dir)) :
    fullyLoadedList (none :: cs) = false := rfl

theorem fullyLoadedList_some (c : Dir) (cs : List (Option Dir)) :
    fullyLoadedList (some c :: cs) = (c.fullyLoaded && fullyLoadedList cs) := rfl

theorem callDirFunc_some {σ : Type} (tag : Dir → Event) (f : DirFunc σ) (d : Dir)
    (c : Ctx σ) :
    callDirFunc tag (some f) d c =
      (⟨(f c.world d).1, c.trace ++ [tag d]⟩, (f c.world d).2.toExit) := rfl

theorem callDirFunc_none {σ : Type} (tag : Dir → Event) (d : Dir) (c : Ctx σ) :
    callDirFunc tag (none : Option (DirFunc σ)) d c = (c, Exit.nil) := rfl

/-- The walk over the children of a fully loaded node, given the walk over each child. -/
theorem dfsSubDirs_pre_fold {σ : Type} (f : DirFunc σ) (subs : List (Option Dir))
    (ih : ∀ s, some s ∈ subs → ∀ c : Ctx σ,
      s.DfsWithFunc (some f) none c =
        (⟨s.nodes.foldl (fun w n => (f w n).1) c.world,
          c.trace ++ s.nodes.map Event.preorder⟩, Exit.nil))
    (hfull : fullyLoadedList subs = true) (c : Ctx σ) :
    dfsSubDirs (some f) none subs c =
      (⟨(nodesList subs).foldl (fun w n => (f w n).1) c.world,
        c.trace ++ (nodesList subs).map Event.preorder⟩, Exit.nil) := by
  induction subs generalizing c with
  | nil => simp [dfsSubDirs_nil]
  | cons hd tl ihl =>
    cases hd with
    | none => rw [fullyLoadedList_none] at hfull; cases hfull
    | some s =>
      rw [fullyLoadedList_some, Bool.and_eq_true] at hfull
      rw [dfsSubDirs_some, ih s (List.mem_cons_self _ _) c]
      simp only
      rw [ihl (fun s hs => ih s (List.mem_cons_of_mem _ hs)) hfull.2]
      simp [List.foldl_append]

/-- On a fully loaded tree, a walk with a pre-order callback that returns nil on every
node calls it on the nodes in pre-order and returns nil. -/
theorem DfsWithFunc_pre_fold {σ : Type} (f : DirFunc σ) (d : Dir) :
    d.fullyLoaded = true → (∀ n ∈ d.nodes, ∀ w, (f w n).2 = CallRet.nil) →
    ∀ c : Ctx σ,
      d.DfsWithFunc (some f) none c =
        (⟨d.nodes.foldl (fun w n => (f w n).1) c.world,
          c.trace ++ d.nodes.map Event.preorder⟩, Exit.nil) := by
  refine Dir.induct_subDirs
    (fun d => d.fullyLoaded = true → (∀ n ∈ d.nodes, ∀ w, (f w n).2 = CallRet.nil) →
      ∀ c : Ctx σ,
        d.DfsWithFunc (some f) none c =
          (⟨d.nodes.foldl (fun w n => (f w n).1) c.world,
            c.trace ++ d.nodes.map Event.preorder⟩, Exit.nil)) ?_ d
  intro o subs files depth count size loaded ih hfull hf c
  rw [Dir.fullyLoaded_eq, Bool.and_eq_true] at hfull
  simp only [Dir.loaded_mk, Dir.subDirs_mk] at hfull
  obtain ⟨hl, hfull⟩ := hfull
  subst hl
  have hsub : ∀ s, some s ∈ subs → ∀ c : Ctx σ,
      s.DfsWithFunc (some f) none c =
        (⟨s.nodes.foldl (fun w n => (f w n).1) c.world,
          c.trace ++ s.nodes.map Event.preorder⟩, Exit.nil) := by
    intro s hs
    have hfs : s.fullyLoaded = true := by
      clear ih hf
      induction subs with
      | nil => simp at hs
      | cons hd tl iht =>
        cases hd with
        | none => rw [fullyLoadedList_none] at hfull; cases hfull
        | some x =>
          rw [fullyLoadedList_some, Bool.and_eq_true] at hfull
          rcases List.mem_cons.1 hs with e | e
          · cases e; exact hfull.1
          · exact iht hfull.2 e
    refine ih s hs hfs ?_
    intro n hn w
    apply hf n
    rw [Dir.nodes_eq]
    exact List.mem_cons_of_mem _ (mem_nodesList.2 ⟨s, hs, hn⟩)
  have h0 := hf _ (Dir.self_mem_nodes _) c.world
  rw [DfsWithFunc_eq, callDirFunc_some]
  simp only [Dir.loaded_mk, Dir.subDirs_mk, h0, CallRet.toExit]
  rw [dfsSubDirs_pre_fold f subs hsub hfull]
  simp only [callDirFunc_none]
  rw [Dir.nodes_eq]
  simp

/-! ## What the head of `dfsLoadDir` does -/

theorem dfsLoadAccount_info (count size : Int) (info : dsfLoadInfo) :
    (dfsLoadAccount count size info).1 =
      ⟨info.maxDepth, info.sizeLimit, info.numLimit,
        wrap64 (info.totalCount + count), wrap64 (info.totalSize + size)⟩ := by
  unfold dfsLoadAccount
  simp only
  split
  · rfl
  · split <;> rfl

theorem dfsLoadFetch_of_loaded {σ : Type} (retrieve : Option (RetrieveNextDepthFilesFunc σ))
    (d : Dir) (c : Ctx σ) (hl : d.loaded = true) :
    dfsLoadFetch retrieve d c = (d, c, Exit.nil) := by
  unfold dfsLoadFetch
  simp only [hl, if_true]

theorem dfsLoadFetch_no_func {σ : Type} (d : Dir) (c : Ctx σ) (hl : d.loaded = false) :
    dfsLoadFetch (none : Option (RetrieveNextDepthFilesFunc σ)) d c =
      (d, c, Exit.error Err.errNoRetrieveNextDepthFilesFunc) := by
  unfold dfsLoadFetch
  simp only [hl, Bool.false_eq_true, if_false]

theorem dfsLoadFetch_error {σ : Type} (r : RetrieveNextDepthFilesFunc σ)
    (d : Dir) (c : Ctx σ) (hl : d.loaded = false) (code : Nat)
    (hr : (r c.world d.originInfo.VolumeId d.originInfo.Id).2 = Except.error code) :
    dfsLoadFetch (some r) d c =
      (d, ⟨(r c.world d.originInfo.VolumeId d.originInfo.Id).1,
          c.trace ++ [Event.retrieve d.originInfo.VolumeId d.originInfo.Id]⟩,
        Exit.error (Err.external code)) := by
  unfold dfsLoadFetch
  simp only [hl, Bool.false_eq_true, if_false, hr]

theorem dfsLoadFetch_ok {σ : Type} (r : RetrieveNextDepthFilesFunc σ)
    (d : Dir) (c : Ctx σ) (hl : d.loaded = false) (files folders : List File)
    (hr : (r c.world d.originInfo.VolumeId d.originInfo.Id).2 = Except.ok (files, folders)) :
    dfsLoadFetch (some r) d c =
      ((d.FillDirNoRecurse files folders).1,
        ⟨(r c.world d.originInfo.VolumeId d.originInfo.Id).1,
          c.trace ++ [Event.retrieve d.originInfo.VolumeId d.originInfo.Id]⟩,
        Exit.nil) := by
  unfold dfsLoadFetch
  simp only [hl, Bool.false_eq_true, if_false, hr, FillDirNoRecurse_unloaded d files folders hl]

theorem dfsLoadFetch_loaded {σ : Type} (retrieve : Option (RetrieveNextDepthFilesFunc σ))
    (d : Dir) (c : Ctx σ) (h : (dfsLoadFetch retrieve d c).2.2 = Exit.nil) :
    (dfsLoadFetch retrieve d c).1.loaded = true := by
  cases hl : d.loaded with
  | true => rw [dfsLoadFetch_of_loaded retrieve d c hl]; exact hl
  | false =>
    cases retrieve with
    | none => rw [dfsLoadFetch_no_func d c hl] at h; cases h
    | some r =>
      cases hr : (r c.world d.originInfo.VolumeId d.originInfo.Id).2 with
      | error code => rw [dfsLoadFetch_error r d c hl code hr] at h; cases h
      | ok v =>
        obtain ⟨files, folders⟩ := v
        rw [dfsLoadFetch_ok r d c hl files folders hr, FillDirNoRecurse_unloaded d _ _ hl]

theorem dfsLoadHead_not_folder {σ : Type} (retrieve : Option (RetrieveNextDepthFilesFunc σ))
    (pre : Option (DirFunc σ)) (d : Dir) (st : LoadState σ)
    (h : d.originInfo.IsFolder = false) :
    dfsLoadHead retrieve pre d st = (d, st, Exit.error Err.errNotFolderType) := by
  unfold dfsLoadHead
  simp only [h, Bool.not_false, if_true]

theorem dfsLoadHead_too_deep {σ : Type} (retrieve : Option (RetrieveNextDepthFilesFunc σ))
    (pre : Option (DirFunc σ)) (d : Dir) (st : LoadState σ)
    (h : d.originInfo.IsFolder = true) (hd : d.depth ≥ st.info.maxDepth) :
    dfsLoadHead retrieve pre d st = (d, st, Exit.error Err.errMaxPathDepthLimit) := by
  unfold dfsLoadHead
  simp only [h, Bool.not_true, Bool.false_eq_true, if_false, hd, if_true]

theorem dfsLoadHead_pre_stop {σ : Type} (retrieve : Option (RetrieveNextDepthFilesFunc σ))
    (pre : Option (DirFunc σ)) (d : Dir) (st : LoadState σ)
    (h : d.originInfo.IsFolder = true) (hd : d.depth < st.info.maxDepth)
    (hp : (callDirFunc Event.preorder pre d st.ctx).2 ≠ Exit.nil) :
    dfsLoadHead retrieve pre d st =
      (d, ⟨st.info, (callDirFunc Event.preorder pre d st.ctx).1⟩,
        (callDirFunc Event.preorder pre d st.ctx).2) := by
  unfold dfsLoadHead
  have hd2 : ¬ d.depth ≥ st.info.maxDepth := by omega
  simp only [h, Bool.not_true, Bool.false_eq_true, if_false, hd2]

theorem dfsLoadHead_fetch_stop {σ : Type} (retrieve : Option (RetrieveNextDepthFilesFunc σ))
    (pre : Option (DirFunc σ)) (d : Dir) (st : LoadState σ)
    (h : d.originInfo.IsFolder = true) (hd : d.depth < st.info.maxDepth)
    (hp : (callDirFunc Event.preorder pre d st.ctx).2 = Exit.nil)
    (hf : (dfsLoadFetch retrieve d (callDirFunc Event.preorder pre d st.ctx).1).2.2 ≠
      Exit.nil) :
    dfsLoadHead retrieve pre d st =
      ((dfsLoadFetch retrieve d (callDirFunc Event.preorder pre d st.ctx).1).1,
        ⟨st.info, (dfsLoadFetch retrieve d (callDirFunc Event.preorder pre d st.ctx).1).2.1⟩,
        (dfsLoadFetch retrieve d (callDirFunc Event.preorder pre d st.ctx).1).2.2) := by
  unfold dfsLoadHead
  have hd2 : ¬ d.depth ≥ st.info.maxDepth := by omega
  simp only [h, Bool.not_true, Bool.false_eq_true, if_false, hd2, hp]

theorem dfsLoadHead_account {σ : Type} (retrieve : Option (RetrieveNextDepthFilesFunc σ))
    (pre : Option (DirFunc σ)) (d : Dir) (st : LoadState σ)
    (h : d.originInfo.IsFolder = true) (hd : d.depth < st.info.maxDepth)
    (hp : (callDirFunc Event.preorder pre d st.ctx).2 = Exit.nil)
    (hf : (dfsLoadFetch retrieve d (callDirFunc Event.preorder pre d st.ctx).1).2.2 =
      Exit.nil) :
    dfsLoadHead retrieve pre d st =
      ((dfsLoadFetch retrieve d (callDirFunc Event.preorder pre d st.ctx).1).1,
        ⟨(dfsLoadAccount
            (dfsLoadFetch retrieve d (callDirFunc Event.preorder pre d st.ctx).1).1.count
            (dfsLoadFetch retrieve d (callDirFunc Event.preorder pre d st.ctx).1).1.size
            st.info).1,
          (dfsLoadFetch retrieve d (callDirFunc Event.preorder pre d st.ctx).1).2.1⟩,
        (dfsLoadAccount
            (dfsLoadFetch retrieve d (callDirFunc Event.preorder pre d st.ctx).1).1.count
            (dfsLoadFetch retrieve d (callDirFunc Event.preorder pre d st.ctx).1).1.size
            st.info).2) := by
  unfold dfsLoadHead
  have hd2 : ¬ d.depth ≥ st.info.maxDepth := by omega
  simp only [h, Bool.not_true, Bool.false_eq_true, if_false, hd2, hp, hf]

/-- When the head of `dfsLoadDir` goes on to the loop, the node is a folder below the
depth limit, it is loaded now, and its `count` and `size` have been added to the totals,
which are within the limits. -/
theorem dfsLoadHead_nil {σ : Type} (retrieve : Option (RetrieveNextDepthFilesFunc σ))
    (pre : Option (DirFunc σ)) (d : Dir) (st : LoadState σ)
    (h : (dfsLoadHead retrieve pre d st).2.2 = Exit.nil) :
    d.originInfo.IsFolder = true ∧ d.depth < st.info.maxDepth ∧
    (callDirFunc Event.preorder pre d st.ctx).2 = Exit.nil ∧
    (dfsLoadFetch retrieve d (callDirFunc Event.preorder pre d st.ctx).1).2.2 = Exit.nil ∧
    (dfsLoadAccount
      (dfsLoadFetch retrieve d (callDirFunc Event.preorder pre d st.ctx).1).1.count
      (dfsLoadFetch retrieve d (callDirFunc Event.preorder pre d st.ctx).1).1.size
      st.info).2 = Exit.nil := by
  cases hf : d.originInfo.IsFolder with
  | false => rw [dfsLoadHead_not_folder retrieve pre d st hf] at h; cases h
  | true =>
    by_cases hd : d.depth ≥ st.info.maxDepth
    · rw [dfsLoadHead_too_deep retrieve pre d st hf hd] at h; cases h
    · have hd2 : d.depth < st.info.maxDepth := by omega
      by_cases hp : (callDirFunc Event.preorder pre d st.ctx).2 = Exit.nil
      · by_cases hx : (dfsLoadFetch retrieve d
            (callDirFunc Event.preorder pre d st.ctx).1).2.2 = Exit.nil
        · rw [dfsLoadHead_account retrieve pre d st hf hd2 hp hx] at h
          exact ⟨rfl, hd2, hp, hx, h⟩
        · rw [dfsLoadHead_fetch_stop retrieve pre d st hf hd2 hp hx] at h
          exact absurd h hx
      · rw [dfsLoadHead_pre_stop retrieve pre d st hf hd2 hp] at h
        exact absurd h hp

/-! ## A successful load -/

theorem FillDirNoRecurse_originInfo (d : Dir) (files folders : List File) :
    (d.FillDirNoRecurse files folders).1.originInfo = d.originInfo := by
  cases hl : d.loaded with
  | true => rw [FillDirNoRecurse_loaded d _ _ hl]
  | false => rw [FillDirNoRecurse_unloaded d _ _ hl]

theorem FillDirNoRecurse_depth (d : Dir) (files folders : List File) :
    (d.FillDirNoRecurse files folders).1.depth = d.depth := by
  cases hl : d.loaded with
  | true => rw [FillDirNoRecurse_loaded d _ _ hl]
  | false => rw [FillDirNoRecurse_unloaded d _ _ hl]

theorem dfsLoadHead_originInfo {σ : Type} (retrieve : Option (RetrieveNextDepthFilesFunc σ))
    (pre : Option (DirFunc σ)) (d : Dir) (st : LoadState σ) :
    (dfsLoadHead retrieve pre d st).1.originInfo = d.originInfo := by
  rcases dfsLoadHead_dir retrieve pre d st with e | ⟨files, folders, e⟩
  · rw [e]
  · rw [e, FillDirNoRecurse_originInfo]

theorem dfsLoadHead_depth {σ : Type} (retrieve : Option (RetrieveNextDepthFilesFunc σ))
    (pre : Option (DirFunc σ)) (d : Dir) (st : LoadState σ) :
    (dfsLoadHead retrieve pre d st).1.depth = d.depth := by
  rcases dfsLoadHead_dir retrieve pre d st with e | ⟨files, folders, e⟩
  · rw [e]
  · rw [e, FillDirNoRecurse_depth]

theorem dfsLoadDir_originInfo {σ : Type} (retrieve : Option (RetrieveNextDepthFilesFunc σ))
    (pre post : Option (DirFunc σ)) (fuel : Nat) (d : Dir) (st : LoadState σ) :
    (dfsLoadDir retrieve pre post fuel d st).1.originInfo = d.originInfo := by
  cases fuel with
  | zero => rfl
  | succ fuel =>
    rcases dfsLoadDir_dir retrieve pre post fuel d st with e | e
    · rw [e, dfsLoadHead_originInfo]
    · rw [e, Dir.setSubDirs_originInfo, dfsLoadHead_originInfo]

theorem dfsLoadDir_depth {σ : Type} (retrieve : Option (RetrieveNextDepthFilesFunc σ))
    (pre post : Option (DirFunc σ)) (fuel : Nat) (d : Dir) (st : LoadState σ) :
    (dfsLoadDir retrieve pre post fuel d st).1.depth = d.depth := by
  cases fuel with
  | zero => rfl
  | succ fuel =>
    rcases dfsLoadDir_dir retrieve pre post fuel d st with e | e
    · rw [e, dfsLoadHead_depth]
    · rw [e, Dir.setSubDirs_depth, dfsLoadHead_depth]

/-- When the head goes on, the node is loaded and the totals have grown by its `count`
and `size`. -/
theorem dfsLoadHead_nil_totals {σ : Type} (retrieve : Option (RetrieveNextDepthFilesFunc σ))
    (pre : Option (DirFunc σ)) (d : Dir) (st : LoadState σ)
    (h : (dfsLoadHead retrieve pre d st).2.2 = Exit.nil) :
    (dfsLoadHead retrieve pre d st).1.loaded = true ∧
    (dfsLoadHead retrieve pre d st).2.1.info =
      ⟨st.info.maxDepth, st.info.sizeLimit, st.info.numLimit,
        wrap64 (st.info.totalCount + (dfsLoadHead retrieve pre d st).1.count),
        wrap64 (st.info.totalSize + (dfsLoadHead retrieve pre d st).1.size)⟩ := by
  obtain ⟨hf, hd, hp, hx, _⟩ := dfsLoadHead_nil retrieve pre d st h
  rw [dfsLoadHead_account retrieve pre d st hf hd hp hx]
  exact ⟨dfsLoadFetch_loaded retrieve d _ hx, dfsLoadAccount_info _ _ _⟩

theorem loopSubDirs_nil_fold {σ : Type} (walk : Dir → LoadState σ → Dir × LoadState σ × Exit)
    (hw : ∀ c st, (walk c st).2.2 = Exit.nil →
      (walk c st).1.fullyLoaded = true ∧
      (walk c st).2.1.info.totalCount =
        (walk c st).1.nodes.foldl (fun a n => wrap64 (a + n.count)) st.info.totalCount ∧
      (walk c st).2.1.info.totalSize =
        (walk c st).1.nodes.foldl (fun a n => wrap64 (a + n.size)) st.info.totalSize)
    (subs : List (Option Dir)) (st : LoadState σ)
    (h : (loopSubDirs walk subs st).2.2 = Exit.nil) :
    fullyLoadedList (loopSubDirs walk subs st).1 = true ∧
    (loopSubDirs walk subs st).2.1.info.totalCount =
      (nodesList (loopSubDirs walk subs st).1).foldl (fun a n => wrap64 (a + n.count))
        st.info.totalCount ∧
    (loopSubDirs walk subs st).2.1.info.totalSize =
      (nodesList (loopSubDirs walk subs st).1).foldl (fun a n => wrap64 (a + n.size))
        st.info.totalSize := by
  induction subs generalizing st with
  | nil => exact ⟨rfl, rfl, rfl⟩
  | cons hd tl ih =>
    cases hd with
    | none => rw [loopSubDirs_none] at h; cases h
    | some c =>
      by_cases hx : (walk c st).2.2 = Exit.nil
      · rw [loopSubDirs_some_nil walk c tl st hx] at h ⊢
        obtain ⟨h1, h2, h3⟩ := hw c st hx
        obtain ⟨i1, i2, i3⟩ := ih (walk c st).2.1 h
        refine ⟨?_, ?_, ?_⟩
        · rw [fullyLoadedList_some, h1, i1]; rfl
        · rw [nodesList_some, List.foldl_append, ← h2]; exact i2
        · rw [nodesList_some, List.foldl_append, ← h3]; exact i3
      · rw [loopSubDirs_some_stop walk c tl st hx] at h
        exact absurd h hx

/-- A run of `dfsLoadDir` that returns nil leaves the tree fully loaded, and the totals
have grown by the `count` and `size` of every node of the tree, taken in pre-order. -/
theorem dfsLoadDir_nil_fold {σ : Type} (retrieve : Option (RetrieveNextDepthFilesFunc σ))
    (pre post : Option (DirFunc σ)) (fuel : Nat) :
    ∀ (d : Dir) (st : LoadState σ),
      (dfsLoadDir retrieve pre post fuel d st).2.2 = Exit.nil →
      (dfsLoadDir retrieve pre post fuel d st).1.fullyLoaded = true ∧
      (dfsLoadDir retrieve pre post fuel d st).2.1.info.totalCount =
        (dfsLoadDir retrieve pre post fuel d st).1.nodes.foldl
          (fun a n => wrap64 (a + n.count)) st.info.totalCount ∧
      (dfsLoadDir retrieve pre post fuel d st).2.1.info.totalSize =
        (dfsLoadDir retrieve pre post fuel d st).1.nodes.foldl
          (fun a n => wrap64 (a + n.size)) st.info.totalSize := by
  induction fuel with
  | zero => intro d st h; rw [dfsLoadDir_zero] at h; cases h
  | succ fuel ih =>
    intro d st h
    by_cases hh : (dfsLoadHead retrieve pre d st).2.2 = Exit.nil
    · by_cases hk : (dfsLoadKids retrieve pre post fuel d st).2.2 = Exit.nil
      · rw [dfsLoadDir_kids_done retrieve pre post fuel d st hh hk]
        obtain ⟨hl, hi⟩ := dfsLoadHead_nil_totals retrieve pre d st hh
        obtain ⟨k1, k2, k3⟩ := loopSubDirs_nil_fold _ ih _ _ hk
        refine ⟨?_, ?_, ?_⟩
        · rw [Dir.fullyLoaded_eq, Dir.setSubDirs_loaded, Dir.setSubDirs_subDirs, hl]
          exact k1
        · rw [Dir.nodes_eq, List.foldl_cons, Dir.setSubDirs_subDirs, Dir.setSubDirs_count]
          have e : (dfsLoadKids retrieve pre post fuel d st).2.1.info.totalCount = _ := k2
          rw [hi] at e
          exact e
        · rw [Dir.nodes_eq, List.foldl_cons, Dir.setSubDirs_subDirs, Dir.setSubDirs_size]
          have e : (dfsLoadKids retrieve pre post fuel d st).2.1.info.totalSize = _ := k3
          rw [hi] at e
          exact e
      · rw [dfsLoadDir_kids_stop retrieve pre post fuel d st hh hk] at h
        exact absurd h hk
    · rw [dfsLoadDir_head_stop retrieve pre post fuel d st hh] at h
      exact absurd h hh

theorem fullyLoadedList_mem {subs : List (Option Dir)} (h : fullyLoadedList subs = true) :
    (∀ o ∈ subs, o ≠ none) ∧ ∀ c, some c ∈ subs → c.fullyLoaded = true := by
  induction subs with
  | nil => exact ⟨fun o ho => by simp at ho, fun c hc => by simp at hc⟩
  | cons hd tl ih =>
    cases hd with
    | none => rw [fullyLoadedList_none] at h; cases h
    | some x =>
      rw [fullyLoadedList_some, Bool.and_eq_true] at h
      obtain ⟨i1, i2⟩ := ih h.2
      constructor
      · intro o ho
        rcases List.mem_cons.1 ho with e | e
        · rw [e]; simp
        · exact i1 o e
      · intro c hc
        rcases List.mem_cons.1 hc with e | e
        · cases e; exact h.1
        · exact i2 c e

theorem Dir.fullyLoaded_nodes (d : Dir) :
    d.fullyLoaded = true → ∀ n ∈ d.nodes, n.loaded = true := by
  refine Dir.induct_subDirs (fun d => d.fullyLoaded = true → ∀ n ∈ d.nodes, n.loaded = true) ?_ d
  intro o subs files depth count size loaded ih hfull n hn
  rw [Dir.fullyLoaded_eq, Bool.and_eq_true] at hfull
  rw [Dir.nodes_eq] at hn
  rcases List.mem_cons.1 hn with e | e
  · rw [e]; exact hfull.1
  · obtain ⟨c, hc, hnc⟩ := mem_nodesList.1 e
    exact ih c hc ((fullyLoadedList_mem hfull.2).2 c hc) n hnc

theorem foldl_addSizeAndCount (ns : List Dir) (s c : Int) :
    ns.foldl (fun w n => (addSizeAndCount w n).1) (s, c) =
      (ns.foldl (fun a n => wrap64 (a + n.size)) s,
        ns.foldl (fun a n => wrap64 (a + n.count)) c) := by
  induction ns generalizing s c with
  | nil => rfl
  | cons n ns ih => rw [List.foldl_cons, List.foldl_cons, List.foldl_cons]; exact ih _ _

theorem foldl_wrap64_map {α : Type} (f : α → Int) (xs : List α) (a : Int) :
    xs.foldl (fun acc x => wrap64 (acc + f x)) (wrap64 a) = wrap64 (a + (xs.map f).sum) := by
  rw [← foldl_wrap64_add, List.foldl_map]

theorem wrap64_zero : wrap64 0 = 0 := wrap64_of_range 0 (by decide) (by decide)

theorem wrap64_one : wrap64 (0 + 1) = 1 := wrap64_of_range (0 + 1) (by decide) (by decide)

/-- On a fully loaded tree `GetTotalSizeAndCount` returns nil and the totals accumulated
over the nodes in pre-order. -/
theorem GetTotalSizeAndCount_fullyLoaded (d : Dir) (h : d.fullyLoaded = true) :
    d.GetTotalSizeAndCount =
      (d.nodes.foldl (fun a n => wrap64 (a + n.size)) 0,
        d.nodes.foldl (fun a n => wrap64 (a + n.count))
          (if !d.IsVirtualDir then wrap64 (0 + 1) else 0),
        Exit.nil) := by
  unfold Dir.GetTotalSizeAndCount
  simp only
  rw [DfsWithFunc_pre_fold addSizeAndCount d h (fun _ _ _ => rfl)]
  simp only [foldl_addSizeAndCount]

theorem loadRun_originInfo {σ : Type} (d : Dir) (maxDepth numLimit sizeLimit : Int)
    (retrieve : Option (RetrieveNextDepthFilesFunc σ)) (pre post : Option (DirFunc σ))
    (c : Ctx σ) :
    (d.loadRun maxDepth numLimit sizeLimit retrieve pre post c).1.originInfo =
      d.originInfo := by
  unfold Dir.loadRun
  exact dfsLoadDir_originInfo _ _ _ _ _ _

theorem IsVirtualDir_congr {d e : Dir} (h : d.originInfo = e.originInfo) :
    d.IsVirtualDir = e.IsVirtualDir := by
  unfold Dir.IsVirtualDir; rw [h]

/-! ## The limits are never written -/

theorem sameLimits_refl (a : dsfLoadInfo) : sameLimits a a := ⟨rfl, rfl, rfl⟩

theorem sameLimits_trans {a b c : dsfLoadInfo} (h1 : sameLimits a b) (h2 : sameLimits b c) :
    sameLimits a c :=
  ⟨h1.1.trans h2.1, h1.2.1.trans h2.2.1, h1.2.2.trans h2.2.2⟩

theorem dfsLoadHead_limits {σ : Type} (retrieve : Option (RetrieveNextDepthFilesFunc σ))
    (pre : Option (DirFunc σ)) (d : Dir) (st : LoadState σ) :
    sameLimits (dfsLoadHead retrieve pre d st).2.1.info st.info := by
  cases hf : d.originInfo.IsFolder with
  | false => rw [dfsLoadHead_not_folder retrieve pre d st hf]; exact sameLimits_refl _
  | true =>
    by_cases hd : d.depth ≥ st.info.maxDepth
    · rw [dfsLoadHead_too_deep retrieve pre d st hf hd]; exact sameLimits_refl _
    · have hd2 : d.depth < st.info.maxDepth := by omega
      by_cases hp : (callDirFunc Event.preorder pre d st.ctx).2 = Exit.nil
      · by_cases hx : (dfsLoadFetch retrieve d
            (callDirFunc Event.preorder pre d st.ctx).1).2.2 = Exit.nil
        · rw [dfsLoadHead_account retrieve pre d st hf hd2 hp hx]
          simp only [dfsLoadAccount_info]
          exact ⟨rfl, rfl, rfl⟩
        · rw [dfsLoadHead_fetch_stop retrieve pre d st hf hd2 hp hx]
          exact sameLimits_refl _
      · rw [dfsLoadHead_pre_stop retrieve pre d st hf hd2 hp]
        exact sameLimits_refl _

theorem loopSubDirs_limits {σ : Type} (walk : Dir → LoadState σ → Dir × LoadState σ × Exit)
    (hw : ∀ c st, sameLimits (walk c st).2.1.info st.info)
    (subs : List (Option Dir)) (st : LoadState σ) :
    sameLimits (loopSubDirs walk subs st).2.1.info st.info := by
  induction subs generalizing st with
  | nil => exact sameLimits_refl _
  | cons hd tl ih =>
    cases hd with
    | none => exact sameLimits_refl _
    | some c =>
      by_cases hx : (walk c st).2.2 = Exit.nil
      · rw [loopSubDirs_some_nil walk c tl st hx]
        exact sameLimits_trans (ih _) (hw c st)
      · rw [loopSubDirs_some_stop walk c tl st hx]
        exact hw c st

theorem dfsLoadDir_limits {σ : Type} (retrieve : Option (RetrieveNextDepthFilesFunc σ))
    (pre post : Option (DirFunc σ)) (fuel : Nat) :
    ∀ (d : Dir) (st : LoadState σ),
      sameLimits (dfsLoadDir retrieve pre post fuel d st).2.1.info st.info := by
  induction fuel with
  | zero => intro d st; exact sameLimits_refl _
  | succ fuel ih =>
    intro d st
    have hk : sameLimits (dfsLoadKids retrieve pre post fuel d st).2.1.info st.info :=
      sameLimits_trans (loopSubDirs_limits _ ih _ _) (dfsLoadHead_limits retrieve pre d st)
    by_cases hh : (dfsLoadHead retrieve pre d st).2.2 = Exit.nil
    · by_cases hx : (dfsLoadKids retrieve pre post fuel d st).2.2 = Exit.nil
      · rw [dfsLoadDir_kids_done retrieve pre post fuel d st hh hx]; exact hk
      · rw [dfsLoadDir_kids_stop retrieve pre post fuel d st hh hx]; exact hk
    · rw [dfsLoadDir_head_stop retrieve pre post fuel d st hh]
      exact dfsLoadHead_limits retrieve pre d st

/-! ## The recursion budget suffices -/

theorem Dir.loadFuel_eq (m : Int) (d : Dir) :
    d.loadFuel m =
      if d.loaded then 1 + loadFuelList m d.subDirs else 1 + (m - d.depth).toNat := by
  cases d; rfl

theorem loadFuelList_nil (m : Int) : loadFuelList m [] = 0 := rfl

theorem loadFuelList_none (m : Int) (cs : List (Option Dir)) :
    loadFuelList m (none :: cs) = loadFuelList m cs := rfl

theorem loadFuelList_some (m : Int) (c : Dir) (cs : List (Option Dir)) :
    loadFuelList m (some c :: cs) = max (c.loadFuel m) (loadFuelList m cs) := rfl

theorem loadFuel_le_list (m : Int) {c : Dir} {subs : List (Option Dir)}
    (h : some c ∈ subs) : c.loadFuel m ≤ loadFuelList m subs := by
  induction subs with
  | nil => simp at h
  | cons hd tl ih =>
    cases hd with
    | none =>
      rw [loadFuelList_none]
      rcases List.mem_cons.1 h with e | e
      · cases e
      · exact ih e
    | some x =>
      rw [loadFuelList_some]
      rcases List.mem_cons.1 h with e | e
      · cases e; exact le_max_left _ _
      · exact le_trans (ih e) (le_max_right _ _)

theorem callDirFunc_ne_fuel {σ : Type} (tag : Dir → Event) (f : Option (DirFunc σ))
    (d : Dir) (c : Ctx σ) : (callDirFunc tag f d c).2 ≠ Exit.fuel := by
  cases f with
  | none => rw [callDirFunc_none]; intro h; cases h
  | some g =>
    rw [callDirFunc_some]
    cases (g c.world d).2 <;> (intro h; cases h)

theorem dfsLoadFetch_ne_fuel {σ : Type} (retrieve : Option (RetrieveNextDepthFilesFunc σ))
    (d : Dir) (c : Ctx σ) : (dfsLoadFetch retrieve d c).2.2 ≠ Exit.fuel := by
  cases hl : d.loaded with
  | true => rw [dfsLoadFetch_of_loaded retrieve d c hl]; intro h; cases h
  | false =>
    cases retrieve with
    | none => rw [dfsLoadFetch_no_func d c hl]; intro h; cases h
    | some r =>
      cases hr : (r c.world d.originInfo.VolumeId d.originInfo.Id).2 with
      | error code => rw [dfsLoadFetch_error r d c hl code hr]; intro h; cases h
      | ok v =>
        obtain ⟨files, folders⟩ := v
        rw [dfsLoadFetch_ok r d c hl files folders hr]; intro h; cases h

theorem dfsLoadAccount_ne_fuel (count size : Int) (info : dsfLoadInfo) :
    (dfsLoadAccount count size info).2 ≠ Exit.fuel := by
  unfold dfsLoadAccount
  simp only
  split
  · intro h; cases h
  · split <;> (intro h; cases h)

theorem dfsLoadHead_ne_fuel {σ : Type} (retrieve : Option (RetrieveNextDepthFilesFunc σ))
    (pre : Option (DirFunc σ)) (d : Dir) (st : LoadState σ) :
    (dfsLoadHead retrieve pre d st).2.2 ≠ Exit.fuel := by
  cases hf : d.originInfo.IsFolder with
  | false => rw [dfsLoadHead_not_folder retrieve pre d st hf]; intro h; cases h
  | true =>
    by_cases hd : d.depth ≥ st.info.maxDepth
    · rw [dfsLoadHead_too_deep retrieve pre d st hf hd]; intro h; cases h
    · have hd2 : d.depth < st.info.maxDepth := by omega
      by_cases hp : (callDirFunc Event.preorder pre d st.ctx).2 = Exit.nil
      · by_cases hx : (dfsLoadFetch retrieve d
            (callDirFunc Event.preorder pre d st.ctx).1).2.2 = Exit.nil
        · rw [dfsLoadHead_account retrieve pre d st hf hd2 hp hx]
          exact dfsLoadAccount_ne_fuel _ _ _
        · rw [dfsLoadHead_fetch_stop retrieve pre d st hf hd2 hp hx]
          exact dfsLoadFetch_ne_fuel _ _ _
      · rw [dfsLoadHead_pre_stop retrieve pre d st hf hd2 hp]
        exact callDirFunc_ne_fuel _ _ _ _

theorem wrap64_succ_ge (x : Int) (h : x + 1 < 9223372036854775808) :
    x + 1 ≤ wrap64 (x + 1) := by
  unfold wrap64; omega

theorem loopSubDirs_ne_fuel {σ : Type}
    (walk : Dir → LoadState σ → Dir × LoadState σ × Exit) (info0 : dsfLoadInfo)
    (hlim : ∀ c st, sameLimits (walk c st).2.1.info st.info)
    (subs : List (Option Dir))
    (hw : ∀ c, some c ∈ subs → ∀ st, sameLimits st.info info0 → (walk c st).2.2 ≠ Exit.fuel)
    (st : LoadState σ) (hst : sameLimits st.info info0) :
    (loopSubDirs walk subs st).2.2 ≠ Exit.fuel := by
  induction subs generalizing st with
  | nil => rw [loopSubDirs_nil]; intro h; cases h
  | cons hd tl ih =>
    cases hd with
    | none => rw [loopSubDirs_none]; intro h; cases h
    | some c =>
      by_cases hx : (walk c st).2.2 = Exit.nil
      · rw [loopSubDirs_some_nil walk c tl st hx]
        exact ih (fun x hxm => hw x (List.mem_cons_of_mem _ hxm)) _
          (sameLimits_trans (hlim c st) hst)
      · rw [loopSubDirs_some_stop walk c tl st hx]
        exact hw c (List.mem_cons_self _ _) st hst

/-- Every child that the loop of `dfsLoadDir` walks needs a smaller budget than the node:
the children of a loaded node by definition of `loadFuel`, the children just created by
the fill because they are one level deeper. -/
theorem dfsLoadHead_child_fuel {σ : Type} (retrieve : Option (RetrieveNextDepthFilesFunc σ))
    (pre : Option (DirFunc σ)) (d : Dir) (st : LoadState σ)
    (hm : st.info.maxDepth < 9223372036854775808)
    (h : (dfsLoadHead retrieve pre d st).2.2 = Exit.nil) (c : Dir)
    (hc : some c ∈ (dfsLoadHead retrieve pre d st).1.subDirs) :
    c.loadFuel st.info.maxDepth + 1 ≤ d.loadFuel st.info.maxDepth := by
  obtain ⟨hf, hd, hp, hx, _⟩ := dfsLoadHead_nil retrieve pre d st h
  rw [dfsLoadHead_account retrieve pre d st hf hd hp hx] at hc
  simp only at hc
  cases hl : d.loaded with
  | true =>
    rw [dfsLoadFetch_of_loaded retrieve d _ hl] at hc
    rw [Dir.loadFuel_eq st.info.maxDepth d, hl]
    simp only [if_true]
    have hc2 : some c ∈ d.subDirs := hc
    have := loadFuel_le_list st.info.maxDepth hc2
    omega
  | false =>
    cases retrieve with
    | none => rw [dfsLoadFetch_no_func d _ hl] at hx; cases hx
    | some r =>
      cases hr : (r (callDirFunc Event.preorder pre d st.ctx).1.world
          d.originInfo.VolumeId d.originInfo.Id).2 with
      | error code => rw [dfsLoadFetch_error r d _ hl code hr] at hx; cases hx
      | ok v =>
        obtain ⟨files, folders⟩ := v
        rw [dfsLoadFetch_ok r d _ hl files folders hr,
          FillDirNoRecurse_unloaded d files folders hl] at hc
        simp only [Dir.subDirs_mk] at hc
        obtain ⟨folder, _, hn⟩ := List.mem_map.1 hc
        unfold NewDir at hn
        split at hn
        · cases hn
        · cases hn
          rw [Dir.loadFuel_eq st.info.maxDepth d, hl, Dir.loadFuel_eq]
          simp only [Dir.loaded_mk, Dir.depth_mk, Bool.false_eq_true, if_false]
          have := wrap64_succ_ge d.depth (by omega)
          omega

/-- `dfsLoadDir` does not run out of budget when it is given `loadFuel` or more: the
recursion is bounded because every node it creates is one level deeper than its parent
and no node at or below the depth limit is expanded. -/
theorem dfsLoadDir_fuel_enough {σ : Type} (retrieve : Option (RetrieveNextDepthFilesFunc σ))
    (pre post : Option (DirFunc σ)) (m : Int) (hm : m < 9223372036854775808) (fuel : Nat) :
    ∀ (d : Dir) (st : LoadState σ), st.info.maxDepth = m → d.loadFuel m ≤ fuel →
      (dfsLoadDir retrieve pre post fuel d st).2.2 ≠ Exit.fuel := by
  induction fuel with
  | zero =>
    intro d st _ hf
    rw [Dir.loadFuel_eq] at hf
    split at hf <;> omega
  | succ fuel ih =>
    intro d st hst hf
    by_cases hh : (dfsLoadHead retrieve pre d st).2.2 = Exit.nil
    · have hk : (dfsLoadKids retrieve pre post fuel d st).2.2 ≠ Exit.fuel := by
        refine loopSubDirs_ne_fuel _ st.info (dfsLoadDir_limits retrieve pre post fuel) _ ?_ _
          (dfsLoadHead_limits retrieve pre d st)
        intro c hc st2 hst2
        refine ih c st2 (hst2.1.trans hst) ?_
        have := dfsLoadHead_child_fuel retrieve pre d st (by rw [hst]; exact hm) hh c hc
        rw [hst] at this
        omega
      by_cases hx : (dfsLoadKids retrieve pre post fuel d st).2.2 = Exit.nil
      · rw [dfsLoadDir_kids_done retrieve pre post fuel d st hh hx]
        exact callDirFunc_ne_fuel _ _ _ _
      · rw [dfsLoadDir_kids_stop retrieve pre post fuel d st hh hx]
        exact hk
    · rw [dfsLoadDir_head_stop retrieve pre post fuel d st hh]
      exact dfsLoadHead_ne_fuel retrieve pre d st

/-- `DFSLoad` always comes to an end: it returns nil or an error, or it panics on a nil
child; the model's budget is never the reason it stops. -/
theorem DFSLoad_ne_fuel {σ : Type} (d : Dir) (maxDepth numLimit sizeLimit : Int)
    (hm : maxDepth < 9223372036854775808)
    (retrieve : Option (RetrieveNextDepthFilesFunc σ)) (pre post : Option (DirFunc σ))
    (c : Ctx σ) :
    (d.DFSLoad maxDepth numLimit sizeLimit retrieve pre post c).exit ≠ Exit.fuel := by
  rw [DFSLoad_exit]
  unfold Dir.loadRun
  refine dfsLoadDir_fuel_enough retrieve pre post _ ?_ _ d _ rfl (le_refl _)
  unfold Dir.dfsInfoInit
  simp only
  split
  · unfold defMaxDepth; decide
  · exact hm

/-! ## Loading a served hierarchy -/

theorem Hier.Serves_eq {σ : Type} (r : RetrieveNextDepthFilesFunc σ) (h : Hier) :
    h.Serves r ↔
      (h.folder.IsFolder = true ∧
        (∀ w, (r w h.folder.VolumeId h.folder.Id).2 =
          Except.ok (h.files, h.subs.map Hier.folder)) ∧
        servesList r h.subs) := by
  cases h; rfl

theorem servesList_cons {σ : Type} (r : RetrieveNextDepthFilesFunc σ) (h : Hier)
    (hs : List Hier) : servesList r (h :: hs) ↔ (h.Serves r ∧ servesList r hs) := by
  rfl

theorem Hier.steps_eq (k : Int) (h : Hier) :
    h.steps k =
      (k, wrap64 ((h.files.length + h.subs.length : Nat) : Int),
        sum64 (h.files.map File.Size)) :: stepsList (wrap64 (k + 1)) h.subs := by
  cases h; rfl

theorem stepsList_nil (k : Int) : stepsList k [] = [] := rfl

theorem stepsList_cons (k : Int) (h : Hier) (hs : List Hier) :
    stepsList k (h :: hs) = h.steps k ++ stepsList k hs := rfl

theorem walkSteps_nil (info : dsfLoadInfo) : walkSteps info [] = (info, Exit.nil) := rfl

theorem walkSteps_cons (info : dsfLoadInfo) (s : Int × Int × Int)
    (rest : List (Int × Int × Int)) :
    walkSteps info (s :: rest) =
      if s.1 ≥ info.maxDepth then (info, Exit.error Err.errMaxPathDepthLimit)
      else
        match (dfsLoadAccount s.2.1 s.2.2 info).2 with
        | Exit.nil => walkSteps (dfsLoadAccount s.2.1 s.2.2 info).1 rest
        | e => ((dfsLoadAccount s.2.1 s.2.2 info).1, e) := rfl

theorem walkSteps_cons_deep (info : dsfLoadInfo) (s : Int × Int × Int)
    (rest : List (Int × Int × Int)) (h : s.1 ≥ info.maxDepth) :
    walkSteps info (s :: rest) = (info, Exit.error Err.errMaxPathDepthLimit) := by
  rw [walkSteps_cons]; simp only [h, if_true]

theorem walkSteps_cons_stop (info : dsfLoadInfo) (s : Int × Int × Int)
    (rest : List (Int × Int × Int)) (h : s.1 < info.maxDepth)
    (ha : (dfsLoadAccount s.2.1 s.2.2 info).2 ≠ Exit.nil) :
    walkSteps info (s :: rest) = dfsLoadAccount s.2.1 s.2.2 info := by
  have h2 : ¬ s.1 ≥ info.maxDepth := by omega
  rw [walkSteps_cons]; simp only [h2, if_false]

theorem walkSteps_cons_go (info : dsfLoadInfo) (s : Int × Int × Int)
    (rest : List (Int × Int × Int)) (h : s.1 < info.maxDepth)
    (ha : (dfsLoadAccount s.2.1 s.2.2 info).2 = Exit.nil) :
    walkSteps info (s :: rest) = walkSteps (dfsLoadAccount s.2.1 s.2.2 info).1 rest := by
  have h2 : ¬ s.1 ≥ info.maxDepth := by omega
  rw [walkSteps_cons]; simp only [h2, if_false, ha]

theorem walkSteps_append (info : dsfLoadInfo) (a b : List (Int × Int × Int)) :
    walkSteps info (a ++ b) =
      match (walkSteps info a).2 with
      | Exit.nil => walkSteps (walkSteps info a).1 b
      | _ => walkSteps info a := by
  induction a generalizing info with
  | nil => rfl
  | cons s rest ih =>
    rw [List.cons_append]
    by_cases h : s.1 ≥ info.maxDepth
    · rw [walkSteps_cons_deep info s _ h, walkSteps_cons_deep info s _ h]
    · have h2 : s.1 < info.maxDepth := by omega
      by_cases ha : (dfsLoadAccount s.2.1 s.2.2 info).2 = Exit.nil
      · rw [walkSteps_cons_go info s _ h2 ha, walkSteps_cons_go info s _ h2 ha, ih]
      · rw [walkSteps_cons_stop info s _ h2 ha, walkSteps_cons_stop info s _ h2 ha]
        simp only

theorem walkSteps_append_nil (info : dsfLoadInfo) (a b : List (Int × Int × Int))
    (h : (walkSteps info a).2 = Exit.nil) :
    walkSteps info (a ++ b) = walkSteps (walkSteps info a).1 b := by
  rw [walkSteps_append, h]

theorem walkSteps_append_stop (info : dsfLoadInfo) (a b : List (Int × Int × Int))
    (h : (walkSteps info a).2 ≠ Exit.nil) :
    walkSteps info (a ++ b) = walkSteps info a := by
  rw [walkSteps_append]
  simp only

theorem servesList_mem {σ : Type} {r : RetrieveNextDepthFilesFunc σ} {subs : List Hier}
    (h : servesList r subs) {s : Hier} (hs : s ∈ subs) : s.Serves r := by
  induction subs with
  | nil => simp at hs
  | cons x xs ih =>
    rw [servesList_cons] at h
    rcases List.mem_cons.1 hs with e | e
    · rw [e]; exact h.1
    · exact ih h.2 e

theorem NewDir_folder (folder : File) (depth count size : Int)
    (h : folder.IsFolder = true) :
    NewDir folder depth count size = some (Dir.mk folder [] [] depth count size false) := by
  unfold NewDir
  simp only [h, Bool.not_true, Bool.false_eq_true, if_false]

/-- The head of `dfsLoadDir` on the node of a served folder that is not loaded yet, with
no pre-order callback, below the depth limit: the node is filled with the folder's
entries and the accounting decides. -/
theorem dfsLoadHead_served {σ : Type} (r : RetrieveNextDepthFilesFunc σ) (h : Hier)
    (d : Dir) (st : LoadState σ) (hs : h.Serves r) (hl : d.loaded = false)
    (ho : d.originInfo = h.folder) (hd : d.depth < st.info.maxDepth) :
    dfsLoadHead (some r) none d st =
      (Dir.mk h.folder
          (h.subs.map (fun s =>
            some (Dir.mk s.folder [] [] (wrap64 (d.depth + 1)) unKnown unKnown false)))
          h.files d.depth (wrap64 ((h.files.length + h.subs.length : Nat) : Int))
          (sum64 (h.files.map File.Size)) true,
        ⟨(dfsLoadAccount (wrap64 ((h.files.length + h.subs.length : Nat) : Int))
            (sum64 (h.files.map File.Size)) st.info).1,
          ⟨(r st.ctx.world h.folder.VolumeId h.folder.Id).1,
            st.ctx.trace ++ [Event.retrieve h.folder.VolumeId h.folder.Id]⟩⟩,
        (dfsLoadAccount (wrap64 ((h.files.length + h.subs.length : Nat) : Int))
            (sum64 (h.files.map File.Size)) st.info).2) := by
  obtain ⟨hf, hr, hsub⟩ := (Hier.Serves_eq r h).1 hs
  have hfetch : dfsLoadFetch (some r) d (callDirFunc Event.preorder none d st.ctx).1 =
      (Dir.mk h.folder
          (h.subs.map (fun s =>
            some (Dir.mk s.folder [] [] (wrap64 (d.depth + 1)) unKnown unKnown false)))
          h.files d.depth (wrap64 ((h.files.length + h.subs.length : Nat) : Int))
          (sum64 (h.files.map File.Size)) true,
        ⟨(r st.ctx.world h.folder.VolumeId h.folder.Id).1,
          st.ctx.trace ++ [Event.retrieve h.folder.VolumeId h.folder.Id]⟩, Exit.nil) := by
    rw [callDirFunc_none]
    rw [dfsLoadFetch_ok r d st.ctx hl h.files (h.subs.map Hier.folder)
      (by rw [ho]; exact hr st.ctx.world),
      FillDirNoRecurse_unloaded d _ _ hl, ho]
    refine Prod.ext ?_ rfl
    simp only
    congr 1
    · rw [List.map_map]
      apply List.map_congr_left
      intro s hsm
      have hsf : s.folder.IsFolder = true :=
        ((Hier.Serves_eq r s).1 (servesList_mem hsub hsm)).1
      exact NewDir_folder _ _ _ _ hsf
    · rw [List.length_map]
  have hp : (callDirFunc Event.preorder none d st.ctx).2 = Exit.nil := rfl
  have hx : (dfsLoadFetch (some r) d (callDirFunc Event.preorder none d st.ctx).1).2.2 =
      Exit.nil := by rw [hfetch]
  have hfo : d.originInfo.IsFolder = true := by rw [ho]; exact hf
  have key := dfsLoadHead_account (some r) none d st hfo hd hp hx
  rw [hfetch] at key
  simp only [Dir.count_mk, Dir.size_mk] at key
  exact key

theorem loopSubDirs_served {σ : Type} (r : RetrieveNextDepthFilesFunc σ) (fuel : Nat)
    (ih : ∀ (h : Hier) (d : Dir) (st : LoadState σ), h.Serves r → d.loaded = false →
      d.originInfo = h.folder →
      (dfsLoadDir (some r) none none fuel d st).2.2 ≠ Exit.fuel →
      (dfsLoadDir (some r) none none fuel d st).2.2 =
        (walkSteps st.info (h.steps d.depth)).2 ∧
      (dfsLoadDir (some r) none none fuel d st).2.1.info =
        (walkSteps st.info (h.steps d.depth)).1)
    (k : Int) (subs : List Hier) (hs : servesList r subs) (st : LoadState σ)
    (hne : (loopSubDirs (dfsLoadDir (some r) none none fuel)
      (subs.map (fun s => some (Dir.mk s.folder [] [] k unKnown unKnown false))) st).2.2 ≠
        Exit.fuel) :
    (loopSubDirs (dfsLoadDir (some r) none none fuel)
      (subs.map (fun s => some (Dir.mk s.folder [] [] k unKnown unKnown false))) st).2.2 =
        (walkSteps st.info (stepsList k subs)).2 ∧
    (loopSubDirs (dfsLoadDir (some r) none none fuel)
      (subs.map (fun s => some (Dir.mk s.folder [] [] k unKnown unKnown false))) st).2.1.info =
        (walkSteps st.info (stepsList k subs)).1 := by
  induction subs generalizing st with
  | nil => exact ⟨rfl, rfl⟩
  | cons x xs ihl =>
    rw [servesList_cons] at hs
    rw [List.map_cons] at hne ⊢
    rw [stepsList_cons]
    by_cases hx : (dfsLoadDir (some r) none none fuel
        (Dir.mk x.folder [] [] k unKnown unKnown false) st).2.2 = Exit.nil
    · rw [loopSubDirs_some_nil _ _ _ st hx] at hne ⊢
      obtain ⟨e1, e2⟩ := ih x (Dir.mk x.folder [] [] k unKnown unKnown false) st hs.1 rfl rfl
        (by rw [hx]; intro hh; cases hh)
      have e1' : (walkSteps st.info (x.steps k)).2 = Exit.nil := by rw [← e1]; exact hx
      rw [walkSteps_append_nil _ _ _ e1']
      have e2' : (dfsLoadDir (some r) none none fuel
          (Dir.mk x.folder [] [] k unKnown unKnown false) st).2.1.info =
          (walkSteps st.info (x.steps k)).1 := e2
      have := ihl hs.2 (dfsLoadDir (some r) none none fuel
        (Dir.mk x.folder [] [] k unKnown unKnown false) st).2.1 hne
      rw [e2'] at this
      exact this
    · rw [loopSubDirs_some_stop _ _ _ st hx] at hne ⊢
      obtain ⟨e1, e2⟩ := ih x (Dir.mk x.folder [] [] k unKnown unKnown false) st hs.1 rfl rfl
        hne
      have e1' : (walkSteps st.info (x.steps k)).2 ≠ Exit.nil := by
        have e1'' : (dfsLoadDir (some r) none none fuel
            (Dir.mk x.folder [] [] k unKnown unKnown false) st).2.2 =
            (walkSteps st.info (x.steps k)).2 := e1
        rw [← e1'']; exact hx
      rw [walkSteps_append_stop _ _ _ e1']
      exact ⟨e1, e2⟩

/-- Loading the node of a served hierarchy that is not loaded yet, without callbacks, ends
as the walk over the hierarchy's folders in pre-order does, with the same totals. -/
theorem dfsLoadDir_served {σ : Type} (r : RetrieveNextDepthFilesFunc σ) (fuel : Nat) :
    ∀ (h : Hier) (d : Dir) (st : LoadState σ), h.Serves r → d.loaded = false →
      d.originInfo = h.folder →
      (dfsLoadDir (some r) none none fuel d st).2.2 ≠ Exit.fuel →
      (dfsLoadDir (some r) none none fuel d st).2.2 =
        (walkSteps st.info (h.steps d.depth)).2 ∧
      (dfsLoadDir (some r) none none fuel d st).2.1.info =
        (walkSteps st.info (h.steps d.depth)).1 := by
  induction fuel with
  | zero => intro h d st _ _ _ hne; rw [dfsLoadDir_zero] at hne; exact absurd rfl hne
  | succ fuel ih =>
    intro h d st hs hl ho hne
    rw [Hier.steps_eq]
    by_cases hd : d.depth ≥ st.info.maxDepth
    · have hf : d.originInfo.IsFolder = true := by
        rw [ho]; exact ((Hier.Serves_eq r h).1 hs).1
      have hh := dfsLoadHead_too_deep (some r) none d st hf hd
      rw [dfsLoadDir_head_stop (some r) none none fuel d st (by rw [hh]; intro e; cases e),
        hh, walkSteps_cons_deep _ _ _ hd]
      exact ⟨rfl, rfl⟩
    · have hd2 : d.depth < st.info.maxDepth := by omega
      have hh := dfsLoadHead_served r h d st hs hl ho hd2
      by_cases ha : (dfsLoadAccount (wrap64 ((h.files.length + h.subs.length : Nat) : Int))
          (sum64 (h.files.map File.Size)) st.info).2 = Exit.nil
      · have hhn : (dfsLoadHead (some r) none d st).2.2 = Exit.nil := by rw [hh]; exact ha
        rw [walkSteps_cons_go _ _ _ hd2 ha]
        have hkids : dfsLoadKids (some r) none none fuel d st =
            loopSubDirs (dfsLoadDir (some r) none none fuel)
              (h.subs.map (fun s =>
                some (Dir.mk s.folder [] [] (wrap64 (d.depth + 1)) unKnown unKnown false)))
              ⟨(dfsLoadAccount (wrap64 ((h.files.length + h.subs.length : Nat) : Int))
                  (sum64 (h.files.map File.Size)) st.info).1,
                ⟨(r st.ctx.world h.folder.VolumeId h.folder.Id).1,
                  st.ctx.trace ++ [Event.retrieve h.folder.VolumeId h.folder.Id]⟩⟩ := by
          unfold dfsLoadKids
          rw [hh]
        by_cases hk : (dfsLoadKids (some r) none none fuel d st).2.2 = Exit.nil
        · rw [dfsLoadDir_kids_done (some r) none none fuel d st hhn hk]
          rw [callDirFunc_none]
          have hk2 := hk
          rw [hkids] at hk2
          obtain ⟨e1, e2⟩ := loopSubDirs_served r fuel ih (wrap64 (d.depth + 1)) h.subs
            ((Hier.Serves_eq r h).1 hs).2.2 _ (by rw [hk2]; intro e; cases e)
          rw [← hkids] at e1 e2
          exact ⟨by rw [← e1, hk], e2⟩
        · rw [dfsLoadDir_kids_stop (some r) none none fuel d st hhn hk] at hne ⊢
          have hne2 := hne
          rw [hkids] at hne2
          obtain ⟨e1, e2⟩ := loopSubDirs_served r fuel ih (wrap64 (d.depth + 1)) h.subs
            ((Hier.Serves_eq r h).1 hs).2.2 _ hne2
          rw [← hkids] at e1 e2
          exact ⟨e1, e2⟩
      · have hhn : (dfsLoadHead (some r) none d st).2.2 ≠ Exit.nil := by rw [hh]; exact ha
        rw [dfsLoadDir_head_stop (some r) none none fuel d st hhn, hh,
          walkSteps_cons_stop _ _ _ hd2 ha]
        exact ⟨rfl, rfl⟩

/-! ## The accounting step -/

theorem dfsLoadAccount_count_stop (count size : Int) (info : dsfLoadInfo)
    (h : wrap64 (info.totalCount + count) > info.numLimit) :
    (dfsLoadAccount count size info).2 = Exit.error Err.errFileNumLimit := by
  unfold dfsLoadAccount
  simp only [h, if_true]

theorem dfsLoadAccount_size_stop (count size : Int) (info : dsfLoadInfo)
    (h : wrap64 (info.totalCount + count) ≤ info.numLimit)
    (hs : info.sizeLimit ≥ 0) (h2 : wrap64 (info.totalSize + size) > info.sizeLimit) :
    (dfsLoadAccount count size info).2 = Exit.error Err.errTotalSizeLimit := by
  unfold dfsLoadAccount
  have h' : ¬ wrap64 (info.totalCount + count) > info.numLimit := by omega
  simp only [h', if_false, hs, h2, and_self, if_true]

theorem dfsLoadAccount_go (count size : Int) (info : dsfLoadInfo)
    (h : wrap64 (info.totalCount + count) ≤ info.numLimit)
    (hs : info.sizeLimit < 0 ∨ wrap64 (info.totalSize + size) ≤ info.sizeLimit) :
    (dfsLoadAccount count size info).2 = Exit.nil := by
  unfold dfsLoadAccount
  have h' : ¬ wrap64 (info.totalCount + count) > info.numLimit := by omega
  have h2 : ¬ (info.sizeLimit ≥ 0 ∧ wrap64 (info.totalSize + size) > info.sizeLimit) := by
    omega
  simp only [h', if_false, h2]

theorem list_sum_nonneg (xs : List Int) (h : ∀ x ∈ xs, 0 ≤ x) : 0 ≤ xs.sum := by
  induction xs with
  | nil => simp
  | cons x xs ih =>
    rw [List.sum_cons]
    have := h x (List.mem_cons_self _ _)
    have := ih (fun y hy => h y (List.mem_cons_of_mem _ hy))
    omega

/-! ## The walk over the folders: which limit stops it -/

/-- Count limit: with every folder below the depth limit, no size limit, and totals that
stay `int64`, the walk fails with `errFileNumLimit` exactly when the final count exceeds
the limit, and otherwise returns nil with that count. -/
theorem walkSteps_count (steps : List (Int × Int × Int)) :
    ∀ (info : dsfLoadInfo), steps ≠ [] →
      (∀ s ∈ steps, s.1 < info.maxDepth) → info.sizeLimit < 0 →
      (∀ s ∈ steps, 0 ≤ s.2.1) → 0 ≤ info.totalCount →
      info.totalCount + (steps.map (fun s => s.2.1)).sum < 9223372036854775808 →
      (info.totalCount + (steps.map (fun s => s.2.1)).sum > info.numLimit →
        (walkSteps info steps).2 = Exit.error Err.errFileNumLimit) ∧
      (info.totalCount + (steps.map (fun s => s.2.1)).sum ≤ info.numLimit →
        (walkSteps info steps).2 = Exit.nil ∧
        (walkSteps info steps).1.totalCount =
          info.totalCount + (steps.map (fun s => s.2.1)).sum) := by
  induction steps with
  | nil => intro info h; exact absurd rfl h
  | cons s rest ih =>
    intro info _ hdepth hsl hnn h0 hsum
    rw [List.map_cons, List.sum_cons] at hsum ⊢
    have hs0 := hnn s (List.mem_cons_self _ _)
    have hrest := list_sum_nonneg (rest.map (fun s => s.2.1)) (by
      intro x hx
      obtain ⟨y, hy, e⟩ := List.mem_map.1 hx
      rw [← e]; exact hnn y (List.mem_cons_of_mem _ hy))
    have hd := hdepth s (List.mem_cons_self _ _)
    have hw : wrap64 (info.totalCount + s.2.1) = info.totalCount + s.2.1 :=
      wrap64_of_range _ (by omega) (by omega)
    by_cases hc : info.totalCount + s.2.1 > info.numLimit
    · have ha := dfsLoadAccount_count_stop s.2.1 s.2.2 info (by rw [hw]; exact hc)
      rw [walkSteps_cons_stop info s rest hd (by rw [ha]; intro e; cases e)]
      exact ⟨fun _ => ha, fun hle => by omega⟩
    · have ha := dfsLoadAccount_go s.2.1 s.2.2 info (by rw [hw]; omega) (Or.inl hsl)
      rw [walkSteps_cons_go info s rest hd ha]
      have hi : (dfsLoadAccount s.2.1 s.2.2 info).1 =
          ⟨info.maxDepth, info.sizeLimit, info.numLimit, info.totalCount + s.2.1,
            wrap64 (info.totalSize + s.2.2)⟩ := by
        rw [dfsLoadAccount_info, hw]
      rw [hi]
      cases rest with
      | nil =>
        rw [walkSteps_nil]
        simp only [List.map_nil, List.sum_nil, add_zero]
        exact ⟨fun hgt => absurd hgt hc, fun _ => ⟨trivial, trivial⟩⟩
      | cons t rest2 =>
        have key := ih ⟨info.maxDepth, info.sizeLimit, info.numLimit, info.totalCount + s.2.1,
            wrap64 (info.totalSize + s.2.2)⟩ (by simp)
          (fun x hx => hdepth x (List.mem_cons_of_mem _ hx)) hsl
          (fun x hx => hnn x (List.mem_cons_of_mem _ hx))
          (by show 0 ≤ info.totalCount + s.2.1; omega)
          (by
            show info.totalCount + s.2.1 + ((t :: rest2).map (fun s => s.2.1)).sum <
              9223372036854775808
            omega)
        dsimp only at key
        constructor
        · intro hgt; exact key.1 (by omega)
        · intro hle
          obtain ⟨k1, k2⟩ := key.2 (by omega)
          exact ⟨k1, by rw [k2]; omega⟩

/-! ## Hierarchies -/

/-- Induction over hierarchies. -/
theorem Hier.induct_subs (P : Hier → Prop)
    (step : ∀ (folder : File) (files : List File) (subs : List Hier),
      (∀ s ∈ subs, P s) → P (Hier.mk folder files subs))
    (h : Hier) : P h := by
  refine Hier.rec (motive_1 := P) (motive_2 := fun l => ∀ s ∈ l, P s) ?_ ?_ ?_ h
  · intro folder files subs ih
    exact step folder files subs ih
  · intro s hs; simp at hs
  · intro hd tl ihd itl s hs
    rcases List.mem_cons.1 hs with e | e
    · rw [e]; exact ihd
    · exact itl s e

theorem Hier.entries_eq (h : Hier) :
    h.entries = h.files.length + h.subs.length + entriesList h.subs := by
  cases h; rfl

theorem entriesList_nil : entriesList [] = 0 := rfl

theorem entriesList_cons (h : Hier) (hs : List Hier) :
    entriesList (h :: hs) = h.entries + entriesList hs := rfl

theorem Hier.steps_ne_nil (k : Int) (h : Hier) : h.steps k ≠ [] := by
  rw [Hier.steps_eq]; simp

/-- The counts of the folders of a list of hierarchies are their numbers of direct
entries and add up to the number of entries, as long as that number is an `int64`. -/
theorem stepsList_counts (subs : List Hier)
    (ih : ∀ s ∈ subs, ∀ k : Int, (s.entries : Int) < 9223372036854775808 →
      (∀ t ∈ s.steps k, 0 ≤ t.2.1) ∧ ((s.steps k).map (fun t => t.2.1)).sum = s.entries)
    (k : Int) (hb : (entriesList subs : Int) < 9223372036854775808) :
    (∀ t ∈ stepsList k subs, 0 ≤ t.2.1) ∧
      ((stepsList k subs).map (fun t => t.2.1)).sum = entriesList subs := by
  induction subs with
  | nil => exact ⟨fun t ht => by simp [stepsList_nil] at ht, by simp [stepsList_nil, entriesList_nil]⟩
  | cons x xs ihl =>
    rw [entriesList_cons] at hb ⊢
    rw [stepsList_cons]
    push_cast at hb
    obtain ⟨a1, a2⟩ := ih x (List.mem_cons_self _ _) k (by omega)
    obtain ⟨b1, b2⟩ := ihl (fun s hs => ih s (List.mem_cons_of_mem _ hs)) (by omega)
    constructor
    · intro t ht
      rcases List.mem_append.1 ht with e | e
      · exact a1 t e
      · exact b1 t e
    · rw [List.map_append, List.sum_append, a2, b2]
      push_cast
      rfl

theorem Hier.steps_counts (h : Hier) :
    ∀ k : Int, (h.entries : Int) < 9223372036854775808 →
      (∀ t ∈ h.steps k, 0 ≤ t.2.1) ∧ ((h.steps k).map (fun t => t.2.1)).sum = h.entries := by
  refine Hier.induct_subs
    (fun h => ∀ k : Int, (h.entries : Int) < 9223372036854775808 →
      (∀ t ∈ h.steps k, 0 ≤ t.2.1) ∧
        ((h.steps k).map (fun t => t.2.1)).sum = h.entries) ?_ h
  intro folder files subs ih k hb
  rw [Hier.entries_eq] at hb ⊢
  rw [Hier.steps_eq]
  simp only [Hier.files, Hier.subs] at hb ⊢
  push_cast at hb
  obtain ⟨b1, b2⟩ := stepsList_counts subs ih (wrap64 (k + 1)) (by omega)
  have hw : wrap64 ((files.length + subs.length : Nat) : Int) =
      ((files.length + subs.length : Nat) : Int) :=
    wrap64_of_range _ (by omega) (by push_cast; omega)
  constructor
  · intro t ht
    rcases List.mem_cons.1 ht with e | e
    · rw [e]; simp only; rw [hw]; omega
    · exact b1 t e
  · rw [List.map_cons, List.sum_cons, b2]
    simp only
    rw [hw]
    push_cast
    rfl

/-- `DFSLoad` from the node of a served hierarchy that is not loaded yet, without
callbacks: it ends as the walk over the hierarchy's folders does. -/
theorem DFSLoad_served {σ : Type} (r : RetrieveNextDepthFilesFunc σ) (h : Hier) (d : Dir)
    (maxDepth numLimit sizeLimit : Int) (c : Ctx σ) (hs : h.Serves r)
    (hl : d.loaded = false) (ho : d.originInfo = h.folder)
    (hm : maxDepth < 9223372036854775808) :
    (d.DFSLoad maxDepth numLimit sizeLimit (some r) none none c).exit =
      (walkSteps (d.dfsInfoInit maxDepth numLimit sizeLimit) (h.steps d.depth)).2 ∧
    (d.loadRun maxDepth numLimit sizeLimit (some r) none none c).2.1.info =
      (walkSteps (d.dfsInfoInit maxDepth numLimit sizeLimit) (h.steps d.depth)).1 := by
  have hne := DFSLoad_ne_fuel d maxDepth numLimit sizeLimit hm (some r) none none c
  rw [DFSLoad_exit] at hne ⊢
  exact dfsLoadDir_served r _ h d _ hs hl ho hne

theorem dfsInfoInit_totalCount (d : Dir) (maxDepth numLimit sizeLimit : Int) :
    (d.dfsInfoInit maxDepth numLimit sizeLimit).totalCount =
      if d.IsVirtualDir then 0 else 1 := by
  unfold Dir.dfsInfoInit
  cases d.IsVirtualDir with
  | true => rfl
  | false => exact wrap64_one

/-! ## The fixture's hierarchy -/

theorem Hier.servedByMock_eq (m : List (File × List File)) (h : Hier) :
    h.servedByMock m =
      (h.folder.IsFolder &&
        decide (mockAnswer m h.folder.Id = (h.files, h.subs.map Hier.folder)) &&
        servedByMockList m h.subs) := by
  cases h; rfl

theorem servedByMockList_cons (m : List (File × List File)) (h : Hier) (hs : List Hier) :
    servedByMockList m (h :: hs) = (h.servedByMock m && servedByMockList m hs) := rfl

theorem servesList_of_forall {σ : Type} (r : RetrieveNextDepthFilesFunc σ) (subs : List Hier)
    (h : ∀ s ∈ subs, s.Serves r) : servesList r subs := by
  induction subs with
  | nil => trivial
  | cons x xs ih =>
    rw [servesList_cons]
    exact ⟨h x (List.mem_cons_self _ _), ih (fun s hs => h s (List.mem_cons_of_mem _ hs))⟩

theorem servedByMockList_mem (m : List (File × List File)) (subs : List Hier)
    (h : servedByMockList m subs = true) : ∀ s ∈ subs, s.servedByMock m = true := by
  induction subs with
  | nil => intro s hs; simp at hs
  | cons x xs ih =>
    rw [servedByMockList_cons, Bool.and_eq_true] at h
    intro s hs
    rcases List.mem_cons.1 hs with e | e
    · rw [e]; exact h.1
    · exact ih h.2 s e

/-- The check is sound: a hierarchy that passes it is served by `getSubFilesMock`. -/
theorem Hier.servedByMock_sound (m : List (File × List File)) (h : Hier) :
    h.servedByMock m = true → h.Serves (getSubFilesMock m) := by
  refine Hier.induct_subs (fun h => h.servedByMock m = true → h.Serves (getSubFilesMock m)) ?_ h
  intro folder files subs ih hc
  rw [Hier.servedByMock_eq, Bool.and_eq_true, Bool.and_eq_true] at hc
  obtain ⟨⟨h1, h2⟩, h3⟩ := hc
  rw [Hier.Serves_eq]
  refine ⟨h1, ?_, ?_⟩
  · intro w
    have h2' : mockAnswer m folder.Id = (files, subs.map Hier.folder) :=
      of_decide_eq_true h2
    show Except.ok (mockAnswer m folder.Id) = Except.ok (files, subs.map Hier.folder)
    rw [h2']
  · exact servesList_of_forall _ _
      (fun s hs => ih s hs (servedByMockList_mem m subs h3 s hs))

theorem fixtureHier_serves : fixtureHier.Serves (getSubFilesMock buildTreeForTest) :=
  Hier.servedByMock_sound _ _ (by with_unfolding_all decide)

/-! ## Nodes that the loader leaves alone -/

theorem Dir.nodeAt_nil (d : Dir) : d.nodeAt [] = some d := rfl

theorem Dir.nodeAt_cons (i : Nat) (p : List Nat) (d : Dir) :
    d.nodeAt (i :: p) =
      match d.subDirs.get? i with
      | some (some c) => Dir.nodeAt p c
      | _ => none := rfl

theorem Dir.nodeAt_cons_some {i : Nat} {p : List Nat} {d c : Dir}
    (h : d.subDirs.get? i = some (some c)) : d.nodeAt (i :: p) = c.nodeAt p := by
  rw [Dir.nodeAt_cons, h]

/-- A step into a child: the node reached through a non-empty path lies below a child. -/
theorem Dir.nodeAt_cons_inv {i : Nat} {p : List Nat} {d n : Dir}
    (h : d.nodeAt (i :: p) = some n) :
    ∃ c, d.subDirs.get? i = some (some c) ∧ c.nodeAt p = some n := by
  rw [Dir.nodeAt_cons] at h
  split at h
  · rename_i c hc; exact ⟨c, hc, h⟩
  · cases h

/-- The loop replaces each child by the result of walking it, or leaves it as it is; the
walk of a child starts in a state that has every property the walks preserve. -/
theorem loopSubDirs_get {τ : Type} (walk : Dir → τ → Dir × τ × Exit) (P : τ → Prop)
    (hP : ∀ c st, P st → P (walk c st).2.1)
    (subs : List (Option Dir)) (st : τ) (hst : P st) (i : Nat) (c : Dir)
    (h : subs.get? i = some (some c)) :
    (loopSubDirs walk subs st).1.get? i = some (some c) ∨
      ∃ st2, P st2 ∧ (loopSubDirs walk subs st).1.get? i = some (some (walk c st2).1) := by
  induction subs generalizing st i with
  | nil => simp at h
  | cons hd tl ih =>
    cases hd with
    | none => rw [loopSubDirs_none]; exact Or.inl h
    | some x =>
      by_cases hx : (walk x st).2.2 = Exit.nil
      · rw [loopSubDirs_some_nil walk x tl st hx]
        cases i with
        | zero =>
          simp only [List.get?_cons_zero, Option.some.injEq] at h
          subst h
          exact Or.inr ⟨st, hst, rfl⟩
        | succ j =>
          simp only [List.get?_cons_succ] at h ⊢
          exact ih _ (hP x st hst) j h
      · rw [loopSubDirs_some_stop walk x tl st hx]
        cases i with
        | zero =>
          simp only [List.get?_cons_zero, Option.some.injEq] at h
          subst h
          exact Or.inr ⟨st, hst, rfl⟩
        | succ j =>
          simp only [List.get?_cons_succ] at h ⊢
          exact Or.inl h

theorem dfsLoadHead_of_loaded_dir {σ : Type} (retrieve : Option (RetrieveNextDepthFilesFunc σ))
    (pre : Option (DirFunc σ)) (d : Dir) (st : LoadState σ) (hl : d.loaded = true) :
    (dfsLoadHead retrieve pre d st).1 = d := by
  rcases dfsLoadHead_dir retrieve pre d st with e | ⟨files, folders, e⟩
  · exact e
  · rw [e, FillDirNoRecurse_loaded d _ _ hl]

theorem dfsLoadHead_stop_at_depth {σ : Type} (retrieve : Option (RetrieveNextDepthFilesFunc σ))
    (pre : Option (DirFunc σ)) (d : Dir) (st : LoadState σ)
    (hd : d.depth ≥ st.info.maxDepth) :
    (dfsLoadHead retrieve pre d st).1 = d ∧ (dfsLoadHead retrieve pre d st).2.2 ≠ Exit.nil := by
  cases hf : d.originInfo.IsFolder with
  | false =>
    rw [dfsLoadHead_not_folder retrieve pre d st hf]
    exact ⟨rfl, by intro e; cases e⟩
  | true =>
    rw [dfsLoadHead_too_deep retrieve pre d st hf hd]
    exact ⟨rfl, by intro e; cases e⟩

/-- A node at or beyond the depth limit that is not loaded is still there, unchanged,
after `dfsLoadDir`, wherever it sits in a tree that keeps its books. -/
theorem dfsLoadDir_keeps_deep {σ : Type} (retrieve : Option (RetrieveNextDepthFilesFunc σ))
    (pre post : Option (DirFunc σ)) (m : Int) (fuel : Nat) :
    ∀ (d : Dir) (st : LoadState σ), st.info.maxDepth = m → TreeInv d →
      ∀ (p : List Nat) (n : Dir), d.nodeAt p = some n → n.loaded = false → n.depth ≥ m →
        (dfsLoadDir retrieve pre post fuel d st).1.nodeAt p = some n := by
  induction fuel with
  | zero => intro d st _ _ p n h _ _; rw [dfsLoadDir_zero]; exact h
  | succ fuel ih =>
    intro d st hst hinv p n hp hl hd
    cases p with
    | nil =>
      rw [Dir.nodeAt_nil] at hp
      cases hp
      obtain ⟨h1, h2⟩ := dfsLoadHead_stop_at_depth retrieve pre d st (by rw [hst]; exact hd)
      rw [dfsLoadDir_head_stop retrieve pre post fuel d st h2, Dir.nodeAt_nil]
      simp only [h1]
    | cons i q =>
      obtain ⟨c, hc, hcn⟩ := Dir.nodeAt_cons_inv hp
      have hdi := (TreeInv_iff d).1 hinv
      have hdl : d.loaded = true := by
        cases hx : d.loaded with
        | true => rfl
        | false =>
          have := (hdi.1.2 hx).1
          rw [this] at hc
          simp at hc
      have hh := dfsLoadHead_of_loaded_dir retrieve pre d st hdl
      rcases dfsLoadDir_dir retrieve pre post fuel d st with e | e
      · rw [e, hh]; exact hp
      · rw [e]
        have hmem : some c ∈ d.subDirs := List.get?_mem hc
        have hcinv : TreeInv c := hdi.2 c hmem
        have hc2 : (dfsLoadHead retrieve pre d st).1.subDirs.get? i = some (some c) := by
          rw [hh]; exact hc
        rcases loopSubDirs_get (dfsLoadDir retrieve pre post fuel)
          (fun s => s.info.maxDepth = m)
          (fun x s hs => ((dfsLoadDir_limits retrieve pre post fuel x s).1).trans hs) _
          (dfsLoadHead retrieve pre d st).2.1
          (((dfsLoadHead_limits retrieve pre d st).1).trans hst) i c hc2 with g | ⟨st2, hs2, g⟩
        · have g' : ((dfsLoadHead retrieve pre d st).1.setSubDirs
              (dfsLoadKids retrieve pre post fuel d st).1).subDirs.get? i = some (some c) := g
          rw [Dir.nodeAt_cons_some g']; exact hcn
        · have g' : ((dfsLoadHead retrieve pre d st).1.setSubDirs
              (dfsLoadKids retrieve pre post fuel d st).1).subDirs.get? i =
              some (some (dfsLoadDir retrieve pre post fuel c st2).1) := g
          rw [Dir.nodeAt_cons_some g']
          exact ih c st2 hs2 hcinv q n hcn hl hd

/-! ## What the retrieval function is called for -/

theorem RetrievesFor_nil (nodes : List Dir) (m : Int) : RetrievesFor [] nodes m := by
  intro v i h; simp at h

theorem RetrievesFor_append {a b : List Event} {nodes : List Dir} {m : Int}
    (ha : RetrievesFor a nodes m) (hb : RetrievesFor b nodes m) :
    RetrievesFor (a ++ b) nodes m := by
  intro v i h
  rcases List.mem_append.1 h with e | e
  · exact ha v i e
  · exact hb v i e

theorem RetrievesFor_mono {a : List Event} {n1 n2 : List Dir} {m : Int}
    (h : RetrievesFor a n1 m) (hsub : ∀ x ∈ n1, x ∈ n2) : RetrievesFor a n2 m := by
  intro v i hv
  obtain ⟨x, hx, hr⟩ := h v i hv
  exact ⟨x, hsub x hx, hr⟩

theorem callDirFunc_trace {σ : Type} (tag : Dir → Event) (htag : ∀ x v i, tag x ≠ Event.retrieve v i)
    (f : Option (DirFunc σ)) (d : Dir) (c : Ctx σ) (nodes : List Dir) (m : Int) :
    ∃ new, (callDirFunc tag f d c).1.trace = c.trace ++ new ∧ RetrievesFor new nodes m := by
  cases f with
  | none => exact ⟨[], by rw [callDirFunc_none]; simp, RetrievesFor_nil _ _⟩
  | some g =>
    refine ⟨[tag d], by rw [callDirFunc_some], ?_⟩
    intro v i h
    rw [List.mem_singleton] at h
    exact absurd h.symm (htag d v i)

theorem dfsLoadFetch_trace {σ : Type} (retrieve : Option (RetrieveNextDepthFilesFunc σ))
    (d : Dir) (c : Ctx σ) :
    ∃ new, (dfsLoadFetch retrieve d c).2.1.trace = c.trace ++ new ∧
      ∀ v i, Event.retrieve v i ∈ new → d.originInfo.VolumeId = v ∧ d.originInfo.Id = i := by
  have hone : ∀ v i, Event.retrieve v i ∈
      [Event.retrieve d.originInfo.VolumeId d.originInfo.Id] →
      d.originInfo.VolumeId = v ∧ d.originInfo.Id = i := by
    intro v i h
    rw [List.mem_singleton] at h
    cases h
    exact ⟨rfl, rfl⟩
  cases hl : d.loaded with
  | true =>
    rw [dfsLoadFetch_of_loaded retrieve d c hl]
    exact ⟨[], by simp, fun v i h => by simp at h⟩
  | false =>
    cases retrieve with
    | none =>
      rw [dfsLoadFetch_no_func d c hl]
      exact ⟨[], by simp, fun v i h => by simp at h⟩
    | some r =>
      cases hr : (r c.world d.originInfo.VolumeId d.originInfo.Id).2 with
      | error code =>
        rw [dfsLoadFetch_error r d c hl code hr]
        exact ⟨_, rfl, hone⟩
      | ok v =>
        obtain ⟨files, folders⟩ := v
        rw [dfsLoadFetch_ok r d c hl files folders hr]
        exact ⟨_, rfl, hone⟩

/-- The head of `dfsLoadDir` calls the retrieval function for this node only, and only
when the node is below the depth limit. -/
theorem dfsLoadHead_trace {σ : Type} (retrieve : Option (RetrieveNextDepthFilesFunc σ))
    (pre : Option (DirFunc σ)) (d : Dir) (st : LoadState σ) :
    ∃ new, (dfsLoadHead retrieve pre d st).2.1.ctx.trace = st.ctx.trace ++ new ∧
      ∀ v i, Event.retrieve v i ∈ new →
        d.depth < st.info.maxDepth ∧ d.originInfo.VolumeId = v ∧ d.originInfo.Id = i := by
  cases hf : d.originInfo.IsFolder with
  | false =>
    rw [dfsLoadHead_not_folder retrieve pre d st hf]
    exact ⟨[], by simp, fun v i h => by simp at h⟩
  | true =>
    by_cases hd : d.depth ≥ st.info.maxDepth
    · rw [dfsLoadHead_too_deep retrieve pre d st hf hd]
      exact ⟨[], by simp, fun v i h => by simp at h⟩
    · have hd2 : d.depth < st.info.maxDepth := by omega
      obtain ⟨n1, t1, r1⟩ := callDirFunc_trace Event.preorder
        (fun x v i => by intro e; cases e) pre d st.ctx [] 0
      have r1' : ∀ v i, Event.retrieve v i ∉ n1 := by
        intro v i hv
        obtain ⟨x, hx, _⟩ := r1 v i hv
        simp at hx
      by_cases hp : (callDirFunc Event.preorder pre d st.ctx).2 = Exit.nil
      · obtain ⟨n2, t2, r2⟩ := dfsLoadFetch_trace retrieve d
          (callDirFunc Event.preorder pre d st.ctx).1
        have hboth : ∀ v i, Event.retrieve v i ∈ n1 ++ n2 →
            d.depth < st.info.maxDepth ∧ d.originInfo.VolumeId = v ∧ d.originInfo.Id = i := by
          intro v i hv
          rcases List.mem_append.1 hv with e | e
          · exact absurd e (r1' v i)
          · exact ⟨hd2, r2 v i e⟩
        by_cases hx : (dfsLoadFetch retrieve d
            (callDirFunc Event.preorder pre d st.ctx).1).2.2 = Exit.nil
        · rw [dfsLoadHead_account retrieve pre d st hf hd2 hp hx]
          exact ⟨n1 ++ n2, by simp only; rw [t2, t1, List.append_assoc], hboth⟩
        · rw [dfsLoadHead_fetch_stop retrieve pre d st hf hd2 hp hx]
          exact ⟨n1 ++ n2, by simp only; rw [t2, t1, List.append_assoc], hboth⟩
      · rw [dfsLoadHead_pre_stop retrieve pre d st hf hd2 hp]
        exact ⟨n1, t1, fun v i hv => absurd hv (r1' v i)⟩

theorem loopSubDirs_trace {σ : Type} (walk : Dir → LoadState σ → Dir × LoadState σ × Exit)
    (m : Int)
    (hlim : ∀ c st, sameLimits (walk c st).2.1.info st.info)
    (hw : ∀ c st, st.info.maxDepth = m →
      ∃ new, (walk c st).2.1.ctx.trace = st.ctx.trace ++ new ∧
        RetrievesFor new (walk c st).1.nodes m)
    (subs : List (Option Dir)) (st : LoadState σ) (hst : st.info.maxDepth = m) :
    ∃ new, (loopSubDirs walk subs st).2.1.ctx.trace = st.ctx.trace ++ new ∧
      RetrievesFor new (nodesList (loopSubDirs walk subs st).1) m := by
  induction subs generalizing st with
  | nil => exact ⟨[], by rw [loopSubDirs_nil]; simp, RetrievesFor_nil _ _⟩
  | cons hd tl ih =>
    cases hd with
    | none => exact ⟨[], by rw [loopSubDirs_none]; simp, RetrievesFor_nil _ _⟩
    | some x =>
      obtain ⟨n1, t1, r1⟩ := hw x st hst
      by_cases hx : (walk x st).2.2 = Exit.nil
      · rw [loopSubDirs_some_nil walk x tl st hx]
        obtain ⟨n2, t2, r2⟩ := ih (walk x st).2.1 ((hlim x st).1.trans hst)
        refine ⟨n1 ++ n2, by simp only; rw [t2, t1, List.append_assoc], ?_⟩
        rw [nodesList_some]
        exact RetrievesFor_append
          (RetrievesFor_mono r1 (fun y hy => List.mem_append_left _ hy))
          (RetrievesFor_mono r2 (fun y hy => List.mem_append_right _ hy))
      · rw [loopSubDirs_some_stop walk x tl st hx]
        refine ⟨n1, t1, ?_⟩
        rw [nodesList_some]
        exact RetrievesFor_mono r1 (fun y hy => List.mem_append_left _ hy)

/-- Every call of the retrieval function that `dfsLoadDir` makes is for a node of the
resulting tree whose depth is below the limit, with that node's volume id and id. -/
theorem dfsLoadDir_trace {σ : Type} (retrieve : Option (RetrieveNextDepthFilesFunc σ))
    (pre post : Option (DirFunc σ)) (m : Int) (fuel : Nat) :
    ∀ (d : Dir) (st : LoadState σ), st.info.maxDepth = m →
      ∃ new, (dfsLoadDir retrieve pre post fuel d st).2.1.ctx.trace = st.ctx.trace ++ new ∧
        RetrievesFor new (dfsLoadDir retrieve pre post fuel d st).1.nodes m := by
  induction fuel with
  | zero => intro d st _; exact ⟨[], by rw [dfsLoadDir_zero]; simp, RetrievesFor_nil _ _⟩
  | succ fuel ih =>
    intro d st hst
    obtain ⟨n1, t1, r1⟩ := dfsLoadHead_trace retrieve pre d st
    have hself : ∀ (x : Dir), x.depth = d.depth → x.originInfo = d.originInfo →
        RetrievesFor n1 x.nodes m := by
      intro x hxd hxo v i hv
      obtain ⟨a, b, c⟩ := r1 v i hv
      exact ⟨x, Dir.self_mem_nodes x, by rw [hxd, ← hst]; exact a, by rw [hxo]; exact b,
        by rw [hxo]; exact c⟩
    by_cases hh : (dfsLoadHead retrieve pre d st).2.2 = Exit.nil
    · obtain ⟨n2, t2, r2⟩ := loopSubDirs_trace (dfsLoadDir retrieve pre post fuel) m
        (dfsLoadDir_limits retrieve pre post fuel) ih
        (dfsLoadHead retrieve pre d st).1.subDirs (dfsLoadHead retrieve pre d st).2.1
        ((dfsLoadHead_limits retrieve pre d st).1.trans hst)
      have t2' : (dfsLoadKids retrieve pre post fuel d st).2.1.ctx.trace =
          (dfsLoadHead retrieve pre d st).2.1.ctx.trace ++ n2 := t2
      have r2' : RetrievesFor n2 (nodesList (dfsLoadKids retrieve pre post fuel d st).1) m := r2
      have hnodes : RetrievesFor (n1 ++ n2)
          ((dfsLoadHead retrieve pre d st).1.setSubDirs
            (dfsLoadKids retrieve pre post fuel d st).1).nodes m := by
        refine RetrievesFor_append
          (hself _ (by rw [Dir.setSubDirs_depth, dfsLoadHead_depth])
            (by rw [Dir.setSubDirs_originInfo, dfsLoadHead_originInfo])) ?_
        refine RetrievesFor_mono r2' ?_
        intro y hy
        rw [Dir.nodes_eq, Dir.setSubDirs_subDirs]
        exact List.mem_cons_of_mem _ hy
      by_cases hk : (dfsLoadKids retrieve pre post fuel d st).2.2 = Exit.nil
      · rw [dfsLoadDir_kids_done retrieve pre post fuel d st hh hk]
        obtain ⟨n3, t3, r3⟩ := callDirFunc_trace Event.postorder
          (fun x v i => by intro e; cases e) post
          ((dfsLoadHead retrieve pre d st).1.setSubDirs
            (dfsLoadKids retrieve pre post fuel d st).1)
          (dfsLoadKids retrieve pre post fuel d st).2.1.ctx
          ((dfsLoadHead retrieve pre d st).1.setSubDirs
            (dfsLoadKids retrieve pre post fuel d st).1).nodes m
        refine ⟨(n1 ++ n2) ++ n3, ?_, RetrievesFor_append hnodes r3⟩
        simp only
        rw [t3, t2', t1, List.append_assoc, List.append_assoc, List.append_assoc]
      · rw [dfsLoadDir_kids_stop retrieve pre post fuel d st hh hk]
        refine ⟨n1 ++ n2, ?_, hnodes⟩
        simp only
        rw [t2', t1, List.append_assoc]
    · rw [dfsLoadDir_head_stop retrieve pre post fuel d st hh]
      exact ⟨n1, t1, hself _ (dfsLoadHead_depth retrieve pre d st)
        (dfsLoadHead_originInfo retrieve pre d st)⟩

theorem Dir.nodeAt_mem_nodes (p : List Nat) : ∀ (d n : Dir), d.nodeAt p = some n → n ∈ d.nodes := by
  induction p with
  | nil =>
    intro d n h
    rw [Dir.nodeAt_nil] at h
    cases h
    exact Dir.self_mem_nodes _
  | cons i q ih =>
    intro d n h
    obtain ⟨c, hc, hcn⟩ := Dir.nodeAt_cons_inv h
    rw [Dir.nodes_eq]
    exact List.mem_cons_of_mem _ (mem_nodesList.2 ⟨c, List.get?_mem hc, ih c n hcn⟩)

theorem dfsInfoInit_maxDepth (d : Dir) (maxDepth numLimit sizeLimit : Int)
    (h : 0 ≤ maxDepth) : (d.dfsInfoInit maxDepth numLimit sizeLimit).maxDepth = maxDepth := by
  unfold Dir.dfsInfoInit
  have : ¬ maxDepth < 0 := by omega
  simp only [this, if_false]

/-! ## The depth limit -/

theorem runningTotals_nil (tc ts : Int) : runningTotals tc ts [] = [] := rfl

theorem runningTotals_cons (tc ts : Int) (s : Int × Int × Int)
    (rest : List (Int × Int × Int)) :
    runningTotals tc ts (s :: rest) =
      (wrap64 (tc + s.2.1), wrap64 (ts + s.2.2)) ::
        runningTotals (wrap64 (tc + s.2.1)) (wrap64 (ts + s.2.2)) rest := rfl

/-- Depth limit: when the running totals never exceed the count and size limits, the walk
fails with `errMaxPathDepthLimit` exactly when some folder is at or beyond the depth
limit, and returns nil otherwise. -/
theorem walkSteps_depth (steps : List (Int × Int × Int)) :
    ∀ (info : dsfLoadInfo),
      (∀ t ∈ runningTotals info.totalCount info.totalSize steps,
        t.1 ≤ info.numLimit ∧ (info.sizeLimit ≥ 0 → t.2 ≤ info.sizeLimit)) →
      ((∃ s ∈ steps, s.1 ≥ info.maxDepth) →
        (walkSteps info steps).2 = Exit.error Err.errMaxPathDepthLimit) ∧
      ((∀ s ∈ steps, s.1 < info.maxDepth) → (walkSteps info steps).2 = Exit.nil) := by
  induction steps with
  | nil =>
    intro info _
    exact ⟨fun ⟨s, hs, _⟩ => by simp at hs, fun _ => rfl⟩
  | cons s rest ih =>
    intro info hlim
    rw [runningTotals_cons] at hlim
    by_cases hd : s.1 ≥ info.maxDepth
    · rw [walkSteps_cons_deep info s rest hd]
      refine ⟨fun _ => rfl, fun hall => ?_⟩
      have := hall s (List.mem_cons_self _ _)
      omega
    · have hd2 : s.1 < info.maxDepth := by omega
      have h1 := hlim _ (List.mem_cons_self _ _)
      have ha : (dfsLoadAccount s.2.1 s.2.2 info).2 = Exit.nil := by
        refine dfsLoadAccount_go s.2.1 s.2.2 info h1.1 ?_
        by_cases hs : info.sizeLimit ≥ 0
        · exact Or.inr (h1.2 hs)
        · exact Or.inl (by omega)
      rw [walkSteps_cons_go info s rest hd2 ha]
      have hi := dfsLoadAccount_info s.2.1 s.2.2 info
      have key := ih (dfsLoadAccount s.2.1 s.2.2 info).1 (by
        rw [hi]
        intro t ht
        exact hlim t (List.mem_cons_of_mem _ ht))
      rw [hi] at key ⊢
      constructor
      · rintro ⟨x, hx, hxd⟩
        rcases List.mem_cons.1 hx with e | e
        · rw [e] at hxd; omega
        · exact key.1 ⟨x, e, hxd⟩
      · intro hall
        exact key.2 (fun x hx => hall x (List.mem_cons_of_mem _ hx))

/-! ## The size limit -/

/-- Size limit: with every folder below the depth limit, a count limit that the running
count never exceeds, a size limit `≥ 0`, sizes that are not negative and a total that
stays `int64`, the walk fails with `errTotalSizeLimit` exactly when the final size
exceeds the limit, and otherwise returns nil with that size. -/
theorem walkSteps_size (steps : List (Int × Int × Int)) :
    ∀ (info : dsfLoadInfo), steps ≠ [] →
      (∀ s ∈ steps, s.1 < info.maxDepth) →
      (∀ t ∈ runningTotals info.totalCount info.totalSize steps, t.1 ≤ info.numLimit) →
      0 ≤ info.sizeLimit → (∀ s ∈ steps, 0 ≤ s.2.2) → 0 ≤ info.totalSize →
      info.totalSize + (steps.map (fun s => s.2.2)).sum < 9223372036854775808 →
      (info.totalSize + (steps.map (fun s => s.2.2)).sum > info.sizeLimit →
        (walkSteps info steps).2 = Exit.error Err.errTotalSizeLimit) ∧
      (info.totalSize + (steps.map (fun s => s.2.2)).sum ≤ info.sizeLimit →
        (walkSteps info steps).2 = Exit.nil ∧
        (walkSteps info steps).1.totalSize =
          info.totalSize + (steps.map (fun s => s.2.2)).sum) := by
  induction steps with
  | nil => intro info h; exact absurd rfl h
  | cons s rest ih =>
    intro info _ hdepth hcount hS hnn h0 hsum
    rw [List.map_cons, List.sum_cons] at hsum ⊢
    rw [runningTotals_cons] at hcount
    have hs0 := hnn s (List.mem_cons_self _ _)
    have hrest := list_sum_nonneg (rest.map (fun s => s.2.2)) (by
      intro x hx
      obtain ⟨y, hy, e⟩ := List.mem_map.1 hx
      rw [← e]; exact hnn y (List.mem_cons_of_mem _ hy))
    have hd := hdepth s (List.mem_cons_self _ _)
    have hw : wrap64 (info.totalSize + s.2.2) = info.totalSize + s.2.2 :=
      wrap64_of_range _ (by omega) (by omega)
    have hc1 : wrap64 (info.totalCount + s.2.1) ≤ info.numLimit :=
      hcount _ (List.mem_cons_self _ _)
    by_cases hc : info.totalSize + s.2.2 > info.sizeLimit
    · have ha := dfsLoadAccount_size_stop s.2.1 s.2.2 info hc1 hS (by rw [hw]; exact hc)
      rw [walkSteps_cons_stop info s rest hd (by rw [ha]; intro e; cases e)]
      exact ⟨fun _ => ha, fun hle => by omega⟩
    · have ha := dfsLoadAccount_go s.2.1 s.2.2 info hc1 (Or.inr (by rw [hw]; omega))
      rw [walkSteps_cons_go info s rest hd ha]
      have hi : (dfsLoadAccount s.2.1 s.2.2 info).1 =
          ⟨info.maxDepth, info.sizeLimit, info.numLimit, wrap64 (info.totalCount + s.2.1),
            info.totalSize + s.2.2⟩ := by
        rw [dfsLoadAccount_info, hw]
      rw [hi]
      cases rest with
      | nil =>
        rw [walkSteps_nil]
        simp only [List.map_nil, List.sum_nil, add_zero]
        exact ⟨fun hgt => absurd hgt hc, fun _ => ⟨trivial, trivial⟩⟩
      | cons t rest2 =>
        have key := ih ⟨info.maxDepth, info.sizeLimit, info.numLimit,
            wrap64 (info.totalCount + s.2.1), info.totalSize + s.2.2⟩ (by simp)
          (fun x hx => hdepth x (List.mem_cons_of_mem _ hx))
          (by
            intro x hx
            refine hcount x (List.mem_cons_of_mem _ ?_)
            rw [hw]; exact hx)
          hS
          (fun x hx => hnn x (List.mem_cons_of_mem _ hx))
          (by show 0 ≤ info.totalSize + s.2.2; omega)
          (by
            show info.totalSize + s.2.2 + ((t :: rest2).map (fun s => s.2.2)).sum <
              9223372036854775808
            omega)
        dsimp only at key
        constructor
        · intro hgt; exact key.1 (by omega)
        · intro hle
          obtain ⟨k1, k2⟩ := key.2 (by omega)
          exact ⟨k1, by rw [k2]; omega⟩

theorem Hier.fileSizes_eq (h : Hier) :
    h.fileSizes = h.files.map File.Size ++ fileSizesList h.subs := by
  cases h; rfl

theorem fileSizesList_nil : fileSizesList [] = [] := rfl

theorem fileSizesList_cons (h : Hier) (hs : List Hier) :
    fileSizesList (h :: hs) = h.fileSizes ++ fileSizesList hs := rfl

/-- The sizes of the folders of a list of hierarchies add up to the sum of all file
sizes, as long as no size is negative and that sum is an `int64`. -/
theorem stepsList_sizes (subs : List Hier)
    (ih : ∀ s ∈ subs, ∀ k : Int, (∀ x ∈ s.fileSizes, 0 ≤ x) →
      s.fileSizes.sum < 9223372036854775808 →
      (∀ t ∈ s.steps k, 0 ≤ t.2.2) ∧ ((s.steps k).map (fun t => t.2.2)).sum = s.fileSizes.sum)
    (k : Int) (hnn : ∀ x ∈ fileSizesList subs, 0 ≤ x)
    (hb : (fileSizesList subs).sum < 9223372036854775808) :
    (∀ t ∈ stepsList k subs, 0 ≤ t.2.2) ∧
      ((stepsList k subs).map (fun t => t.2.2)).sum = (fileSizesList subs).sum := by
  induction subs with
  | nil =>
    exact ⟨fun t ht => by simp [stepsList_nil] at ht, by simp [stepsList_nil, fileSizesList_nil]⟩
  | cons x xs ihl =>
    rw [fileSizesList_cons] at hnn hb ⊢
    rw [stepsList_cons]
    rw [List.sum_append] at hb
    have hx0 := list_sum_nonneg x.fileSizes (fun y hy => hnn y (List.mem_append_left _ hy))
    have hxs0 := list_sum_nonneg (fileSizesList xs)
      (fun y hy => hnn y (List.mem_append_right _ hy))
    obtain ⟨a1, a2⟩ := ih x (List.mem_cons_self _ _) k
      (fun y hy => hnn y (List.mem_append_left _ hy)) (by omega)
    obtain ⟨b1, b2⟩ := ihl (fun s hs => ih s (List.mem_cons_of_mem _ hs))
      (fun y hy => hnn y (List.mem_append_right _ hy)) (by omega)
    constructor
    · intro t ht
      rcases List.mem_append.1 ht with e | e
      · exact a1 t e
      · exact b1 t e
    · rw [List.map_append, List.sum_append, a2, b2, List.sum_append]

theorem Hier.steps_sizes (h : Hier) :
    ∀ k : Int, (∀ x ∈ h.fileSizes, 0 ≤ x) → h.fileSizes.sum < 9223372036854775808 →
      (∀ t ∈ h.steps k, 0 ≤ t.2.2) ∧
        ((h.steps k).map (fun t => t.2.2)).sum = h.fileSizes.sum := by
  refine Hier.induct_subs
    (fun h => ∀ k : Int, (∀ x ∈ h.fileSizes, 0 ≤ x) →
      h.fileSizes.sum < 9223372036854775808 →
      (∀ t ∈ h.steps k, 0 ≤ t.2.2) ∧
        ((h.steps k).map (fun t => t.2.2)).sum = h.fileSizes.sum) ?_ h
  intro folder files subs ih k hnn hb
  rw [Hier.fileSizes_eq] at hnn hb ⊢
  rw [Hier.steps_eq]
  simp only [Hier.files, Hier.subs] at hnn hb ⊢
  rw [List.sum_append] at hb
  have hf0 := list_sum_nonneg (files.map File.Size)
    (fun y hy => hnn y (List.mem_append_left _ hy))
  have hs0 := list_sum_nonneg (fileSizesList subs)
    (fun y hy => hnn y (List.mem_append_right _ hy))
  obtain ⟨b1, b2⟩ := stepsList_sizes subs ih (wrap64 (k + 1))
    (fun y hy => hnn y (List.mem_append_right _ hy)) (by omega)
  have hw : sum64 (files.map File.Size) = (files.map File.Size).sum := by
    rw [sum64_eq]
    exact wrap64_of_range _ (by omega) (by omega)
  constructor
  · intro t ht
    rcases List.mem_cons.1 ht with e | e
    · rw [e]; simp only; rw [hw]; exact hf0
    · exact b1 t e
  · rw [List.map_cons, List.sum_cons, b2, List.sum_append]
    simp only
    rw [hw]

theorem list_sum_eq_zero (xs : List Int) (h : ∀ x ∈ xs, 0 ≤ x) :
    xs.sum = 0 ↔ ∀ x ∈ xs, x = 0 := by
  induction xs with
  | nil => simp
  | cons x xs ih =>
    have hx := h x (List.mem_cons_self _ _)
    have hxs := list_sum_nonneg xs (fun y hy => h y (List.mem_cons_of_mem _ hy))
    have ih' := ih (fun y hy => h y (List.mem_cons_of_mem _ hy))
    rw [List.sum_cons]
    constructor
    · intro hs y hy
      rcases List.mem_cons.1 hy with e | e
      · rw [e]; omega
      · exact ih'.1 (by omega) y e
    · intro hall
      have h1 := hall x (List.mem_cons_self _ _)
      have h2 := ih'.2 (fun y hy => hall y (List.mem_cons_of_mem _ hy))
      omega

/-! ## No size limit -/

theorem callDirFunc_ne_sizeLimit {σ : Type} (tag : Dir → Event) (f : Option (DirFunc σ))
    (d : Dir) (c : Ctx σ) :
    (callDirFunc tag f d c).2 ≠ Exit.error Err.errTotalSizeLimit := by
  cases f with
  | none => rw [callDirFunc_none]; intro h; cases h
  | some g =>
    rw [callDirFunc_some]
    cases (g c.world d).2 <;> (intro h; cases h)

theorem dfsLoadFetch_ne_sizeLimit {σ : Type} (retrieve : Option (RetrieveNextDepthFilesFunc σ))
    (d : Dir) (c : Ctx σ) :
    (dfsLoadFetch retrieve d c).2.2 ≠ Exit.error Err.errTotalSizeLimit := by
  cases hl : d.loaded with
  | true => rw [dfsLoadFetch_of_loaded retrieve d c hl]; intro h; cases h
  | false =>
    cases retrieve with
    | none => rw [dfsLoadFetch_no_func d c hl]; intro h; cases h
    | some r =>
      cases hr : (r c.world d.originInfo.VolumeId d.originInfo.Id).2 with
      | error code => rw [dfsLoadFetch_error r d c hl code hr]; intro h; cases h
      | ok v =>
        obtain ⟨files, folders⟩ := v
        rw [dfsLoadFetch_ok r d c hl files folders hr]; intro h; cases h

theorem dfsLoadAccount_ne_sizeLimit (count size : Int) (info : dsfLoadInfo)
    (hs : info.sizeLimit < 0) :
    (dfsLoadAccount count size info).2 ≠ Exit.error Err.errTotalSizeLimit := by
  by_cases hc : wrap64 (info.totalCount + count) > info.numLimit
  · rw [dfsLoadAccount_count_stop count size info hc]; intro h; cases h
  · rw [dfsLoadAccount_go count size info (by omega) (Or.inl hs)]; intro h; cases h

theorem dfsLoadHead_ne_sizeLimit {σ : Type} (retrieve : Option (RetrieveNextDepthFilesFunc σ))
    (pre : Option (DirFunc σ)) (d : Dir) (st : LoadState σ) (hs : st.info.sizeLimit < 0) :
    (dfsLoadHead retrieve pre d st).2.2 ≠ Exit.error Err.errTotalSizeLimit := by
  cases hf : d.originInfo.IsFolder with
  | false => rw [dfsLoadHead_not_folder retrieve pre d st hf]; intro h; cases h
  | true =>
    by_cases hd : d.depth ≥ st.info.maxDepth
    · rw [dfsLoadHead_too_deep retrieve pre d st hf hd]; intro h; cases h
    · have hd2 : d.depth < st.info.maxDepth := by omega
      by_cases hp : (callDirFunc Event.preorder pre d st.ctx).2 = Exit.nil
      · by_cases hx : (dfsLoadFetch retrieve d
            (callDirFunc Event.preorder pre d st.ctx).1).2.2 = Exit.nil
        · rw [dfsLoadHead_account retrieve pre d st hf hd2 hp hx]
          exact dfsLoadAccount_ne_sizeLimit _ _ _ hs
        · rw [dfsLoadHead_fetch_stop retrieve pre d st hf hd2 hp hx]
          exact dfsLoadFetch_ne_sizeLimit _ _ _
      · rw [dfsLoadHead_pre_stop retrieve pre d st hf hd2 hp]
        exact callDirFunc_ne_sizeLimit _ _ _ _

theorem loopSubDirs_ne_sizeLimit {σ : Type}
    (walk : Dir → LoadState σ → Dir × LoadState σ × Exit)
    (hlim : ∀ c st, sameLimits (walk c st).2.1.info st.info)
    (hw : ∀ c st, st.info.sizeLimit < 0 →
      (walk c st).2.2 ≠ Exit.error Err.errTotalSizeLimit)
    (subs : List (Option Dir)) (st : LoadState σ) (hst : st.info.sizeLimit < 0) :
    (loopSubDirs walk subs st).2.2 ≠ Exit.error Err.errTotalSizeLimit := by
  induction subs generalizing st with
  | nil => rw [loopSubDirs_nil]; intro h; cases h
  | cons hd tl ih =>
    cases hd with
    | none => rw [loopSubDirs_none]; intro h; cases h
    | some c =>
      by_cases hx : (walk c st).2.2 = Exit.nil
      · rw [loopSubDirs_some_nil walk c tl st hx]
        exact ih _ (by rw [(hlim c st).2.1]; exact hst)
      · rw [loopSubDirs_some_stop walk c tl st hx]
        exact hw c st hst

/-- With a negative size limit `dfsLoadDir` never ends with `errTotalSizeLimit`. -/
theorem dfsLoadDir_ne_sizeLimit {σ : Type} (retrieve : Option (RetrieveNextDepthFilesFunc σ))
    (pre post : Option (DirFunc σ)) (fuel : Nat) :
    ∀ (d : Dir) (st : LoadState σ), st.info.sizeLimit < 0 →
      (dfsLoadDir retrieve pre post fuel d st).2.2 ≠ Exit.error Err.errTotalSizeLimit := by
  induction fuel with
  | zero => intro d st _; rw [dfsLoadDir_zero]; intro h; cases h
  | succ fuel ih =>
    intro d st hs
    by_cases hh : (dfsLoadHead retrieve pre d st).2.2 = Exit.nil
    · by_cases hk : (dfsLoadKids retrieve pre post fuel d st).2.2 = Exit.nil
      · rw [dfsLoadDir_kids_done retrieve pre post fuel d st hh hk]
        exact callDirFunc_ne_sizeLimit _ _ _ _
      · rw [dfsLoadDir_kids_stop retrieve pre post fuel d st hh hk]
        exact loopSubDirs_ne_sizeLimit _ (dfsLoadDir_limits retrieve pre post fuel) ih _ _
          (by rw [(dfsLoadHead_limits retrieve pre d st).2.1]; exact hs)
    · rw [dfsLoadDir_head_stop retrieve pre post fuel d st hh]
      exact dfsLoadHead_ne_sizeLimit retrieve pre d st hs

theorem dfsInfoInit_neg_maxDepth (d : Dir) (maxDepth numLimit sizeLimit : Int)
    (h : maxDepth < 0) :
    d.dfsInfoInit maxDepth numLimit sizeLimit = d.dfsInfoInit 100 numLimit sizeLimit := by
  unfold Dir.dfsInfoInit
  have h2 : ¬ (100 : Int) < 0 := by decide
  simp only [h, if_true, h2, if_false, defMaxDepth]

theorem dfsInfoInit_neg_numLimit (d : Dir) (maxDepth numLimit sizeLimit : Int)
    (h : numLimit < 0) :
    d.dfsInfoInit maxDepth numLimit sizeLimit = d.dfsInfoInit maxDepth 100000 sizeLimit := by
  unfold Dir.dfsInfoInit
  have h2 : ¬ (100000 : Int) < 0 := by decide
  simp only [h, if_true, h2, if_false, defMaxTotalCount]

/-! ## Totals and enumerations -/

theorem wrap64_sum_map_wrap64 {α : Type} (g : α → Int) (xs : List α) (a : Int) :
    wrap64 (a + (xs.map (fun x => wrap64 (g x))).sum) = wrap64 (a + (xs.map g).sum) := by
  induction xs generalizing a with
  | nil => rfl
  | cons x xs ih =>
    simp only [List.map_cons, List.sum_cons]
    rw [← add_assoc, ih, ← add_assoc, add_comm a (wrap64 (g x)), add_assoc,
      wrap64_add_left, ← add_assoc, add_comm (g x) a]

theorem foldl_append_length {α β : Type} (f : α → List β) (ns : List α) (init : List β) :
    (ns.foldl (fun acc n => acc ++ f n) init).length =
      init.length + (ns.map (fun n => (f n).length)).sum := by
  induction ns generalizing init with
  | nil => simp
  | cons n ns ih =>
    rw [List.foldl_cons, ih, List.length_append, List.map_cons, List.sum_cons]
    omega

theorem foldl_append_sum {α β : Type} (f : α → List β) (g : β → Int) (ns : List α)
    (init : List β) :
    ((ns.foldl (fun acc n => acc ++ f n) init).map g).sum =
      (init.map g).sum + (ns.map (fun n => ((f n).map g).sum)).sum := by
  induction ns generalizing init with
  | nil => simp
  | cons n ns ih =>
    rw [List.foldl_cons, ih, List.map_append, List.sum_append, List.map_cons, List.sum_cons]
    omega

theorem foldl_congr_mem {α β : Type} (f g : β → α → β) (ns : List α)
    (h : ∀ n ∈ ns, ∀ b, f b n = g b n) (init : β) : ns.foldl f init = ns.foldl g init := by
  induction ns generalizing init with
  | nil => rfl
  | cons n ns ih =>
    rw [List.foldl_cons, List.foldl_cons, h n (List.mem_cons_self _ _),
      ih (fun m hm => h m (List.mem_cons_of_mem _ hm))]

/-- Every node of a fully loaded tree is the root of a fully loaded tree. -/
theorem Dir.fullyLoaded_sub (d : Dir) :
    d.fullyLoaded = true → ∀ n ∈ d.nodes, n.fullyLoaded = true := by
  refine Dir.induct_subDirs (fun d => d.fullyLoaded = true → ∀ n ∈ d.nodes, n.fullyLoaded = true) ?_ d
  intro o subs files depth count size loaded ih hfull n hn
  rw [Dir.nodes_eq] at hn
  rcases List.mem_cons.1 hn with e | e
  · rw [e]; exact hfull
  · rw [Dir.fullyLoaded_eq, Bool.and_eq_true] at hfull
    obtain ⟨c, hc, hnc⟩ := mem_nodesList.1 e
    exact ih c hc ((fullyLoadedList_mem hfull.2).2 c hc) n hnc

theorem GetSubFolders_foldl (subs : List (Option Dir)) (h : ∀ o ∈ subs, o ≠ none)
    (acc : List File) :
    ∃ fs : List File, fs.length = acc.length + subs.length ∧
      subs.foldl
        (fun folders subDir =>
          match folders, subDir with
          | some fs, some s => some (fs ++ [s.originInfo])
          | _, _ => none)
        (some acc) = some fs := by
  induction subs generalizing acc with
  | nil => exact ⟨acc, by simp, rfl⟩
  | cons x xs ih =>
    cases x with
    | none => exact absurd rfl (h none (List.mem_cons_self _ _))
    | some s =>
      obtain ⟨fs, hlen, hfs⟩ := ih (fun o ho => h o (List.mem_cons_of_mem _ ho))
        (acc ++ [s.originInfo])
      refine ⟨fs, ?_, ?_⟩
      · rw [hlen]; simp; omega
      · rw [List.foldl_cons]; exact hfs

/-- On a node without nil children `GetSubFoldersAndFiles` returns a list that has one
descriptor for each sub-directory and each file. -/
theorem GetSubFoldersAndFiles_length (n : Dir) (h : n.fullyLoaded = true) :
    ∃ l : List File, l.length = n.subDirs.length + n.subFiles.length ∧
      n.GetSubFoldersAndFiles = some l := by
  rw [Dir.fullyLoaded_eq, Bool.and_eq_true] at h
  obtain ⟨fs, hlen, hfs⟩ := GetSubFolders_foldl n.subDirs (fullyLoadedList_mem h.2).1 []
  refine ⟨fs ++ n.subFiles, ?_, ?_⟩
  · rw [List.length_append, hlen]; simp
  · unfold Dir.GetSubFoldersAndFiles Dir.GetSubFolders
    rw [hfs]
    rfl

theorem cast_sum_map {α : Type} (f : α → Nat) (xs : List α) :
    (((xs.map f).sum : Nat) : Int) = (xs.map (fun x => (f x : Int))).sum := by
  induction xs with
  | nil => rfl
  | cons x xs ih => simp only [List.map_cons, List.sum_cons, Nat.cast_add, ih]

/-- On a fully loaded tree `GetAllPureFiles` returns the files of the nodes in pre-order. -/
theorem GetAllPureFiles_fullyLoaded (d : Dir) (hf : d.fullyLoaded = true) :
    d.GetAllPureFiles = some (d.nodes.foldl (fun acc n => acc ++ n.subFiles) []) := by
  unfold Dir.GetAllPureFiles
  rw [DfsWithFunc_pre_fold addPureFiles d hf (fun _ _ _ => rfl)]
  rfl

/-- On a fully loaded tree `GetAllFoldersAndFiles` returns the root's descriptor, unless
the root is virtual, and then the direct children of the nodes in pre-order. -/
theorem GetAllFoldersAndFiles_fullyLoaded (d : Dir) (hf : d.fullyLoaded = true) :
    d.GetAllFoldersAndFiles =
      some (d.nodes.foldl (fun acc n => acc ++ (n.GetSubFoldersAndFiles).getD [])
        (if !d.IsVirtualDir then [d.originInfo] else [])) := by
  have hsub := Dir.fullyLoaded_sub d hf
  have hnil : ∀ n ∈ d.nodes, ∀ w, (addSubFoldersAndFiles w n).2 = CallRet.nil := by
    intro n hn w
    obtain ⟨l, _, hl⟩ := GetSubFoldersAndFiles_length n (hsub n hn)
    unfold addSubFoldersAndFiles
    rw [hl]
  have hstep : ∀ n ∈ d.nodes, ∀ w,
      (addSubFoldersAndFiles w n).1 = w ++ (n.GetSubFoldersAndFiles).getD [] := by
    intro n hn w
    obtain ⟨l, _, hl⟩ := GetSubFoldersAndFiles_length n (hsub n hn)
    unfold addSubFoldersAndFiles
    rw [hl]
    rfl
  unfold Dir.GetAllFoldersAndFiles
  rw [DfsWithFunc_pre_fold addSubFoldersAndFiles d hf hnil]
  simp only
  rw [foldl_congr_mem _ _ d.nodes hstep]

/-! ## Breadth-first walk -/

theorem Dir.height_eq (d : Dir) : d.height = heightList d.subDirs + 1 := by
  cases d; simp [Dir.height]

@[simp] theorem heightList_nil : heightList [] = 0 := by simp [heightList]

@[simp] theorem heightList_none (cs : List (Option Dir)) :
    heightList (none :: cs) = heightList cs := by simp [heightList]

@[simp] theorem heightList_some (c : Dir) (cs : List (Option Dir)) :
    heightList (some c :: cs) = max c.height (heightList cs) := by simp [heightList]

theorem heightList_append (a b : List (Option Dir)) :
    heightList (a ++ b) = max (heightList a) (heightList b) := by
  induction a with
  | nil => simp
  | cons hd tl ih =>
    cases hd with
    | none => simpa using ih
    | some c => simp only [List.cons_append, heightList_some, ih, Nat.max_assoc]

@[simp] theorem levelDirs_nil : levelDirs [] = [] := rfl

@[simp] theorem levelDirs_none (cs : List (Option Dir)) :
    levelDirs (none :: cs) = levelDirs cs := rfl

@[simp] theorem levelDirs_some (c : Dir) (cs : List (Option Dir)) :
    levelDirs (some c :: cs) = c :: levelDirs cs := rfl

@[simp] theorem nextDepthDirs_nil : nextDepthDirs [] = [] := rfl

@[simp] theorem nextDepthDirs_none (cs : List (Option Dir)) :
    nextDepthDirs (none :: cs) = nextDepthDirs cs := rfl

@[simp] theorem nextDepthDirs_some (c : Dir) (cs : List (Option Dir)) :
    nextDepthDirs (some c :: cs) = c.subDirs ++ nextDepthDirs cs := rfl

theorem bfsLevels_zero (curr : List (Option Dir)) : bfsLevels 0 curr = [] := rfl

theorem bfsLevels_nil (n : Nat) : bfsLevels n [] = [] := by cases n <;> rfl

theorem bfsLevels_succ_cons (n : Nat) (x : Option Dir) (xs : List (Option Dir)) :
    bfsLevels (n + 1) (x :: xs) =
      levelDirs (x :: xs) :: bfsLevels n (nextDepthDirs (x :: xs)) := rfl

/-- The next level is one lower. -/
theorem heightList_nextDepthDirs (curr : List (Option Dir)) :
    heightList (nextDepthDirs curr) = heightList curr - 1 := by
  induction curr with
  | nil => rfl
  | cons hd tl ih =>
    cases hd with
    | none => simpa using ih
    | some c =>
      rw [nextDepthDirs_some, heightList_append, heightList_some, ih, Dir.height_eq]
      omega

theorem nodesList_append (a b : List (Option Dir)) :
    nodesList (a ++ b) = nodesList a ++ nodesList b := by
  induction a with
  | nil => simp
  | cons hd tl ih =>
    cases hd with
    | none => simpa using ih
    | some c => simp only [List.cons_append, nodesList_some, ih, List.append_assoc]

/-- The nodes below a level are the nodes of the level and the nodes below the next. -/
theorem nodesList_perm_level (curr : List (Option Dir)) :
    (nodesList curr).Perm (levelDirs curr ++ nodesList (nextDepthDirs curr)) := by
  induction curr with
  | nil => exact List.Perm.refl _
  | cons hd tl ih =>
    cases hd with
    | none => simpa using ih
    | some c =>
      rw [nodesList_some, Dir.nodes_eq, levelDirs_some, nextDepthDirs_some, nodesList_append]
      simp only [List.cons_append]
      refine List.Perm.cons c ?_
      refine (List.Perm.append_left _ ih).trans ?_
      rw [← List.append_assoc, ← List.append_assoc]
      exact List.Perm.append_right _ List.perm_append_comm

/-- The levels of a forest hold the nodes of the forest. -/
theorem bfsLevels_perm (n : Nat) :
    ∀ curr : List (Option Dir), heightList curr = n →
      (bfsLevels n curr).flatten.Perm (nodesList curr) := by
  induction n with
  | zero =>
    intro curr h
    rw [bfsLevels_zero]
    have hnil : nodesList curr = [] := by
      induction curr with
      | nil => rfl
      | cons hd tl ih =>
        cases hd with
        | none => rw [heightList_none] at h; rw [nodesList_none]; exact ih h
        | some c => rw [heightList_some, Dir.height_eq] at h; omega
    rw [hnil]
    exact List.Perm.refl _
  | succ n ih =>
    intro curr h
    cases curr with
    | nil => rw [heightList_nil] at h; omega
    | cons x xs =>
      rw [bfsLevels_succ_cons, List.flatten_cons]
      refine List.Perm.trans ?_ (nodesList_perm_level (x :: xs)).symm
      refine List.Perm.append_left _ (ih _ ?_)
      rw [heightList_nextDepthDirs, h]
      rfl

/-- The breadth-first order is a permutation of the pre-order. -/
theorem Dir.bfsNodes_perm (d : Dir) : d.bfsNodes.Perm d.nodes := by
  have h := bfsLevels_perm d.height [some d] (by
    rw [heightList_some, heightList_nil]; exact Nat.max_eq_left (Nat.zero_le _))
  rw [nodesList_some, nodesList_nil, List.append_nil] at h
  exact h

theorem bfsLevel_nil {σ : Type} (callBack : Option (DirFunc σ)) (next : List (Option Dir))
    (c : Ctx σ) : bfsLevel callBack [] next c = (next, c, Exit.nil) := rfl

theorem bfsLevel_none {σ : Type} (callBack : Option (DirFunc σ))
    (rest next : List (Option Dir)) (c : Ctx σ) :
    bfsLevel callBack (none :: rest) next c = (next, c, Exit.panic) := rfl

theorem bfsLevel_some {σ : Type} (callBack : Option (DirFunc σ)) (dir : Dir)
    (rest next : List (Option Dir)) (c : Ctx σ) :
    bfsLevel callBack (some dir :: rest) next c =
      match (callDirFunc Event.bfs callBack dir c).2 with
      | Exit.nil =>
        bfsLevel callBack rest (next ++ dir.subDirs) (callDirFunc Event.bfs callBack dir c).1
      | e => (next, (callDirFunc Event.bfs callBack dir c).1, e) := rfl

theorem bfsLoop_zero {σ : Type} (callBack : Option (DirFunc σ)) (curr : List (Option Dir))
    (c : Ctx σ) : bfsLoop callBack 0 curr c = (c, Exit.fuel) := rfl

theorem bfsLoop_succ_nil {σ : Type} (callBack : Option (DirFunc σ)) (fuel : Nat)
    (c : Ctx σ) : bfsLoop callBack (fuel + 1) [] c = (c, Exit.nil) := rfl

theorem bfsLoop_succ_cons {σ : Type} (callBack : Option (DirFunc σ)) (fuel : Nat)
    (x : Option Dir) (xs : List (Option Dir)) (c : Ctx σ) :
    bfsLoop callBack (fuel + 1) (x :: xs) c =
      match (bfsLevel callBack (x :: xs) [] c).2.2 with
      | Exit.nil =>
        bfsLoop callBack fuel (bfsLevel callBack (x :: xs) [] c).1
          (bfsLevel callBack (x :: xs) [] c).2.1
      | e => ((bfsLevel callBack (x :: xs) [] c).2.1, e) := rfl

theorem Dir.noNil_eq (d : Dir) : d.noNil = noNilList d.subDirs := by
  cases d; simp [Dir.noNil]

@[simp] theorem noNilList_nil : noNilList [] = true := by simp [noNilList]

@[simp] theorem noNilList_none (cs : List (Option Dir)) :
    noNilList (none :: cs) = false := by simp [noNilList]

@[simp] theorem noNilList_some (c : Dir) (cs : List (Option Dir)) :
    noNilList (some c :: cs) = (c.noNil && noNilList cs) := by simp [noNilList]

theorem noNilList_append (a b : List (Option Dir)) :
    noNilList (a ++ b) = (noNilList a && noNilList b) := by
  induction a with
  | nil => simp
  | cons hd tl ih =>
    cases hd with
    | none => simp
    | some c => simp only [List.cons_append, noNilList_some, ih, Bool.and_assoc]

theorem noNilList_nextDepthDirs (curr : List (Option Dir)) (h : noNilList curr = true) :
    noNilList (nextDepthDirs curr) = true := by
  induction curr with
  | nil => rfl
  | cons hd tl ih =>
    cases hd with
    | none => simp at h
    | some c =>
      rw [noNilList_some, Bool.and_eq_true] at h
      rw [nextDepthDirs_some, noNilList_append, Bool.and_eq_true, ← Dir.noNil_eq]
      exact ⟨h.1, ih h.2⟩

theorem mem_nodesList_nextDepthDirs (curr : List (Option Dir)) (n : Dir)
    (h : n ∈ nodesList (nextDepthDirs curr)) : n ∈ nodesList curr :=
  (nodesList_perm_level curr).symm.subset (List.mem_append_right _ h)

theorem levelDirs_subset_nodesList (curr : List (Option Dir)) (n : Dir)
    (h : n ∈ levelDirs curr) : n ∈ nodesList curr :=
  (nodesList_perm_level curr).symm.subset (List.mem_append_left _ h)

/-- One level of the walk with a callback that returns nil on the nodes of the level. -/
theorem bfsLevel_fold {σ : Type} (f : DirFunc σ) :
    ∀ (curr next : List (Option Dir)) (c : Ctx σ), noNilList curr = true →
      (∀ n ∈ levelDirs curr, ∀ w, (f w n).2 = CallRet.nil) →
      bfsLevel (some f) curr next c =
        (next ++ nextDepthDirs curr,
          ⟨(levelDirs curr).foldl (fun w n => (f w n).1) c.world,
            c.trace ++ (levelDirs curr).map Event.bfs⟩, Exit.nil) := by
  intro curr
  induction curr with
  | nil =>
    intro next c _ _
    rw [bfsLevel_nil]
    simp
  | cons hd tl ih =>
    intro next c hn hf
    cases hd with
    | none => simp at hn
    | some d =>
      rw [noNilList_some, Bool.and_eq_true] at hn
      have h0 := hf d (by simp) c.world
      rw [bfsLevel_some, callDirFunc_some]
      simp only [h0, CallRet.toExit]
      rw [ih _ _ hn.2 (fun n hm w => hf n (by simp [hm]) w)]
      simp [List.append_assoc]

/-- The walk over a forest without nil children, with a callback that returns nil on
every node: the callback is called on the nodes level by level, and the budget of one
more than the number of levels is enough. -/
theorem bfsLoop_fold {σ : Type} (f : DirFunc σ) :
    ∀ (fuel : Nat) (curr : List (Option Dir)) (c : Ctx σ), heightList curr < fuel →
      noNilList curr = true → (∀ n ∈ nodesList curr, ∀ w, (f w n).2 = CallRet.nil) →
      bfsLoop (some f) fuel curr c =
        (⟨((bfsLevels (heightList curr) curr).flatten).foldl (fun w n => (f w n).1) c.world,
          c.trace ++ ((bfsLevels (heightList curr) curr).flatten).map Event.bfs⟩,
          Exit.nil) := by
  intro fuel
  induction fuel with
  | zero => intro curr c h; omega
  | succ fuel ih =>
    intro curr c hh hn hf
    cases curr with
    | nil =>
      rw [bfsLoop_succ_nil, heightList_nil, bfsLevels_zero]
      simp
    | cons x xs =>
      have hlev := bfsLevel_fold f (x :: xs) [] c hn
        (fun n hm w => hf n (levelDirs_subset_nodesList _ n hm) w)
      have hnext := heightList_nextDepthDirs (x :: xs)
      have hpos : 0 < heightList (x :: xs) := by
        cases x with
        | none => simp at hn
        | some d => rw [heightList_some, Dir.height_eq]; omega
      rw [bfsLoop_succ_cons, hlev]
      simp only [List.nil_append]
      rw [ih _ _ (by omega) (noNilList_nextDepthDirs _ hn)
        (fun n hm w => hf n (mem_nodesList_nextDepthDirs _ n hm) w)]
      obtain ⟨k, hk⟩ : ∃ k, heightList (x :: xs) = k + 1 := ⟨heightList (x :: xs) - 1, by omega⟩
      rw [hnext, hk, bfsLevels_succ_cons]
      simp [List.append_assoc]

/-- On a tree without nil children whose root is loaded, the breadth-first walk with a
callback that returns nil on every node calls it on the nodes in breadth-first order and
returns nil, whether or not the nodes below the root are loaded. -/
theorem BfsWithFunc_fold {σ : Type} (f : DirFunc σ) (d : Dir) (c : Ctx σ)
    (hl : d.loaded = true) (hn : d.noNil = true)
    (hf : ∀ n ∈ d.nodes, ∀ w, (f w n).2 = CallRet.nil) :
    d.BfsWithFunc (some f) c =
      (⟨d.bfsNodes.foldl (fun w n => (f w n).1) c.world,
        c.trace ++ d.bfsNodes.map Event.bfs⟩, Exit.nil) := by
  have hh : heightList [some d] = d.height := by
    rw [heightList_some, heightList_nil]; exact Nat.max_eq_left (Nat.zero_le _)
  have h := bfsLoop_fold f (d.height + 1) [some d] c (by omega)
    (by rw [noNilList_some, hn]; rfl)
    (by intro n hm w; rw [nodesList_some, nodesList_nil, List.append_nil] at hm; exact hf n hm w)
  rw [hh] at h
  unfold Dir.BfsWithFunc
  rw [hl]
  exact h

/-! ## The enumerations on trees without nil children -/

theorem noNilList_mem {subs : List (Option Dir)} (h : noNilList subs = true) :
    (∀ o ∈ subs, o ≠ none) ∧ ∀ c, some c ∈ subs → c.noNil = true := by
  induction subs with
  | nil => exact ⟨fun o ho => by simp at ho, fun c hc => by simp at hc⟩
  | cons hd tl ih =>
    cases hd with
    | none => simp at h
    | some x =>
      rw [noNilList_some, Bool.and_eq_true] at h
      obtain ⟨i1, i2⟩ := ih h.2
      constructor
      · intro o ho
        rcases List.mem_cons.1 ho with e | e
        · rw [e]; simp
        · exact i1 o e
      · intro c hc
        rcases List.mem_cons.1 hc with e | e
        · cases e; exact h.1
        · exact i2 c e

theorem Dir.noNil_sub (d : Dir) : d.noNil = true → ∀ n ∈ d.nodes, n.noNil = true := by
  refine Dir.induct_subDirs (fun d => d.noNil = true → ∀ n ∈ d.nodes, n.noNil = true) ?_ d
  intro o subs files depth count size loaded ih hno n hn
  rw [Dir.nodes_eq] at hn
  rcases List.mem_cons.1 hn with e | e
  · rw [e]; exact hno
  · rw [Dir.noNil_eq] at hno
    obtain ⟨c, hc, hnc⟩ := mem_nodesList.1 e
    exact ih c hc ((noNilList_mem hno).2 c hc) n hnc

theorem Dir.fullyLoaded_noNil (d : Dir) : d.fullyLoaded = true → d.noNil = true := by
  refine Dir.induct_subDirs (fun d => d.fullyLoaded = true → d.noNil = true) ?_ d
  intro o subs files depth count size loaded ih hfull
  rw [Dir.fullyLoaded_eq, Bool.and_eq_true] at hfull
  rw [Dir.noNil_eq]
  have hsub := hfull.2
  simp only [Dir.subDirs_mk] at hsub ⊢
  clear hfull
  induction subs with
  | nil => rfl
  | cons hd tl iht =>
    cases hd with
    | none => rw [fullyLoadedList_none] at hsub; cases hsub
    | some x =>
      rw [fullyLoadedList_some, Bool.and_eq_true] at hsub
      rw [noNilList_some, Bool.and_eq_true]
      exact ⟨ih x (List.mem_cons_self _ _) hsub.1,
        iht (fun c hc => ih c (List.mem_cons_of_mem _ hc)) hsub.2⟩

theorem GetSubFolders_acc (subs : List (Option Dir)) (h : ∀ o ∈ subs, o ≠ none)
    (acc : List File) :
    subs.foldl
      (fun folders subDir =>
        match folders, subDir with
        | some fs, some s => some (fs ++ [s.originInfo])
        | _, _ => none)
      (some acc) = some (acc ++ (levelDirs subs).map Dir.originInfo) := by
  induction subs generalizing acc with
  | nil => simp
  | cons x xs ih =>
    cases x with
    | none => exact absurd rfl (h none (List.mem_cons_self _ _))
    | some s =>
      rw [List.foldl_cons]
      simp only
      rw [ih (fun o ho => h o (List.mem_cons_of_mem _ ho))]
      simp

/-- On a node without nil children `GetSubFolders` returns the descriptors of the
sub-directories. -/
theorem GetSubFolders_noNil (n : Dir) (h : n.noNil = true) :
    n.GetSubFolders = some n.subFolders := by
  rw [Dir.noNil_eq] at h
  have := GetSubFolders_acc n.subDirs (noNilList_mem h).1 []
  unfold Dir.GetSubFolders Dir.subFolders
  rw [this]
  rfl

/-- On a node without nil children `GetSubFoldersAndFiles` returns the descriptors of the
sub-directories followed by the files. -/
theorem GetSubFoldersAndFiles_noNil (n : Dir) (h : n.noNil = true) :
    n.GetSubFoldersAndFiles = some n.foldersAndFiles := by
  unfold Dir.GetSubFoldersAndFiles
  rw [GetSubFolders_noNil n h]
  rfl

theorem addSubFoldersAndFiles_noNil (n : Dir) (h : n.noNil = true) (w : List File) :
    addSubFoldersAndFiles w n = (w ++ n.foldersAndFiles, CallRet.nil) := by
  unfold addSubFoldersAndFiles
  rw [GetSubFoldersAndFiles_noNil n h]

theorem addSubFolders_noNil (n : Dir) (h : n.noNil = true) (w : List File) :
    addSubFolders w n = (w ++ n.subFolders, CallRet.nil) := by
  unfold addSubFolders
  rw [GetSubFolders_noNil n h]

theorem foldl_append_flatMap {α β : Type} (f : α → List β) (ns : List α) (init : List β) :
    ns.foldl (fun acc n => acc ++ f n) init = init ++ ns.flatMap f := by
  induction ns generalizing init with
  | nil => simp
  | cons n ns ih => rw [List.foldl_cons, ih, List.flatMap_cons, List.append_assoc]

theorem rootEntry_eq (d : Dir) :
    (if !d.IsVirtualDir then [d.originInfo] else []) = d.rootEntry := by
  unfold Dir.rootEntry
  cases d.IsVirtualDir <;> rfl

/-- On a tree without nil children whose root is loaded, `GetAllFoldersAndFilesByBfs`
returns the root's entry and then what the nodes contribute, in breadth-first order. -/
theorem GetAllFoldersAndFilesByBfs_noNil (d : Dir) (hl : d.loaded = true)
    (hn : d.noNil = true) :
    d.GetAllFoldersAndFilesByBfs =
      some (d.rootEntry ++ d.bfsNodes.flatMap Dir.foldersAndFiles) := by
  have hsub := Dir.noNil_sub d hn
  unfold Dir.GetAllFoldersAndFilesByBfs
  rw [BfsWithFunc_fold addSubFoldersAndFiles d _ hl hn
    (fun n hm w => by rw [addSubFoldersAndFiles_noNil n (hsub n hm)])]
  simp only
  rw [foldl_congr_mem _ (fun acc n => acc ++ n.foldersAndFiles) d.bfsNodes
    (fun n hm w => by
      rw [addSubFoldersAndFiles_noNil n (hsub n ((Dir.bfsNodes_perm d).subset hm))]),
    foldl_append_flatMap, rootEntry_eq]

/-- On a fully loaded tree `GetAllFoldersAndFiles` returns the root's entry and then what
the nodes contribute, in pre-order. -/
theorem GetAllFoldersAndFiles_flatMap (d : Dir) (hf : d.fullyLoaded = true) :
    d.GetAllFoldersAndFiles =
      some (d.rootEntry ++ d.nodes.flatMap Dir.foldersAndFiles) := by
  have hsub := Dir.noNil_sub d (Dir.fullyLoaded_noNil d hf)
  unfold Dir.GetAllFoldersAndFiles
  rw [DfsWithFunc_pre_fold addSubFoldersAndFiles d hf
    (fun n hm w => by rw [addSubFoldersAndFiles_noNil n (hsub n hm)])]
  simp only
  rw [foldl_congr_mem _ (fun acc n => acc ++ n.foldersAndFiles) d.nodes
    (fun n hm w => by rw [addSubFoldersAndFiles_noNil n (hsub n hm)]),
    foldl_append_flatMap, rootEntry_eq]

/-- On a fully loaded tree `GetAllFolders` returns the root's entry and then the
sub-directories of the nodes, in pre-order. -/
theorem GetAllFolders_flatMap (d : Dir) (hf : d.fullyLoaded = true) :
    d.GetAllFolders = some (d.rootEntry ++ d.nodes.flatMap Dir.subFolders) := by
  have hsub := Dir.noNil_sub d (Dir.fullyLoaded_noNil d hf)
  unfold Dir.GetAllFolders
  rw [DfsWithFunc_pre_fold addSubFolders d hf
    (fun n hm w => by rw [addSubFolders_noNil n (hsub n hm)])]
  simp only
  rw [foldl_congr_mem _ (fun acc n => acc ++ n.subFolders) d.nodes
    (fun n hm w => by rw [addSubFolders_noNil n (hsub n hm)]),
    foldl_append_flatMap, rootEntry_eq]

/-- On a fully loaded tree `GetAllPureFiles` returns the files of the nodes, in
pre-order. -/
theorem GetAllPureFiles_flatMap (d : Dir) (hf : d.fullyLoaded = true) :
    d.GetAllPureFiles = some (d.nodes.flatMap Dir.subFiles) := by
  rw [GetAllPureFiles_fullyLoaded d hf, foldl_append_flatMap]
  rfl

/-! ## Level-grouped enumeration -/

theorem levelEntries_nil (base level : Int) : levelEntries [] base level = [] := rfl

theorem levelEntries_cons (l : List Dir) (ls : List (List Dir)) (base level : Int) :
    levelEntries (l :: ls) base level =
      (if level = base then l.flatMap Dir.foldersAndFiles else []) ++
        levelEntries ls (base + 1) level := rfl

theorem levelEntries_below (ls : List (List Dir)) :
    ∀ base level : Int, level < base → levelEntries ls base level = [] := by
  induction ls with
  | nil => intro base level _; rfl
  | cons l ls ih =>
    intro base level h
    rw [levelEntries_cons, ih (base + 1) level (by omega), if_neg (by omega)]
    rfl

theorem addLevelFoldersAndFiles_noNil (n : Dir) (h : n.noNil = true)
    (st : Int × (Int → List File)) :
    addLevelFoldersAndFiles st n =
      ((if wrap64 (n.depth + 1) > st.1 then wrap64 (n.depth + 1) else st.1,
        fun level =>
          if level = wrap64 (n.depth + 1) then st.2 level ++ n.foldersAndFiles
          else st.2 level), CallRet.nil) := by
  unfold addLevelFoldersAndFiles
  simp only
  rw [GetSubFoldersAndFiles_noNil n h]

/-- The walk over the nodes of one level, which all write to the same key. -/
theorem foldl_addLevel (key : Int) (l : List Dir) :
    ∀ (mx : Int) (m : Int → List File),
      (∀ n ∈ l, n.noNil = true ∧ wrap64 (n.depth + 1) = key) →
      l.foldl (fun w n => (addLevelFoldersAndFiles w n).1) (mx, m) =
        (if l.isEmpty then mx else if key > mx then key else mx,
          fun level => if level = key then m level ++ l.flatMap Dir.foldersAndFiles
            else m level) := by
  induction l with
  | nil =>
    intro mx m _
    simp
  | cons n l ih =>
    intro mx m h
    obtain ⟨hn, hk⟩ := h n (List.mem_cons_self _ _)
    rw [List.foldl_cons, addLevelFoldersAndFiles_noNil n hn, hk]
    simp only
    rw [ih _ _ (fun x hx => h x (List.mem_cons_of_mem _ hx))]
    refine Prod.ext ?_ ?_
    · simp only [List.isEmpty_cons, Bool.false_eq_true, if_false]
      cases l with
      | nil => simp
      | cons y ys =>
        simp only [List.isEmpty_cons, Bool.false_eq_true, if_false]
        by_cases hg : key > mx
        · simp [hg]
        · simp [hg]
    · funext level
      simp only [List.flatMap_cons]
      by_cases hlev : level = key
      · simp [hlev, List.append_assoc]
      · simp [hlev]

theorem Dir.depthsOk_eq (d : Dir) : d.depthsOk = depthsOkList (d.depth + 1) d.subDirs := by
  cases d; simp [Dir.depthsOk]

@[simp] theorem depthsOkList_nil (k : Int) : depthsOkList k [] = true := by
  simp [depthsOkList]

@[simp] theorem depthsOkList_none (k : Int) (cs : List (Option Dir)) :
    depthsOkList k (none :: cs) = depthsOkList k cs := by simp [depthsOkList]

theorem depthsOkList_some (k : Int) (c : Dir) (cs : List (Option Dir)) :
    depthsOkList k (some c :: cs) =
      ((decide (c.depth = k) && c.depthsOk) && depthsOkList k cs) := by
  simp [depthsOkList]

theorem depthsOkList_append (k : Int) (a b : List (Option Dir)) :
    depthsOkList k (a ++ b) = (depthsOkList k a && depthsOkList k b) := by
  induction a with
  | nil => simp
  | cons hd tl ih =>
    cases hd with
    | none => simpa using ih
    | some c => simp only [List.cons_append, depthsOkList_some, ih, Bool.and_assoc]

theorem depthsOkList_level (k : Int) (curr : List (Option Dir))
    (h : depthsOkList k curr = true) : ∀ n ∈ levelDirs curr, n.depth = k := by
  induction curr with
  | nil => intro n hn; simp at hn
  | cons hd tl ih =>
    cases hd with
    | none => rw [depthsOkList_none] at h; simpa using ih h
    | some c =>
      rw [depthsOkList_some] at h
      simp only [Bool.and_eq_true, decide_eq_true_eq] at h
      intro n hn
      rw [levelDirs_some] at hn
      rcases List.mem_cons.1 hn with e | e
      · rw [e]; exact h.1.1
      · exact ih h.2 n e

theorem depthsOkList_next (k : Int) (curr : List (Option Dir))
    (h : depthsOkList k curr = true) : depthsOkList (k + 1) (nextDepthDirs curr) = true := by
  induction curr with
  | nil => simp
  | cons hd tl ih =>
    cases hd with
    | none => rw [depthsOkList_none] at h; simpa using ih h
    | some c =>
      rw [depthsOkList_some] at h
      simp only [Bool.and_eq_true, decide_eq_true_eq] at h
      rw [nextDepthDirs_some, depthsOkList_append, Bool.and_eq_true]
      refine ⟨?_, ih h.2⟩
      rw [← h.1.1, ← Dir.depthsOk_eq]
      exact h.1.2

theorem levelDirs_ne_nil (x : Option Dir) (xs : List (Option Dir))
    (h : noNilList (x :: xs) = true) : (levelDirs (x :: xs)).isEmpty = false := by
  cases x with
  | none => simp at h
  | some d => rfl

theorem noNilList_level (curr : List (Option Dir)) (h : noNilList curr = true) :
    ∀ n ∈ levelDirs curr, n.noNil = true := by
  intro n hn
  have hn2 := levelDirs_subset_nodesList curr n hn
  obtain ⟨c, hc, hnc⟩ := mem_nodesList.1 hn2
  exact Dir.noNil_sub c ((noNilList_mem h).2 c hc) n hnc

/-- The walk of `GetAllFoldersAndFilesOnLevel` over the levels of a forest in which the
depths are consistent and do not overflow: the largest key and the map afterwards. -/
theorem foldl_addLevel_levels :
    ∀ (n : Nat) (curr : List (Option Dir)) (k mx : Int) (m : Int → List File),
      depthsOkList k curr = true → noNilList curr = true →
      (∀ x ∈ nodesList curr, -9223372036854775808 ≤ x.depth + 1 ∧
        x.depth + 1 < 9223372036854775808) → mx ≤ k + 1 →
      ((bfsLevels n curr).flatten).foldl (fun w x => (addLevelFoldersAndFiles w x).1) (mx, m) =
        (if (bfsLevels n curr).isEmpty then mx else k + (bfsLevels n curr).length,
          fun level => m level ++ levelEntries (bfsLevels n curr) (k + 1) level) := by
  intro n
  induction n with
  | zero =>
    intro curr k mx m _ _ _ _
    rw [bfsLevels_zero]
    simp [levelEntries_nil]
  | succ n ih =>
    intro curr k mx m hd hn hb hmx
    cases curr with
    | nil =>
      rw [bfsLevels_nil]
      simp [levelEntries_nil]
    | cons x xs =>
      have hdep := depthsOkList_level k _ hd
      have hnn := noNilList_level _ hn
      have hlev : ∀ y ∈ levelDirs (x :: xs), y.noNil = true ∧ wrap64 (y.depth + 1) = k + 1 := by
        intro y hy
        have hby := hb y (levelDirs_subset_nodesList _ y hy)
        refine ⟨hnn y hy, ?_⟩
        rw [wrap64_of_range _ hby.1 hby.2, hdep y hy]
      rw [bfsLevels_succ_cons, List.flatten_cons, List.foldl_append,
        foldl_addLevel (k + 1) _ mx m hlev, levelDirs_ne_nil x xs hn]
      simp only [Bool.false_eq_true, if_false]
      rw [ih (nextDepthDirs (x :: xs)) (k + 1) _ _ (depthsOkList_next k _ hd)
        (noNilList_nextDepthDirs _ hn)
        (fun y hy => hb y (mem_nodesList_nextDepthDirs _ y hy))
        (by split <;> omega)]
      refine Prod.ext ?_ ?_
      · simp only [List.isEmpty_cons, Bool.false_eq_true, if_false, List.length_cons]
        cases hrest : bfsLevels n (nextDepthDirs (x :: xs)) with
        | nil =>
          simp only [List.isEmpty_nil, if_true, List.length_nil]
          split <;> omega
        | cons y ys =>
          simp only [List.isEmpty_cons, Bool.false_eq_true, if_false, List.length_cons]
          push_cast
          omega
      · funext level
        simp only [levelEntries_cons]
        by_cases hlv : level = k + 1
        · simp [hlv, List.append_assoc]
        · simp [hlv]

theorem collectLevels_zero (m : Int → List File) (maxLevel level : Int)
    (acc : List (List File)) : collectLevels m maxLevel 0 level acc = none := rfl

theorem collectLevels_succ (m : Int → List File) (maxLevel : Int) (fuel : Nat) (level : Int)
    (acc : List (List File)) :
    collectLevels m maxLevel (fuel + 1) level acc =
      if level ≤ maxLevel then
        collectLevels m maxLevel fuel (wrap64 (level + 1)) (acc ++ [m level])
      else some acc := rfl

/-- The closing loop over a map that holds the entries of the levels `ls` from the key
`base` on, when the keys do not overflow: one list for each level. -/
theorem collectLevels_levels (m : Int → List File) :
    ∀ (ls : List (List Dir)) (base : Int) (fuel : Nat) (acc : List (List File)),
      (∀ k, base ≤ k → m k = levelEntries ls base k) → ls.length + 1 ≤ fuel →
      -9223372036854775808 ≤ base → base + ls.length < 9223372036854775808 →
      collectLevels m (base + ls.length - 1) fuel base acc =
        some (acc ++ ls.map (fun l => l.flatMap Dir.foldersAndFiles)) := by
  intro ls
  induction ls with
  | nil =>
    intro base fuel acc _ hf _ _
    obtain ⟨f, rfl⟩ : ∃ f, fuel = f + 1 := ⟨fuel - 1, by simp at hf; omega⟩
    rw [collectLevels_succ, if_neg (by simp)]
    simp
  | cons l ls ih =>
    intro base fuel acc hm hf hlo hhi
    simp only [List.length_cons] at hf hhi ⊢
    push_cast at hhi ⊢
    obtain ⟨f, rfl⟩ : ∃ f, fuel = f + 1 := ⟨fuel - 1, by omega⟩
    rw [collectLevels_succ, if_pos (by omega), wrap64_of_range _ (by omega) (by omega),
      hm base (le_refl _), levelEntries_cons, levelEntries_below ls (base + 1) base (by omega)]
    have he : base + ((ls.length : Int) + 1) - 1 = base + 1 + (ls.length : Int) - 1 := by omega
    rw [he, ih (base + 1) f _ ?_ (by omega) (by omega) (by omega)]
    · simp
    · intro k hk
      rw [hm k (by omega), levelEntries_cons, if_neg (by omega)]
      rfl

/-- In a forest with consistent depths the nodes of the `j`-th level are `j` deeper. -/
theorem bfsLevels_depth :
    ∀ (n : Nat) (curr : List (Option Dir)) (k : Int), depthsOkList k curr = true →
      ∀ (j : Nat) (l : List Dir), (bfsLevels n curr)[j]? = some l →
        ∀ x ∈ l, x.depth = k + j := by
  intro n
  induction n with
  | zero => intro curr k _ j l h; rw [bfsLevels_zero] at h; simp at h
  | succ n ih =>
    intro curr k hd j l h x hx
    cases curr with
    | nil => rw [bfsLevels_nil] at h; simp at h
    | cons y ys =>
      rw [bfsLevels_succ_cons] at h
      cases j with
      | zero =>
        simp only [List.getElem?_cons_zero, Option.some.injEq] at h
        rw [← h] at hx
        rw [depthsOkList_level k _ hd x hx]
        simp
      | succ j =>
        simp only [List.getElem?_cons_succ] at h
        rw [ih _ (k + 1) (depthsOkList_next k _ hd) j l h x hx]
        push_cast
        omega

theorem bfsLevels_ne_nil :
    ∀ (n : Nat) (curr : List (Option Dir)), noNilList curr = true →
      ∀ l ∈ bfsLevels n curr, l.isEmpty = false := by
  intro n
  induction n with
  | zero => intro curr _ l h; rw [bfsLevels_zero] at h; simp at h
  | succ n ih =>
    intro curr hn l h
    cases curr with
    | nil => rw [bfsLevels_nil] at h; simp at h
    | cons y ys =>
      rw [bfsLevels_succ_cons] at h
      rcases List.mem_cons.1 h with e | e
      · rw [e]; exact levelDirs_ne_nil y ys hn
      · exact ih _ (noNilList_nextDepthDirs _ hn) l e

theorem Dir.levels_eq (d : Dir) :
    d.levels = [d] :: bfsLevels (heightList d.subDirs) (nextDepthDirs [some d]) := by
  unfold Dir.levels
  rw [Dir.height_eq, bfsLevels_succ_cons]
  rfl

theorem Dir.levels_depth (d : Dir) (hd : d.depthsOk = true) (j : Nat) (l : List Dir)
    (h : d.levels[j]? = some l) : ∀ n ∈ l, n.depth = d.depth + j := by
  refine bfsLevels_depth d.height [some d] d.depth ?_ j l h
  rw [depthsOkList_some, hd]
  simp

theorem flatten_map_flatMap {α β : Type} (f : α → List β) (ls : List (List α)) :
    (ls.map (fun l => l.flatMap f)).flatten = ls.flatten.flatMap f := by
  induction ls with
  | nil => rfl
  | cons l ls ih =>
    rw [List.map_cons, List.flatten_cons, List.flatten_cons, List.flatMap_append, ih]

/-- In a tree with consistent depths that stay below 2^63 - 2, the keys of the levels do
not overflow. -/
theorem Dir.levels_bound (d : Dir) (hn : d.noNil = true) (hd : d.depthsOk = true)
    (hb : ∀ n ∈ d.nodes, -9223372036854775808 ≤ n.depth ∧ n.depth < 9223372036854775806) :
    d.depth + 1 + d.levels.length < 9223372036854775808 := by
  have hne : d.levels.length ≠ 0 := by rw [Dir.levels_eq]; simp
  have hlt : d.levels.length - 1 < d.levels.length := by omega
  have hget : d.levels[d.levels.length - 1]? = some (d.levels[d.levels.length - 1]) :=
    List.getElem?_eq_getElem hlt
  have hmem : d.levels[d.levels.length - 1] ∈ d.levels := List.getElem_mem _
  have hemp := bfsLevels_ne_nil d.height [some d] (by rw [noNilList_some, hn]; rfl) _ hmem
  cases hl : d.levels[d.levels.length - 1] with
  | nil => rw [hl] at hemp; simp at hemp
  | cons x xs =>
    have hx : x ∈ d.levels[d.levels.length - 1] := by rw [hl]; exact List.mem_cons_self _ _
    have hdx := Dir.levels_depth d hd _ _ hget x hx
    have hxn : x ∈ d.nodes :=
      (Dir.bfsNodes_perm d).subset (List.mem_flatten.2 ⟨_, hmem, hx⟩)
    have hbx := (hb x hxn).2
    rw [hdx] at hbx
    have hcast : ((d.levels.length - 1 : Nat) : Int) = (d.levels.length : Int) - 1 := by
      omega
    rw [hcast] at hbx
    omega

/-- On a tree without nil children, whose root is loaded, with consistent depths below
2^63 - 2: `GetAllFoldersAndFilesOnLevel` returns the root's entry in a list of its own,
unless the root is virtual, and then one list for each level of the tree, with what the
nodes of the level contribute. -/
theorem GetAllFoldersAndFilesOnLevel_levels (d : Dir) (hl : d.loaded = true)
    (hn : d.noNil = true) (hd : d.depthsOk = true)
    (hb : ∀ n ∈ d.nodes, -9223372036854775808 ≤ n.depth ∧ n.depth < 9223372036854775806) :
    d.GetAllFoldersAndFilesOnLevel =
      some ((if d.IsVirtualDir then [] else [[d.originInfo]]) ++
        d.levels.map (fun l => l.flatMap Dir.foldersAndFiles)) := by
  have hsub := Dir.noNil_sub d hn
  have hbound := Dir.levels_bound d hn hd hb
  have hroot := hb d (Dir.self_mem_nodes d)
  have hne : d.levels.isEmpty = false := by rw [Dir.levels_eq]; rfl
  have hwalk : ∀ (mx : Int) (m : Int → List File), mx ≤ d.depth + 1 →
      d.BfsWithFunc (some addLevelFoldersAndFiles) ⟨(mx, m), []⟩ =
        (⟨(d.depth + d.levels.length,
          fun level => m level ++ levelEntries d.levels (d.depth + 1) level),
          [] ++ d.bfsNodes.map Event.bfs⟩, Exit.nil) := by
    intro mx m hmx
    rw [BfsWithFunc_fold addLevelFoldersAndFiles d _ hl hn
      (fun n hm w => by rw [addLevelFoldersAndFiles_noNil n (hsub n hm)])]
    have hfold := foldl_addLevel_levels d.height [some d] d.depth mx m
      (by rw [depthsOkList_some, hd]; simp) (by rw [noNilList_some, hn]; rfl)
      (by
        intro x hx
        rw [nodesList_some, nodesList_nil, List.append_nil] at hx
        have := hb x hx
        omega) hmx
    have hne2 : (bfsLevels d.height [some d]).isEmpty = false := hne
    rw [hne2] at hfold
    simp only [Bool.false_eq_true, if_false] at hfold
    have hb2 : d.bfsNodes = (bfsLevels d.height [some d]).flatten := rfl
    rw [hb2, hfold]
    rfl
  unfold Dir.GetAllFoldersAndFilesOnLevel
  cases hv : d.IsVirtualDir with
  | true =>
    have hinit : d.levelInit = (d.depth + 1, fun _ => []) := by
      unfold Dir.levelInit
      rw [hv, wrap64_of_range _ (by omega) (by omega)]
      rfl
    rw [hinit, hwalk _ _ (le_refl _)]
    simp only
    have he : d.depth + (d.levels.length : Int) = d.depth + 1 + (d.levels.length : Int) - 1 := by
      omega
    rw [he, collectLevels_levels
      (fun level => (fun _ => ([] : List File)) level ++
        levelEntries d.levels (d.depth + 1) level) d.levels (d.depth + 1) _ []
      (fun k _ => List.nil_append _) (by omega) (by omega) (by omega)]
    simp
  | false =>
    have hinit : d.levelInit =
        (d.depth, fun level => if level = d.depth then [d.originInfo] else []) := by
      unfold Dir.levelInit
      rw [hv]
      rfl
    rw [hinit, hwalk _ _ (by omega)]
    simp only
    have hfuel : (d.depth + (d.levels.length : Int) - d.depth + 2).toNat =
        (d.levels.length + 1) + 1 := by omega
    rw [hfuel, collectLevels_succ, if_pos (by omega),
      wrap64_of_range _ (by omega) (by omega),
      levelEntries_below d.levels (d.depth + 1) d.depth (by omega)]
    have he : d.depth + (d.levels.length : Int) = d.depth + 1 + (d.levels.length : Int) - 1 := by
      omega
    rw [he, collectLevels_levels
      (fun level => (fun level => if level = d.depth then [d.originInfo] else []) level ++
        levelEntries d.levels (d.depth + 1) level) d.levels (d.depth + 1) _ _
      (fun k hk => by simp only; rw [if_neg (by omega)]; rfl)
      (by omega) (by omega) (by omega)]
    simp

/-- With `maxLevel` the largest `int64` the closing loop of `GetAllFoldersAndFilesOnLevel`
uses up every budget: the test `level <= maxLevel` never fails. -/
theorem collectLevels_diverges (m : Int → List File) :
    ∀ (fuel : Nat) (level : Int) (acc : List (List File)), level ≤ 9223372036854775807 →
      collectLevels m 9223372036854775807 fuel level acc = none := by
  intro fuel
  induction fuel with
  | zero => intro level acc _; rfl
  | succ fuel ih =>
    intro level acc h
    rw [collectLevels_succ, if_pos h]
    have := (wrap64_range (level + 1)).2
    exact ih _ _ (by omega)

/-! ## Steps of the generic walk -/

theorem dfsSubDirs_some_nil {σ : Type} (pre post : Option (DirFunc σ)) (s : Dir)
    (cs : List (Option Dir)) (c : Ctx σ) (h : (s.DfsWithFunc pre post c).2 = Exit.nil) :
    dfsSubDirs pre post (some s :: cs) c =
      dfsSubDirs pre post cs (s.DfsWithFunc pre post c).1 := by
  rw [dfsSubDirs_some, h]

theorem dfsSubDirs_some_stop {σ : Type} (pre post : Option (DirFunc σ)) (s : Dir)
    (cs : List (Option Dir)) (c : Ctx σ) (h : (s.DfsWithFunc pre post c).2 ≠ Exit.nil) :
    dfsSubDirs pre post (some s :: cs) c = s.DfsWithFunc pre post c := by
  rw [dfsSubDirs_some]
  generalize hx : s.DfsWithFunc pre post c = x at h ⊢
  obtain ⟨x1, x2⟩ := x
  cases x2 with
  | nil => exact absurd rfl h
  | error e => rfl
  | panic => rfl
  | fuel => rfl

theorem DfsWithFunc_unloaded {σ : Type} (pre post : Option (DirFunc σ)) (d : Dir) (c : Ctx σ)
    (h : d.loaded = false) : d.DfsWithFunc pre post c = (c, Exit.error Err.errDirNotLoad) := by
  rw [DfsWithFunc_eq, h]
  rfl

theorem DfsWithFunc_pre_stop {σ : Type} (pre post : Option (DirFunc σ)) (d : Dir) (c : Ctx σ)
    (hl : d.loaded = true) (hp : (callDirFunc Event.preorder pre d c).2 ≠ Exit.nil) :
    d.DfsWithFunc pre post c = callDirFunc Event.preorder pre d c := by
  rw [DfsWithFunc_eq, hl]
  simp only [Bool.not_true, Bool.false_eq_true, if_false]

theorem DfsWithFunc_kids_stop {σ : Type} (pre post : Option (DirFunc σ)) (d : Dir)
    (c : Ctx σ) (hl : d.loaded = true)
    (hp : (callDirFunc Event.preorder pre d c).2 = Exit.nil)
    (hk : (dfsSubDirs pre post d.subDirs (callDirFunc Event.preorder pre d c).1).2 ≠
      Exit.nil) :
    d.DfsWithFunc pre post c =
      dfsSubDirs pre post d.subDirs (callDirFunc Event.preorder pre d c).1 := by
  rw [DfsWithFunc_eq, hl, hp]
  simp only [Bool.not_true, Bool.false_eq_true, if_false]

theorem DfsWithFunc_done {σ : Type} (pre post : Option (DirFunc σ)) (d : Dir) (c : Ctx σ)
    (hl : d.loaded = true) (hp : (callDirFunc Event.preorder pre d c).2 = Exit.nil)
    (hk : (dfsSubDirs pre post d.subDirs (callDirFunc Event.preorder pre d c).1).2 =
      Exit.nil) :
    d.DfsWithFunc pre post c =
      callDirFunc Event.postorder post d
        (dfsSubDirs pre post d.subDirs (callDirFunc Event.preorder pre d c).1).1 := by
  rw [DfsWithFunc_eq, hl, hp]
  simp only [Bool.not_true, Bool.false_eq_true, if_false]
  rw [hk]

theorem bfsLevel_some_nil {σ : Type} (callBack : Option (DirFunc σ)) (dir : Dir)
    (rest next : List (Option Dir)) (c : Ctx σ)
    (h : (callDirFunc Event.bfs callBack dir c).2 = Exit.nil) :
    bfsLevel callBack (some dir :: rest) next c =
      bfsLevel callBack rest (next ++ dir.subDirs) (callDirFunc Event.bfs callBack dir c).1 := by
  rw [bfsLevel_some, h]

theorem bfsLevel_some_stop {σ : Type} (callBack : Option (DirFunc σ)) (dir : Dir)
    (rest next : List (Option Dir)) (c : Ctx σ)
    (h : (callDirFunc Event.bfs callBack dir c).2 ≠ Exit.nil) :
    bfsLevel callBack (some dir :: rest) next c =
      (next, (callDirFunc Event.bfs callBack dir c).1,
        (callDirFunc Event.bfs callBack dir c).2) := by
  rw [bfsLevel_some]
  generalize hx : callDirFunc Event.bfs callBack dir c = x at h ⊢
  obtain ⟨x1, x2⟩ := x
  cases x2 with
  | nil => exact absurd rfl h
  | error e => rfl
  | panic => rfl
  | fuel => rfl

theorem bfsLoop_succ_cons_nil {σ : Type} (callBack : Option (DirFunc σ)) (fuel : Nat)
    (x : Option Dir) (xs : List (Option Dir)) (c : Ctx σ)
    (h : (bfsLevel callBack (x :: xs) [] c).2.2 = Exit.nil) :
    bfsLoop callBack (fuel + 1) (x :: xs) c =
      bfsLoop callBack fuel (bfsLevel callBack (x :: xs) [] c).1
        (bfsLevel callBack (x :: xs) [] c).2.1 := by
  rw [bfsLoop_succ_cons, h]

theorem bfsLoop_succ_cons_stop {σ : Type} (callBack : Option (DirFunc σ)) (fuel : Nat)
    (x : Option Dir) (xs : List (Option Dir)) (c : Ctx σ)
    (h : (bfsLevel callBack (x :: xs) [] c).2.2 ≠ Exit.nil) :
    bfsLoop callBack (fuel + 1) (x :: xs) c = (bfsLevel callBack (x :: xs) [] c).2 := by
  rw [bfsLoop_succ_cons]
  generalize hx : bfsLevel callBack (x :: xs) [] c = y at h ⊢
  obtain ⟨y1, y2, y3⟩ := y
  cases y3 with
  | nil => exact absurd rfl h
  | error e => rfl
  | panic => rfl
  | fuel => rfl

/-! ## The accumulator of an enumeration -/

theorem addSubFolders_appends : Appends addSubFolders := by
  intro a w n
  unfold addSubFolders
  cases n.GetSubFolders with
  | none => rfl
  | some l => simp only [List.append_assoc]

theorem addSubFoldersAndFiles_appends : Appends addSubFoldersAndFiles := by
  intro a w n
  unfold addSubFoldersAndFiles
  cases n.GetSubFoldersAndFiles with
  | none => rfl
  | some l => simp only [List.append_assoc]

theorem addSubFolders_withOrigin (w : List File) (d : Dir) (o : File) :
    addSubFolders w (d.withOrigin o) = addSubFolders w d := rfl

theorem addSubFoldersAndFiles_withOrigin (w : List File) (d : Dir) (o : File) :
    addSubFoldersAndFiles w (d.withOrigin o) = addSubFoldersAndFiles w d := rfl

/-- The walk over the children with a longer list to start from. -/
theorem dfsSubDirs_shift {f : DirFunc (List File)} (a : List File)
    (subs : List (Option Dir))
    (ih : ∀ s, some s ∈ subs → ∀ c c' : Ctx (List File), c'.world = a ++ c.world →
      (s.DfsWithFunc (some f) none c').1.world = a ++ (s.DfsWithFunc (some f) none c).1.world ∧
      (s.DfsWithFunc (some f) none c').2 = (s.DfsWithFunc (some f) none c).2) :
    ∀ c c' : Ctx (List File), c'.world = a ++ c.world →
      (dfsSubDirs (some f) none subs c').1.world =
        a ++ (dfsSubDirs (some f) none subs c).1.world ∧
      (dfsSubDirs (some f) none subs c').2 = (dfsSubDirs (some f) none subs c).2 := by
  induction subs with
  | nil => intro c c' h; exact ⟨h, rfl⟩
  | cons hd tl iht =>
    intro c c' h
    cases hd with
    | none => exact ⟨h, rfl⟩
    | some s =>
      obtain ⟨hw, he⟩ := ih s (List.mem_cons_self _ _) c c' h
      by_cases hx : (s.DfsWithFunc (some f) none c).2 = Exit.nil
      · rw [dfsSubDirs_some_nil _ _ s tl c hx, dfsSubDirs_some_nil _ _ s tl c' (he.trans hx)]
        exact iht (fun t ht => ih t (List.mem_cons_of_mem _ ht)) _ _ hw
      · rw [dfsSubDirs_some_stop _ _ s tl c hx,
          dfsSubDirs_some_stop _ _ s tl c' (by rw [he]; exact hx)]
        exact ⟨hw, he⟩

/-- The depth-first walk of an enumeration with a longer list to start from: the list
afterwards is longer by the same, and the walk ends the same way. -/
theorem DfsWithFunc_shift {f : DirFunc (List File)} (hf : Appends f) (a : List File)
    (d : Dir) :
    ∀ c c' : Ctx (List File), c'.world = a ++ c.world →
      (d.DfsWithFunc (some f) none c').1.world = a ++ (d.DfsWithFunc (some f) none c).1.world ∧
      (d.DfsWithFunc (some f) none c').2 = (d.DfsWithFunc (some f) none c).2 := by
  refine Dir.induct_subDirs
    (fun d => ∀ c c' : Ctx (List File), c'.world = a ++ c.world →
      (d.DfsWithFunc (some f) none c').1.world = a ++ (d.DfsWithFunc (some f) none c).1.world ∧
      (d.DfsWithFunc (some f) none c').2 = (d.DfsWithFunc (some f) none c).2) ?_ d
  intro o subs files depth count size loaded ih c c' h
  cases loaded with
  | false =>
    rw [DfsWithFunc_unloaded _ _ _ c rfl, DfsWithFunc_unloaded _ _ _ c' rfl]
    exact ⟨h, rfl⟩
  | true =>
    have hcall : (callDirFunc Event.preorder (some f)
          (Dir.mk o subs files depth count size true) c').1.world =
        a ++ (callDirFunc Event.preorder (some f)
          (Dir.mk o subs files depth count size true) c).1.world ∧
        (callDirFunc Event.preorder (some f)
          (Dir.mk o subs files depth count size true) c').2 =
        (callDirFunc Event.preorder (some f)
          (Dir.mk o subs files depth count size true) c).2 := by
      rw [callDirFunc_some, callDirFunc_some, h, hf a c.world]
      exact ⟨rfl, rfl⟩
    by_cases hp : (callDirFunc Event.preorder (some f)
        (Dir.mk o subs files depth count size true) c).2 = Exit.nil
    · have hp' := hcall.2.trans hp
      have hkids := dfsSubDirs_shift a subs ih _ _ hcall.1
      by_cases hk : (dfsSubDirs (some f) none subs (callDirFunc Event.preorder (some f)
          (Dir.mk o subs files depth count size true) c).1).2 = Exit.nil
      · rw [DfsWithFunc_done _ _ _ c rfl hp hk,
          DfsWithFunc_done _ _ _ c' rfl hp' (hkids.2.trans hk), callDirFunc_none,
          callDirFunc_none]
        exact ⟨hkids.1, rfl⟩
      · rw [DfsWithFunc_kids_stop _ _ _ c rfl hp hk,
          DfsWithFunc_kids_stop _ _ _ c' rfl hp' (by rw [hkids.2]; exact hk)]
        exact hkids
    · rw [DfsWithFunc_pre_stop _ _ _ c rfl hp,
        DfsWithFunc_pre_stop _ _ _ c' rfl (by rw [hcall.2]; exact hp)]
      exact hcall

/-- One level of the breadth-first walk with a longer list to start from. -/
theorem bfsLevel_shift {f : DirFunc (List File)} (hf : Appends f) (a : List File) :
    ∀ (curr next : List (Option Dir)) (c c' : Ctx (List File)), c'.world = a ++ c.world →
      (bfsLevel (some f) curr next c').1 = (bfsLevel (some f) curr next c).1 ∧
      (bfsLevel (some f) curr next c').2.1.world =
        a ++ (bfsLevel (some f) curr next c).2.1.world ∧
      (bfsLevel (some f) curr next c').2.2 = (bfsLevel (some f) curr next c).2.2 := by
  intro curr
  induction curr with
  | nil => intro next c c' h; exact ⟨rfl, h, rfl⟩
  | cons hd tl ih =>
    intro next c c' h
    cases hd with
    | none => exact ⟨rfl, h, rfl⟩
    | some d =>
      have hcall : (callDirFunc Event.bfs (some f) d c').1.world =
          a ++ (callDirFunc Event.bfs (some f) d c).1.world ∧
          (callDirFunc Event.bfs (some f) d c').2 = (callDirFunc Event.bfs (some f) d c).2 := by
        rw [callDirFunc_some, callDirFunc_some, h, hf a c.world]
        exact ⟨rfl, rfl⟩
      by_cases hp : (callDirFunc Event.bfs (some f) d c).2 = Exit.nil
      · rw [bfsLevel_some_nil _ _ _ _ c hp, bfsLevel_some_nil _ _ _ _ c' (hcall.2.trans hp)]
        exact ih _ _ _ hcall.1
      · rw [bfsLevel_some_stop _ _ _ _ c hp,
          bfsLevel_some_stop _ _ _ _ c' (by rw [hcall.2]; exact hp)]
        exact ⟨rfl, hcall.1, hcall.2⟩

/-- The breadth-first walk of an enumeration with a longer list to start from. -/
theorem bfsLoop_shift {f : DirFunc (List File)} (hf : Appends f) (a : List File) :
    ∀ (fuel : Nat) (curr : List (Option Dir)) (c c' : Ctx (List File)),
      c'.world = a ++ c.world →
      (bfsLoop (some f) fuel curr c').1.world = a ++ (bfsLoop (some f) fuel curr c).1.world ∧
      (bfsLoop (some f) fuel curr c').2 = (bfsLoop (some f) fuel curr c).2 := by
  intro fuel
  induction fuel with
  | zero => intro curr c c' h; exact ⟨h, rfl⟩
  | succ fuel ih =>
    intro curr c c' h
    cases curr with
    | nil => exact ⟨h, rfl⟩
    | cons x xs =>
      obtain ⟨h1, h2, h3⟩ := bfsLevel_shift hf a (x :: xs) [] c c' h
      by_cases hp : (bfsLevel (some f) (x :: xs) [] c).2.2 = Exit.nil
      · rw [bfsLoop_succ_cons_nil _ _ _ _ c hp, bfsLoop_succ_cons_nil _ _ _ _ c' (h3.trans hp),
          h1]
        exact ih _ _ _ h2
      · rw [bfsLoop_succ_cons_stop _ _ _ _ c hp,
          bfsLoop_succ_cons_stop _ _ _ _ c' (by rw [h3]; exact hp)]
        exact ⟨h2, h3⟩

theorem Dir.withOrigin_height (d : Dir) (o : File) : (d.withOrigin o).height = d.height := by
  rw [Dir.height_eq, Dir.height_eq]
  rfl

/-- The depth-first walk of an enumeration does not depend on the root's descriptor, when
the closure does not look at it. -/
theorem DfsWithFunc_withOrigin {f : DirFunc (List File)} (hf : Appends f) (d : Dir)
    (o : File) (hroot : ∀ w, f w (d.withOrigin o) = f w d) (c : Ctx (List File)) :
    ((d.withOrigin o).DfsWithFunc (some f) none c).1.world =
      (d.DfsWithFunc (some f) none c).1.world ∧
    ((d.withOrigin o).DfsWithFunc (some f) none c).2 = (d.DfsWithFunc (some f) none c).2 := by
  cases hl : d.loaded with
  | false =>
    rw [DfsWithFunc_unloaded _ _ d c hl, DfsWithFunc_unloaded _ _ (d.withOrigin o) c hl]
    exact ⟨rfl, rfl⟩
  | true =>
    have hl' : (d.withOrigin o).loaded = true := hl
    have hcall : (callDirFunc Event.preorder (some f) (d.withOrigin o) c).1.world =
        [] ++ (callDirFunc Event.preorder (some f) d c).1.world ∧
        (callDirFunc Event.preorder (some f) (d.withOrigin o) c).2 =
          (callDirFunc Event.preorder (some f) d c).2 := by
      rw [callDirFunc_some, callDirFunc_some, hroot]
      exact ⟨rfl, rfl⟩
    have hkids := dfsSubDirs_shift [] d.subDirs
      (fun s _ => DfsWithFunc_shift hf [] s) _ _ hcall.1
    have hsub : (d.withOrigin o).subDirs = d.subDirs := rfl
    by_cases hp : (callDirFunc Event.preorder (some f) d c).2 = Exit.nil
    · have hp' := hcall.2.trans hp
      by_cases hk : (dfsSubDirs (some f) none d.subDirs
          (callDirFunc Event.preorder (some f) d c).1).2 = Exit.nil
      · rw [DfsWithFunc_done _ _ d c hl hp hk,
          DfsWithFunc_done _ _ (d.withOrigin o) c hl' hp' (by rw [hsub]; exact hkids.2.trans hk),
          callDirFunc_none, callDirFunc_none]
        exact ⟨hkids.1, rfl⟩
      · rw [DfsWithFunc_kids_stop _ _ d c hl hp hk,
          DfsWithFunc_kids_stop _ _ (d.withOrigin o) c hl' hp'
            (by rw [hsub, hkids.2]; exact hk)]
        exact hkids
    · rw [DfsWithFunc_pre_stop _ _ d c hl hp,
        DfsWithFunc_pre_stop _ _ (d.withOrigin o) c hl' (by rw [hcall.2]; exact hp)]
      exact hcall

/-- The breadth-first walk of an enumeration does not depend on the root's descriptor,
when the closure does not look at it. -/
theorem BfsWithFunc_withOrigin {f : DirFunc (List File)} (hf : Appends f) (d : Dir)
    (o : File) (hroot : ∀ w, f w (d.withOrigin o) = f w d) (c : Ctx (List File)) :
    ((d.withOrigin o).BfsWithFunc (some f) c).1.world = (d.BfsWithFunc (some f) c).1.world ∧
    ((d.withOrigin o).BfsWithFunc (some f) c).2 = (d.BfsWithFunc (some f) c).2 := by
  unfold Dir.BfsWithFunc
  rw [Dir.withOrigin_height]
  have hl' : (d.withOrigin o).loaded = d.loaded := rfl
  rw [hl']
  cases hl : d.loaded with
  | false => exact ⟨rfl, rfl⟩
  | true =>
    simp only [Bool.not_true, Bool.false_eq_true, if_false]
    have hcall : (callDirFunc Event.bfs (some f) (d.withOrigin o) c).1.world =
        [] ++ (callDirFunc Event.bfs (some f) d c).1.world ∧
        (callDirFunc Event.bfs (some f) (d.withOrigin o) c).2 =
          (callDirFunc Event.bfs (some f) d c).2 := by
      rw [callDirFunc_some, callDirFunc_some, hroot]
      exact ⟨rfl, rfl⟩
    have hsub : (d.withOrigin o).subDirs = d.subDirs := rfl
    by_cases hp : (callDirFunc Event.bfs (some f) d c).2 = Exit.nil
    · have hp' := hcall.2.trans hp
      have e1 : bfsLevel (some f) [some d] [] c =
          ([] ++ d.subDirs, (callDirFunc Event.bfs (some f) d c).1, Exit.nil) := by
        rw [bfsLevel_some_nil _ _ _ _ c hp, bfsLevel_nil]
      have e2 : bfsLevel (some f) [some (d.withOrigin o)] [] c =
          ([] ++ d.subDirs, (callDirFunc Event.bfs (some f) (d.withOrigin o) c).1,
            Exit.nil) := by
        rw [bfsLevel_some_nil _ _ _ _ c hp', bfsLevel_nil, hsub]
      rw [bfsLoop_succ_cons_nil _ _ (some (d.withOrigin o)) _ c (by rw [e2]),
        bfsLoop_succ_cons_nil _ _ (some d) _ c (by rw [e1]), e1, e2]
      exact bfsLoop_shift hf [] _ _ _ _ hcall.1
    · have e1 : bfsLevel (some f) [some d] [] c =
          ([], (callDirFunc Event.bfs (some f) d c).1,
            (callDirFunc Event.bfs (some f) d c).2) := bfsLevel_some_stop _ _ _ _ c hp
      have e2 : bfsLevel (some f) [some (d.withOrigin o)] [] c =
          ([], (callDirFunc Event.bfs (some f) (d.withOrigin o) c).1,
            (callDirFunc Event.bfs (some f) (d.withOrigin o) c).2) :=
        bfsLevel_some_stop _ _ _ _ c (by rw [hcall.2]; exact hp)
      rw [bfsLoop_succ_cons_stop _ _ (some (d.withOrigin o)) _ c
          (by rw [e2, hcall.2]; exact hp),
        bfsLoop_succ_cons_stop _ _ (some d) _ c (by rw [e1]; exact hp), e1, e2]
      exact hcall

/-- What an enumeration returns, from how its walk ended (a helper to state the next
lemmas once). -/
theorem enum_result_shift (a : List File) (x y : Ctx (List File) × Exit)
    (hw : y.1.world = a ++ x.1.world) (he : y.2 = x.2) :
    (match y with
      | (_, Exit.panic) => none
      | (c, _) => some c.world) =
    (match x with
      | (_, Exit.panic) => none
      | (c, _) => some c.world).map (fun body => a ++ body) := by
  obtain ⟨x1, x2⟩ := x
  obtain ⟨y1, y2⟩ := y
  simp only at hw he
  subst he
  cases y2 <;> simp [hw]

theorem GetAllFolders_entries (d : Dir) :
    d.GetAllFolders = (d.dfsEntries addSubFolders).map (fun body => d.rootEntry ++ body) := by
  obtain ⟨hw, he⟩ := DfsWithFunc_shift addSubFolders_appends d.rootEntry d ⟨[], []⟩
    ⟨d.rootEntry, []⟩ (by simp)
  unfold Dir.GetAllFolders Dir.dfsEntries
  rw [rootEntry_eq]
  exact enum_result_shift _ _ _ hw he

theorem GetAllFoldersAndFiles_entries (d : Dir) :
    d.GetAllFoldersAndFiles =
      (d.dfsEntries addSubFoldersAndFiles).map (fun body => d.rootEntry ++ body) := by
  obtain ⟨hw, he⟩ := DfsWithFunc_shift addSubFoldersAndFiles_appends d.rootEntry d ⟨[], []⟩
    ⟨d.rootEntry, []⟩ (by simp)
  unfold Dir.GetAllFoldersAndFiles Dir.dfsEntries
  rw [rootEntry_eq]
  exact enum_result_shift _ _ _ hw he

theorem GetAllFoldersAndFilesByBfs_entries (d : Dir) :
    d.GetAllFoldersAndFilesByBfs =
      (d.bfsEntries addSubFoldersAndFiles).map (fun body => d.rootEntry ++ body) := by
  have hsh : ∀ c c' : Ctx (List File), c'.world = d.rootEntry ++ c.world →
      (d.BfsWithFunc (some addSubFoldersAndFiles) c').1.world =
        d.rootEntry ++ (d.BfsWithFunc (some addSubFoldersAndFiles) c).1.world ∧
      (d.BfsWithFunc (some addSubFoldersAndFiles) c').2 =
        (d.BfsWithFunc (some addSubFoldersAndFiles) c).2 := by
    intro c c' h
    unfold Dir.BfsWithFunc
    cases d.loaded with
    | false => exact ⟨h, rfl⟩
    | true => exact bfsLoop_shift addSubFoldersAndFiles_appends _ _ _ _ _ h
  obtain ⟨hw, he⟩ := hsh ⟨[], []⟩ ⟨d.rootEntry, []⟩ (by simp)
  unfold Dir.GetAllFoldersAndFilesByBfs Dir.bfsEntries
  rw [rootEntry_eq]
  exact enum_result_shift _ _ _ hw he

theorem enum_result_congr (x y : Ctx (List File) × Exit) :
    y.1.world = x.1.world → y.2 = x.2 →
    (match y with
      | (_, Exit.panic) => none
      | (c, _) => some c.world) =
    (match x with
      | (_, Exit.panic) => none
      | (c, _) => some c.world) := by
  intro hw he
  obtain ⟨x1, x2⟩ := x
  obtain ⟨y1, y2⟩ := y
  simp only at hw he
  subst he
  cases y2 <;> simp [hw]

theorem dfsEntries_withOrigin {f : DirFunc (List File)} (hf : Appends f) (d : Dir)
    (o : File) (hroot : ∀ w, f w (d.withOrigin o) = f w d) :
    (d.withOrigin o).dfsEntries f = d.dfsEntries f := by
  obtain ⟨hw, he⟩ := DfsWithFunc_withOrigin hf d o hroot ⟨[], []⟩
  unfold Dir.dfsEntries
  exact enum_result_congr _ _ hw he

theorem bfsEntries_withOrigin {f : DirFunc (List File)} (hf : Appends f) (d : Dir)
    (o : File) (hroot : ∀ w, f w (d.withOrigin o) = f w d) :
    (d.withOrigin o).bfsEntries f = d.bfsEntries f := by
  obtain ⟨hw, he⟩ := BfsWithFunc_withOrigin hf d o hroot ⟨[], []⟩
  unfold Dir.bfsEntries
  exact enum_result_congr _ _ hw he

theorem rootEntry_virtual (d : Dir) (h : d.IsVirtualDir = true) : d.rootEntry = [] := by
  unfold Dir.rootEntry; rw [h]; rfl

theorem rootEntry_not_virtual (d : Dir) (h : d.IsVirtualDir = false) :
    d.rootEntry = [d.originInfo] := by
  unfold Dir.rootEntry; rw [h]; rfl

theorem option_map_nil_append (x : Option (List File)) :
    x.map (fun body => ([] : List File) ++ body) = x := by
  cases x <;> rfl

theorem option_map_tail_cons (o : File) (x : Option (List File)) :
    (x.map (fun l => o :: l)).map List.tail = x := by
  cases x <;> rfl

/-- An enumeration of a root that is not virtual, given what the walk collects. -/
theorem enum_not_virtual (d : Dir) (h : d.IsVirtualDir = false) (x : Option (List File)) :
    x.map (fun body => d.rootEntry ++ body) = x.map (fun l => d.originInfo :: l) := by
  rw [rootEntry_not_virtual d h]
  rfl

theorem head_of_enum (o : File) (x : Option (List File)) (l : List File)
    (h : x.map (fun l => o :: l) = some l) : l.head? = some o := by
  cases x with
  | none => cases h
  | some b => cases h; rfl

/-! ## The pre-order and post-order references -/

theorem Dir.body_eq (g : Dir → List File) (d : Dir) :
    d.body g = g d ++ bodyList g d.subDirs := by
  cases d; simp [Dir.body]

@[simp] theorem bodyList_nil (g : Dir → List File) : bodyList g [] = [] := by
  simp [bodyList]

@[simp] theorem bodyList_none (g : Dir → List File) (cs : List (Option Dir)) :
    bodyList g (none :: cs) = bodyList g cs := by simp [bodyList]

@[simp] theorem bodyList_some (g : Dir → List File) (c : Dir) (cs : List (Option Dir)) :
    bodyList g (some c :: cs) = c.body g ++ bodyList g cs := by simp [bodyList]

/-- The recursive reference lists what the nodes contribute, in pre-order. -/
theorem Dir.body_eq_flatMap (g : Dir → List File) (d : Dir) :
    d.body g = d.nodes.flatMap g := by
  refine Dir.induct_subDirs (fun d => d.body g = d.nodes.flatMap g) ?_ d
  intro o subs files depth count size loaded ih
  rw [Dir.body_eq, Dir.nodes_eq, List.flatMap_cons]
  congr 1
  simp only [Dir.subDirs_mk]
  induction subs with
  | nil => rfl
  | cons hd tl iht =>
    cases hd with
    | none => simpa using iht (fun c hc => ih c (List.mem_cons_of_mem _ hc))
    | some c =>
      rw [bodyList_some, nodesList_some, List.flatMap_append, ih c (List.mem_cons_self _ _),
        iht (fun c hc => ih c (List.mem_cons_of_mem _ hc))]

/-- The body of a child is a contiguous block of the bodies of the children. -/
theorem bodyList_block (g : Dir → List File) (subs : List (Option Dir)) (c : Dir)
    (hc : some c ∈ subs) : ∃ p s, bodyList g subs = p ++ c.body g ++ s := by
  induction subs with
  | nil => simp at hc
  | cons hd tl ih =>
    rcases List.mem_cons.1 hc with e | e
    · rw [← e, bodyList_some]
      exact ⟨[], bodyList g tl, by simp⟩
    · obtain ⟨p, s, h⟩ := ih e
      cases hd with
      | none => rw [bodyList_none]; exact ⟨p, s, h⟩
      | some x =>
        rw [bodyList_some, h]
        exact ⟨x.body g ++ p, s, by simp [List.append_assoc]⟩

/-- The body of every node of a tree is a contiguous block of the body of the tree. -/
theorem Dir.body_block (g : Dir → List File) (d : Dir) :
    ∀ n ∈ d.nodes, ∃ p s, d.body g = p ++ n.body g ++ s := by
  refine Dir.induct_subDirs (fun d => ∀ n ∈ d.nodes, ∃ p s, d.body g = p ++ n.body g ++ s) ?_ d
  intro o subs files depth count size loaded ih n hn
  rw [Dir.nodes_eq] at hn
  rcases List.mem_cons.1 hn with e | e
  · rw [e]; exact ⟨[], [], by simp⟩
  · obtain ⟨c, hc, hnc⟩ := mem_nodesList.1 e
    obtain ⟨p1, s1, h1⟩ := ih c hc n hnc
    obtain ⟨p2, s2, h2⟩ := bodyList_block g subs c hc
    rw [Dir.body_eq]
    simp only [Dir.subDirs_mk]
    rw [h2, h1]
    exact ⟨g (Dir.mk o subs files depth count size loaded) ++ p2 ++ p1, s1 ++ s2,
      by simp [List.append_assoc]⟩

@[simp] theorem postList_nil : postList [] = [] := by simp [postList]

@[simp] theorem postList_none (cs : List (Option Dir)) :
    postList (none :: cs) = postList cs := by simp [postList]

@[simp] theorem pathsList_nil (i : Nat) : pathsList i [] = [] := by simp [pathsList]

theorem callDirFunc_nonFailing {σ : Type} (tag : Dir → Event) (f : Option (DirFunc σ))
    (h : NonFailing f) (d : Dir) (c : Ctx σ) : (callDirFunc tag f d c).2 = Exit.nil := by
  cases f with
  | none => rfl
  | some g => rw [callDirFunc_some, h g rfl]; rfl

theorem dfsSubDirs_exit {σ : Type} (pre post : Option (DirFunc σ))
    (subs : List (Option Dir))
    (ih : ∀ s, some s ∈ subs → s.noNil = true → ∀ c : Ctx σ,
      (s.DfsWithFunc pre post c).2 =
        if s.fullyLoaded then Exit.nil else Exit.error Err.errDirNotLoad)
    (hn : noNilList subs = true) :
    ∀ c : Ctx σ, (dfsSubDirs pre post subs c).2 =
      if fullyLoadedList subs then Exit.nil else Exit.error Err.errDirNotLoad := by
  induction subs with
  | nil => intro c; rfl
  | cons hd tl iht =>
    intro c
    cases hd with
    | none => simp at hn
    | some s =>
      rw [noNilList_some, Bool.and_eq_true] at hn
      have hs := ih s (List.mem_cons_self _ _) hn.1 c
      rw [fullyLoadedList_some]
      cases hfs : s.fullyLoaded with
      | false =>
        rw [hfs] at hs
        rw [dfsSubDirs_some_stop _ _ s tl c (by rw [hs]; simp), hs]
        rfl
      | true =>
        rw [hfs] at hs
        rw [dfsSubDirs_some_nil _ _ s tl c hs,
          iht (fun t ht => ih t (List.mem_cons_of_mem _ ht)) hn.2]
        rfl

/-- On a tree without nil children, with callbacks that do not fail, the walk returns nil
when the tree is fully loaded and `errDirNotLoad` when it is not. -/
theorem DfsWithFunc_exit {σ : Type} (pre post : Option (DirFunc σ)) (hpre : NonFailing pre)
    (hpost : NonFailing post) (d : Dir) :
    d.noNil = true → ∀ c : Ctx σ,
      (d.DfsWithFunc pre post c).2 =
        if d.fullyLoaded then Exit.nil else Exit.error Err.errDirNotLoad := by
  refine Dir.induct_subDirs
    (fun d => d.noNil = true → ∀ c : Ctx σ,
      (d.DfsWithFunc pre post c).2 =
        if d.fullyLoaded then Exit.nil else Exit.error Err.errDirNotLoad) ?_ d
  intro o subs files depth count size loaded ih hn c
  rw [Dir.noNil_eq] at hn
  simp only [Dir.subDirs_mk] at hn
  rw [Dir.fullyLoaded_eq]
  simp only [Dir.loaded_mk, Dir.subDirs_mk]
  cases loaded with
  | false => rw [DfsWithFunc_unloaded _ _ _ c rfl]; rfl
  | true =>
    have hp := callDirFunc_nonFailing Event.preorder pre hpre
      (Dir.mk o subs files depth count size true) c
    have hk := dfsSubDirs_exit pre post subs ih hn
      (callDirFunc Event.preorder pre (Dir.mk o subs files depth count size true) c).1
    cases hfl : fullyLoadedList subs with
    | false =>
      rw [hfl] at hk
      rw [DfsWithFunc_kids_stop _ _ _ c rfl hp (by
        simp only [Dir.subDirs_mk]; rw [hk]; simp)]
      simp only [Dir.subDirs_mk]
      rw [hk]
      rfl
    | true =>
      rw [hfl] at hk
      rw [DfsWithFunc_done _ _ _ c rfl hp hk]
      exact callDirFunc_nonFailing Event.postorder post hpost _ _

theorem fullyLoadedList_of_nodes (subs : List (Option Dir))
    (ih : ∀ s, some s ∈ subs → s.noNil = true → (∀ n ∈ s.nodes, n.loaded = true) →
      s.fullyLoaded = true)
    (hn : noNilList subs = true) (hl : ∀ n ∈ nodesList subs, n.loaded = true) :
    fullyLoadedList subs = true := by
  induction subs with
  | nil => rfl
  | cons hd tl iht =>
    cases hd with
    | none => simp at hn
    | some s =>
      rw [noNilList_some, Bool.and_eq_true] at hn
      rw [fullyLoadedList_some, Bool.and_eq_true]
      rw [nodesList_some] at hl
      exact ⟨ih s (List.mem_cons_self _ _) hn.1 (fun n h => hl n (List.mem_append_left _ h)),
        iht (fun t ht => ih t (List.mem_cons_of_mem _ ht)) hn.2
          (fun n h => hl n (List.mem_append_right _ h))⟩

/-- A tree without nil children is fully loaded when each of its nodes is loaded. -/
theorem Dir.fullyLoaded_of_nodes (d : Dir) :
    d.noNil = true → (∀ n ∈ d.nodes, n.loaded = true) → d.fullyLoaded = true := by
  refine Dir.induct_subDirs
    (fun d => d.noNil = true → (∀ n ∈ d.nodes, n.loaded = true) → d.fullyLoaded = true) ?_ d
  intro o subs files depth count size loaded ih hn hl
  rw [Dir.noNil_eq] at hn
  rw [Dir.fullyLoaded_eq, Bool.and_eq_true]
  rw [Dir.nodes_eq] at hl
  exact ⟨hl _ (List.mem_cons_self _ _),
    fullyLoadedList_of_nodes subs ih hn (fun n h => hl n (List.mem_cons_of_mem _ h))⟩

/-- In a tree without nil children: not fully loaded means that some node is not loaded. -/
theorem Dir.not_fullyLoaded_iff (d : Dir) (hn : d.noNil = true) :
    d.fullyLoaded = false ↔ ∃ n ∈ d.nodes, n.loaded = false := by
  constructor
  · intro h
    by_contra hne
    have hall : ∀ n ∈ d.nodes, n.loaded = true := by
      intro n hm
      cases hl : n.loaded with
      | true => rfl
      | false => exact absurd ⟨n, hm, hl⟩ hne
    rw [Dir.fullyLoaded_of_nodes d hn hall] at h
    cases h
  · rintro ⟨n, hm, hl⟩
    cases hf : d.fullyLoaded with
    | false => rfl
    | true =>
      rw [Dir.fullyLoaded_nodes d hf n hm] at hl
      cases hl

/-! ## Enumerations of a tree that is not fully loaded -/

theorem takeWhile_all {α : Type} (p : α → Bool) (l : List α) (h : ∀ x ∈ l, p x = true) :
    l.takeWhile p = l := by
  induction l with
  | nil => rfl
  | cons x xs ih =>
    rw [List.takeWhile_cons, h x (List.mem_cons_self _ _)]
    simp only [if_true]
    rw [ih (fun y hy => h y (List.mem_cons_of_mem _ hy))]

theorem takeWhile_append_all {α : Type} (p : α → Bool) (l1 l2 : List α)
    (h : ∀ x ∈ l1, p x = true) : (l1 ++ l2).takeWhile p = l1 ++ l2.takeWhile p := by
  induction l1 with
  | nil => rfl
  | cons x xs ih =>
    rw [List.cons_append, List.takeWhile_cons, h x (List.mem_cons_self _ _)]
    simp only [if_true]
    rw [ih (fun y hy => h y (List.mem_cons_of_mem _ hy))]
    rfl

theorem takeWhile_append_stop {α : Type} (p : α → Bool) (l1 l2 : List α)
    (h : ∃ x ∈ l1, p x = false) : (l1 ++ l2).takeWhile p = l1.takeWhile p := by
  induction l1 with
  | nil => obtain ⟨x, hx, _⟩ := h; simp at hx
  | cons x xs ih =>
    rw [List.cons_append, List.takeWhile_cons, List.takeWhile_cons]
    cases hp : p x with
    | false => rfl
    | true =>
      simp only [if_true]
      obtain ⟨y, hy, hpy⟩ := h
      rcases List.mem_cons.1 hy with e | e
      · rw [e, hp] at hpy; cases hpy
      · rw [ih ⟨y, e, hpy⟩]

theorem takeWhile_lt_of_stop {α : Type} (p : α → Bool) (l : List α)
    (h : ∃ x ∈ l, p x = false) : (l.takeWhile p).length < l.length := by
  induction l with
  | nil => obtain ⟨x, hx, _⟩ := h; simp at hx
  | cons x xs ih =>
    rw [List.takeWhile_cons]
    cases hp : p x with
    | false => simp
    | true =>
      simp only [if_true, List.length_cons]
      obtain ⟨y, hy, hpy⟩ := h
      rcases List.mem_cons.1 hy with e | e
      · rw [e, hp] at hpy; cases hpy
      · have := ih ⟨y, e, hpy⟩
        omega

theorem dfsSubDirs_pre_truncated {σ : Type} (f : DirFunc σ) (subs : List (Option Dir))
    (ih : ∀ s, some s ∈ subs → s.noNil = true → ∀ c : Ctx σ,
      s.DfsWithFunc (some f) none c =
        (⟨(s.nodes.takeWhile Dir.loaded).foldl (fun w n => (f w n).1) c.world,
          c.trace ++ (s.nodes.takeWhile Dir.loaded).map Event.preorder⟩,
          if s.fullyLoaded then Exit.nil else Exit.error Err.errDirNotLoad))
    (hn : noNilList subs = true) :
    ∀ c : Ctx σ, dfsSubDirs (some f) none subs c =
      (⟨((nodesList subs).takeWhile Dir.loaded).foldl (fun w n => (f w n).1) c.world,
        c.trace ++ ((nodesList subs).takeWhile Dir.loaded).map Event.preorder⟩,
        if fullyLoadedList subs then Exit.nil else Exit.error Err.errDirNotLoad) := by
  induction subs with
  | nil => intro c; rw [dfsSubDirs_nil, fullyLoadedList_nil]; simp
  | cons hd tl iht =>
    intro c
    cases hd with
    | none => simp at hn
    | some s =>
      rw [noNilList_some, Bool.and_eq_true] at hn
      have hs := ih s (List.mem_cons_self _ _) hn.1 c
      rw [fullyLoadedList_some, nodesList_some]
      cases hfs : s.fullyLoaded with
      | false =>
        rw [hfs] at hs
        rw [dfsSubDirs_some_stop _ _ s tl c (by rw [hs]; simp), hs,
          takeWhile_append_stop _ _ _ ((Dir.not_fullyLoaded_iff s hn.1).1 hfs)]
        rfl
      | true =>
        rw [hfs] at hs
        have hall := Dir.fullyLoaded_nodes s hfs
        rw [dfsSubDirs_some_nil _ _ s tl c (by rw [hs]; rfl), hs,
          iht (fun t ht => ih t (List.mem_cons_of_mem _ ht)) hn.2,
          takeWhile_append_all _ _ _ hall, takeWhile_all _ _ hall]
        simp [List.foldl_append]

/-- On a tree without nil children, a walk with a pre-order callback that returns nil on
every node calls it on the nodes that precede the first node that is not loaded, in
pre-order, and returns `errDirNotLoad` unless there is no such node. -/
theorem DfsWithFunc_pre_truncated {σ : Type} (f : DirFunc σ)
    (hf : ∀ w n, n.noNil = true → (f w n).2 = CallRet.nil) (d : Dir) :
    d.noNil = true → ∀ c : Ctx σ,
      d.DfsWithFunc (some f) none c =
        (⟨(d.nodes.takeWhile Dir.loaded).foldl (fun w n => (f w n).1) c.world,
          c.trace ++ (d.nodes.takeWhile Dir.loaded).map Event.preorder⟩,
          if d.fullyLoaded then Exit.nil else Exit.error Err.errDirNotLoad) := by
  refine Dir.induct_subDirs
    (fun d => d.noNil = true → ∀ c : Ctx σ,
      d.DfsWithFunc (some f) none c =
        (⟨(d.nodes.takeWhile Dir.loaded).foldl (fun w n => (f w n).1) c.world,
          c.trace ++ (d.nodes.takeWhile Dir.loaded).map Event.preorder⟩,
          if d.fullyLoaded then Exit.nil else Exit.error Err.errDirNotLoad)) ?_ d
  intro o subs files depth count size loaded ih hn c
  have hfd := fun w => hf w _ hn
  rw [Dir.noNil_eq] at hn
  simp only [Dir.subDirs_mk] at hn
  rw [Dir.fullyLoaded_eq, Dir.nodes_eq, List.takeWhile_cons]
  simp only [Dir.loaded_mk, Dir.subDirs_mk]
  cases loaded with
  | false =>
    rw [DfsWithFunc_unloaded _ _ _ c rfl]
    simp
  | true =>
    have hk := dfsSubDirs_pre_truncated f subs ih hn
      (callDirFunc Event.preorder (some f) (Dir.mk o subs files depth count size true) c).1
    have hp : (callDirFunc Event.preorder (some f)
        (Dir.mk o subs files depth count size true) c).2 = Exit.nil := by
      rw [callDirFunc_some, hfd]; rfl
    cases hfl : fullyLoadedList subs with
    | false =>
      rw [hfl] at hk
      rw [DfsWithFunc_kids_stop _ _ _ c rfl hp (by
        simp only [Dir.subDirs_mk]; rw [hk]; simp)]
      simp only [Dir.subDirs_mk]
      rw [hk, callDirFunc_some]
      simp [List.append_assoc]
    | true =>
      rw [hfl] at hk
      rw [DfsWithFunc_done _ _ _ c rfl hp (by simp only [Dir.subDirs_mk]; rw [hk]; rfl),
        callDirFunc_none]
      simp only [Dir.subDirs_mk]
      rw [hk, callDirFunc_some]
      simp [List.append_assoc]

theorem enum_result_some (c : Ctx (List File)) (e : Exit) (h : e ≠ Exit.panic) :
    (match (c, e) with
      | (_, Exit.panic) => none
      | (c, _) => some c.world) = some c.world := by
  cases e with
  | panic => exact absurd rfl h
  | nil => rfl
  | error x => rfl
  | fuel => rfl

theorem exit_of_fullyLoaded_ne_panic (b : Bool) :
    (if b then Exit.nil else Exit.error Err.errDirNotLoad) ≠ Exit.panic := by
  cases b <;> simp

/-- On a tree without nil children `GetAllPureFiles` returns the files of the nodes that
precede the first node that is not loaded. -/
theorem GetAllPureFiles_truncated (d : Dir) (hn : d.noNil = true) :
    d.GetAllPureFiles = some ((d.nodes.takeWhile Dir.loaded).flatMap Dir.subFiles) := by
  unfold Dir.GetAllPureFiles
  rw [DfsWithFunc_pre_truncated addPureFiles (fun _ _ _ => rfl) d hn,
    enum_result_some _ _ (exit_of_fullyLoaded_ne_panic _)]
  simp only
  rw [foldl_congr_mem (fun w n => (addPureFiles w n).1) (fun acc n => acc ++ n.subFiles) _
    (fun n _ w => rfl), foldl_append_flatMap]
  rfl

/-- On a tree without nil children `GetAllFolders` returns the root's entry and the
sub-directories of the nodes that precede the first node that is not loaded. -/
theorem GetAllFolders_truncated (d : Dir) (hn : d.noNil = true) :
    d.GetAllFolders =
      some (d.rootEntry ++ (d.nodes.takeWhile Dir.loaded).flatMap Dir.subFolders) := by
  have hsub := Dir.noNil_sub d hn
  unfold Dir.GetAllFolders
  rw [DfsWithFunc_pre_truncated addSubFolders
    (fun w n h => by rw [addSubFolders_noNil n h]) d hn,
    enum_result_some _ _ (exit_of_fullyLoaded_ne_panic _)]
  simp only
  rw [foldl_congr_mem _ (fun acc n => acc ++ n.subFolders) _
    (fun n hm w => by
      rw [addSubFolders_noNil n (hsub n (List.takeWhile_subset _ hm))]),
    foldl_append_flatMap, rootEntry_eq]

/-- On a tree without nil children `GetAllFoldersAndFiles` returns the root's entry and
what the nodes that precede the first node that is not loaded contribute. -/
theorem GetAllFoldersAndFiles_truncated (d : Dir) (hn : d.noNil = true) :
    d.GetAllFoldersAndFiles =
      some (d.rootEntry ++ (d.nodes.takeWhile Dir.loaded).flatMap Dir.foldersAndFiles) := by
  have hsub := Dir.noNil_sub d hn
  unfold Dir.GetAllFoldersAndFiles
  rw [DfsWithFunc_pre_truncated addSubFoldersAndFiles
    (fun w n h => by rw [addSubFoldersAndFiles_noNil n h]) d hn,
    enum_result_some _ _ (exit_of_fullyLoaded_ne_panic _)]
  simp only
  rw [foldl_congr_mem _ (fun acc n => acc ++ n.foldersAndFiles) _
    (fun n hm w => by
      rw [addSubFoldersAndFiles_noNil n (hsub n (List.takeWhile_subset _ hm))]),
    foldl_append_flatMap, rootEntry_eq]

/-- On a root that is not loaded `GetAllFoldersAndFilesByBfs` returns the root's entry
and nothing else. -/
theorem GetAllFoldersAndFilesByBfs_unloaded (d : Dir) (hl : d.loaded = false) :
    d.GetAllFoldersAndFilesByBfs = some d.rootEntry := by
  unfold Dir.GetAllFoldersAndFilesByBfs Dir.BfsWithFunc
  rw [hl, rootEntry_eq]
  rfl

/-- On a root that is not loaded, at a depth below 2^63 - 2,
`GetAllFoldersAndFilesOnLevel` returns one list, which holds the root's entry and nothing
else. -/
theorem GetAllFoldersAndFilesOnLevel_unloaded (d : Dir) (hl : d.loaded = false)
    (hlo : -9223372036854775808 ≤ d.depth) (hhi : d.depth < 9223372036854775806) :
    d.GetAllFoldersAndFilesOnLevel = some [d.rootEntry] := by
  unfold Dir.GetAllFoldersAndFilesOnLevel Dir.BfsWithFunc
  rw [hl]
  simp only [Bool.not_false, if_true]
  have hfuel : (d.levelInit.1 - d.levelInit.1 + 2).toNat = 1 + 1 := by omega
  rw [hfuel, collectLevels_succ, if_pos (le_refl _)]
  have hr := wrap64_range (d.depth + 1)
  unfold Dir.levelInit Dir.rootEntry
  cases d.IsVirtualDir with
  | true =>
    simp only [Bool.not_true, Bool.false_eq_true, if_false, if_true]
    rw [wrap64_of_range (d.depth + 1) (by omega) (by omega),
      wrap64_of_range (d.depth + 1 + 1) (by omega) (by omega), collectLevels_succ,
      if_neg (by omega)]
    rfl
  | false =>
    simp only [Bool.not_false, if_true, Bool.false_eq_true, if_false]
    rw [wrap64_of_range (d.depth + 1) (by omega) (by omega), collectLevels_succ,
      if_neg (by omega)]
    rfl

/-- On a tree without nil children that is not fully loaded `GetTotalSizeAndCount`
returns `(0, 0, errDirNotLoad)`. -/
theorem GetTotalSizeAndCount_not_loaded (d : Dir) (hn : d.noNil = true)
    (hf : d.fullyLoaded = false) :
    d.GetTotalSizeAndCount = (0, 0, Exit.error Err.errDirNotLoad) := by
  have hex := DfsWithFunc_exit (some addSizeAndCount) none (fun g hg w n => by cases hg; rfl)
    (fun g hg => by cases hg) d hn
    ⟨(0, if !d.IsVirtualDir then wrap64 (0 + 1) else 0), []⟩
  rw [hf] at hex
  unfold Dir.GetTotalSizeAndCount
  simp only
  rw [hex]
  rfl

theorem takeWhile_of_head_false (d : Dir) (hl : d.loaded = false) :
    d.nodes.takeWhile Dir.loaded = [] := by
  rw [Dir.nodes_eq, List.takeWhile_cons, hl]
  rfl

/-! ## The first error wins -/

theorem CleanLog_nil : CleanLog [] := fun r h => by simp at h

theorem CleanLog_snoc {log : List CallRet} (h : CleanLog log) : CleanLog (log ++ [CallRet.nil]) := by
  intro r hr
  rcases List.mem_append.1 hr with e | e
  · exact h r e
  · simpa using e

theorem FirstErrorWins_of_clean {log : List CallRet} (h : CleanLog log) (e : Exit) :
    FirstErrorWins log e := Or.inl h

theorem toExit_eq_nil {r : CallRet} (h : r.toExit = Exit.nil) : r = CallRet.nil := by
  cases r with
  | nil => rfl
  | error code => cases h
  | panic => cases h

theorem FirstErrorWins_nil {log : List CallRet} (h : FirstErrorWins log Exit.nil) :
    CleanLog log := by
  rcases h with h | ⟨init, r, _, _, hr, he⟩
  · exact h
  · exact absurd (toExit_eq_nil he.symm) hr

theorem FirstErrorWins_snoc {log : List CallRet} (h : CleanLog log) (r : CallRet) :
    FirstErrorWins (log ++ [r]) r.toExit := by
  by_cases hr : r = CallRet.nil
  · rw [hr]; exact Or.inl (CleanLog_snoc h)
  · exact Or.inr ⟨log, r, rfl, h, hr, rfl⟩

/-- Read by positions: a call that failed is the last call, and the walk returned what it
returned. -/
theorem FirstErrorWins_index {log : List CallRet} {e : Exit} (h : FirstErrorWins log e)
    (i : Nat) (r : CallRet) (hi : log[i]? = some r) (hr : r ≠ CallRet.nil) :
    i + 1 = log.length ∧ e = r.toExit := by
  rcases h with h | ⟨init, x, hlog, hinit, _, he⟩
  · exact absurd (h r (List.getElem?_mem hi)) hr
  · rw [hlog] at hi ⊢
    by_cases hlt : i < init.length
    · rw [List.getElem?_append_left hlt] at hi
      exact absurd (hinit r (List.getElem?_mem hi)) hr
    · rw [List.getElem?_append_right (by omega)] at hi
      have hz : i - init.length = 0 := by
        by_contra hne
        rw [List.getElem?_eq_none (by simp; omega)] at hi
        cases hi
      rw [hz] at hi
      simp only [List.getElem?_cons_zero, Option.some.injEq] at hi
      rw [← hi]
      exact ⟨by simp; omega, he⟩

theorem callDirFunc_wins {σ : Type} (tag : Dir → Event) (f : Option (DirFunc σ)) (d : Dir)
    (c : Ctx (σ × List CallRet)) (hc : CleanLog c.world.2) :
    FirstErrorWins (callDirFunc tag (f.map logged) d c).1.world.2
      (callDirFunc tag (f.map logged) d c).2 := by
  cases f with
  | none => exact Or.inl hc
  | some g => exact FirstErrorWins_snoc hc _

theorem dfsSubDirs_wins {σ : Type} (pre post : Option (DirFunc σ))
    (subs : List (Option Dir))
    (ih : ∀ s, some s ∈ subs → ∀ c : Ctx (σ × List CallRet), CleanLog c.world.2 →
      FirstErrorWins (s.DfsWithFunc (pre.map logged) (post.map logged) c).1.world.2
        (s.DfsWithFunc (pre.map logged) (post.map logged) c).2) :
    ∀ c : Ctx (σ × List CallRet), CleanLog c.world.2 →
      FirstErrorWins (dfsSubDirs (pre.map logged) (post.map logged) subs c).1.world.2
        (dfsSubDirs (pre.map logged) (post.map logged) subs c).2 := by
  induction subs with
  | nil => intro c hc; exact Or.inl hc
  | cons hd tl iht =>
    intro c hc
    cases hd with
    | none => exact Or.inl hc
    | some s =>
      have hs := ih s (List.mem_cons_self _ _) c hc
      by_cases hx : (s.DfsWithFunc (pre.map logged) (post.map logged) c).2 = Exit.nil
      · rw [dfsSubDirs_some_nil _ _ s tl c hx]
        rw [hx] at hs
        exact iht (fun t ht => ih t (List.mem_cons_of_mem _ ht)) _ (FirstErrorWins_nil hs)
      · rw [dfsSubDirs_some_stop _ _ s tl c hx]
        exact hs

/-- `DfsWithFunc` with logged callbacks, started with a clean log. -/
theorem DfsWithFunc_wins {σ : Type} (pre post : Option (DirFunc σ)) (d : Dir) :
    ∀ c : Ctx (σ × List CallRet), CleanLog c.world.2 →
      FirstErrorWins (d.DfsWithFunc (pre.map logged) (post.map logged) c).1.world.2
        (d.DfsWithFunc (pre.map logged) (post.map logged) c).2 := by
  refine Dir.induct_subDirs
    (fun d => ∀ c : Ctx (σ × List CallRet), CleanLog c.world.2 →
      FirstErrorWins (d.DfsWithFunc (pre.map logged) (post.map logged) c).1.world.2
        (d.DfsWithFunc (pre.map logged) (post.map logged) c).2) ?_ d
  intro o subs files depth count size loaded ih c hc
  cases loaded with
  | false =>
    rw [DfsWithFunc_unloaded _ _ _ c rfl]
    exact Or.inl hc
  | true =>
    have h1 := callDirFunc_wins Event.preorder pre
      (Dir.mk o subs files depth count size true) c hc
    by_cases hp : (callDirFunc Event.preorder (pre.map logged)
        (Dir.mk o subs files depth count size true) c).2 = Exit.nil
    · rw [hp] at h1
      have h2 := dfsSubDirs_wins pre post subs ih _ (FirstErrorWins_nil h1)
      by_cases hk : (dfsSubDirs (pre.map logged) (post.map logged) subs
          (callDirFunc Event.preorder (pre.map logged)
            (Dir.mk o subs files depth count size true) c).1).2 = Exit.nil
      · rw [DfsWithFunc_done _ _ _ c rfl hp hk]
        rw [hk] at h2
        exact callDirFunc_wins Event.postorder post _ _ (FirstErrorWins_nil h2)
      · rw [DfsWithFunc_kids_stop _ _ _ c rfl hp hk]
        exact h2
    · rw [DfsWithFunc_pre_stop _ _ _ c rfl hp]
      exact h1

theorem bfsLevel_wins {σ : Type} (callBack : Option (DirFunc σ)) :
    ∀ (curr next : List (Option Dir)) (c : Ctx (σ × List CallRet)), CleanLog c.world.2 →
      FirstErrorWins (bfsLevel (callBack.map logged) curr next c).2.1.world.2
        (bfsLevel (callBack.map logged) curr next c).2.2 := by
  intro curr
  induction curr with
  | nil => intro next c hc; exact Or.inl hc
  | cons hd tl ih =>
    intro next c hc
    cases hd with
    | none => exact Or.inl hc
    | some d =>
      have h1 := callDirFunc_wins Event.bfs callBack d c hc
      by_cases hp : (callDirFunc Event.bfs (callBack.map logged) d c).2 = Exit.nil
      · rw [bfsLevel_some_nil _ _ _ _ c hp]
        rw [hp] at h1
        exact ih _ _ (FirstErrorWins_nil h1)
      · rw [bfsLevel_some_stop _ _ _ _ c hp]
        exact h1

theorem bfsLoop_wins {σ : Type} (callBack : Option (DirFunc σ)) :
    ∀ (fuel : Nat) (curr : List (Option Dir)) (c : Ctx (σ × List CallRet)),
      CleanLog c.world.2 →
      FirstErrorWins (bfsLoop (callBack.map logged) fuel curr c).1.world.2
        (bfsLoop (callBack.map logged) fuel curr c).2 := by
  intro fuel
  induction fuel with
  | zero => intro curr c hc; exact Or.inl hc
  | succ fuel ih =>
    intro curr c hc
    cases curr with
    | nil => exact Or.inl hc
    | cons x xs =>
      have h1 := bfsLevel_wins callBack (x :: xs) [] c hc
      by_cases hp : (bfsLevel (callBack.map logged) (x :: xs) [] c).2.2 = Exit.nil
      · rw [bfsLoop_succ_cons_nil _ _ _ _ c hp]
        rw [hp] at h1
        exact ih _ _ (FirstErrorWins_nil h1)
      · rw [bfsLoop_succ_cons_stop _ _ _ _ c hp]
        exact h1

/-- `BfsWithFunc` with a logged callback, started with a clean log. -/
theorem BfsWithFunc_wins {σ : Type} (callBack : Option (DirFunc σ)) (d : Dir)
    (c : Ctx (σ × List CallRet)) (hc : CleanLog c.world.2) :
    FirstErrorWins (d.BfsWithFunc (callBack.map logged) c).1.world.2
      (d.BfsWithFunc (callBack.map logged) c).2 := by
  unfold Dir.BfsWithFunc
  cases d.loaded with
  | false => exact Or.inl hc
  | true => exact bfsLoop_wins callBack _ _ c hc

theorem dfsLoadFetch_wins {σ : Type} (retrieve : Option (RetrieveNextDepthFilesFunc σ))
    (d : Dir) (c : Ctx (σ × List CallRet)) (hc : CleanLog c.world.2) :
    FirstErrorWins (dfsLoadFetch (retrieve.map loggedRetrieve) d c).2.1.world.2
      (dfsLoadFetch (retrieve.map loggedRetrieve) d c).2.2 := by
  cases hl : d.loaded with
  | true =>
    rw [dfsLoadFetch_of_loaded _ d c hl]
    exact Or.inl hc
  | false =>
    cases retrieve with
    | none =>
      have hnone : (none : Option (RetrieveNextDepthFilesFunc σ)).map loggedRetrieve = none :=
        rfl
      rw [hnone, dfsLoadFetch_no_func d c hl]
      exact Or.inl hc
    | some r =>
      have hsome : (some r).map loggedRetrieve = some (loggedRetrieve r) := rfl
      rw [hsome]
      cases hr : (r c.world.1 d.originInfo.VolumeId d.originInfo.Id).2 with
      | error code =>
        rw [dfsLoadFetch_error (loggedRetrieve r) d c hl code hr]
        show FirstErrorWins
          (c.world.2 ++ [retrieveRet (r c.world.1 d.originInfo.VolumeId d.originInfo.Id).2]) _
        rw [hr]
        exact FirstErrorWins_snoc hc (CallRet.error code)
      | ok v =>
        obtain ⟨files, folders⟩ := v
        rw [dfsLoadFetch_ok (loggedRetrieve r) d c hl files folders hr]
        show FirstErrorWins
          (c.world.2 ++ [retrieveRet (r c.world.1 d.originInfo.VolumeId d.originInfo.Id).2]) _
        rw [hr]
        exact FirstErrorWins_snoc hc CallRet.nil

theorem dfsLoadHead_wins {σ : Type} (retrieve : Option (RetrieveNextDepthFilesFunc σ))
    (pre : Option (DirFunc σ)) (d : Dir) (st : LoadState (σ × List CallRet))
    (hc : CleanLog st.ctx.world.2) :
    FirstErrorWins
      (dfsLoadHead (retrieve.map loggedRetrieve) (pre.map logged) d st).2.1.ctx.world.2
      (dfsLoadHead (retrieve.map loggedRetrieve) (pre.map logged) d st).2.2 := by
  cases hf : d.originInfo.IsFolder with
  | false =>
    rw [dfsLoadHead_not_folder _ _ d st hf]
    exact Or.inl hc
  | true =>
    by_cases hd : d.depth ≥ st.info.maxDepth
    · rw [dfsLoadHead_too_deep _ _ d st hf hd]
      exact Or.inl hc
    · have hd2 : d.depth < st.info.maxDepth := by omega
      have h1 := callDirFunc_wins Event.preorder pre d st.ctx hc
      by_cases hp : (callDirFunc Event.preorder (pre.map logged) d st.ctx).2 = Exit.nil
      · rw [hp] at h1
        have h2 := dfsLoadFetch_wins retrieve d
          (callDirFunc Event.preorder (pre.map logged) d st.ctx).1 (FirstErrorWins_nil h1)
        by_cases hx : (dfsLoadFetch (retrieve.map loggedRetrieve) d
            (callDirFunc Event.preorder (pre.map logged) d st.ctx).1).2.2 = Exit.nil
        · rw [dfsLoadHead_account _ _ d st hf hd2 hp hx]
          rw [hx] at h2
          exact Or.inl (FirstErrorWins_nil h2)
        · rw [dfsLoadHead_fetch_stop _ _ d st hf hd2 hp hx]
          exact h2
      · rw [dfsLoadHead_pre_stop _ _ d st hf hd2 hp]
        exact h1

theorem loopSubDirs_wins {σ : Type}
    (walk : Dir → LoadState (σ × List CallRet) → Dir × LoadState (σ × List CallRet) × Exit)
    (hw : ∀ c st, CleanLog st.ctx.world.2 →
      FirstErrorWins (walk c st).2.1.ctx.world.2 (walk c st).2.2) :
    ∀ (subs : List (Option Dir)) (st : LoadState (σ × List CallRet)),
      CleanLog st.ctx.world.2 →
      FirstErrorWins (loopSubDirs walk subs st).2.1.ctx.world.2
        (loopSubDirs walk subs st).2.2 := by
  intro subs
  induction subs with
  | nil => intro st hc; exact Or.inl hc
  | cons hd tl ih =>
    intro st hc
    cases hd with
    | none => exact Or.inl hc
    | some x =>
      have h1 := hw x st hc
      by_cases hx : (walk x st).2.2 = Exit.nil
      · rw [loopSubDirs_some_nil walk x tl st hx]
        rw [hx] at h1
        exact ih _ (FirstErrorWins_nil h1)
      · rw [loopSubDirs_some_stop walk x tl st hx]
        exact h1

/-- `dfsLoadDir` with logged callbacks and a logged retrieval function, started with a
clean log. -/
theorem dfsLoadDir_wins {σ : Type} (retrieve : Option (RetrieveNextDepthFilesFunc σ))
    (pre post : Option (DirFunc σ)) (fuel : Nat) :
    ∀ (d : Dir) (st : LoadState (σ × List CallRet)), CleanLog st.ctx.world.2 →
      FirstErrorWins
        (dfsLoadDir (retrieve.map loggedRetrieve) (pre.map logged) (post.map logged)
          fuel d st).2.1.ctx.world.2
        (dfsLoadDir (retrieve.map loggedRetrieve) (pre.map logged) (post.map logged)
          fuel d st).2.2 := by
  induction fuel with
  | zero => intro d st hc; exact Or.inl hc
  | succ fuel ih =>
    intro d st hc
    have h1 := dfsLoadHead_wins retrieve pre d st hc
    by_cases hh : (dfsLoadHead (retrieve.map loggedRetrieve) (pre.map logged) d st).2.2 =
        Exit.nil
    · rw [hh] at h1
      have h2 : FirstErrorWins
          (dfsLoadKids (retrieve.map loggedRetrieve) (pre.map logged) (post.map logged)
            fuel d st).2.1.ctx.world.2
          (dfsLoadKids (retrieve.map loggedRetrieve) (pre.map logged) (post.map logged)
            fuel d st).2.2 :=
        loopSubDirs_wins _ ih _ _ (FirstErrorWins_nil h1)
      by_cases hk : (dfsLoadKids (retrieve.map loggedRetrieve) (pre.map logged)
          (post.map logged) fuel d st).2.2 = Exit.nil
      · rw [dfsLoadDir_kids_done _ _ _ fuel d st hh hk]
        rw [hk] at h2
        exact callDirFunc_wins Event.postorder post _ _ (FirstErrorWins_nil h2)
      · rw [dfsLoadDir_kids_stop _ _ _ fuel d st hh hk]
        exact h2
    · rw [dfsLoadDir_head_stop _ _ _ fuel d st hh]
      exact h1

/-- `DFSLoad` with logged callbacks and a logged retrieval function, started with a clean
log. -/
theorem DFSLoad_wins {σ : Type} (d : Dir) (maxDepth numLimit sizeLimit : Int)
    (retrieve : Option (RetrieveNextDepthFilesFunc σ)) (pre post : Option (DirFunc σ))
    (c : Ctx (σ × List CallRet)) (hc : CleanLog c.world.2) :
    FirstErrorWins
      (d.DFSLoad maxDepth numLimit sizeLimit (retrieve.map loggedRetrieve) (pre.map logged)
        (post.map logged) c).ctx.world.2
      (d.DFSLoad maxDepth numLimit sizeLimit (retrieve.map loggedRetrieve) (pre.map logged)
        (post.map logged) c).exit := by
  rw [DFSLoad_ctx, DFSLoad_exit]
  exact dfsLoadDir_wins retrieve pre post _ d _ hc

theorem toExit_ne_nil {r : CallRet} (h : r ≠ CallRet.nil) : r.toExit ≠ Exit.nil :=
  fun e => h (toExit_eq_nil e)

/-! ## The budget and the caller's context do not matter -/

theorem loopSubDirs_fuel_congr {τ : Type} (w1 w2 : Dir → τ → Dir × τ × Exit)
    (h : ∀ c st, (w1 c st).2.2 ≠ Exit.fuel → w2 c st = w1 c st) :
    ∀ (subs : List (Option Dir)) (st : τ), (loopSubDirs w1 subs st).2.2 ≠ Exit.fuel →
      loopSubDirs w2 subs st = loopSubDirs w1 subs st := by
  intro subs
  induction subs with
  | nil => intro st _; rfl
  | cons hd tl ih =>
    intro st hne
    cases hd with
    | none => rfl
    | some c =>
      by_cases hx : (w1 c st).2.2 = Exit.nil
      · have e := h c st (by rw [hx]; intro k; cases k)
        rw [loopSubDirs_some_nil w1 c tl st hx] at hne ⊢
        rw [loopSubDirs_some_nil w2 c tl st (by rw [e]; exact hx), e, ih _ hne]
      · rw [loopSubDirs_some_stop w1 c tl st hx] at hne ⊢
        have e := h c st hne
        rw [loopSubDirs_some_stop w2 c tl st (by rw [e]; exact hx), e]

/-- A run of `dfsLoadDir` that does not use up its budget is the same with any larger
budget. -/
theorem dfsLoadDir_fuel_mono {σ : Type} (retrieve : Option (RetrieveNextDepthFilesFunc σ))
    (pre post : Option (DirFunc σ)) (fuel : Nat) :
    ∀ (d : Dir) (st : LoadState σ),
      (dfsLoadDir retrieve pre post fuel d st).2.2 ≠ Exit.fuel →
      ∀ fuel2, fuel ≤ fuel2 →
        dfsLoadDir retrieve pre post fuel2 d st = dfsLoadDir retrieve pre post fuel d st := by
  induction fuel with
  | zero => intro d st h; exact absurd rfl h
  | succ fuel ih =>
    intro d st hne fuel2 hle
    obtain ⟨f2, rfl⟩ : ∃ f2, fuel2 = f2 + 1 := ⟨fuel2 - 1, by omega⟩
    have hf : fuel ≤ f2 := by omega
    by_cases hh : (dfsLoadHead retrieve pre d st).2.2 = Exit.nil
    · have hkne : (dfsLoadKids retrieve pre post fuel d st).2.2 ≠ Exit.fuel := by
        intro hk
        rw [dfsLoadDir_kids_stop retrieve pre post fuel d st hh
          (by rw [hk]; intro k; cases k)] at hne
        exact hne hk
      have hkids : dfsLoadKids retrieve pre post f2 d st =
          dfsLoadKids retrieve pre post fuel d st :=
        loopSubDirs_fuel_congr _ _ (fun c s hs => ih c s hs f2 hf) _ _ hkne
      by_cases hk : (dfsLoadKids retrieve pre post fuel d st).2.2 = Exit.nil
      · rw [dfsLoadDir_kids_done retrieve pre post fuel d st hh hk,
          dfsLoadDir_kids_done retrieve pre post f2 d st hh (by rw [hkids]; exact hk), hkids]
      · rw [dfsLoadDir_kids_stop retrieve pre post fuel d st hh hk,
          dfsLoadDir_kids_stop retrieve pre post f2 d st hh (by rw [hkids]; exact hk), hkids]
    · rw [dfsLoadDir_head_stop retrieve pre post fuel d st hh,
        dfsLoadDir_head_stop retrieve pre post f2 d st hh]

theorem dfsLoadFetch_pure {σ : Type} (g : Int → Int → List File × List File) (d : Dir)
    (c : Ctx σ) :
    (dfsLoadFetch (some (pureRetrieve g)) d c).2.2 = Exit.nil ∧
    (dfsLoadFetch (some (pureRetrieve g)) d c).1 =
      if d.loaded then d
      else (d.FillDirNoRecurse (g d.originInfo.VolumeId d.originInfo.Id).1
        (g d.originInfo.VolumeId d.originInfo.Id).2).1 := by
  cases hl : d.loaded with
  | true =>
    rw [dfsLoadFetch_of_loaded _ d c hl]
    exact ⟨rfl, rfl⟩
  | false =>
    rw [dfsLoadFetch_ok (pureRetrieve g) d c hl
      (g d.originInfo.VolumeId d.originInfo.Id).1 (g d.originInfo.VolumeId d.originInfo.Id).2
      rfl]
    exact ⟨rfl, rfl⟩

/-- With a deterministic retrieval function and no callbacks, what the head of
`dfsLoadDir` makes of the node and of the totals does not depend on the caller's
context. -/
theorem dfsLoadHead_pure {σ : Type} (g : Int → Int → List File × List File) (d : Dir)
    (st st2 : LoadState σ) (hi : st2.info = st.info) :
    (dfsLoadHead (some (pureRetrieve g)) none d st2).1 =
      (dfsLoadHead (some (pureRetrieve g)) none d st).1 ∧
    (dfsLoadHead (some (pureRetrieve g)) none d st2).2.1.info =
      (dfsLoadHead (some (pureRetrieve g)) none d st).2.1.info ∧
    (dfsLoadHead (some (pureRetrieve g)) none d st2).2.2 =
      (dfsLoadHead (some (pureRetrieve g)) none d st).2.2 := by
  cases hf : d.originInfo.IsFolder with
  | false =>
    rw [dfsLoadHead_not_folder _ _ d st hf, dfsLoadHead_not_folder _ _ d st2 hf]
    exact ⟨rfl, hi, rfl⟩
  | true =>
    by_cases hd : d.depth ≥ st.info.maxDepth
    · rw [dfsLoadHead_too_deep _ _ d st hf hd,
        dfsLoadHead_too_deep _ _ d st2 hf (by rw [hi]; exact hd)]
      exact ⟨rfl, hi, rfl⟩
    · have hd1 : d.depth < st.info.maxDepth := by omega
      have hd2 : d.depth < st2.info.maxDepth := by rw [hi]; exact hd1
      have f1 := dfsLoadFetch_pure g d (callDirFunc Event.preorder none d st.ctx).1
      have f2 := dfsLoadFetch_pure g d (callDirFunc Event.preorder none d st2.ctx).1
      rw [dfsLoadHead_account (some (pureRetrieve g)) none d st hf hd1 rfl f1.1,
        dfsLoadHead_account (some (pureRetrieve g)) none d st2 hf hd2 rfl f2.1]
      simp only
      rw [f1.2, f2.2, hi]
      exact ⟨rfl, rfl, rfl⟩

theorem loopSubDirs_pure {σ : Type} (walk : Dir → LoadState σ → Dir × LoadState σ × Exit)
    (hw : ∀ c st st2, st2.info = st.info →
      (walk c st2).1 = (walk c st).1 ∧ (walk c st2).2.1.info = (walk c st).2.1.info ∧
      (walk c st2).2.2 = (walk c st).2.2) :
    ∀ (subs : List (Option Dir)) (st st2 : LoadState σ), st2.info = st.info →
      (loopSubDirs walk subs st2).1 = (loopSubDirs walk subs st).1 ∧
      (loopSubDirs walk subs st2).2.1.info = (loopSubDirs walk subs st).2.1.info ∧
      (loopSubDirs walk subs st2).2.2 = (loopSubDirs walk subs st).2.2 := by
  intro subs
  induction subs with
  | nil => intro st st2 hi; exact ⟨rfl, hi, rfl⟩
  | cons hd tl ih =>
    intro st st2 hi
    cases hd with
    | none => exact ⟨rfl, hi, rfl⟩
    | some c =>
      obtain ⟨h1, h2, h3⟩ := hw c st st2 hi
      by_cases hx : (walk c st).2.2 = Exit.nil
      · rw [loopSubDirs_some_nil walk c tl st hx,
          loopSubDirs_some_nil walk c tl st2 (h3.trans hx)]
        obtain ⟨k1, k2, k3⟩ := ih _ _ h2
        exact ⟨by simp only; rw [h1, k1], k2, k3⟩
      · rw [loopSubDirs_some_stop walk c tl st hx,
          loopSubDirs_some_stop walk c tl st2 (by rw [h3]; exact hx)]
        exact ⟨by simp only; rw [h1], h2, h3⟩

/-- With a deterministic retrieval function and no callbacks, the tree, the totals and
the result of `dfsLoadDir` do not depend on the caller's context. -/
theorem dfsLoadDir_pure {σ : Type} (g : Int → Int → List File × List File) (fuel : Nat) :
    ∀ (d : Dir) (st st2 : LoadState σ), st2.info = st.info →
      (dfsLoadDir (some (pureRetrieve g)) none none fuel d st2).1 =
        (dfsLoadDir (some (pureRetrieve g)) none none fuel d st).1 ∧
      (dfsLoadDir (some (pureRetrieve g)) none none fuel d st2).2.1.info =
        (dfsLoadDir (some (pureRetrieve g)) none none fuel d st).2.1.info ∧
      (dfsLoadDir (some (pureRetrieve g)) none none fuel d st2).2.2 =
        (dfsLoadDir (some (pureRetrieve g)) none none fuel d st).2.2 := by
  induction fuel with
  | zero => intro d st st2 hi; exact ⟨rfl, hi, rfl⟩
  | succ fuel ih =>
    intro d st st2 hi
    obtain ⟨h1, h2, h3⟩ := dfsLoadHead_pure g d st st2 hi
    by_cases hh : (dfsLoadHead (some (pureRetrieve g)) none d st).2.2 = Exit.nil
    · have hh2 := h3.trans hh
      have hk : (dfsLoadKids (some (pureRetrieve g)) none none fuel d st2).1 =
            (dfsLoadKids (some (pureRetrieve g)) none none fuel d st).1 ∧
          (dfsLoadKids (some (pureRetrieve g)) none none fuel d st2).2.1.info =
            (dfsLoadKids (some (pureRetrieve g)) none none fuel d st).2.1.info ∧
          (dfsLoadKids (some (pureRetrieve g)) none none fuel d st2).2.2 =
            (dfsLoadKids (some (pureRetrieve g)) none none fuel d st).2.2 := by
        unfold dfsLoadKids
        rw [h1]
        exact loopSubDirs_pure _ ih _ _ _ h2
      obtain ⟨k1, k2, k3⟩ := hk
      by_cases hx : (dfsLoadKids (some (pureRetrieve g)) none none fuel d st).2.2 = Exit.nil
      · rw [dfsLoadDir_kids_done _ _ _ fuel d st hh hx,
          dfsLoadDir_kids_done _ _ _ fuel d st2 hh2 (k3.trans hx)]
        exact ⟨by simp only; rw [h1, k1], k2, rfl⟩
      · rw [dfsLoadDir_kids_stop _ _ _ fuel d st hh hx,
          dfsLoadDir_kids_stop _ _ _ fuel d st2 hh2 (by rw [k3]; exact hx)]
        exact ⟨by simp only; rw [h1, k1], k2, k3⟩
    · rw [dfsLoadDir_head_stop _ _ _ fuel d st hh,
        dfsLoadDir_head_stop _ _ _ fuel d st2 (by rw [h3]; exact hh)]
      exact ⟨h1, h2, h3⟩

/-! ## Seeding the first level by hand -/

/-- With a deterministic retrieval function and no callbacks: two runs of `dfsLoadDir`
whose heads leave the same node, the same totals and the same result go on the same
way. -/
theorem dfsLoadDir_same_head {σ : Type} (g : Int → Int → List File × List File) (fuel : Nat)
    (d d2 : Dir) (st st2 : LoadState σ)
    (h1 : (dfsLoadHead (some (pureRetrieve g)) none d2 st2).1 =
      (dfsLoadHead (some (pureRetrieve g)) none d st).1)
    (h2 : (dfsLoadHead (some (pureRetrieve g)) none d2 st2).2.1.info =
      (dfsLoadHead (some (pureRetrieve g)) none d st).2.1.info)
    (h3 : (dfsLoadHead (some (pureRetrieve g)) none d2 st2).2.2 =
      (dfsLoadHead (some (pureRetrieve g)) none d st).2.2) :
    (dfsLoadDir (some (pureRetrieve g)) none none (fuel + 1) d2 st2).1 =
      (dfsLoadDir (some (pureRetrieve g)) none none (fuel + 1) d st).1 ∧
    (dfsLoadDir (some (pureRetrieve g)) none none (fuel + 1) d2 st2).2.1.info =
      (dfsLoadDir (some (pureRetrieve g)) none none (fuel + 1) d st).2.1.info ∧
    (dfsLoadDir (some (pureRetrieve g)) none none (fuel + 1) d2 st2).2.2 =
      (dfsLoadDir (some (pureRetrieve g)) none none (fuel + 1) d st).2.2 := by
  by_cases hh : (dfsLoadHead (some (pureRetrieve g)) none d st).2.2 = Exit.nil
  · have hh2 := h3.trans hh
    have hk : (dfsLoadKids (some (pureRetrieve g)) none none fuel d2 st2).1 =
          (dfsLoadKids (some (pureRetrieve g)) none none fuel d st).1 ∧
        (dfsLoadKids (some (pureRetrieve g)) none none fuel d2 st2).2.1.info =
          (dfsLoadKids (some (pureRetrieve g)) none none fuel d st).2.1.info ∧
        (dfsLoadKids (some (pureRetrieve g)) none none fuel d2 st2).2.2 =
          (dfsLoadKids (some (pureRetrieve g)) none none fuel d st).2.2 := by
      unfold dfsLoadKids
      rw [h1]
      exact loopSubDirs_pure _ (dfsLoadDir_pure g fuel) _ _ _ h2
    obtain ⟨k1, k2, k3⟩ := hk
    by_cases hx : (dfsLoadKids (some (pureRetrieve g)) none none fuel d st).2.2 = Exit.nil
    · rw [dfsLoadDir_kids_done _ _ _ fuel d st hh hx,
        dfsLoadDir_kids_done _ _ _ fuel d2 st2 hh2 (k3.trans hx)]
      exact ⟨by simp only; rw [h1, k1], k2, rfl⟩
    · rw [dfsLoadDir_kids_stop _ _ _ fuel d st hh hx,
        dfsLoadDir_kids_stop _ _ _ fuel d2 st2 hh2 (by rw [k3]; exact hx)]
      exact ⟨by simp only; rw [h1, k1], k2, k3⟩
  · rw [dfsLoadDir_head_stop _ _ _ fuel d st hh,
      dfsLoadDir_head_stop _ _ _ fuel d2 st2 (by rw [h3]; exact hh)]
    exact ⟨h1, h2, h3⟩

/-- The head of `dfsLoadDir` on a node that was filled by hand with what the retrieval
function returns for it, against the head on the node as it was: the same totals and the
same result, and the same node when the head goes on. -/
theorem dfsLoadHead_seeded {σ : Type} (g : Int → Int → List File × List File) (d : Dir)
    (hl : d.loaded = false) (st : LoadState σ) :
    (dfsLoadHead (some (pureRetrieve g)) none
      (d.FillDirNoRecurse (g d.originInfo.VolumeId d.originInfo.Id).1
        (g d.originInfo.VolumeId d.originInfo.Id).2).1 st).2.1.info =
      (dfsLoadHead (some (pureRetrieve g)) none d st).2.1.info ∧
    (dfsLoadHead (some (pureRetrieve g)) none
      (d.FillDirNoRecurse (g d.originInfo.VolumeId d.originInfo.Id).1
        (g d.originInfo.VolumeId d.originInfo.Id).2).1 st).2.2 =
      (dfsLoadHead (some (pureRetrieve g)) none d st).2.2 ∧
    ((dfsLoadHead (some (pureRetrieve g)) none d st).2.2 = Exit.nil →
      (dfsLoadHead (some (pureRetrieve g)) none
        (d.FillDirNoRecurse (g d.originInfo.VolumeId d.originInfo.Id).1
          (g d.originInfo.VolumeId d.originInfo.Id).2).1 st).1 =
        (dfsLoadHead (some (pureRetrieve g)) none d st).1) := by
  generalize hs : (d.FillDirNoRecurse (g d.originInfo.VolumeId d.originInfo.Id).1
    (g d.originInfo.VolumeId d.originInfo.Id).2).1 = seeded
  have ho : seeded.originInfo = d.originInfo := by rw [← hs, FillDirNoRecurse_originInfo]
  have hdp : seeded.depth = d.depth := by rw [← hs, FillDirNoRecurse_depth]
  have hsl : seeded.loaded = true := by rw [← hs, FillDirNoRecurse_unloaded d _ _ hl]
  cases hf : d.originInfo.IsFolder with
  | false =>
    rw [dfsLoadHead_not_folder _ _ d st hf,
      dfsLoadHead_not_folder _ _ seeded st (by rw [ho]; exact hf)]
    exact ⟨rfl, rfl, fun h => by cases h⟩
  | true =>
    by_cases hd : d.depth ≥ st.info.maxDepth
    · rw [dfsLoadHead_too_deep _ _ d st hf hd,
        dfsLoadHead_too_deep _ _ seeded st (by rw [ho]; exact hf) (by rw [hdp]; exact hd)]
      exact ⟨rfl, rfl, fun h => by cases h⟩
    · have hd1 : d.depth < st.info.maxDepth := by omega
      have f1 := dfsLoadFetch_pure g d (callDirFunc Event.preorder none d st.ctx).1
      have f2 := dfsLoadFetch_pure g seeded (callDirFunc Event.preorder none seeded st.ctx).1
      rw [hl] at f1
      rw [hsl] at f2
      simp only [Bool.false_eq_true, if_false, if_true] at f1 f2
      rw [hs] at f1
      rw [dfsLoadHead_account (some (pureRetrieve g)) none d st hf hd1 rfl f1.1,
        dfsLoadHead_account (some (pureRetrieve g)) none seeded st (by rw [ho]; exact hf)
          (by rw [hdp]; exact hd1) rfl f2.1]
      simp only
      rw [f1.2, f2.2]
      exact ⟨rfl, rfl, fun _ => rfl⟩

/-- `dfsLoadDir`, with the same budget, on the node filled by hand and on the node as it
was. -/
theorem dfsLoadDir_seeded {σ : Type} (g : Int → Int → List File × List File) (d : Dir)
    (hl : d.loaded = false) (fuel : Nat) (st : LoadState σ) :
    (dfsLoadDir (some (pureRetrieve g)) none none (fuel + 1)
      (d.FillDirNoRecurse (g d.originInfo.VolumeId d.originInfo.Id).1
        (g d.originInfo.VolumeId d.originInfo.Id).2).1 st).2.1.info =
      (dfsLoadDir (some (pureRetrieve g)) none none (fuel + 1) d st).2.1.info ∧
    (dfsLoadDir (some (pureRetrieve g)) none none (fuel + 1)
      (d.FillDirNoRecurse (g d.originInfo.VolumeId d.originInfo.Id).1
        (g d.originInfo.VolumeId d.originInfo.Id).2).1 st).2.2 =
      (dfsLoadDir (some (pureRetrieve g)) none none (fuel + 1) d st).2.2 ∧
    ((dfsLoadDir (some (pureRetrieve g)) none none (fuel + 1) d st).2.2 = Exit.nil →
      (dfsLoadDir (some (pureRetrieve g)) none none (fuel + 1)
        (d.FillDirNoRecurse (g d.originInfo.VolumeId d.originInfo.Id).1
          (g d.originInfo.VolumeId d.originInfo.Id).2).1 st).1 =
        (dfsLoadDir (some (pureRetrieve g)) none none (fuel + 1) d st).1) := by
  obtain ⟨h2, h3, h1⟩ := dfsLoadHead_seeded g d hl st
  by_cases hh : (dfsLoadHead (some (pureRetrieve g)) none d st).2.2 = Exit.nil
  · obtain ⟨a, b, c⟩ := dfsLoadDir_same_head g fuel d _ st st (h1 hh) h2 h3
    exact ⟨b, c, fun _ => a⟩
  · rw [dfsLoadDir_head_stop _ _ _ fuel d st hh,
      dfsLoadDir_head_stop _ _ _ fuel _ st (by rw [h3]; exact hh)]
    exact ⟨h2, h3, fun h => absurd h hh⟩

theorem dfsInfoInit_lt (d : Dir) (maxDepth numLimit sizeLimit : Int)
    (hm : maxDepth < 9223372036854775808) :
    (d.dfsInfoInit maxDepth numLimit sizeLimit).maxDepth < 9223372036854775808 := by
  unfold Dir.dfsInfoInit
  simp only
  split
  · unfold defMaxDepth; decide
  · exact hm

theorem dfsInfoInit_congr {d e : Dir} (h : d.originInfo = e.originInfo)
    (maxDepth numLimit sizeLimit : Int) :
    d.dfsInfoInit maxDepth numLimit sizeLimit = e.dfsInfoInit maxDepth numLimit sizeLimit := by
  unfold Dir.dfsInfoInit
  rw [IsVirtualDir_congr h]

theorem Dir.loadFuel_pos (m : Int) (d : Dir) : 1 ≤ d.loadFuel m := by
  rw [Dir.loadFuel_eq]
  split <;> omega

/-- The run of `DFSLoad` is the run of `dfsLoadDir` with any budget that is large
enough. -/
theorem loadRun_eq_of_le {σ : Type} (d : Dir) (maxDepth numLimit sizeLimit : Int)
    (hm : maxDepth < 9223372036854775808)
    (retrieve : Option (RetrieveNextDepthFilesFunc σ)) (pre post : Option (DirFunc σ))
    (c : Ctx σ) (fuel : Nat)
    (hf : d.loadFuel (d.dfsInfoInit maxDepth numLimit sizeLimit).maxDepth ≤ fuel) :
    d.loadRun maxDepth numLimit sizeLimit retrieve pre post c =
      dfsLoadDir retrieve pre post fuel d ⟨d.dfsInfoInit maxDepth numLimit sizeLimit, c⟩ := by
  unfold Dir.loadRun
  exact (dfsLoadDir_fuel_mono retrieve pre post _ d _
    (dfsLoadDir_fuel_enough retrieve pre post _
      (dfsInfoInit_lt d maxDepth numLimit sizeLimit hm) _ d _ rfl (le_refl _)) fuel hf).symm

/-! ## The breadth-first walk comes to an end -/

theorem bfsLevel_next {σ : Type} (callBack : Option (DirFunc σ)) :
    ∀ (curr next : List (Option Dir)) (c : Ctx σ),
      (bfsLevel callBack curr next c).2.2 = Exit.nil →
      (bfsLevel callBack curr next c).1 = next ++ nextDepthDirs curr := by
  intro curr
  induction curr with
  | nil => intro next c _; rw [bfsLevel_nil]; simp
  | cons hd tl ih =>
    intro next c h
    cases hd with
    | none => rw [bfsLevel_none] at h; cases h
    | some d =>
      by_cases hp : (callDirFunc Event.bfs callBack d c).2 = Exit.nil
      · rw [bfsLevel_some_nil _ _ _ _ c hp] at h ⊢
        rw [ih _ _ h, nextDepthDirs_some, List.append_assoc]
      · rw [bfsLevel_some_stop _ _ _ _ c hp] at h
        exact absurd h hp

theorem bfsLevel_ne_fuel {σ : Type} (callBack : Option (DirFunc σ)) :
    ∀ (curr next : List (Option Dir)) (c : Ctx σ),
      (bfsLevel callBack curr next c).2.2 ≠ Exit.fuel := by
  intro curr
  induction curr with
  | nil => intro next c h; cases h
  | cons hd tl ih =>
    intro next c
    cases hd with
    | none => intro h; cases h
    | some d =>
      by_cases hp : (callDirFunc Event.bfs callBack d c).2 = Exit.nil
      · rw [bfsLevel_some_nil _ _ _ _ c hp]
        exact ih _ _
      · rw [bfsLevel_some_stop _ _ _ _ c hp]
        exact callDirFunc_ne_fuel _ _ _ _

theorem bfsLoop_ne_fuel {σ : Type} (callBack : Option (DirFunc σ)) :
    ∀ (fuel : Nat) (curr : List (Option Dir)) (c : Ctx σ), heightList curr < fuel →
      (bfsLoop callBack fuel curr c).2 ≠ Exit.fuel := by
  intro fuel
  induction fuel with
  | zero => intro curr c h; omega
  | succ fuel ih =>
    intro curr c hh
    cases curr with
    | nil => intro h; cases h
    | cons x xs =>
      by_cases hp : (bfsLevel callBack (x :: xs) [] c).2.2 = Exit.nil
      · have hpos : 0 < heightList (x :: xs) := by
          cases x with
          | none => rw [bfsLevel_none] at hp; cases hp
          | some d => rw [heightList_some, Dir.height_eq]; omega
        rw [bfsLoop_succ_cons_nil _ _ _ _ c hp, bfsLevel_next _ _ _ c hp]
        refine ih _ _ ?_
        rw [List.nil_append, heightList_nextDepthDirs]
        omega
      · rw [bfsLoop_succ_cons_stop _ _ _ _ c hp]
        exact bfsLevel_ne_fuel _ _ _ _

/-- `BfsWithFunc` always comes to an end: it returns nil or an error, or it panics; the
model's budget is never the reason it stops. -/
theorem BfsWithFunc_ne_fuel {σ : Type} (callBack : Option (DirFunc σ)) (d : Dir) (c : Ctx σ) :
    (d.BfsWithFunc callBack c).2 ≠ Exit.fuel := by
  unfold Dir.BfsWithFunc
  cases d.loaded with
  | false => intro h; cases h
  | true =>
    refine bfsLoop_ne_fuel callBack _ _ c ?_
    rw [heightList_some, heightList_nil]
    have := Nat.max_eq_left (Nat.zero_le d.height)
    omega

/-! ## The number of levels -/

theorem bfsLevels_length :
    ∀ (n : Nat) (curr : List (Option Dir)), noNilList curr = true →
      (bfsLevels n curr).length = min n (heightList curr) := by
  intro n
  induction n with
  | zero => intro curr _; rw [bfsLevels_zero]; simp
  | succ n ih =>
    intro curr hn
    cases curr with
    | nil => rw [bfsLevels_nil]; simp
    | cons x xs =>
      rw [bfsLevels_succ_cons, List.length_cons, ih _ (noNilList_nextDepthDirs _ hn),
        heightList_nextDepthDirs]
      cases x with
      | none => simp at hn
      | some c =>
        rw [heightList_some, Dir.height_eq]
        omega

/-- A tree without nil children has as many levels as its height. -/
theorem Dir.levels_length (d : Dir) (hn : d.noNil = true) : d.levels.length = d.height := by
  unfold Dir.levels
  rw [bfsLevels_length d.height [some d] (by rw [noNilList_some, hn]; rfl), heightList_some,
    heightList_nil]
  omega

/-- The walk of `GetAllFoldersAndFilesOnLevel` on a tree without nil children, whose root
is loaded, with consistent depths below 2^63 - 2: it returns nil, `maxLevel` ends as the
root's depth plus the number of levels, and the map holds the entries of the levels. -/
theorem BfsWithFunc_addLevel (d : Dir) (hl : d.loaded = true)
    (hn : d.noNil = true) (hd : d.depthsOk = true)
    (hb : ∀ n ∈ d.nodes, -9223372036854775808 ≤ n.depth ∧ n.depth < 9223372036854775806)
    (mx : Int) (m : Int → List File) (hmx : mx ≤ d.depth + 1) :
    d.BfsWithFunc (some addLevelFoldersAndFiles) ⟨(mx, m), []⟩ =
      (⟨(d.depth + d.levels.length,
        fun level => m level ++ levelEntries d.levels (d.depth + 1) level),
        [] ++ d.bfsNodes.map Event.bfs⟩, Exit.nil) := by
  have hsub := Dir.noNil_sub d hn
  have hne : d.levels.isEmpty = false := by rw [Dir.levels_eq]; rfl
  rw [BfsWithFunc_fold addLevelFoldersAndFiles d _ hl hn
    (fun n hm w => by rw [addLevelFoldersAndFiles_noNil n (hsub n hm)])]
  have hfold := foldl_addLevel_levels d.height [some d] d.depth mx m
    (by rw [depthsOkList_some, hd]; simp) (by rw [noNilList_some, hn]; rfl)
    (by
      intro x hx
      rw [nodesList_some, nodesList_nil, List.append_nil] at hx
      have := hb x hx
      omega) hmx
  have hne2 : (bfsLevels d.height [some d]).isEmpty = false := hne
  rw [hne2] at hfold
  simp only [Bool.false_eq_true, if_false] at hfold
  have hb2 : d.bfsNodes = (bfsLevels d.height [some d]).flatten := rfl
  rw [hb2, hfold]
  rfl

/-- The two variables of `GetAllFoldersAndFilesOnLevel` when its walk has ended:
`minLevel` is the root's depth, plus one for a virtual root, and `maxLevel` is the root's
depth plus the height of the tree. -/
theorem levelInit_bounds (d : Dir) (hl : d.loaded = true)
    (hn : d.noNil = true) (hd : d.depthsOk = true)
    (hb : ∀ n ∈ d.nodes, -9223372036854775808 ≤ n.depth ∧ n.depth < 9223372036854775806) :
    d.levelInit.1 = (if d.IsVirtualDir then d.depth + 1 else d.depth) ∧
    (d.BfsWithFunc (some addLevelFoldersAndFiles) ⟨d.levelInit, []⟩).1.world.1 =
      d.depth + d.height := by
  have hroot := hb d (Dir.self_mem_nodes d)
  have hmin : d.levelInit.1 = (if d.IsVirtualDir then d.depth + 1 else d.depth) := by
    unfold Dir.levelInit
    cases d.IsVirtualDir with
    | true =>
      simp only [Bool.not_true, Bool.false_eq_true, if_false, if_true]
      exact wrap64_of_range _ (by omega) (by omega)
    | false => rfl
  refine ⟨hmin, ?_⟩
  have hw := BfsWithFunc_addLevel d hl hn hd hb d.levelInit.1 d.levelInit.2 (by
    rw [hmin]; split <;> omega)
  have he : (⟨d.levelInit, []⟩ : Ctx (Int × (Int → List File))) =
      ⟨(d.levelInit.1, d.levelInit.2), []⟩ := rfl
  rw [he, hw, Dir.levels_length d hn]

/-! ## A hierarchy without a bottom -/

theorem oneMoreFolder_bottomless : Bottomless oneMoreFolder :=
  fun _ volumeId folderId =>
    ⟨⟨wrap64 (folderId + 1), folderId, volumeId, "", typeFolder, 0, 0, 0, 0, 0, 0⟩, rfl, rfl⟩

theorem selfFolder_bottomless : Bottomless selfFolder :=
  fun _ volumeId folderId =>
    ⟨⟨folderId, folderId, volumeId, "", typeFolder, 0, 0, 0, 0, 0, 0⟩, rfl, rfl⟩

/-- The head of `dfsLoadDir` on a node that is not loaded, below the depth limit, when the
retrieval function returns one folder and no files: the node gets one child, one level
deeper, and one entry is added to the count. -/
theorem dfsLoadHead_one_folder {σ : Type} (r : RetrieveNextDepthFilesFunc σ) (d : Dir)
    (st : LoadState σ) (folder : File) (hfo : folder.IsFolder = true)
    (hok : (r st.ctx.world d.originInfo.VolumeId d.originInfo.Id).2 = Except.ok ([], [folder]))
    (hl : d.loaded = false) (hf : d.originInfo.IsFolder = true)
    (hd : d.depth < st.info.maxDepth) :
    dfsLoadHead (some r) none d st =
      (Dir.mk d.originInfo
          [some (Dir.mk folder [] [] (wrap64 (d.depth + 1)) unKnown unKnown false)] []
          d.depth 1 0 true,
        ⟨(dfsLoadAccount 1 0 st.info).1,
          ⟨(r st.ctx.world d.originInfo.VolumeId d.originInfo.Id).1,
            st.ctx.trace ++ [Event.retrieve d.originInfo.VolumeId d.originInfo.Id]⟩⟩,
        (dfsLoadAccount 1 0 st.info).2) := by
  have hfetch : dfsLoadFetch (some r) d (callDirFunc Event.preorder none d st.ctx).1 =
      (Dir.mk d.originInfo
          [some (Dir.mk folder [] [] (wrap64 (d.depth + 1)) unKnown unKnown false)] []
          d.depth 1 0 true,
        ⟨(r st.ctx.world d.originInfo.VolumeId d.originInfo.Id).1,
          st.ctx.trace ++ [Event.retrieve d.originInfo.VolumeId d.originInfo.Id]⟩,
        Exit.nil) := by
    rw [callDirFunc_none]
    rw [dfsLoadFetch_ok r d st.ctx hl [] [folder] hok, FillDirNoRecurse_unloaded d _ _ hl]
    refine Prod.ext ?_ rfl
    simp only
    congr 1
    · rw [List.map_cons, List.map_nil, NewDir_folder _ _ _ _ hfo]
    · exact wrap64_of_range 1 (by decide) (by decide)
  have hp : (callDirFunc Event.preorder none d st.ctx).2 = Exit.nil := rfl
  have hx : (dfsLoadFetch (some r) d (callDirFunc Event.preorder none d st.ctx).1).2.2 =
      Exit.nil := by rw [hfetch]
  have key := dfsLoadHead_account (some r) none d st hf hd hp hx
  rw [hfetch] at key
  simp only [Dir.count_mk, Dir.size_mk] at key
  exact key

/-- Loading from a store without a bottom: from a node that is not loaded and lies `n`
levels above the depth limit, with room for `n` more entries under the count limit,
`dfsLoadDir` expands `n` nodes, one below the other, and fails with
`errMaxPathDepthLimit` at the node it finds at the limit. -/
theorem dfsLoadDir_bottomless {σ : Type} (r : RetrieveNextDepthFilesFunc σ)
    (hr : Bottomless r) (n : Nat) :
    ∀ (fuel : Nat) (d : Dir) (st : LoadState σ), n + 1 ≤ fuel → d.loaded = false →
      d.originInfo.IsFolder = true → -9223372036854775808 ≤ d.depth →
      d.depth + n = st.info.maxDepth → st.info.maxDepth < 9223372036854775808 →
      0 ≤ st.info.totalCount → st.info.totalCount + n ≤ st.info.numLimit →
      st.info.numLimit < 9223372036854775808 → st.info.totalSize = 0 →
      (dfsLoadDir (some r) none none fuel d st).2.2 =
        Exit.error Err.errMaxPathDepthLimit := by
  induction n with
  | zero =>
    intro fuel d st hfuel _ hf _ hdep _ _ _ _ _
    obtain ⟨f, rfl⟩ : ∃ f, fuel = f + 1 := ⟨fuel - 1, by omega⟩
    have hd : d.depth ≥ st.info.maxDepth := by
      have : d.depth + ((0 : Nat) : Int) = st.info.maxDepth := hdep
      omega
    have hh := dfsLoadHead_too_deep (some r) none d st hf hd
    rw [dfsLoadDir_head_stop (some r) none none f d st (by rw [hh]; intro e; cases e), hh]
  | succ n ih =>
    intro fuel d st hfuel hl hf hlo hdep hm h0 hcount hnum hsize
    obtain ⟨f, rfl⟩ : ∃ f, fuel = f + 1 := ⟨fuel - 1, by omega⟩
    push_cast at hdep hcount
    have hd : d.depth < st.info.maxDepth := by omega
    obtain ⟨folder, hfo, hok⟩ := hr st.ctx.world d.originInfo.VolumeId d.originInfo.Id
    have hh := dfsLoadHead_one_folder r d st folder hfo hok hl hf hd
    have hw1 : wrap64 (st.info.totalCount + 1) = st.info.totalCount + 1 :=
      wrap64_of_range _ (by omega) (by omega)
    have hw0 : wrap64 (st.info.totalSize + 0) = 0 := by
      rw [hsize]; exact wrap64_of_range _ (by decide) (by decide)
    have hacc : (dfsLoadAccount 1 0 st.info).2 = Exit.nil := by
      refine dfsLoadAccount_go 1 0 st.info (by rw [hw1]; omega) ?_
      by_cases hs : st.info.sizeLimit < 0
      · exact Or.inl hs
      · exact Or.inr (by rw [hw0]; omega)
    have hinfo := dfsLoadAccount_info 1 0 st.info
    rw [hw1, hw0] at hinfo
    have hwd : wrap64 (d.depth + 1) = d.depth + 1 := wrap64_of_range _ (by omega) (by omega)
    have hchild := ih f (Dir.mk folder [] [] (wrap64 (d.depth + 1)) unKnown unKnown false)
      (dfsLoadHead (some r) none d st).2.1 (by omega) rfl hfo
      (by rw [Dir.depth_mk, hwd]; omega)
      (by rw [hh, Dir.depth_mk, hwd, hinfo]; simp only; omega)
      (by rw [hh, hinfo]; exact hm)
      (by rw [hh, hinfo]; simp only; omega)
      (by rw [hh, hinfo]; simp only; omega)
      (by rw [hh, hinfo]; exact hnum)
      (by rw [hh, hinfo])
    have hhead : (dfsLoadHead (some r) none d st).2.2 = Exit.nil := by rw [hh]; exact hacc
    have hsubs : (dfsLoadHead (some r) none d st).1.subDirs =
        [some (Dir.mk folder [] [] (wrap64 (d.depth + 1)) unKnown unKnown false)] := by
      rw [hh]
    have hkids : (dfsLoadKids (some r) none none f d st).2.2 =
        Exit.error Err.errMaxPathDepthLimit := by
      unfold dfsLoadKids
      rw [hsubs, loopSubDirs_some_stop _ _ _ _ (by rw [hchild]; intro e; cases e)]
      exact hchild
    rw [dfsLoadDir_kids_stop (some r) none none f d st hhead
      (by rw [hkids]; intro e; cases e)]
    exact hkids

/-- The children that the head of `dfsLoadDir` creates for a node that was not loaded are
one level deeper than the node, and the node itself is below the depth limit. -/
theorem dfsLoadHead_child_depth {σ : Type} (retrieve : Option (RetrieveNextDepthFilesFunc σ))
    (pre : Option (DirFunc σ)) (d : Dir) (st : LoadState σ)
    (hm : st.info.maxDepth < 9223372036854775808)
    (hlo : -9223372036854775808 ≤ d.depth) (hl : d.loaded = false)
    (h : (dfsLoadHead retrieve pre d st).2.2 = Exit.nil) (c : Dir)
    (hc : some c ∈ (dfsLoadHead retrieve pre d st).1.subDirs) :
    d.depth < st.info.maxDepth ∧ c.depth = d.depth + 1 ∧ c.loaded = false := by
  obtain ⟨hf, hd, hp, hx, _⟩ := dfsLoadHead_nil retrieve pre d st h
  refine ⟨hd, ?_⟩
  rw [dfsLoadHead_account retrieve pre d st hf hd hp hx] at hc
  simp only at hc
  cases retrieve with
  | none => rw [dfsLoadFetch_no_func d _ hl] at hx; cases hx
  | some r =>
    cases hr : (r (callDirFunc Event.preorder pre d st.ctx).1.world
        d.originInfo.VolumeId d.originInfo.Id).2 with
    | error code => rw [dfsLoadFetch_error r d _ hl code hr] at hx; cases hx
    | ok v =>
      obtain ⟨files, folders⟩ := v
      rw [dfsLoadFetch_ok r d _ hl files folders hr,
        FillDirNoRecurse_unloaded d files folders hl] at hc
      simp only [Dir.subDirs_mk] at hc
      obtain ⟨folder, _, hn⟩ := List.mem_map.1 hc
      unfold NewDir at hn
      split at hn
      · cases hn
      · cases hn
        exact ⟨wrap64_of_range _ (by omega) (by omega), rfl⟩

/-! ## Loading without a retrieval function -/

theorem walkLoaded_nil (info : dsfLoadInfo) : walkLoaded info [] = (info, Exit.nil) := rfl

theorem walkLoaded_cons (info : dsfLoadInfo) (n : Dir) (rest : List Dir) :
    walkLoaded info (n :: rest) =
      if !n.originInfo.IsFolder then (info, Exit.error Err.errNotFolderType)
      else if n.depth ≥ info.maxDepth then (info, Exit.error Err.errMaxPathDepthLimit)
      else if !n.loaded then (info, Exit.error Err.errNoRetrieveNextDepthFilesFunc)
      else
        match (dfsLoadAccount n.count n.size info).2 with
        | Exit.nil => walkLoaded (dfsLoadAccount n.count n.size info).1 rest
        | e => ((dfsLoadAccount n.count n.size info).1, e) := rfl

theorem walkLoaded_not_folder (info : dsfLoadInfo) (n : Dir) (rest : List Dir)
    (h : n.originInfo.IsFolder = false) :
    walkLoaded info (n :: rest) = (info, Exit.error Err.errNotFolderType) := by
  rw [walkLoaded_cons]; simp only [h, Bool.not_false, if_true]

theorem walkLoaded_deep (info : dsfLoadInfo) (n : Dir) (rest : List Dir)
    (h : n.originInfo.IsFolder = true) (hd : n.depth ≥ info.maxDepth) :
    walkLoaded info (n :: rest) = (info, Exit.error Err.errMaxPathDepthLimit) := by
  rw [walkLoaded_cons]
  simp only [h, Bool.not_true, Bool.false_eq_true, if_false, hd, if_true]

theorem walkLoaded_unloaded (info : dsfLoadInfo) (n : Dir) (rest : List Dir)
    (h : n.originInfo.IsFolder = true) (hd : n.depth < info.maxDepth)
    (hl : n.loaded = false) :
    walkLoaded info (n :: rest) =
      (info, Exit.error Err.errNoRetrieveNextDepthFilesFunc) := by
  have hd2 : ¬ n.depth ≥ info.maxDepth := by omega
  rw [walkLoaded_cons]
  simp only [h, Bool.not_true, Bool.false_eq_true, if_false, hd2, hl, Bool.not_false, if_true]

theorem walkLoaded_stop (info : dsfLoadInfo) (n : Dir) (rest : List Dir)
    (h : n.originInfo.IsFolder = true) (hd : n.depth < info.maxDepth)
    (hl : n.loaded = true) (ha : (dfsLoadAccount n.count n.size info).2 ≠ Exit.nil) :
    walkLoaded info (n :: rest) = dfsLoadAccount n.count n.size info := by
  have hd2 : ¬ n.depth ≥ info.maxDepth := by omega
  rw [walkLoaded_cons]
  simp only [h, Bool.not_true, Bool.false_eq_true, if_false, hd2, hl]

theorem walkLoaded_go (info : dsfLoadInfo) (n : Dir) (rest : List Dir)
    (h : n.originInfo.IsFolder = true) (hd : n.depth < info.maxDepth)
    (hl : n.loaded = true) (ha : (dfsLoadAccount n.count n.size info).2 = Exit.nil) :
    walkLoaded info (n :: rest) = walkLoaded (dfsLoadAccount n.count n.size info).1 rest := by
  have hd2 : ¬ n.depth ≥ info.maxDepth := by omega
  rw [walkLoaded_cons]
  simp only [h, Bool.not_true, Bool.false_eq_true, if_false, hd2, hl, ha]

/-- The cases of one step of `walkLoaded`. -/
theorem walkLoaded_cases (info : dsfLoadInfo) (n : Dir) (rest : List Dir) :
    (walkLoaded info (n :: rest)).2 ≠ Exit.nil ∧
      (∀ rest2, walkLoaded info (n :: rest2) = walkLoaded info (n :: rest)) ∨
    (n.originInfo.IsFolder = true ∧ n.depth < info.maxDepth ∧ n.loaded = true ∧
      (dfsLoadAccount n.count n.size info).2 = Exit.nil ∧
      ∀ rest2, walkLoaded info (n :: rest2) =
        walkLoaded (dfsLoadAccount n.count n.size info).1 rest2) := by
  cases hf : n.originInfo.IsFolder with
  | false =>
    refine Or.inl ⟨?_, fun rest2 => ?_⟩
    · rw [walkLoaded_not_folder info n rest hf]; intro e; cases e
    · rw [walkLoaded_not_folder info n rest hf, walkLoaded_not_folder info n rest2 hf]
  | true =>
    by_cases hd : n.depth ≥ info.maxDepth
    · refine Or.inl ⟨?_, fun rest2 => ?_⟩
      · rw [walkLoaded_deep info n rest hf hd]; intro e; cases e
      · rw [walkLoaded_deep info n rest hf hd, walkLoaded_deep info n rest2 hf hd]
    · have hd2 : n.depth < info.maxDepth := by omega
      cases hl : n.loaded with
      | false =>
        refine Or.inl ⟨?_, fun rest2 => ?_⟩
        · rw [walkLoaded_unloaded info n rest hf hd2 hl]; intro e; cases e
        · rw [walkLoaded_unloaded info n rest hf hd2 hl,
            walkLoaded_unloaded info n rest2 hf hd2 hl]
      | true =>
        by_cases ha : (dfsLoadAccount n.count n.size info).2 = Exit.nil
        · exact Or.inr ⟨rfl, hd2, rfl, ha, fun rest2 => walkLoaded_go info n rest2 hf hd2 hl ha⟩
        · refine Or.inl ⟨?_, fun rest2 => ?_⟩
          · rw [walkLoaded_stop info n rest hf hd2 hl ha]; exact ha
          · rw [walkLoaded_stop info n rest hf hd2 hl ha,
              walkLoaded_stop info n rest2 hf hd2 hl ha]

theorem walkLoaded_append_stop (info : dsfLoadInfo) (a b : List Dir)
    (h : (walkLoaded info a).2 ≠ Exit.nil) :
    walkLoaded info (a ++ b) = walkLoaded info a := by
  induction a generalizing info with
  | nil => exact absurd rfl h
  | cons n rest ih =>
    rw [List.cons_append]
    rcases walkLoaded_cases info n rest with ⟨_, hsame⟩ | ⟨_, _, _, _, hgo⟩
    · exact hsame _
    · rw [hgo] at h ⊢
      rw [hgo rest]
      exact ih _ h

theorem walkLoaded_append_nil (info : dsfLoadInfo) (a b : List Dir)
    (h : (walkLoaded info a).2 = Exit.nil) :
    walkLoaded info (a ++ b) = walkLoaded (walkLoaded info a).1 b := by
  induction a generalizing info with
  | nil => rfl
  | cons n rest ih =>
    rw [List.cons_append]
    rcases walkLoaded_cases info n rest with ⟨hne, _⟩ | ⟨_, _, _, _, hgo⟩
    · exact absurd h hne
    · rw [hgo] at h ⊢
      rw [hgo rest]
      exact ih _ h

/-- The head of `dfsLoadDir` without a retrieval function, with a callback that does not
fail: the node is left as it is, and the exit and the totals are those of one step of
`walkLoaded`. -/
theorem dfsLoadHead_none {σ : Type} (pre : Option (DirFunc σ)) (hpre : NonFailing pre)
    (d : Dir) (st : LoadState σ) :
    (dfsLoadHead none pre d st).1 = d ∧
    (dfsLoadHead none pre d st).2.2 = (walkLoaded st.info [d]).2 ∧
    (dfsLoadHead none pre d st).2.1.info = (walkLoaded st.info [d]).1 := by
  cases hf : d.originInfo.IsFolder with
  | false =>
    rw [dfsLoadHead_not_folder none pre d st hf, walkLoaded_not_folder st.info d [] hf]
    exact ⟨rfl, rfl, rfl⟩
  | true =>
    by_cases hd : d.depth ≥ st.info.maxDepth
    · rw [dfsLoadHead_too_deep none pre d st hf hd, walkLoaded_deep st.info d [] hf hd]
      exact ⟨rfl, rfl, rfl⟩
    · have hd2 : d.depth < st.info.maxDepth := by omega
      have hp := callDirFunc_nonFailing Event.preorder pre hpre d st.ctx
      cases hl : d.loaded with
      | false =>
        have hx : (dfsLoadFetch (none : Option (RetrieveNextDepthFilesFunc σ)) d
            (callDirFunc Event.preorder pre d st.ctx).1).2.2 ≠ Exit.nil := by
          rw [dfsLoadFetch_no_func d _ hl]; intro e; cases e
        rw [dfsLoadHead_fetch_stop none pre d st hf hd2 hp hx, dfsLoadFetch_no_func d _ hl,
          walkLoaded_unloaded st.info d [] hf hd2 hl]
        exact ⟨rfl, rfl, rfl⟩
      | true =>
        have hx : (dfsLoadFetch (none : Option (RetrieveNextDepthFilesFunc σ)) d
            (callDirFunc Event.preorder pre d st.ctx).1).2.2 = Exit.nil := by
          rw [dfsLoadFetch_of_loaded none d _ hl]
        rw [dfsLoadHead_account none pre d st hf hd2 hp hx, dfsLoadFetch_of_loaded none d _ hl]
        by_cases ha : (dfsLoadAccount d.count d.size st.info).2 = Exit.nil
        · rw [walkLoaded_go st.info d [] hf hd2 hl ha, walkLoaded_nil]
          exact ⟨rfl, ha, rfl⟩
        · rw [walkLoaded_stop st.info d [] hf hd2 hl ha]
          exact ⟨rfl, rfl, rfl⟩

/-- The loop over children that the walk leaves as they are, and on each of which it
ends as `walkLoaded` does on the child's nodes. -/
theorem loopSubDirs_walkLoaded {σ : Type}
    (walk : Dir → LoadState σ → Dir × LoadState σ × Exit) (subs : List (Option Dir))
    (hw : ∀ c, some c ∈ subs → ∀ st, (walk c st).2.2 ≠ Exit.fuel →
      (walk c st).1 = c ∧ (walk c st).2.2 = (walkLoaded st.info c.nodes).2 ∧
      (walk c st).2.1.info = (walkLoaded st.info c.nodes).1)
    (hn : noNilList subs = true) :
    ∀ st, (loopSubDirs walk subs st).2.2 ≠ Exit.fuel →
      (loopSubDirs walk subs st).1 = subs ∧
      (loopSubDirs walk subs st).2.2 = (walkLoaded st.info (nodesList subs)).2 ∧
      (loopSubDirs walk subs st).2.1.info = (walkLoaded st.info (nodesList subs)).1 := by
  induction subs with
  | nil => intro st _; exact ⟨rfl, rfl, rfl⟩
  | cons hd tl ih =>
    intro st hne
    cases hd with
    | none => simp at hn
    | some c =>
      rw [noNilList_some, Bool.and_eq_true] at hn
      rw [nodesList_some]
      by_cases hx : (walk c st).2.2 = Exit.nil
      · obtain ⟨h1, h2, h3⟩ := hw c (List.mem_cons_self _ _) st (by rw [hx]; intro e; cases e)
        rw [loopSubDirs_some_nil walk c tl st hx] at hne ⊢
        obtain ⟨i1, i2, i3⟩ := ih (fun x hxm => hw x (List.mem_cons_of_mem _ hxm)) hn.2
          (walk c st).2.1 hne
        rw [walkLoaded_append_nil _ _ _ (by rw [← h2]; exact hx), ← h3]
        exact ⟨by simp only; rw [h1, i1], i2, i3⟩
      · rw [loopSubDirs_some_stop walk c tl st hx] at hne ⊢
        obtain ⟨h1, h2, h3⟩ := hw c (List.mem_cons_self _ _) st hne
        rw [walkLoaded_append_stop _ _ _ (by rw [← h2]; exact hx)]
        exact ⟨by simp only; rw [h1], h2, h3⟩

/-- `dfsLoadDir` without a retrieval function, with callbacks that do not fail, on a tree
without nil children: the tree is left as it is, and the exit and the totals are those of
`walkLoaded` over the nodes in pre-order. -/
theorem dfsLoadDir_none {σ : Type} (pre post : Option (DirFunc σ)) (hpre : NonFailing pre)
    (hpost : NonFailing post) (fuel : Nat) :
    ∀ (d : Dir), d.noNil = true → ∀ (st : LoadState σ),
      (dfsLoadDir none pre post fuel d st).2.2 ≠ Exit.fuel →
      (dfsLoadDir none pre post fuel d st).1 = d ∧
      (dfsLoadDir none pre post fuel d st).2.2 = (walkLoaded st.info d.nodes).2 ∧
      (dfsLoadDir none pre post fuel d st).2.1.info = (walkLoaded st.info d.nodes).1 := by
  induction fuel with
  | zero => intro d _ st h; exact absurd rfl h
  | succ fuel ih =>
    intro d hn st hne
    obtain ⟨h1, h2, h3⟩ := dfsLoadHead_none pre hpre d st
    have hnodes : d.nodes = [d] ++ nodesList d.subDirs := by rw [Dir.nodes_eq]; rfl
    by_cases hh : (dfsLoadHead none pre d st).2.2 = Exit.nil
    · have hnl : noNilList d.subDirs = true := by rw [← Dir.noNil_eq]; exact hn
      have hsub : ∀ c, some c ∈ d.subDirs → c.noNil = true := (noNilList_mem hnl).2
      have hkne : (dfsLoadKids none pre post fuel d st).2.2 ≠ Exit.fuel := by
        intro hk
        rw [dfsLoadDir_kids_stop none pre post fuel d st hh
          (by rw [hk]; intro k; cases k)] at hne
        exact hne hk
      have hkids := loopSubDirs_walkLoaded (dfsLoadDir none pre post fuel) d.subDirs
        (fun c hc st2 hc2 => ih c (hsub c hc) st2 hc2) hnl
        (dfsLoadHead none pre d st).2.1 (by
          have e : dfsLoadKids none pre post fuel d st =
              loopSubDirs (dfsLoadDir none pre post fuel) d.subDirs
                (dfsLoadHead none pre d st).2.1 := by
            unfold dfsLoadKids; rw [h1]
          rw [← e]; exact hkne)
      have e : dfsLoadKids none pre post fuel d st =
          loopSubDirs (dfsLoadDir none pre post fuel) d.subDirs
            (dfsLoadHead none pre d st).2.1 := by
        unfold dfsLoadKids; rw [h1]
      rw [← e, h3] at hkids
      obtain ⟨k1, k2, k3⟩ := hkids
      rw [hnodes, walkLoaded_append_nil _ _ _ (by rw [← h2]; exact hh)]
      by_cases hk : (dfsLoadKids none pre post fuel d st).2.2 = Exit.nil
      · rw [dfsLoadDir_kids_done none pre post fuel d st hh hk]
        refine ⟨?_, ?_, k3⟩
        · simp only; rw [h1, k1, Dir.setSubDirs_self]
        · simp only
          rw [callDirFunc_nonFailing Event.postorder post hpost, ← k2, hk]
      · rw [dfsLoadDir_kids_stop none pre post fuel d st hh hk]
        refine ⟨?_, k2, k3⟩
        simp only; rw [h1, k1, Dir.setSubDirs_self]
    · rw [dfsLoadDir_head_stop none pre post fuel d st hh, hnodes,
        walkLoaded_append_stop _ _ _ (by rw [← h2]; exact hh)]
      exact ⟨h1, h2, h3⟩

/-! ## Which check ends the walk without a retrieval function -/

theorem dfsLoadAccount_exit_cases (count size : Int) (info : dsfLoadInfo) :
    (dfsLoadAccount count size info).2 = Exit.nil ∨
    (dfsLoadAccount count size info).2 = Exit.error Err.errFileNumLimit ∨
    (dfsLoadAccount count size info).2 = Exit.error Err.errTotalSizeLimit := by
  unfold dfsLoadAccount
  simp only
  split
  · exact Or.inr (Or.inl rfl)
  · split
    · exact Or.inr (Or.inr rfl)
    · exact Or.inl rfl

theorem dfsLoadAccount_nil_iff (count size : Int) (info : dsfLoadInfo) :
    (dfsLoadAccount count size info).2 = Exit.nil ↔
      wrap64 (info.totalCount + count) ≤ info.numLimit ∧
      (info.sizeLimit ≥ 0 → wrap64 (info.totalSize + size) ≤ info.sizeLimit) := by
  constructor
  · intro h
    by_cases hc : wrap64 (info.totalCount + count) > info.numLimit
    · rw [dfsLoadAccount_count_stop count size info hc] at h; cases h
    · refine ⟨by omega, fun hs => ?_⟩
      by_cases h2 : wrap64 (info.totalSize + size) > info.sizeLimit
      · rw [dfsLoadAccount_size_stop count size info (by omega) hs h2] at h; cases h
      · omega
  · rintro ⟨h1, h2⟩
    refine dfsLoadAccount_go count size info h1 ?_
    by_cases hs : info.sizeLimit ≥ 0
    · exact Or.inr (h2 hs)
    · exact Or.inl (by omega)

theorem WithinLimits_nil (info : dsfLoadInfo) : WithinLimits info [] :=
  ⟨fun n hn => by simp at hn, fun t ht => by simp [runningTotals_nil] at ht⟩

theorem WithinLimits_cons (info : dsfLoadInfo) (x : Dir) (a : List Dir) :
    WithinLimits info (x :: a) ↔
      x.originInfo.IsFolder = true ∧ x.depth < info.maxDepth ∧
      (dfsLoadAccount x.count x.size info).2 = Exit.nil ∧
      WithinLimits (dfsLoadAccount x.count x.size info).1 a := by
  unfold WithinLimits
  rw [dfsLoadAccount_nil_iff, dfsLoadAccount_info, List.map_cons, runningTotals_cons]
  simp only [List.forall_mem_cons, Dir.step]
  constructor
  · rintro ⟨⟨⟨h1, h2⟩, h3⟩, h4, h5⟩
    exact ⟨h1, h2, h4, h3, h5⟩
  · rintro ⟨h1, h2, h4, h3, h5⟩
    exact ⟨⟨⟨h1, h2⟩, h3⟩, h4, h5⟩

/-- The walk without a retrieval function returns nil exactly when every node is loaded
and the nodes respect the limits. -/
theorem walkLoaded_nil_iff (ns : List Dir) :
    ∀ info : dsfLoadInfo,
      (walkLoaded info ns).2 = Exit.nil ↔
        (∀ n ∈ ns, n.loaded = true) ∧ WithinLimits info ns := by
  induction ns with
  | nil => intro info; exact ⟨fun _ => ⟨fun n hn => by simp at hn, WithinLimits_nil info⟩,
      fun _ => rfl⟩
  | cons x rest ih =>
    intro info
    rw [WithinLimits_cons, List.forall_mem_cons]
    cases hf : x.originInfo.IsFolder with
    | false =>
      rw [walkLoaded_not_folder info x rest hf]
      exact ⟨fun h => (by cases h), fun h => (by cases h.2.1)⟩
    | true =>
      by_cases hd : x.depth ≥ info.maxDepth
      · rw [walkLoaded_deep info x rest hf hd]
        exact ⟨fun h => (by cases h), fun h => (by have := h.2.2.1; omega)⟩
      · have hd2 : x.depth < info.maxDepth := by omega
        cases hl : x.loaded with
        | false =>
          rw [walkLoaded_unloaded info x rest hf hd2 hl]
          exact ⟨fun h => (by cases h), fun h => (by cases h.1.1)⟩
        | true =>
          by_cases ha : (dfsLoadAccount x.count x.size info).2 = Exit.nil
          · rw [walkLoaded_go info x rest hf hd2 hl ha, ih]
            constructor
            · rintro ⟨h1, h2⟩
              exact ⟨⟨rfl, h1⟩, rfl, hd2, ha, h2⟩
            · rintro ⟨⟨_, h1⟩, _, _, _, h2⟩
              exact ⟨h1, h2⟩
          · rw [walkLoaded_stop info x rest hf hd2 hl ha]
            exact ⟨fun h => absurd h ha, fun h => absurd h.2.2.2.1 ha⟩

/-- The walk without a retrieval function fails with `errNoRetrieveNextDepthFilesFunc`
exactly when it reaches a node that is not loaded, a folder below the depth limit, before
any other check has failed: every node before it in pre-order is loaded and they respect
the limits. -/
theorem walkLoaded_noRetrieve_iff (ns : List Dir) :
    ∀ info : dsfLoadInfo,
      (walkLoaded info ns).2 = Exit.error Err.errNoRetrieveNextDepthFilesFunc ↔
        ∃ a n b, ns = a ++ n :: b ∧ (∀ m ∈ a, m.loaded = true) ∧ WithinLimits info a ∧
          n.loaded = false ∧ n.originInfo.IsFolder = true ∧ n.depth < info.maxDepth := by
  induction ns with
  | nil =>
    intro info
    constructor
    · intro h; cases h
    · rintro ⟨a, n, b, h, _⟩
      simp at h
  | cons x rest ih =>
    intro info
    have hsplit : ∀ (P : List Dir → Dir → List Dir → Prop),
        (∃ a n b, x :: rest = a ++ n :: b ∧ P a n b) ↔
          (P [] x rest ∨ ∃ a n b, rest = a ++ n :: b ∧ P (x :: a) n b) := by
      intro P
      constructor
      · rintro ⟨a, n, b, h, hp⟩
        cases a with
        | nil =>
          simp only [List.nil_append, List.cons.injEq] at h
          obtain ⟨rfl, rfl⟩ := h
          exact Or.inl hp
        | cons y a =>
          simp only [List.cons_append, List.cons.injEq] at h
          obtain ⟨rfl, rfl⟩ := h
          exact Or.inr ⟨a, n, b, rfl, hp⟩
      · rintro (hp | ⟨a, n, b, rfl, hp⟩)
        · exact ⟨[], x, rest, rfl, hp⟩
        · exact ⟨x :: a, n, b, rfl, hp⟩
    rw [hsplit (fun a n b => (∀ m ∈ a, m.loaded = true) ∧ WithinLimits info a ∧
      n.loaded = false ∧ n.originInfo.IsFolder = true ∧ n.depth < info.maxDepth)]
    simp only [WithinLimits_cons, List.forall_mem_cons]
    cases hf : x.originInfo.IsFolder with
    | false =>
      rw [walkLoaded_not_folder info x rest hf]
      constructor
      · intro h; cases h
      · rintro (⟨_, _, _, h, _⟩ | ⟨a, n, b, _, _, ⟨h, _⟩, _⟩) <;> cases h
    | true =>
      by_cases hd : x.depth ≥ info.maxDepth
      · rw [walkLoaded_deep info x rest hf hd]
        constructor
        · intro h; cases h
        · rintro (⟨_, _, _, _, h⟩ | ⟨a, n, b, _, _, ⟨_, h, _⟩, _⟩) <;> omega
      · have hd2 : x.depth < info.maxDepth := by omega
        cases hl : x.loaded with
        | false =>
          rw [walkLoaded_unloaded info x rest hf hd2 hl]
          exact ⟨fun _ => Or.inl ⟨fun m hm => by simp at hm, WithinLimits_nil info, rfl, rfl,
            hd2⟩, fun _ => rfl⟩
        | true =>
          by_cases ha : (dfsLoadAccount x.count x.size info).2 = Exit.nil
          · rw [walkLoaded_go info x rest hf hd2 hl ha, ih]
            have hmd : (dfsLoadAccount x.count x.size info).1.maxDepth = info.maxDepth := by
              rw [dfsLoadAccount_info]
            rw [hmd]
            constructor
            · rintro ⟨a, n, b, h1, h2, h3, h4, h5, h6⟩
              exact Or.inr ⟨a, n, b, h1, ⟨rfl, h2⟩, ⟨rfl, hd2, ha, h3⟩, h4, h5, h6⟩
            · rintro (⟨_, _, h, _⟩ | ⟨a, n, b, h1, ⟨_, h2⟩, ⟨_, _, _, h3⟩, h4, h5, h6⟩)
              · cases h
              · exact ⟨a, n, b, h1, h2, h3, h4, h5, h6⟩
          · rw [walkLoaded_stop info x rest hf hd2 hl ha]
            constructor
            · intro h
              rcases dfsLoadAccount_exit_cases x.count x.size info with e | e | e
              · exact absurd e ha
              · rw [e] at h; cases h
              · rw [e] at h; cases h
            · rintro (⟨_, _, h, _⟩ | ⟨a, n, b, _, _, ⟨_, _, h, _⟩, _⟩)
              · cases h
              · exact absurd h ha

/-! ## Loading a tree that is already loaded -/

theorem dfsLoadHead_loaded_retrieve {σ : Type}
    (retrieve : Option (RetrieveNextDepthFilesFunc σ)) (pre : Option (DirFunc σ)) (d : Dir)
    (st : LoadState σ) (hl : d.loaded = true) :
    dfsLoadHead retrieve pre d st = dfsLoadHead none pre d st := by
  unfold dfsLoadHead
  simp only [dfsLoadFetch_of_loaded _ d _ hl]

theorem loopSubDirs_congr_mem {τ : Type} (w1 w2 : Dir → τ → Dir × τ × Exit)
    (subs : List (Option Dir)) (h : ∀ c, some c ∈ subs → ∀ st, w1 c st = w2 c st) :
    ∀ st, loopSubDirs w1 subs st = loopSubDirs w2 subs st := by
  induction subs with
  | nil => intro st; rfl
  | cons hd tl ih =>
    intro st
    cases hd with
    | none => rfl
    | some c =>
      have e := h c (List.mem_cons_self _ _) st
      rw [loopSubDirs_some, loopSubDirs_some, e,
        ih (fun x hx => h x (List.mem_cons_of_mem _ hx))]

/-- On a fully loaded tree `dfsLoadDir` does not look at the retrieval function. -/
theorem dfsLoadDir_fullyLoaded_retrieve {σ : Type}
    (retrieve : Option (RetrieveNextDepthFilesFunc σ)) (pre post : Option (DirFunc σ))
    (fuel : Nat) :
    ∀ (d : Dir), d.fullyLoaded = true → ∀ (st : LoadState σ),
      dfsLoadDir retrieve pre post fuel d st = dfsLoadDir none pre post fuel d st := by
  induction fuel with
  | zero => intro d _ st; rfl
  | succ fuel ih =>
    intro d hf st
    have hf2 := hf
    rw [Dir.fullyLoaded_eq, Bool.and_eq_true] at hf2
    have hh := dfsLoadHead_loaded_retrieve retrieve pre d st hf2.1
    have hk : dfsLoadKids retrieve pre post fuel d st = dfsLoadKids none pre post fuel d st := by
      unfold dfsLoadKids
      rw [hh]
      refine loopSubDirs_congr_mem _ _ _ ?_ _
      intro c hc st2
      rw [dfsLoadHead_of_loaded_dir none pre d st hf2.1] at hc
      exact ih c ((fullyLoadedList_mem hf2.2).2 c hc) st2
    rw [dfsLoadDir_succ, dfsLoadDir_succ, hh, hk]

/-! ## No retrieval without a retrieval function -/

theorem NoRetrieve_nil : NoRetrieve [] := fun _ _ h => by simp at h

theorem NoRetrieve_append {a b : List Event} (ha : NoRetrieve a) (hb : NoRetrieve b) :
    NoRetrieve (a ++ b) := by
  intro v i h
  rcases List.mem_append.1 h with e | e
  · exact ha v i e
  · exact hb v i e

theorem callDirFunc_noRetrieve {σ : Type} (tag : Dir → Event)
    (htag : ∀ x v i, tag x ≠ Event.retrieve v i) (f : Option (DirFunc σ)) (d : Dir)
    (c : Ctx σ) :
    ∃ new, (callDirFunc tag f d c).1.trace = c.trace ++ new ∧ NoRetrieve new := by
  cases f with
  | none => exact ⟨[], by rw [callDirFunc_none]; simp, NoRetrieve_nil⟩
  | some g =>
    refine ⟨[tag d], by rw [callDirFunc_some], ?_⟩
    intro v i h
    rw [List.mem_singleton] at h
    exact absurd h.symm (htag d v i)

theorem dfsLoadHead_noRetrieve {σ : Type} (pre : Option (DirFunc σ)) (d : Dir)
    (st : LoadState σ) :
    ∃ new, (dfsLoadHead none pre d st).2.1.ctx.trace = st.ctx.trace ++ new ∧
      NoRetrieve new := by
  obtain ⟨n1, t1, r1⟩ := callDirFunc_noRetrieve Event.preorder
    (fun x v i => by intro e; cases e) pre d st.ctx
  cases hf : d.originInfo.IsFolder with
  | false =>
    rw [dfsLoadHead_not_folder none pre d st hf]
    exact ⟨[], by simp, NoRetrieve_nil⟩
  | true =>
    by_cases hd : d.depth ≥ st.info.maxDepth
    · rw [dfsLoadHead_too_deep none pre d st hf hd]
      exact ⟨[], by simp, NoRetrieve_nil⟩
    · have hd2 : d.depth < st.info.maxDepth := by omega
      by_cases hp : (callDirFunc Event.preorder pre d st.ctx).2 = Exit.nil
      · have hfetch : (dfsLoadFetch (none : Option (RetrieveNextDepthFilesFunc σ)) d
            (callDirFunc Event.preorder pre d st.ctx).1).2.1 =
            (callDirFunc Event.preorder pre d st.ctx).1 := by
          cases hl : d.loaded with
          | true => rw [dfsLoadFetch_of_loaded none d _ hl]
          | false => rw [dfsLoadFetch_no_func d _ hl]
        by_cases hx : (dfsLoadFetch (none : Option (RetrieveNextDepthFilesFunc σ)) d
            (callDirFunc Event.preorder pre d st.ctx).1).2.2 = Exit.nil
        · rw [dfsLoadHead_account none pre d st hf hd2 hp hx]
          exact ⟨n1, by simp only; rw [hfetch, t1], r1⟩
        · rw [dfsLoadHead_fetch_stop none pre d st hf hd2 hp hx]
          exact ⟨n1, by simp only; rw [hfetch, t1], r1⟩
      · rw [dfsLoadHead_pre_stop none pre d st hf hd2 hp]
        exact ⟨n1, t1, r1⟩

theorem loopSubDirs_noRetrieve {σ : Type}
    (walk : Dir → LoadState σ → Dir × LoadState σ × Exit)
    (hw : ∀ c st, ∃ new, (walk c st).2.1.ctx.trace = st.ctx.trace ++ new ∧ NoRetrieve new)
    (subs : List (Option Dir)) :
    ∀ st, ∃ new, (loopSubDirs walk subs st).2.1.ctx.trace = st.ctx.trace ++ new ∧
      NoRetrieve new := by
  induction subs with
  | nil => intro st; exact ⟨[], by rw [loopSubDirs_nil]; simp, NoRetrieve_nil⟩
  | cons hd tl ih =>
    intro st
    cases hd with
    | none => exact ⟨[], by rw [loopSubDirs_none]; simp, NoRetrieve_nil⟩
    | some x =>
      obtain ⟨n1, t1, r1⟩ := hw x st
      by_cases hx : (walk x st).2.2 = Exit.nil
      · rw [loopSubDirs_some_nil walk x tl st hx]
        obtain ⟨n2, t2, r2⟩ := ih (walk x st).2.1
        exact ⟨n1 ++ n2, by simp only; rw [t2, t1, List.append_assoc],
          NoRetrieve_append r1 r2⟩
      · rw [loopSubDirs_some_stop walk x tl st hx]
        exact ⟨n1, t1, r1⟩

/-- Without a retrieval function `dfsLoadDir` records no call of one. -/
theorem dfsLoadDir_noRetrieve {σ : Type} (pre post : Option (DirFunc σ)) (fuel : Nat) :
    ∀ (d : Dir) (st : LoadState σ),
      ∃ new, (dfsLoadDir none pre post fuel d st).2.1.ctx.trace = st.ctx.trace ++ new ∧
        NoRetrieve new := by
  induction fuel with
  | zero => intro d st; exact ⟨[], by rw [dfsLoadDir_zero]; simp, NoRetrieve_nil⟩
  | succ fuel ih =>
    intro d st
    obtain ⟨n1, t1, r1⟩ := dfsLoadHead_noRetrieve pre d st
    by_cases hh : (dfsLoadHead none pre d st).2.2 = Exit.nil
    · obtain ⟨n2, t2, r2⟩ := loopSubDirs_noRetrieve (dfsLoadDir none pre post fuel) ih
        (dfsLoadHead none pre d st).1.subDirs (dfsLoadHead none pre d st).2.1
      have t2' : (dfsLoadKids none pre post fuel d st).2.1.ctx.trace =
          (dfsLoadHead none pre d st).2.1.ctx.trace ++ n2 := t2
      by_cases hk : (dfsLoadKids none pre post fuel d st).2.2 = Exit.nil
      · rw [dfsLoadDir_kids_done none pre post fuel d st hh hk]
        obtain ⟨n3, t3, r3⟩ := callDirFunc_noRetrieve Event.postorder
          (fun x v i => by intro e; cases e) post
          ((dfsLoadHead none pre d st).1.setSubDirs (dfsLoadKids none pre post fuel d st).1)
          (dfsLoadKids none pre post fuel d st).2.1.ctx
        refine ⟨(n1 ++ n2) ++ n3, ?_, NoRetrieve_append (NoRetrieve_append r1 r2) r3⟩
        simp only
        rw [t3, t2', t1, List.append_assoc, List.append_assoc, List.append_assoc]
      · rw [dfsLoadDir_kids_stop none pre post fuel d st hh hk]
        refine ⟨n1 ++ n2, ?_, NoRetrieve_append r1 r2⟩
        simp only
        rw [t2', t1, List.append_assoc]
    · rw [dfsLoadDir_head_stop none pre post fuel d st hh]
      exact ⟨n1, t1, r1⟩

/-! ## A successful load passed every check -/

theorem loopSubDirs_nil_walkLoaded {σ : Type}
    (walk : Dir → LoadState σ → Dir × LoadState σ × Exit)
    (hw : ∀ c st, (walk c st).2.2 = Exit.nil →
      walkLoaded st.info (walk c st).1.nodes = ((walk c st).2.1.info, Exit.nil))
    (subs : List (Option Dir)) :
    ∀ st, (loopSubDirs walk subs st).2.2 = Exit.nil →
      walkLoaded st.info (nodesList (loopSubDirs walk subs st).1) =
        ((loopSubDirs walk subs st).2.1.info, Exit.nil) := by
  induction subs with
  | nil => intro st _; rfl
  | cons hd tl ih =>
    intro st h
    cases hd with
    | none => rw [loopSubDirs_none] at h; cases h
    | some c =>
      by_cases hx : (walk c st).2.2 = Exit.nil
      · rw [loopSubDirs_some_nil walk c tl st hx] at h ⊢
        have h1 := hw c st hx
        have h2 := ih (walk c st).2.1 h
        rw [nodesList_some, walkLoaded_append_nil _ _ _ (by rw [h1]), h1]
        exact h2
      · rw [loopSubDirs_some_stop walk c tl st hx] at h
        exact absurd h hx

/-- A run of `dfsLoadDir` that returns nil has passed every check: on the tree it leaves,
the walk without a retrieval function, started with the same totals, returns nil with the
same totals. -/
theorem dfsLoadDir_nil_walkLoaded {σ : Type}
    (retrieve : Option (RetrieveNextDepthFilesFunc σ)) (pre post : Option (DirFunc σ))
    (fuel : Nat) :
    ∀ (d : Dir) (st : LoadState σ),
      (dfsLoadDir retrieve pre post fuel d st).2.2 = Exit.nil →
      walkLoaded st.info (dfsLoadDir retrieve pre post fuel d st).1.nodes =
        ((dfsLoadDir retrieve pre post fuel d st).2.1.info, Exit.nil) := by
  induction fuel with
  | zero => intro d st h; rw [dfsLoadDir_zero] at h; cases h
  | succ fuel ih =>
    intro d st h
    by_cases hh : (dfsLoadHead retrieve pre d st).2.2 = Exit.nil
    · by_cases hk : (dfsLoadKids retrieve pre post fuel d st).2.2 = Exit.nil
      · rw [dfsLoadDir_kids_done retrieve pre post fuel d st hh hk]
        obtain ⟨hf, hd, hp, hx, ha⟩ := dfsLoadHead_nil retrieve pre d st hh
        obtain ⟨hl, hi⟩ := dfsLoadHead_nil_totals retrieve pre d st hh
        have hacc := dfsLoadHead_account retrieve pre d st hf hd hp hx
        have hcount : (dfsLoadFetch retrieve d
            (callDirFunc Event.preorder pre d st.ctx).1).1 =
            (dfsLoadHead retrieve pre d st).1 := by rw [hacc]
        rw [hcount] at ha
        have hkids := loopSubDirs_nil_walkLoaded _ ih _ _ hk
        have hkids' : walkLoaded (dfsLoadHead retrieve pre d st).2.1.info
            (nodesList (dfsLoadKids retrieve pre post fuel d st).1) =
            ((dfsLoadKids retrieve pre post fuel d st).2.1.info, Exit.nil) := hkids
        have hinfo : (dfsLoadHead retrieve pre d st).2.1.info =
            (dfsLoadAccount (dfsLoadHead retrieve pre d st).1.count
              (dfsLoadHead retrieve pre d st).1.size st.info).1 := by
          rw [hi, dfsLoadAccount_info]
        rw [hinfo] at hkids'
        rw [Dir.nodes_eq, Dir.setSubDirs_subDirs,
          walkLoaded_go st.info _ _
            (by rw [Dir.setSubDirs_originInfo, dfsLoadHead_originInfo]; exact hf)
            (by rw [Dir.setSubDirs_depth, dfsLoadHead_depth]; exact hd)
            (by rw [Dir.setSubDirs_loaded]; exact hl)
            (by rw [Dir.setSubDirs_count, Dir.setSubDirs_size]; exact ha),
          Dir.setSubDirs_count, Dir.setSubDirs_size]
        exact hkids'
      · rw [dfsLoadDir_kids_stop retrieve pre post fuel d st hh hk] at h
        exact absurd h hk
    · rw [dfsLoadDir_head_stop retrieve pre post fuel d st hh] at h
      exact absurd h hh

/-! ## `DFSLoad` on loaded trees -/

/-- After a `DFSLoad` that returns nil, `GetTotalSizeAndCount` on the tree it leaves
returns the same totals. -/
theorem DFSLoad_nil_totals {σ : Type} (d : Dir) (maxDepth numLimit sizeLimit : Int)
    (retrieve : Option (RetrieveNextDepthFilesFunc σ)) (pre post : Option (DirFunc σ))
    (c : Ctx σ)
    (h : (d.DFSLoad maxDepth numLimit sizeLimit retrieve pre post c).exit = Exit.nil) :
    (d.DFSLoad maxDepth numLimit sizeLimit retrieve pre post c).dir.fullyLoaded = true ∧
    (d.DFSLoad maxDepth numLimit sizeLimit retrieve pre post c).dir.GetTotalSizeAndCount =
      ((d.DFSLoad maxDepth numLimit sizeLimit retrieve pre post c).totalSize,
        (d.DFSLoad maxDepth numLimit sizeLimit retrieve pre post c).totalCount, Exit.nil) := by
  rw [DFSLoad_exit] at h
  obtain ⟨ht1, ht2⟩ := DFSLoad_totals d maxDepth numLimit sizeLimit retrieve pre post c h
  rw [ht1, ht2, DFSLoad_dir]
  have hv : (d.loadRun maxDepth numLimit sizeLimit retrieve pre post c).1.IsVirtualDir =
      d.IsVirtualDir := IsVirtualDir_congr (loadRun_originInfo d _ _ _ _ _ _ _)
  obtain ⟨k1, k2, k3⟩ := dfsLoadDir_nil_fold retrieve pre post _ d _ h
  have k2' : (d.loadRun maxDepth numLimit sizeLimit retrieve pre post c).2.1.info.totalCount =
      (d.loadRun maxDepth numLimit sizeLimit retrieve pre post c).1.nodes.foldl
        (fun a n => wrap64 (a + n.count)) (if !d.IsVirtualDir then wrap64 (0 + 1) else 0) := k2
  have k3' : (d.loadRun maxDepth numLimit sizeLimit retrieve pre post c).2.1.info.totalSize =
      (d.loadRun maxDepth numLimit sizeLimit retrieve pre post c).1.nodes.foldl
        (fun a n => wrap64 (a + n.size)) 0 := k3
  have k1' : (d.loadRun maxDepth numLimit sizeLimit retrieve pre post c).1.fullyLoaded =
      true := k1
  exact ⟨k1', by rw [GetTotalSizeAndCount_fullyLoaded _ k1', hv, k2', k3']⟩

/-- `DFSLoad` without a retrieval function, with callbacks that do not fail, on a tree
without nil children: the tree is left as it is and the call ends as `walkLoaded` does
on the nodes in pre-order. -/
theorem DFSLoad_none {σ : Type} (d : Dir) (hn : d.noNil = true)
    (pre post : Option (DirFunc σ)) (hpre : NonFailing pre) (hpost : NonFailing post)
    (maxDepth numLimit sizeLimit : Int) (hm : maxDepth < 9223372036854775808) (c : Ctx σ) :
    (d.DFSLoad maxDepth numLimit sizeLimit none pre post c).dir = d ∧
    (d.DFSLoad maxDepth numLimit sizeLimit none pre post c).exit =
      (walkLoaded (d.dfsInfoInit maxDepth numLimit sizeLimit) d.nodes).2 ∧
    ∃ new, (d.DFSLoad maxDepth numLimit sizeLimit none pre post c).ctx.trace =
      c.trace ++ new ∧ NoRetrieve new := by
  have hne := DFSLoad_ne_fuel d maxDepth numLimit sizeLimit hm none pre post c
  rw [DFSLoad_exit] at hne
  rw [DFSLoad_dir, DFSLoad_exit, DFSLoad_ctx]
  obtain ⟨h1, h2, _⟩ := dfsLoadDir_none pre post hpre hpost _ d hn _ hne
  exact ⟨h1, h2, dfsLoadDir_noRetrieve pre post _ d _⟩

/-- On a fully loaded tree `DFSLoad` does not look at the retrieval function. -/
theorem DFSLoad_fullyLoaded_retrieve {σ : Type} (d : Dir) (hf : d.fullyLoaded = true)
    (maxDepth numLimit sizeLimit : Int) (retrieve : Option (RetrieveNextDepthFilesFunc σ))
    (pre post : Option (DirFunc σ)) (c : Ctx σ) :
    d.DFSLoad maxDepth numLimit sizeLimit retrieve pre post c =
      d.DFSLoad maxDepth numLimit sizeLimit none pre post c := by
  have e : d.loadRun maxDepth numLimit sizeLimit retrieve pre post c =
      d.loadRun maxDepth numLimit sizeLimit none pre post c := by
    unfold Dir.loadRun
    exact dfsLoadDir_fullyLoaded_retrieve retrieve pre post _ d hf _
  unfold Dir.DFSLoad
  rw [e]

/-- `DFSLoad` on a fully loaded tree, with any retrieval function and callbacks that do
not fail: it returns nil exactly when the nodes respect the limits, it leaves the tree as
it is, it calls no retrieval function, and when it returns nil its totals are those of
`GetTotalSizeAndCount`. -/
theorem DFSLoad_fullyLoaded {σ : Type} (d : Dir) (hf : d.fullyLoaded = true)
    (pre post : Option (DirFunc σ)) (hpre : NonFailing pre) (hpost : NonFailing post)
    (maxDepth numLimit sizeLimit : Int) (hm : maxDepth < 9223372036854775808)
    (retrieve : Option (RetrieveNextDepthFilesFunc σ)) (c : Ctx σ) :
    ((d.DFSLoad maxDepth numLimit sizeLimit retrieve pre post c).exit = Exit.nil ↔
      WithinLimits (d.dfsInfoInit maxDepth numLimit sizeLimit) d.nodes) ∧
    (d.DFSLoad maxDepth numLimit sizeLimit retrieve pre post c).dir = d ∧
    (∃ new, (d.DFSLoad maxDepth numLimit sizeLimit retrieve pre post c).ctx.trace =
      c.trace ++ new ∧ NoRetrieve new) ∧
    ((d.DFSLoad maxDepth numLimit sizeLimit retrieve pre post c).exit = Exit.nil →
      d.GetTotalSizeAndCount =
        ((d.DFSLoad maxDepth numLimit sizeLimit retrieve pre post c).totalSize,
          (d.DFSLoad maxDepth numLimit sizeLimit retrieve pre post c).totalCount,
          Exit.nil)) := by
  obtain ⟨h1, h2, h3⟩ := DFSLoad_none d (Dir.fullyLoaded_noNil d hf) pre post hpre hpost
    maxDepth numLimit sizeLimit hm c
  rw [DFSLoad_fullyLoaded_retrieve d hf]
  refine ⟨?_, h1, h3, ?_⟩
  · rw [h2, walkLoaded_nil_iff]
    exact ⟨fun h => h.2, fun h => ⟨Dir.fullyLoaded_nodes d hf, h⟩⟩
  · intro hx
    have ht := (DFSLoad_nil_totals d maxDepth numLimit sizeLimit none pre post c hx).2
    rw [h1] at ht
    exact ht

/-- The tree that a `DFSLoad` returning nil leaves is fully loaded and respects the
limits with which it was loaded. -/
theorem DFSLoad_nil_within {σ : Type} (d : Dir) (maxDepth numLimit sizeLimit : Int)
    (retrieve : Option (RetrieveNextDepthFilesFunc σ)) (pre post : Option (DirFunc σ))
    (c : Ctx σ)
    (h : (d.DFSLoad maxDepth numLimit sizeLimit retrieve pre post c).exit = Exit.nil) :
    WithinLimits
      ((d.DFSLoad maxDepth numLimit sizeLimit retrieve pre post c).dir.dfsInfoInit
        maxDepth numLimit sizeLimit)
      (d.DFSLoad maxDepth numLimit sizeLimit retrieve pre post c).dir.nodes := by
  have hfull := (DFSLoad_nil_totals d maxDepth numLimit sizeLimit retrieve pre post c h).1
  rw [DFSLoad_exit] at h
  rw [DFSLoad_dir] at hfull ⊢
  have hw := dfsLoadDir_nil_walkLoaded retrieve pre post _ d _ h
  have hw' : walkLoaded (d.dfsInfoInit maxDepth numLimit sizeLimit)
      (d.loadRun maxDepth numLimit sizeLimit retrieve pre post c).1.nodes =
      ((d.loadRun maxDepth numLimit sizeLimit retrieve pre post c).2.1.info, Exit.nil) := hw
  rw [dfsInfoInit_congr (loadRun_originInfo d maxDepth numLimit sizeLimit retrieve pre post c)]
  exact ((walkLoaded_nil_iff _ _).1 (by rw [hw'])).2

/-! ## The state after a limit failure -/

theorem goRet_toExit_eq_nil {r : GoRet} (h : r.toExit = Exit.nil) : r = GoRet.nil := by
  cases r with
  | nil => rfl
  | error e => cases h
  | panic => cases h

theorem goRet_toExit_ne_nil {r : GoRet} (h : r ≠ GoRet.nil) : r.toExit ≠ Exit.nil :=
  fun e => h (goRet_toExit_eq_nil e)

theorem goRet_toExit_ne_fuel (r : GoRet) : r.toExit ≠ Exit.fuel := by
  cases r <;> (intro h; cases h)

theorem callRet_toGo_toExit (r : CallRet) : r.toGo.toExit = r.toExit := by
  cases r <;> rfl

theorem callLive_none {σ : Type} (d : Dir) (w : σ) :
    callLive (none : Option (LiveFunc σ)) d w = (d, w, Exit.nil) := rfl

theorem callLive_some {σ : Type} (g : LiveFunc σ) (d : Dir) (w : σ) :
    callLive (some g) d w = ((g.onDir w d).1, (g.onDir w d).2.1, (g.onDir w d).2.2.toExit) :=
  rfl

theorem callLive_ne_fuel {σ : Type} (f : Option (LiveFunc σ)) (d : Dir) (w : σ) :
    (callLive f d w).2.2 ≠ Exit.fuel := by
  cases f with
  | none => intro h; cases h
  | some g => exact goRet_toExit_ne_fuel _

theorem dfsLoadFetchLive_of_loaded {σ : Type} (retrieve : Option (LiveRetrieve σ)) (d : Dir)
    (w : σ) (hl : d.loaded = true) : dfsLoadFetchLive retrieve d w = (d, w, Exit.nil) := by
  unfold dfsLoadFetchLive
  simp only [hl, if_true]

theorem dfsLoadFetchLive_no_func {σ : Type} (d : Dir) (w : σ) (hl : d.loaded = false) :
    dfsLoadFetchLive (none : Option (LiveRetrieve σ)) d w =
      (d, w, Exit.error Err.errNoRetrieveNextDepthFilesFunc) := by
  unfold dfsLoadFetchLive
  simp only [hl, Bool.false_eq_true, if_false]

theorem dfsLoadFetchLive_error {σ : Type} (r : LiveRetrieve σ) (d : Dir) (w : σ)
    (hl : d.loaded = false) (e : Err)
    (hr : (r w d.originInfo.VolumeId d.originInfo.Id).2 = Except.error e) :
    dfsLoadFetchLive (some r) d w =
      (d, (r w d.originInfo.VolumeId d.originInfo.Id).1, Exit.error e) := by
  unfold dfsLoadFetchLive
  simp only [hl, Bool.false_eq_true, if_false, hr]

theorem dfsLoadFetchLive_ok {σ : Type} (r : LiveRetrieve σ) (d : Dir) (w : σ)
    (hl : d.loaded = false) (files folders : List File)
    (hr : (r w d.originInfo.VolumeId d.originInfo.Id).2 = Except.ok (files, folders)) :
    dfsLoadFetchLive (some r) d w =
      ((d.FillDirNoRecurse files folders).1, (r w d.originInfo.VolumeId d.originInfo.Id).1,
        Exit.nil) := by
  unfold dfsLoadFetchLive
  simp only [hl, Bool.false_eq_true, if_false, hr, FillDirNoRecurse_unloaded d files folders hl]

theorem dfsLoadFetchLive_ne_fuel {σ : Type} (retrieve : Option (LiveRetrieve σ)) (d : Dir)
    (w : σ) : (dfsLoadFetchLive retrieve d w).2.2 ≠ Exit.fuel := by
  cases hl : d.loaded with
  | true => rw [dfsLoadFetchLive_of_loaded retrieve d w hl]; intro h; cases h
  | false =>
    cases retrieve with
    | none => rw [dfsLoadFetchLive_no_func d w hl]; intro h; cases h
    | some r =>
      cases hr : (r w d.originInfo.VolumeId d.originInfo.Id).2 with
      | error e => rw [dfsLoadFetchLive_error r d w hl e hr]; intro h; cases h
      | ok v =>
        obtain ⟨files, folders⟩ := v
        rw [dfsLoadFetchLive_ok r d w hl files folders hr]; intro h; cases h

theorem dfsLoadHeadLive_not_folder {σ : Type} (retrieve : Option (LiveRetrieve σ))
    (pre : Option (LiveFunc σ)) (d : Dir) (st : dsfLoadInfo × σ)
    (h : d.originInfo.IsFolder = false) :
    dfsLoadHeadLive retrieve pre d st = (d, st, Exit.error Err.errNotFolderType) := by
  unfold dfsLoadHeadLive
  simp only [h, Bool.not_false, if_true]

theorem dfsLoadHeadLive_too_deep {σ : Type} (retrieve : Option (LiveRetrieve σ))
    (pre : Option (LiveFunc σ)) (d : Dir) (st : dsfLoadInfo × σ)
    (h : d.originInfo.IsFolder = true) (hd : d.depth ≥ st.1.maxDepth) :
    dfsLoadHeadLive retrieve pre d st = (d, st, Exit.error Err.errMaxPathDepthLimit) := by
  unfold dfsLoadHeadLive
  simp only [h, Bool.not_true, Bool.false_eq_true, if_false, hd, if_true]

theorem dfsLoadHeadLive_pre_stop {σ : Type} (retrieve : Option (LiveRetrieve σ))
    (pre : Option (LiveFunc σ)) (d : Dir) (st : dsfLoadInfo × σ)
    (h : d.originInfo.IsFolder = true) (hd : d.depth < st.1.maxDepth)
    (hp : (callLive pre d st.2).2.2 ≠ Exit.nil) :
    dfsLoadHeadLive retrieve pre d st =
      ((callLive pre d st.2).1, (st.1, (callLive pre d st.2).2.1),
        (callLive pre d st.2).2.2) := by
  unfold dfsLoadHeadLive
  have hd2 : ¬ d.depth ≥ st.1.maxDepth := by omega
  simp only [h, Bool.not_true, Bool.false_eq_true, if_false, hd2]

theorem dfsLoadHeadLive_fetch_stop {σ : Type} (retrieve : Option (LiveRetrieve σ))
    (pre : Option (LiveFunc σ)) (d : Dir) (st : dsfLoadInfo × σ)
    (h : d.originInfo.IsFolder = true) (hd : d.depth < st.1.maxDepth)
    (hp : (callLive pre d st.2).2.2 = Exit.nil)
    (hf : (dfsLoadFetchLive retrieve (callLive pre d st.2).1 (callLive pre d st.2).2.1).2.2 ≠
      Exit.nil) :
    dfsLoadHeadLive retrieve pre d st =
      ((dfsLoadFetchLive retrieve (callLive pre d st.2).1 (callLive pre d st.2).2.1).1,
        (st.1, (dfsLoadFetchLive retrieve (callLive pre d st.2).1 (callLive pre d st.2).2.1).2.1),
        (dfsLoadFetchLive retrieve (callLive pre d st.2).1 (callLive pre d st.2).2.1).2.2) := by
  unfold dfsLoadHeadLive
  have hd2 : ¬ d.depth ≥ st.1.maxDepth := by omega
  simp only [h, Bool.not_true, Bool.false_eq_true, if_false, hd2, hp]

theorem dfsLoadHeadLive_account {σ : Type} (retrieve : Option (LiveRetrieve σ))
    (pre : Option (LiveFunc σ)) (d : Dir) (st : dsfLoadInfo × σ)
    (h : d.originInfo.IsFolder = true) (hd : d.depth < st.1.maxDepth)
    (hp : (callLive pre d st.2).2.2 = Exit.nil)
    (hf : (dfsLoadFetchLive retrieve (callLive pre d st.2).1 (callLive pre d st.2).2.1).2.2 =
      Exit.nil) :
    dfsLoadHeadLive retrieve pre d st =
      ((dfsLoadFetchLive retrieve (callLive pre d st.2).1 (callLive pre d st.2).2.1).1,
        ((dfsLoadAccount
            (dfsLoadFetchLive retrieve (callLive pre d st.2).1 (callLive pre d st.2).2.1).1.count
            (dfsLoadFetchLive retrieve (callLive pre d st.2).1 (callLive pre d st.2).2.1).1.size
            st.1).1,
          (dfsLoadFetchLive retrieve (callLive pre d st.2).1 (callLive pre d st.2).2.1).2.1),
        (dfsLoadAccount
            (dfsLoadFetchLive retrieve (callLive pre d st.2).1 (callLive pre d st.2).2.1).1.count
            (dfsLoadFetchLive retrieve (callLive pre d st.2).1 (callLive pre d st.2).2.1).1.size
            st.1).2) := by
  unfold dfsLoadHeadLive
  have hd2 : ¬ d.depth ≥ st.1.maxDepth := by omega
  simp only [h, Bool.not_true, Bool.false_eq_true, if_false, hd2, hp, hf]

theorem dfsLoadDirLive_zero {σ : Type} (retrieve : Option (LiveRetrieve σ))
    (pre post : Option (LiveFunc σ)) (d : Dir) (st : dsfLoadInfo × σ) :
    dfsLoadDirLive retrieve pre post 0 d st = (d, st, Exit.fuel) := rfl

theorem dfsLoadDirLive_succ {σ : Type} (retrieve : Option (LiveRetrieve σ))
    (pre post : Option (LiveFunc σ)) (fuel : Nat) (d : Dir) (st : dsfLoadInfo × σ) :
    dfsLoadDirLive retrieve pre post (fuel + 1) d st =
      match (dfsLoadHeadLive retrieve pre d st).2.2 with
      | Exit.nil =>
        match (dfsLoadKidsLive retrieve pre post fuel d st).2.2 with
        | Exit.nil =>
          ((callLive post
              ((dfsLoadHeadLive retrieve pre d st).1.setSubDirs
                (dfsLoadKidsLive retrieve pre post fuel d st).1)
              (dfsLoadKidsLive retrieve pre post fuel d st).2.1.2).1,
            ((dfsLoadKidsLive retrieve pre post fuel d st).2.1.1,
              (callLive post
                ((dfsLoadHeadLive retrieve pre d st).1.setSubDirs
                  (dfsLoadKidsLive retrieve pre post fuel d st).1)
                (dfsLoadKidsLive retrieve pre post fuel d st).2.1.2).2.1),
            (callLive post
              ((dfsLoadHeadLive retrieve pre d st).1.setSubDirs
                (dfsLoadKidsLive retrieve pre post fuel d st).1)
              (dfsLoadKidsLive retrieve pre post fuel d st).2.1.2).2.2)
        | e =>
          ((dfsLoadHeadLive retrieve pre d st).1.setSubDirs
              (dfsLoadKidsLive retrieve pre post fuel d st).1,
            (dfsLoadKidsLive retrieve pre post fuel d st).2.1, e)
      | e =>
        ((dfsLoadHeadLive retrieve pre d st).1, (dfsLoadHeadLive retrieve pre d st).2.1, e) :=
  rfl

theorem dfsLoadDirLive_head_stop {σ : Type} (retrieve : Option (LiveRetrieve σ))
    (pre post : Option (LiveFunc σ)) (fuel : Nat) (d : Dir) (st : dsfLoadInfo × σ)
    (h : (dfsLoadHeadLive retrieve pre d st).2.2 ≠ Exit.nil) :
    dfsLoadDirLive retrieve pre post (fuel + 1) d st =
      ((dfsLoadHeadLive retrieve pre d st).1, (dfsLoadHeadLive retrieve pre d st).2.1,
        (dfsLoadHeadLive retrieve pre d st).2.2) := by
  rw [dfsLoadDirLive_succ]
  split
  · rename_i e; exact absurd e h
  · rfl

theorem dfsLoadDirLive_kids_stop {σ : Type} (retrieve : Option (LiveRetrieve σ))
    (pre post : Option (LiveFunc σ)) (fuel : Nat) (d : Dir) (st : dsfLoadInfo × σ)
    (h : (dfsLoadHeadLive retrieve pre d st).2.2 = Exit.nil)
    (hk : (dfsLoadKidsLive retrieve pre post fuel d st).2.2 ≠ Exit.nil) :
    dfsLoadDirLive retrieve pre post (fuel + 1) d st =
      ((dfsLoadHeadLive retrieve pre d st).1.setSubDirs
          (dfsLoadKidsLive retrieve pre post fuel d st).1,
        (dfsLoadKidsLive retrieve pre post fuel d st).2.1,
        (dfsLoadKidsLive retrieve pre post fuel d st).2.2) := by
  rw [dfsLoadDirLive_succ, h]
  simp only

theorem dfsLoadDirLive_kids_done {σ : Type} (retrieve : Option (LiveRetrieve σ))
    (pre post : Option (LiveFunc σ)) (fuel : Nat) (d : Dir) (st : dsfLoadInfo × σ)
    (h : (dfsLoadHeadLive retrieve pre d st).2.2 = Exit.nil)
    (hk : (dfsLoadKidsLive retrieve pre post fuel d st).2.2 = Exit.nil) :
    dfsLoadDirLive retrieve pre post (fuel + 1) d st =
      ((callLive post
          ((dfsLoadHeadLive retrieve pre d st).1.setSubDirs
            (dfsLoadKidsLive retrieve pre post fuel d st).1)
          (dfsLoadKidsLive retrieve pre post fuel d st).2.1.2).1,
        ((dfsLoadKidsLive retrieve pre post fuel d st).2.1.1,
          (callLive post
            ((dfsLoadHeadLive retrieve pre d st).1.setSubDirs
              (dfsLoadKidsLive retrieve pre post fuel d st).1)
            (dfsLoadKidsLive retrieve pre post fuel d st).2.1.2).2.1),
        (callLive post
          ((dfsLoadHeadLive retrieve pre d st).1.setSubDirs
            (dfsLoadKidsLive retrieve pre post fuel d st).1)
          (dfsLoadKidsLive retrieve pre post fuel d st).2.1.2).2.2) := by
  rw [dfsLoadDirLive_succ, h, hk]

theorem DfsWithFuncLive_zero {σ : Type} (pre post : Option (LiveFunc σ)) (d : Dir) (w : σ) :
    DfsWithFuncLive pre post 0 d w = (d, w, Exit.fuel) := rfl

theorem DfsWithFuncLive_unloaded {σ : Type} (pre post : Option (LiveFunc σ)) (fuel : Nat)
    (d : Dir) (w : σ) (hl : d.loaded = false) :
    DfsWithFuncLive pre post (fuel + 1) d w = (d, w, Exit.error Err.errDirNotLoad) := by
  unfold DfsWithFuncLive
  simp only [hl, Bool.not_false, if_true]

/-- The loop over the children inside `DfsWithFuncLive` with budget `fuel + 1`. -/
theorem DfsWithFuncLive_loaded {σ : Type} (pre post : Option (LiveFunc σ)) (fuel : Nat)
    (d : Dir) (w : σ) (hl : d.loaded = true) :
    DfsWithFuncLive pre post (fuel + 1) d w =
      match (callLive pre d w).2.2 with
      | Exit.nil =>
        match (loopSubDirs (DfsWithFuncLive pre post fuel) (callLive pre d w).1.subDirs
            (callLive pre d w).2.1).2.2 with
        | Exit.nil =>
          callLive post
            ((callLive pre d w).1.setSubDirs
              (loopSubDirs (DfsWithFuncLive pre post fuel) (callLive pre d w).1.subDirs
                (callLive pre d w).2.1).1)
            (loopSubDirs (DfsWithFuncLive pre post fuel) (callLive pre d w).1.subDirs
              (callLive pre d w).2.1).2.1
        | e =>
          ((callLive pre d w).1.setSubDirs
              (loopSubDirs (DfsWithFuncLive pre post fuel) (callLive pre d w).1.subDirs
                (callLive pre d w).2.1).1,
            (loopSubDirs (DfsWithFuncLive pre post fuel) (callLive pre d w).1.subDirs
              (callLive pre d w).2.1).2.1, e)
      | e => ((callLive pre d w).1, (callLive pre d w).2.1, e) := by
  conv => lhs; unfold DfsWithFuncLive
  simp only [hl, Bool.not_true, Bool.false_eq_true, if_false]

theorem DfsWithFuncLive_pre_stop {σ : Type} (pre post : Option (LiveFunc σ)) (fuel : Nat)
    (d : Dir) (w : σ) (hl : d.loaded = true) (hp : (callLive pre d w).2.2 ≠ Exit.nil) :
    DfsWithFuncLive pre post (fuel + 1) d w =
      ((callLive pre d w).1, (callLive pre d w).2.1, (callLive pre d w).2.2) := by
  rw [DfsWithFuncLive_loaded pre post fuel d w hl]
  split
  · rename_i e; exact absurd e hp
  · rfl

theorem DfsWithFuncLive_kids_stop {σ : Type} (pre post : Option (LiveFunc σ)) (fuel : Nat)
    (d : Dir) (w : σ) (hl : d.loaded = true) (hp : (callLive pre d w).2.2 = Exit.nil)
    (hk : (loopSubDirs (DfsWithFuncLive pre post fuel) (callLive pre d w).1.subDirs
      (callLive pre d w).2.1).2.2 ≠ Exit.nil) :
    DfsWithFuncLive pre post (fuel + 1) d w =
      ((callLive pre d w).1.setSubDirs
          (loopSubDirs (DfsWithFuncLive pre post fuel) (callLive pre d w).1.subDirs
            (callLive pre d w).2.1).1,
        (loopSubDirs (DfsWithFuncLive pre post fuel) (callLive pre d w).1.subDirs
          (callLive pre d w).2.1).2.1,
        (loopSubDirs (DfsWithFuncLive pre post fuel) (callLive pre d w).1.subDirs
          (callLive pre d w).2.1).2.2) := by
  rw [DfsWithFuncLive_loaded pre post fuel d w hl, hp]
  simp only

theorem DfsWithFuncLive_done {σ : Type} (pre post : Option (LiveFunc σ)) (fuel : Nat)
    (d : Dir) (w : σ) (hl : d.loaded = true) (hp : (callLive pre d w).2.2 = Exit.nil)
    (hk : (loopSubDirs (DfsWithFuncLive pre post fuel) (callLive pre d w).1.subDirs
      (callLive pre d w).2.1).2.2 = Exit.nil) :
    DfsWithFuncLive pre post (fuel + 1) d w =
      callLive post
        ((callLive pre d w).1.setSubDirs
          (loopSubDirs (DfsWithFuncLive pre post fuel) (callLive pre d w).1.subDirs
            (callLive pre d w).2.1).1)
        (loopSubDirs (DfsWithFuncLive pre post fuel) (callLive pre d w).1.subDirs
          (callLive pre d w).2.1).2.1 := by
  rw [DfsWithFuncLive_loaded pre post fuel d w hl, hp, hk]

theorem bfsLevelLive_nil {σ : Type} (callBack : Option (LiveFunc σ))
    (next : List (Option Dir)) (w : σ) :
    bfsLevelLive callBack [] next w = (next, w, Exit.nil) := rfl

theorem bfsLevelLive_none_none {σ : Type} (rest next : List (Option Dir)) (w : σ) :
    bfsLevelLive (none : Option (LiveFunc σ)) (none :: rest) next w =
      (next, w, Exit.panic) := rfl

theorem bfsLevelLive_none_some {σ : Type} (g : LiveFunc σ) (rest next : List (Option Dir))
    (w : σ) :
    bfsLevelLive (some g) (none :: rest) next w =
      (next, (g.onNil w).1,
        match (g.onNil w).2 with
        | GoRet.nil => Exit.panic
        | r => r.toExit) := by
  unfold bfsLevelLive
  cases h : (g.onNil w).2 <;> simp only [h]

theorem bfsLevelLive_some {σ : Type} (callBack : Option (LiveFunc σ)) (dir : Dir)
    (rest next : List (Option Dir)) (w : σ) :
    bfsLevelLive callBack (some dir :: rest) next w =
      match (callLive callBack dir w).2.2 with
      | Exit.nil =>
        bfsLevelLive callBack rest (next ++ (callLive callBack dir w).1.subDirs)
          (callLive callBack dir w).2.1
      | e => (next, (callLive callBack dir w).2.1, e) := rfl

theorem bfsLevelLive_some_nil {σ : Type} (callBack : Option (LiveFunc σ)) (dir : Dir)
    (rest next : List (Option Dir)) (w : σ) (h : (callLive callBack dir w).2.2 = Exit.nil) :
    bfsLevelLive callBack (some dir :: rest) next w =
      bfsLevelLive callBack rest (next ++ (callLive callBack dir w).1.subDirs)
        (callLive callBack dir w).2.1 := by
  rw [bfsLevelLive_some, h]

theorem bfsLevelLive_some_stop {σ : Type} (callBack : Option (LiveFunc σ)) (dir : Dir)
    (rest next : List (Option Dir)) (w : σ) (h : (callLive callBack dir w).2.2 ≠ Exit.nil) :
    bfsLevelLive callBack (some dir :: rest) next w =
      (next, (callLive callBack dir w).2.1, (callLive callBack dir w).2.2) := by
  rw [bfsLevelLive_some]
  split
  · rename_i e; exact absurd e h
  · rfl

theorem bfsLoopLive_zero {σ : Type} (callBack : Option (LiveFunc σ))
    (curr : List (Option Dir)) (w : σ) : bfsLoopLive callBack 0 curr w = (w, Exit.fuel) := rfl

theorem bfsLoopLive_succ_nil {σ : Type} (callBack : Option (LiveFunc σ)) (fuel : Nat)
    (w : σ) : bfsLoopLive callBack (fuel + 1) [] w = (w, Exit.nil) := rfl

theorem bfsLoopLive_succ_cons {σ : Type} (callBack : Option (LiveFunc σ)) (fuel : Nat)
    (x : Option Dir) (xs : List (Option Dir)) (w : σ) :
    bfsLoopLive callBack (fuel + 1) (x :: xs) w =
      match (bfsLevelLive callBack (x :: xs) [] w).2.2 with
      | Exit.nil =>
        bfsLoopLive callBack fuel (bfsLevelLive callBack (x :: xs) [] w).1
          (bfsLevelLive callBack (x :: xs) [] w).2.1
      | e => ((bfsLevelLive callBack (x :: xs) [] w).2.1, e) := rfl

theorem bfsLoopLive_succ_cons_nil {σ : Type} (callBack : Option (LiveFunc σ)) (fuel : Nat)
    (x : Option Dir) (xs : List (Option Dir)) (w : σ)
    (h : (bfsLevelLive callBack (x :: xs) [] w).2.2 = Exit.nil) :
    bfsLoopLive callBack (fuel + 1) (x :: xs) w =
      bfsLoopLive callBack fuel (bfsLevelLive callBack (x :: xs) [] w).1
        (bfsLevelLive callBack (x :: xs) [] w).2.1 := by
  rw [bfsLoopLive_succ_cons, h]

theorem bfsLoopLive_succ_cons_stop {σ : Type} (callBack : Option (LiveFunc σ)) (fuel : Nat)
    (x : Option Dir) (xs : List (Option Dir)) (w : σ)
    (h : (bfsLevelLive callBack (x :: xs) [] w).2.2 ≠ Exit.nil) :
    bfsLoopLive callBack (fuel + 1) (x :: xs) w =
      ((bfsLevelLive callBack (x :: xs) [] w).2.1,
        (bfsLevelLive callBack (x :: xs) [] w).2.2) := by
  rw [bfsLoopLive_succ_cons]
  split
  · rename_i e; exact absurd e h
  · rfl

theorem DFSLoadLive_dir {σ : Type} (d : Dir) (fuel : Nat) (maxDepth numLimit sizeLimit : Int)
    (retrieve : Option (LiveRetrieve σ)) (pre post : Option (LiveFunc σ)) (w : σ) :
    (d.DFSLoadLive fuel maxDepth numLimit sizeLimit retrieve pre post w).dir =
      (dfsLoadDirLive retrieve pre post fuel d
        (d.dfsInfoInit maxDepth numLimit sizeLimit, w)).1 := by
  unfold Dir.DFSLoadLive
  simp only
  split <;> rfl

theorem DFSLoadLive_world {σ : Type} (d : Dir) (fuel : Nat)
    (maxDepth numLimit sizeLimit : Int)
    (retrieve : Option (LiveRetrieve σ)) (pre post : Option (LiveFunc σ)) (w : σ) :
    (d.DFSLoadLive fuel maxDepth numLimit sizeLimit retrieve pre post w).world =
      (dfsLoadDirLive retrieve pre post fuel d
        (d.dfsInfoInit maxDepth numLimit sizeLimit, w)).2.1.2 := by
  unfold Dir.DFSLoadLive
  simp only
  split <;> rfl

theorem DFSLoadLive_exit {σ : Type} (d : Dir) (fuel : Nat) (maxDepth numLimit sizeLimit : Int)
    (retrieve : Option (LiveRetrieve σ)) (pre post : Option (LiveFunc σ)) (w : σ) :
    (d.DFSLoadLive fuel maxDepth numLimit sizeLimit retrieve pre post w).exit =
      (dfsLoadDirLive retrieve pre post fuel d
        (d.dfsInfoInit maxDepth numLimit sizeLimit, w)).2.2 := by
  unfold Dir.DFSLoadLive
  simp only
  split
  · rename_i e; exact e.symm
  · rfl

theorem DFSLoadLive_totals_fail {σ : Type} (d : Dir) (fuel : Nat)
    (maxDepth numLimit sizeLimit : Int)
    (retrieve : Option (LiveRetrieve σ)) (pre post : Option (LiveFunc σ)) (w : σ)
    (h : (d.DFSLoadLive fuel maxDepth numLimit sizeLimit retrieve pre post w).exit ≠
      Exit.nil) :
    (d.DFSLoadLive fuel maxDepth numLimit sizeLimit retrieve pre post w).totalSize = 0 ∧
    (d.DFSLoadLive fuel maxDepth numLimit sizeLimit retrieve pre post w).totalCount = 0 := by
  rw [DFSLoadLive_exit] at h
  unfold Dir.DFSLoadLive
  simp only
  exact ⟨trivial, trivial⟩

theorem DFSLoadLive_totals {σ : Type} (d : Dir) (fuel : Nat)
    (maxDepth numLimit sizeLimit : Int)
    (retrieve : Option (LiveRetrieve σ)) (pre post : Option (LiveFunc σ)) (w : σ)
    (h : (d.DFSLoadLive fuel maxDepth numLimit sizeLimit retrieve pre post w).exit =
      Exit.nil) :
    (d.DFSLoadLive fuel maxDepth numLimit sizeLimit retrieve pre post w).totalSize =
      (dfsLoadDirLive retrieve pre post fuel d
        (d.dfsInfoInit maxDepth numLimit sizeLimit, w)).2.1.1.totalSize ∧
    (d.DFSLoadLive fuel maxDepth numLimit sizeLimit retrieve pre post w).totalCount =
      (dfsLoadDirLive retrieve pre post fuel d
        (d.dfsInfoInit maxDepth numLimit sizeLimit, w)).2.1.1.totalCount := by
  rw [DFSLoadLive_exit] at h
  unfold Dir.DFSLoadLive
  simp only
  rw [h]
  exact ⟨rfl, rfl⟩

/-! ## The first error wins, with the caller's functions in full -/

theorem CleanGo_nil : CleanGo [] := fun r h => by simp at h

theorem CleanGo_snoc {log : List GoRet} (h : CleanGo log) : CleanGo (log ++ [GoRet.nil]) := by
  intro r hr
  rcases List.mem_append.1 hr with e | e
  · exact h r e
  · simpa using e

theorem FirstErrorWinsGo_nil {log : List GoRet} (h : FirstErrorWinsGo log Exit.nil) :
    CleanGo log := by
  rcases h with h | ⟨init, r, _, _, hr, he⟩
  · exact h
  · exact absurd (goRet_toExit_eq_nil he.symm) hr

theorem FirstErrorWinsGo_snoc {log : List GoRet} (h : CleanGo log) (r : GoRet) :
    FirstErrorWinsGo (log ++ [r]) r.toExit := by
  by_cases hr : r = GoRet.nil
  · rw [hr]; exact Or.inl (CleanGo_snoc h)
  · exact Or.inr ⟨log, r, rfl, h, hr, rfl⟩

/-- Read by positions: a call that failed is the last call, and the walk returned what it
returned. -/
theorem FirstErrorWinsGo_index {log : List GoRet} {e : Exit} (h : FirstErrorWinsGo log e)
    (i : Nat) (r : GoRet) (hi : log[i]? = some r) (hr : r ≠ GoRet.nil) :
    i + 1 = log.length ∧ e = r.toExit := by
  rcases h with h | ⟨init, x, hlog, hinit, _, he⟩
  · exact absurd (h r (List.getElem?_mem hi)) hr
  · rw [hlog] at hi ⊢
    by_cases hlt : i < init.length
    · rw [List.getElem?_append_left hlt] at hi
      exact absurd (hinit r (List.getElem?_mem hi)) hr
    · rw [List.getElem?_append_right (by omega)] at hi
      have hz : i - init.length = 0 := by
        by_contra hne
        rw [List.getElem?_eq_none (by simp; omega)] at hi
        cases hi
      rw [hz] at hi
      simp only [List.getElem?_cons_zero, Option.some.injEq] at hi
      rw [← hi]
      exact ⟨by simp; omega, he⟩

theorem callLive_wins {σ : Type} (f : Option (LiveFunc σ)) (d : Dir) (w : σ × List GoRet)
    (hc : CleanGo w.2) :
    FirstErrorWinsGo (callLive (f.map loggedLive) d w).2.1.2
      (callLive (f.map loggedLive) d w).2.2 := by
  cases f with
  | none => exact Or.inl hc
  | some g => exact FirstErrorWinsGo_snoc hc _

theorem loopSubDirs_winsGo {τ : Type} (lg : τ → List GoRet)
    (walk : Dir → τ → Dir × τ × Exit)
    (hw : ∀ c st, CleanGo (lg st) → FirstErrorWinsGo (lg (walk c st).2.1) (walk c st).2.2) :
    ∀ (subs : List (Option Dir)) (st : τ), CleanGo (lg st) →
      FirstErrorWinsGo (lg (loopSubDirs walk subs st).2.1) (loopSubDirs walk subs st).2.2 := by
  intro subs
  induction subs with
  | nil => intro st hc; exact Or.inl hc
  | cons hd tl ih =>
    intro st hc
    cases hd with
    | none => exact Or.inl hc
    | some x =>
      have h1 := hw x st hc
      by_cases hx : (walk x st).2.2 = Exit.nil
      · rw [loopSubDirs_some_nil walk x tl st hx]
        rw [hx] at h1
        exact ih _ (FirstErrorWinsGo_nil h1)
      · rw [loopSubDirs_some_stop walk x tl st hx]
        exact h1

/-- `DfsWithFuncLive` with logged callbacks, started with a clean log. -/
theorem DfsWithFuncLive_wins {σ : Type} (pre post : Option (LiveFunc σ)) (fuel : Nat) :
    ∀ (d : Dir) (w : σ × List GoRet), CleanGo w.2 →
      FirstErrorWinsGo
        (DfsWithFuncLive (pre.map loggedLive) (post.map loggedLive) fuel d w).2.1.2
        (DfsWithFuncLive (pre.map loggedLive) (post.map loggedLive) fuel d w).2.2 := by
  induction fuel with
  | zero => intro d w hc; exact Or.inl hc
  | succ fuel ih =>
    intro d w hc
    cases hl : d.loaded with
    | false =>
      rw [DfsWithFuncLive_unloaded _ _ fuel d w hl]
      exact Or.inl hc
    | true =>
      have h1 := callLive_wins pre d w hc
      by_cases hp : (callLive (pre.map loggedLive) d w).2.2 = Exit.nil
      · rw [hp] at h1
        have h2 := loopSubDirs_winsGo (fun st : σ × List GoRet => st.2) _ ih
          (callLive (pre.map loggedLive) d w).1.subDirs _ (FirstErrorWinsGo_nil h1)
        by_cases hk : (loopSubDirs
            (DfsWithFuncLive (pre.map loggedLive) (post.map loggedLive) fuel)
            (callLive (pre.map loggedLive) d w).1.subDirs
            (callLive (pre.map loggedLive) d w).2.1).2.2 = Exit.nil
        · rw [DfsWithFuncLive_done _ _ fuel d w hl hp hk]
          rw [hk] at h2
          exact callLive_wins post _ _ (FirstErrorWinsGo_nil h2)
        · rw [DfsWithFuncLive_kids_stop _ _ fuel d w hl hp hk]
          exact h2
      · rw [DfsWithFuncLive_pre_stop _ _ fuel d w hl hp]
        exact h1

theorem bfsLevelLive_wins {σ : Type} (callBack : Option (LiveFunc σ)) :
    ∀ (curr next : List (Option Dir)) (w : σ × List GoRet), CleanGo w.2 →
      FirstErrorWinsGo (bfsLevelLive (callBack.map loggedLive) curr next w).2.1.2
        (bfsLevelLive (callBack.map loggedLive) curr next w).2.2 := by
  intro curr
  induction curr with
  | nil => intro next w hc; exact Or.inl hc
  | cons hd tl ih =>
    intro next w hc
    cases hd with
    | none =>
      cases callBack with
      | none => exact Or.inl hc
      | some g =>
        have hsome : (some g).map loggedLive = some (loggedLive g) := rfl
        rw [hsome, bfsLevelLive_none_some]
        show FirstErrorWinsGo (w.2 ++ [(g.onNil w.1).2])
          (match (g.onNil w.1).2 with
            | GoRet.nil => Exit.panic
            | r => r.toExit)
        cases hr : (g.onNil w.1).2 with
        | nil => exact Or.inl (CleanGo_snoc hc)
        | error e => exact FirstErrorWinsGo_snoc hc (GoRet.error e)
        | panic => exact FirstErrorWinsGo_snoc hc GoRet.panic
    | some d =>
      have h1 := callLive_wins callBack d w hc
      by_cases hp : (callLive (callBack.map loggedLive) d w).2.2 = Exit.nil
      · rw [bfsLevelLive_some_nil _ _ _ _ w hp]
        rw [hp] at h1
        exact ih _ _ (FirstErrorWinsGo_nil h1)
      · rw [bfsLevelLive_some_stop _ _ _ _ w hp]
        exact h1

theorem bfsLoopLive_wins {σ : Type} (callBack : Option (LiveFunc σ)) :
    ∀ (fuel : Nat) (curr : List (Option Dir)) (w : σ × List GoRet), CleanGo w.2 →
      FirstErrorWinsGo (bfsLoopLive (callBack.map loggedLive) fuel curr w).1.2
        (bfsLoopLive (callBack.map loggedLive) fuel curr w).2 := by
  intro fuel
  induction fuel with
  | zero => intro curr w hc; exact Or.inl hc
  | succ fuel ih =>
    intro curr w hc
    cases curr with
    | nil => exact Or.inl hc
    | cons x xs =>
      have h1 := bfsLevelLive_wins callBack (x :: xs) [] w hc
      by_cases hp : (bfsLevelLive (callBack.map loggedLive) (x :: xs) [] w).2.2 = Exit.nil
      · rw [bfsLoopLive_succ_cons_nil _ _ _ _ w hp]
        rw [hp] at h1
        exact ih _ _ (FirstErrorWinsGo_nil h1)
      · rw [bfsLoopLive_succ_cons_stop _ _ _ _ w hp]
        exact h1

/-- `BfsWithFuncLive` with a logged callback, started with a clean log. -/
theorem BfsWithFuncLive_wins {σ : Type} (callBack : Option (LiveFunc σ)) (d : Dir)
    (fuel : Nat) (w : σ × List GoRet) (hc : CleanGo w.2) :
    FirstErrorWinsGo (d.BfsWithFuncLive fuel (callBack.map loggedLive) w).1.2
      (d.BfsWithFuncLive fuel (callBack.map loggedLive) w).2 := by
  unfold Dir.BfsWithFuncLive
  cases d.loaded with
  | false => exact Or.inl hc
  | true => exact bfsLoopLive_wins callBack _ _ w hc

theorem dfsLoadFetchLive_wins {σ : Type} (retrieve : Option (LiveRetrieve σ)) (d : Dir)
    (w : σ × List GoRet) (hc : CleanGo w.2) :
    FirstErrorWinsGo (dfsLoadFetchLive (retrieve.map loggedLiveRetrieve) d w).2.1.2
      (dfsLoadFetchLive (retrieve.map loggedLiveRetrieve) d w).2.2 := by
  cases hl : d.loaded with
  | true =>
    rw [dfsLoadFetchLive_of_loaded _ d w hl]
    exact Or.inl hc
  | false =>
    cases retrieve with
    | none =>
      have hnone : (none : Option (LiveRetrieve σ)).map loggedLiveRetrieve = none := rfl
      rw [hnone, dfsLoadFetchLive_no_func d w hl]
      exact Or.inl hc
    | some r =>
      have hsome : (some r).map loggedLiveRetrieve = some (loggedLiveRetrieve r) := rfl
      rw [hsome]
      cases hr : (r w.1 d.originInfo.VolumeId d.originInfo.Id).2 with
      | error e =>
        rw [dfsLoadFetchLive_error (loggedLiveRetrieve r) d w hl e hr]
        show FirstErrorWinsGo
          (w.2 ++ [fetchRet (r w.1 d.originInfo.VolumeId d.originInfo.Id).2]) _
        rw [hr]
        exact FirstErrorWinsGo_snoc hc (GoRet.error e)
      | ok v =>
        obtain ⟨files, folders⟩ := v
        rw [dfsLoadFetchLive_ok (loggedLiveRetrieve r) d w hl files folders hr]
        show FirstErrorWinsGo
          (w.2 ++ [fetchRet (r w.1 d.originInfo.VolumeId d.originInfo.Id).2]) _
        rw [hr]
        exact FirstErrorWinsGo_snoc hc GoRet.nil

theorem dfsLoadHeadLive_wins {σ : Type} (retrieve : Option (LiveRetrieve σ))
    (pre : Option (LiveFunc σ)) (d : Dir) (st : dsfLoadInfo × (σ × List GoRet))
    (hc : CleanGo st.2.2) :
    FirstErrorWinsGo
      (dfsLoadHeadLive (retrieve.map loggedLiveRetrieve) (pre.map loggedLive) d st).2.1.2.2
      (dfsLoadHeadLive (retrieve.map loggedLiveRetrieve) (pre.map loggedLive) d st).2.2 := by
  cases hf : d.originInfo.IsFolder with
  | false =>
    rw [dfsLoadHeadLive_not_folder _ _ d st hf]
    exact Or.inl hc
  | true =>
    by_cases hd : d.depth ≥ st.1.maxDepth
    · rw [dfsLoadHeadLive_too_deep _ _ d st hf hd]
      exact Or.inl hc
    · have hd2 : d.depth < st.1.maxDepth := by omega
      have h1 := callLive_wins pre d st.2 hc
      by_cases hp : (callLive (pre.map loggedLive) d st.2).2.2 = Exit.nil
      · rw [hp] at h1
        have h2 := dfsLoadFetchLive_wins retrieve (callLive (pre.map loggedLive) d st.2).1
          (callLive (pre.map loggedLive) d st.2).2.1 (FirstErrorWinsGo_nil h1)
        by_cases hx : (dfsLoadFetchLive (retrieve.map loggedLiveRetrieve)
            (callLive (pre.map loggedLive) d st.2).1
            (callLive (pre.map loggedLive) d st.2).2.1).2.2 = Exit.nil
        · rw [dfsLoadHeadLive_account _ _ d st hf hd2 hp hx]
          rw [hx] at h2
          exact Or.inl (FirstErrorWinsGo_nil h2)
        · rw [dfsLoadHeadLive_fetch_stop _ _ d st hf hd2 hp hx]
          exact h2
      · rw [dfsLoadHeadLive_pre_stop _ _ d st hf hd2 hp]
        exact h1

/-- `dfsLoadDirLive` with logged callbacks and a logged retrieval function, started with
a clean log. -/
theorem dfsLoadDirLive_wins {σ : Type} (retrieve : Option (LiveRetrieve σ))
    (pre post : Option (LiveFunc σ)) (fuel : Nat) :
    ∀ (d : Dir) (st : dsfLoadInfo × (σ × List GoRet)), CleanGo st.2.2 →
      FirstErrorWinsGo
        (dfsLoadDirLive (retrieve.map loggedLiveRetrieve) (pre.map loggedLive)
          (post.map loggedLive) fuel d st).2.1.2.2
        (dfsLoadDirLive (retrieve.map loggedLiveRetrieve) (pre.map loggedLive)
          (post.map loggedLive) fuel d st).2.2 := by
  induction fuel with
  | zero => intro d st hc; exact Or.inl hc
  | succ fuel ih =>
    intro d st hc
    have h1 := dfsLoadHeadLive_wins retrieve pre d st hc
    by_cases hh : (dfsLoadHeadLive (retrieve.map loggedLiveRetrieve) (pre.map loggedLive)
        d st).2.2 = Exit.nil
    · rw [hh] at h1
      have h2 : FirstErrorWinsGo
          (dfsLoadKidsLive (retrieve.map loggedLiveRetrieve) (pre.map loggedLive)
            (post.map loggedLive) fuel d st).2.1.2.2
          (dfsLoadKidsLive (retrieve.map loggedLiveRetrieve) (pre.map loggedLive)
            (post.map loggedLive) fuel d st).2.2 :=
        loopSubDirs_winsGo (fun st : dsfLoadInfo × (σ × List GoRet) => st.2.2) _ ih _ _
          (FirstErrorWinsGo_nil h1)
      by_cases hk : (dfsLoadKidsLive (retrieve.map loggedLiveRetrieve) (pre.map loggedLive)
          (post.map loggedLive) fuel d st).2.2 = Exit.nil
      · rw [dfsLoadDirLive_kids_done _ _ _ fuel d st hh hk]
        rw [hk] at h2
        exact callLive_wins post _ _ (FirstErrorWinsGo_nil h2)
      · rw [dfsLoadDirLive_kids_stop _ _ _ fuel d st hh hk]
        exact h2
    · rw [dfsLoadDirLive_head_stop _ _ _ fuel d st hh]
      exact h1

/-- `DFSLoadLive` with logged callbacks and a logged retrieval function, started with a
clean log. -/
theorem DFSLoadLive_wins {σ : Type} (d : Dir) (fuel : Nat) (maxDepth numLimit sizeLimit : Int)
    (retrieve : Option (LiveRetrieve σ)) (pre post : Option (LiveFunc σ))
    (w : σ × List GoRet) (hc : CleanGo w.2) :
    FirstErrorWinsGo
      (d.DFSLoadLive fuel maxDepth numLimit sizeLimit (retrieve.map loggedLiveRetrieve)
        (pre.map loggedLive) (post.map loggedLive) w).world.2
      (d.DFSLoadLive fuel maxDepth numLimit sizeLimit (retrieve.map loggedLiveRetrieve)
        (pre.map loggedLive) (post.map loggedLive) w).exit := by
  rw [DFSLoadLive_world, DFSLoadLive_exit]
  exact dfsLoadDirLive_wins retrieve pre post fuel d _ hc

/-! ## The limits and the budget, with the caller's functions in full -/

theorem dfsLoadHeadLive_limits {σ : Type} (retrieve : Option (LiveRetrieve σ))
    (pre : Option (LiveFunc σ)) (d : Dir) (st : dsfLoadInfo × σ) :
    sameLimits (dfsLoadHeadLive retrieve pre d st).2.1.1 st.1 := by
  cases hf : d.originInfo.IsFolder with
  | false => rw [dfsLoadHeadLive_not_folder retrieve pre d st hf]; exact sameLimits_refl _
  | true =>
    by_cases hd : d.depth ≥ st.1.maxDepth
    · rw [dfsLoadHeadLive_too_deep retrieve pre d st hf hd]; exact sameLimits_refl _
    · have hd2 : d.depth < st.1.maxDepth := by omega
      by_cases hp : (callLive pre d st.2).2.2 = Exit.nil
      · by_cases hx : (dfsLoadFetchLive retrieve (callLive pre d st.2).1
            (callLive pre d st.2).2.1).2.2 = Exit.nil
        · rw [dfsLoadHeadLive_account retrieve pre d st hf hd2 hp hx]
          simp only [dfsLoadAccount_info]
          exact ⟨rfl, rfl, rfl⟩
        · rw [dfsLoadHeadLive_fetch_stop retrieve pre d st hf hd2 hp hx]
          exact sameLimits_refl _
      · rw [dfsLoadHeadLive_pre_stop retrieve pre d st hf hd2 hp]
        exact sameLimits_refl _

theorem loopSubDirs_limitsLive {σ : Type}
    (walk : Dir → dsfLoadInfo × σ → Dir × (dsfLoadInfo × σ) × Exit)
    (hw : ∀ c st, sameLimits (walk c st).2.1.1 st.1)
    (subs : List (Option Dir)) (st : dsfLoadInfo × σ) :
    sameLimits (loopSubDirs walk subs st).2.1.1 st.1 := by
  induction subs generalizing st with
  | nil => exact sameLimits_refl _
  | cons hd tl ih =>
    cases hd with
    | none => exact sameLimits_refl _
    | some c =>
      by_cases hx : (walk c st).2.2 = Exit.nil
      · rw [loopSubDirs_some_nil walk c tl st hx]
        exact sameLimits_trans (ih _) (hw c st)
      · rw [loopSubDirs_some_stop walk c tl st hx]
        exact hw c st

/-- The limits in the accumulator are never written by `dfsLoadDirLive`. -/
theorem dfsLoadDirLive_limits {σ : Type} (retrieve : Option (LiveRetrieve σ))
    (pre post : Option (LiveFunc σ)) (fuel : Nat) :
    ∀ (d : Dir) (st : dsfLoadInfo × σ),
      sameLimits (dfsLoadDirLive retrieve pre post fuel d st).2.1.1 st.1 := by
  induction fuel with
  | zero => intro d st; exact sameLimits_refl _
  | succ fuel ih =>
    intro d st
    have hk : sameLimits (dfsLoadKidsLive retrieve pre post fuel d st).2.1.1 st.1 :=
      sameLimits_trans (loopSubDirs_limitsLive _ ih _ _)
        (dfsLoadHeadLive_limits retrieve pre d st)
    by_cases hh : (dfsLoadHeadLive retrieve pre d st).2.2 = Exit.nil
    · by_cases hx : (dfsLoadKidsLive retrieve pre post fuel d st).2.2 = Exit.nil
      · rw [dfsLoadDirLive_kids_done retrieve pre post fuel d st hh hx]; exact hk
      · rw [dfsLoadDirLive_kids_stop retrieve pre post fuel d st hh hx]; exact hk
    · rw [dfsLoadDirLive_head_stop retrieve pre post fuel d st hh]
      exact dfsLoadHeadLive_limits retrieve pre d st

theorem callLive_never {σ : Type} (e : Err) (f : Option (LiveFunc σ))
    (hf : FuncNeverReturns e f) (d : Dir) (w : σ) :
    (callLive f d w).2.2 ≠ Exit.error e := by
  cases f with
  | none => rw [callLive_none]; intro h; cases h
  | some g =>
    rw [callLive_some]
    have h1 := hf g rfl w d
    intro h
    cases hr : (g.onDir w d).2.2 with
    | nil => rw [hr] at h; cases h
    | error x =>
      rw [hr] at h h1
      cases h
      exact h1 rfl
    | panic => rw [hr] at h; cases h

theorem dfsLoadFetchLive_never {σ : Type} (retrieve : Option (LiveRetrieve σ))
    (hr : RetrieveNeverReturns Err.errTotalSizeLimit retrieve) (d : Dir) (w : σ) :
    (dfsLoadFetchLive retrieve d w).2.2 ≠ Exit.error Err.errTotalSizeLimit := by
  cases hl : d.loaded with
  | true => rw [dfsLoadFetchLive_of_loaded retrieve d w hl]; intro h; cases h
  | false =>
    cases retrieve with
    | none => rw [dfsLoadFetchLive_no_func d w hl]; intro h; cases h
    | some r =>
      cases hx : (r w d.originInfo.VolumeId d.originInfo.Id).2 with
      | error e =>
        rw [dfsLoadFetchLive_error r d w hl e hx]
        intro h
        cases h
        exact hr r rfl w d.originInfo.VolumeId d.originInfo.Id hx
      | ok v =>
        obtain ⟨files, folders⟩ := v
        rw [dfsLoadFetchLive_ok r d w hl files folders hx]; intro h; cases h

theorem dfsLoadHeadLive_ne_sizeLimit {σ : Type} (retrieve : Option (LiveRetrieve σ))
    (pre : Option (LiveFunc σ)) (hr : RetrieveNeverReturns Err.errTotalSizeLimit retrieve)
    (hpre : FuncNeverReturns Err.errTotalSizeLimit pre) (d : Dir) (st : dsfLoadInfo × σ)
    (hs : st.1.sizeLimit < 0) :
    (dfsLoadHeadLive retrieve pre d st).2.2 ≠ Exit.error Err.errTotalSizeLimit := by
  cases hf : d.originInfo.IsFolder with
  | false => rw [dfsLoadHeadLive_not_folder retrieve pre d st hf]; intro h; cases h
  | true =>
    by_cases hd : d.depth ≥ st.1.maxDepth
    · rw [dfsLoadHeadLive_too_deep retrieve pre d st hf hd]; intro h; cases h
    · have hd2 : d.depth < st.1.maxDepth := by omega
      by_cases hp : (callLive pre d st.2).2.2 = Exit.nil
      · by_cases hx : (dfsLoadFetchLive retrieve (callLive pre d st.2).1
            (callLive pre d st.2).2.1).2.2 = Exit.nil
        · rw [dfsLoadHeadLive_account retrieve pre d st hf hd2 hp hx]
          exact dfsLoadAccount_ne_sizeLimit _ _ _ hs
        · rw [dfsLoadHeadLive_fetch_stop retrieve pre d st hf hd2 hp hx]
          exact dfsLoadFetchLive_never retrieve hr _ _
      · rw [dfsLoadHeadLive_pre_stop retrieve pre d st hf hd2 hp]
        exact callLive_never _ pre hpre _ _

theorem loopSubDirs_ne_sizeLimitLive {σ : Type}
    (walk : Dir → dsfLoadInfo × σ → Dir × (dsfLoadInfo × σ) × Exit)
    (hlim : ∀ c st, sameLimits (walk c st).2.1.1 st.1)
    (hw : ∀ c st, st.1.sizeLimit < 0 → (walk c st).2.2 ≠ Exit.error Err.errTotalSizeLimit)
    (subs : List (Option Dir)) (st : dsfLoadInfo × σ) (hst : st.1.sizeLimit < 0) :
    (loopSubDirs walk subs st).2.2 ≠ Exit.error Err.errTotalSizeLimit := by
  induction subs generalizing st with
  | nil => rw [loopSubDirs_nil]; intro h; cases h
  | cons hd tl ih =>
    cases hd with
    | none => rw [loopSubDirs_none]; intro h; cases h
    | some c =>
      by_cases hx : (walk c st).2.2 = Exit.nil
      · rw [loopSubDirs_some_nil walk c tl st hx]
        exact ih _ (by rw [(hlim c st).2.1]; exact hst)
      · rw [loopSubDirs_some_stop walk c tl st hx]
        exact hw c st hst

/-- With a negative size limit `dfsLoadDirLive` ends with `errTotalSizeLimit` only when
one of the caller's functions returns it. -/
theorem dfsLoadDirLive_ne_sizeLimit {σ : Type} (retrieve : Option (LiveRetrieve σ))
    (pre post : Option (LiveFunc σ))
    (hr : RetrieveNeverReturns Err.errTotalSizeLimit retrieve)
    (hpre : FuncNeverReturns Err.errTotalSizeLimit pre)
    (hpost : FuncNeverReturns Err.errTotalSizeLimit post) (fuel : Nat) :
    ∀ (d : Dir) (st : dsfLoadInfo × σ), st.1.sizeLimit < 0 →
      (dfsLoadDirLive retrieve pre post fuel d st).2.2 ≠
        Exit.error Err.errTotalSizeLimit := by
  induction fuel with
  | zero => intro d st _; rw [dfsLoadDirLive_zero]; intro h; cases h
  | succ fuel ih =>
    intro d st hs
    by_cases hh : (dfsLoadHeadLive retrieve pre d st).2.2 = Exit.nil
    · by_cases hk : (dfsLoadKidsLive retrieve pre post fuel d st).2.2 = Exit.nil
      · rw [dfsLoadDirLive_kids_done retrieve pre post fuel d st hh hk]
        exact callLive_never _ post hpost _ _
      · rw [dfsLoadDirLive_kids_stop retrieve pre post fuel d st hh hk]
        exact loopSubDirs_ne_sizeLimitLive _ (dfsLoadDirLive_limits retrieve pre post fuel)
          ih _ _ (by rw [(dfsLoadHeadLive_limits retrieve pre d st).2.1]; exact hs)
    · rw [dfsLoadDirLive_head_stop retrieve pre post fuel d st hh]
      exact dfsLoadHeadLive_ne_sizeLimit retrieve pre hr hpre d st hs

/-- A run of `dfsLoadDirLive` that does not use up its budget is the same with any
larger budget. -/
theorem dfsLoadDirLive_fuel_mono {σ : Type} (retrieve : Option (LiveRetrieve σ))
    (pre post : Option (LiveFunc σ)) (fuel : Nat) :
    ∀ (d : Dir) (st : dsfLoadInfo × σ),
      (dfsLoadDirLive retrieve pre post fuel d st).2.2 ≠ Exit.fuel →
      ∀ fuel2, fuel ≤ fuel2 →
        dfsLoadDirLive retrieve pre post fuel2 d st =
          dfsLoadDirLive retrieve pre post fuel d st := by
  induction fuel with
  | zero => intro d st h; exact absurd rfl h
  | succ fuel ih =>
    intro d st hne fuel2 hle
    obtain ⟨f2, rfl⟩ : ∃ f2, fuel2 = f2 + 1 := ⟨fuel2 - 1, by omega⟩
    have hf : fuel ≤ f2 := by omega
    by_cases hh : (dfsLoadHeadLive retrieve pre d st).2.2 = Exit.nil
    · have hkne : (dfsLoadKidsLive retrieve pre post fuel d st).2.2 ≠ Exit.fuel := by
        intro hk
        rw [dfsLoadDirLive_kids_stop retrieve pre post fuel d st hh
          (by rw [hk]; intro k; cases k)] at hne
        exact hne hk
      have hkids : dfsLoadKidsLive retrieve pre post f2 d st =
          dfsLoadKidsLive retrieve pre post fuel d st :=
        loopSubDirs_fuel_congr _ _ (fun c s hs => ih c s hs f2 hf) _ _ hkne
      by_cases hk : (dfsLoadKidsLive retrieve pre post fuel d st).2.2 = Exit.nil
      · rw [dfsLoadDirLive_kids_done retrieve pre post fuel d st hh hk,
          dfsLoadDirLive_kids_done retrieve pre post f2 d st hh (by rw [hkids]; exact hk),
          hkids]
      · rw [dfsLoadDirLive_kids_stop retrieve pre post fuel d st hh hk,
          dfsLoadDirLive_kids_stop retrieve pre post f2 d st hh (by rw [hkids]; exact hk),
          hkids]
    · rw [dfsLoadDirLive_head_stop retrieve pre post fuel d st hh,
        dfsLoadDirLive_head_stop retrieve pre post f2 d st hh]

/-- A run of `DfsWithFuncLive` that does not use up its budget is the same with any
larger budget. -/
theorem DfsWithFuncLive_fuel_mono {σ : Type} (pre post : Option (LiveFunc σ)) (fuel : Nat) :
    ∀ (d : Dir) (w : σ), (DfsWithFuncLive pre post fuel d w).2.2 ≠ Exit.fuel →
      ∀ fuel2, fuel ≤ fuel2 →
        DfsWithFuncLive pre post fuel2 d w = DfsWithFuncLive pre post fuel d w := by
  induction fuel with
  | zero => intro d w h; exact absurd rfl h
  | succ fuel ih =>
    intro d w hne fuel2 hle
    obtain ⟨f2, rfl⟩ : ∃ f2, fuel2 = f2 + 1 := ⟨fuel2 - 1, by omega⟩
    have hf : fuel ≤ f2 := by omega
    cases hl : d.loaded with
    | false =>
      rw [DfsWithFuncLive_unloaded pre post fuel d w hl,
        DfsWithFuncLive_unloaded pre post f2 d w hl]
    | true =>
      by_cases hp : (callLive pre d w).2.2 = Exit.nil
      · have hkne : (loopSubDirs (DfsWithFuncLive pre post fuel) (callLive pre d w).1.subDirs
            (callLive pre d w).2.1).2.2 ≠ Exit.fuel := by
          intro hk
          rw [DfsWithFuncLive_kids_stop pre post fuel d w hl hp
            (by rw [hk]; intro k; cases k)] at hne
          exact hne hk
        have hkids : loopSubDirs (DfsWithFuncLive pre post f2) (callLive pre d w).1.subDirs
            (callLive pre d w).2.1 =
            loopSubDirs (DfsWithFuncLive pre post fuel) (callLive pre d w).1.subDirs
              (callLive pre d w).2.1 :=
          loopSubDirs_fuel_congr _ _ (fun c s hs => ih c s hs f2 hf) _ _ hkne
        by_cases hk : (loopSubDirs (DfsWithFuncLive pre post fuel)
            (callLive pre d w).1.subDirs (callLive pre d w).2.1).2.2 = Exit.nil
        · rw [DfsWithFuncLive_done pre post fuel d w hl hp hk,
            DfsWithFuncLive_done pre post f2 d w hl hp (by rw [hkids]; exact hk), hkids]
        · rw [DfsWithFuncLive_kids_stop pre post fuel d w hl hp hk,
            DfsWithFuncLive_kids_stop pre post f2 d w hl hp (by rw [hkids]; exact hk), hkids]
      · rw [DfsWithFuncLive_pre_stop pre post fuel d w hl hp,
          DfsWithFuncLive_pre_stop pre post f2 d w hl hp]

theorem bfsLevelLive_ne_fuel {σ : Type} (callBack : Option (LiveFunc σ)) :
    ∀ (curr next : List (Option Dir)) (w : σ),
      (bfsLevelLive callBack curr next w).2.2 ≠ Exit.fuel := by
  intro curr
  induction curr with
  | nil => intro next w h; cases h
  | cons hd tl ih =>
    intro next w
    cases hd with
    | none =>
      cases callBack with
      | none => intro h; cases h
      | some g =>
        rw [bfsLevelLive_none_some]
        cases (g.onNil w).2 <;> (intro h; cases h)
    | some d =>
      by_cases hp : (callLive callBack d w).2.2 = Exit.nil
      · rw [bfsLevelLive_some_nil _ _ _ _ w hp]
        exact ih _ _
      · rw [bfsLevelLive_some_stop _ _ _ _ w hp]
        exact callLive_ne_fuel _ _ _

/-- A run of `bfsLoopLive` that does not use up its budget is the same with any larger
budget. -/
theorem bfsLoopLive_fuel_mono {σ : Type} (callBack : Option (LiveFunc σ)) (fuel : Nat) :
    ∀ (curr : List (Option Dir)) (w : σ), (bfsLoopLive callBack fuel curr w).2 ≠ Exit.fuel →
      ∀ fuel2, fuel ≤ fuel2 →
        bfsLoopLive callBack fuel2 curr w = bfsLoopLive callBack fuel curr w := by
  induction fuel with
  | zero => intro curr w h; exact absurd rfl h
  | succ fuel ih =>
    intro curr w hne fuel2 hle
    obtain ⟨f2, rfl⟩ : ∃ f2, fuel2 = f2 + 1 := ⟨fuel2 - 1, by omega⟩
    have hf : fuel ≤ f2 := by omega
    cases curr with
    | nil => rfl
    | cons x xs =>
      by_cases hp : (bfsLevelLive callBack (x :: xs) [] w).2.2 = Exit.nil
      · rw [bfsLoopLive_succ_cons_nil _ _ _ _ w hp] at hne ⊢
        rw [bfsLoopLive_succ_cons_nil _ _ _ _ w hp]
        exact ih _ _ hne f2 hf
      · rw [bfsLoopLive_succ_cons_stop _ _ _ _ w hp, bfsLoopLive_succ_cons_stop _ _ _ _ w hp]

/-! ## Callbacks that leave the tree alone

The walks of the first part are the walks with the caller's functions in full, for
callbacks that only read the node they are handed. -/

theorem callLive_lift {σ : Type} (tag : Dir → Event) (f : Option (DirFunc σ)) (d : Dir)
    (c : Ctx σ) :
    callLive (f.map liftFunc) d c.world =
      (d, (callDirFunc tag f d c).1.world, (callDirFunc tag f d c).2) := by
  cases f with
  | none => rfl
  | some g =>
    show (d, (g c.world d).1, (g c.world d).2.toGo.toExit) =
      (d, (g c.world d).1, (g c.world d).2.toExit)
    rw [callRet_toGo_toExit]

theorem loopSubDirs_sim {τ1 τ2 : Type} (p : τ1 → τ2) (w1 : Dir → τ1 → Dir × τ1 × Exit)
    (w2 : Dir → τ2 → Dir × τ2 × Exit) (subs : List (Option Dir))
    (h : ∀ c, some c ∈ subs → ∀ st,
      w2 c (p st) = ((w1 c st).1, p (w1 c st).2.1, (w1 c st).2.2)) :
    ∀ st, loopSubDirs w2 subs (p st) =
      ((loopSubDirs w1 subs st).1, p (loopSubDirs w1 subs st).2.1,
        (loopSubDirs w1 subs st).2.2) := by
  induction subs with
  | nil => intro st; rfl
  | cons hd tl ih =>
    intro st
    cases hd with
    | none => rfl
    | some c =>
      have e := h c (List.mem_cons_self _ _) st
      have iht := ih (fun x hx => h x (List.mem_cons_of_mem _ hx))
      by_cases hx : (w1 c st).2.2 = Exit.nil
      · rw [loopSubDirs_some_nil w1 c tl st hx,
          loopSubDirs_some_nil w2 c tl (p st) (by rw [e]; exact hx), e]
        simp only
        rw [iht]
      · rw [loopSubDirs_some_stop w1 c tl st hx,
          loopSubDirs_some_stop w2 c tl (p st) (by rw [e]; exact hx), e]

theorem dfsLoadFetchLive_lift {σ : Type} (retrieve : Option (RetrieveNextDepthFilesFunc σ))
    (d : Dir) (c : Ctx σ) :
    dfsLoadFetchLive (retrieve.map liftRetrieve) d c.world =
      ((dfsLoadFetch retrieve d c).1, (dfsLoadFetch retrieve d c).2.1.world,
        (dfsLoadFetch retrieve d c).2.2) := by
  cases hl : d.loaded with
  | true =>
    rw [dfsLoadFetchLive_of_loaded _ d c.world hl, dfsLoadFetch_of_loaded retrieve d c hl]
  | false =>
    cases retrieve with
    | none =>
      have hnone : (none : Option (RetrieveNextDepthFilesFunc σ)).map liftRetrieve = none :=
        rfl
      rw [hnone, dfsLoadFetchLive_no_func d c.world hl, dfsLoadFetch_no_func d c hl]
    | some r =>
      have hsome : (some r).map liftRetrieve = some (liftRetrieve r) := rfl
      rw [hsome]
      cases hr : (r c.world d.originInfo.VolumeId d.originInfo.Id).2 with
      | error code =>
        have hr2 : (liftRetrieve r c.world d.originInfo.VolumeId d.originInfo.Id).2 =
            Except.error (Err.external code) := by
          show (match (r c.world d.originInfo.VolumeId d.originInfo.Id).2 with
            | Except.error code => Except.error (Err.external code)
            | Except.ok lists => Except.ok lists) = _
          rw [hr]
        rw [dfsLoadFetchLive_error _ d c.world hl _ hr2, dfsLoadFetch_error r d c hl code hr]
        rfl
      | ok v =>
        obtain ⟨files, folders⟩ := v
        have hr2 : (liftRetrieve r c.world d.originInfo.VolumeId d.originInfo.Id).2 =
            Except.ok (files, folders) := by
          show (match (r c.world d.originInfo.VolumeId d.originInfo.Id).2 with
            | Except.error code => Except.error (Err.external code)
            | Except.ok lists => Except.ok lists) = _
          rw [hr]
        rw [dfsLoadFetchLive_ok _ d c.world hl files folders hr2,
          dfsLoadFetch_ok r d c hl files folders hr]
        rfl

theorem dfsLoadHeadLive_lift {σ : Type} (retrieve : Option (RetrieveNextDepthFilesFunc σ))
    (pre : Option (DirFunc σ)) (d : Dir) (st : LoadState σ) :
    dfsLoadHeadLive (retrieve.map liftRetrieve) (pre.map liftFunc) d (st.info, st.ctx.world) =
      ((dfsLoadHead retrieve pre d st).1,
        ((dfsLoadHead retrieve pre d st).2.1.info, (dfsLoadHead retrieve pre d st).2.1.ctx.world),
        (dfsLoadHead retrieve pre d st).2.2) := by
  cases hf : d.originInfo.IsFolder with
  | false =>
    rw [dfsLoadHeadLive_not_folder _ _ d _ hf, dfsLoadHead_not_folder retrieve pre d st hf]
  | true =>
    by_cases hd : d.depth ≥ st.info.maxDepth
    · rw [dfsLoadHeadLive_too_deep _ _ d _ hf hd, dfsLoadHead_too_deep retrieve pre d st hf hd]
    · have hd2 : d.depth < st.info.maxDepth := by omega
      have hc := callLive_lift Event.preorder pre d st.ctx
      have hx := dfsLoadFetchLive_lift retrieve d (callDirFunc Event.preorder pre d st.ctx).1
      by_cases hp : (callDirFunc Event.preorder pre d st.ctx).2 = Exit.nil
      · have hp2 : (callLive (pre.map liftFunc) d (st.info, st.ctx.world).2).2.2 = Exit.nil := by
          show (callLive (pre.map liftFunc) d st.ctx.world).2.2 = Exit.nil
          rw [hc]; exact hp
        have hfe : dfsLoadFetchLive (retrieve.map liftRetrieve)
            (callLive (pre.map liftFunc) d (st.info, st.ctx.world).2).1
            (callLive (pre.map liftFunc) d (st.info, st.ctx.world).2).2.1 =
            ((dfsLoadFetch retrieve d (callDirFunc Event.preorder pre d st.ctx).1).1,
              (dfsLoadFetch retrieve d (callDirFunc Event.preorder pre d st.ctx).1).2.1.world,
              (dfsLoadFetch retrieve d (callDirFunc Event.preorder pre d st.ctx).1).2.2) := by
          show dfsLoadFetchLive (retrieve.map liftRetrieve)
            (callLive (pre.map liftFunc) d st.ctx.world).1
            (callLive (pre.map liftFunc) d st.ctx.world).2.1 = _
          rw [hc]
          exact hx
        by_cases hq : (dfsLoadFetch retrieve d
            (callDirFunc Event.preorder pre d st.ctx).1).2.2 = Exit.nil
        · rw [dfsLoadHeadLive_account _ _ d _ hf hd2 hp2 (by rw [hfe]; exact hq),
            dfsLoadHead_account retrieve pre d st hf hd2 hp hq, hfe]
        · rw [dfsLoadHeadLive_fetch_stop _ _ d _ hf hd2 hp2 (by rw [hfe]; exact hq),
            dfsLoadHead_fetch_stop retrieve pre d st hf hd2 hp hq, hfe]
      · have hp2 : (callLive (pre.map liftFunc) d (st.info, st.ctx.world).2).2.2 ≠ Exit.nil := by
          show (callLive (pre.map liftFunc) d st.ctx.world).2.2 ≠ Exit.nil
          rw [hc]; exact hp
        rw [dfsLoadHeadLive_pre_stop _ _ d _ hf hd2 hp2,
          dfsLoadHead_pre_stop retrieve pre d st hf hd2 hp]
        show ((callLive (pre.map liftFunc) d st.ctx.world).1,
          (st.info, (callLive (pre.map liftFunc) d st.ctx.world).2.1),
          (callLive (pre.map liftFunc) d st.ctx.world).2.2) = _
        rw [hc]

/-- `dfsLoadDir` is `dfsLoadDirLive` for callbacks that only read the node and a
retrieval function whose errors are the caller's own. -/
theorem dfsLoadDirLive_lift {σ : Type} (retrieve : Option (RetrieveNextDepthFilesFunc σ))
    (pre post : Option (DirFunc σ)) (fuel : Nat) :
    ∀ (d : Dir) (st : LoadState σ),
      dfsLoadDirLive (retrieve.map liftRetrieve) (pre.map liftFunc) (post.map liftFunc) fuel d
          (st.info, st.ctx.world) =
        ((dfsLoadDir retrieve pre post fuel d st).1,
          ((dfsLoadDir retrieve pre post fuel d st).2.1.info,
            (dfsLoadDir retrieve pre post fuel d st).2.1.ctx.world),
          (dfsLoadDir retrieve pre post fuel d st).2.2) := by
  induction fuel with
  | zero => intro d st; rfl
  | succ fuel ih =>
    intro d st
    have hh := dfsLoadHeadLive_lift retrieve pre d st
    have hkids : dfsLoadKidsLive (retrieve.map liftRetrieve) (pre.map liftFunc)
        (post.map liftFunc) fuel d (st.info, st.ctx.world) =
        ((dfsLoadKids retrieve pre post fuel d st).1,
          ((dfsLoadKids retrieve pre post fuel d st).2.1.info,
            (dfsLoadKids retrieve pre post fuel d st).2.1.ctx.world),
          (dfsLoadKids retrieve pre post fuel d st).2.2) := by
      unfold dfsLoadKidsLive dfsLoadKids
      rw [hh]
      exact loopSubDirs_sim (fun s : LoadState σ => (s.info, s.ctx.world)) _ _ _
        (fun c _ s => ih c s) _
    by_cases h1 : (dfsLoadHead retrieve pre d st).2.2 = Exit.nil
    · have h1L : (dfsLoadHeadLive (retrieve.map liftRetrieve) (pre.map liftFunc) d
          (st.info, st.ctx.world)).2.2 = Exit.nil := by rw [hh]; exact h1
      by_cases h2 : (dfsLoadKids retrieve pre post fuel d st).2.2 = Exit.nil
      · rw [dfsLoadDirLive_kids_done _ _ _ fuel d _ h1L (by rw [hkids]; exact h2),
          dfsLoadDir_kids_done retrieve pre post fuel d st h1 h2, hkids, hh]
        simp only
        rw [callLive_lift Event.postorder post _ (dfsLoadKids retrieve pre post fuel d st).2.1.ctx]
      · rw [dfsLoadDirLive_kids_stop _ _ _ fuel d _ h1L (by rw [hkids]; exact h2),
          dfsLoadDir_kids_stop retrieve pre post fuel d st h1 h2, hkids, hh]
    · have h1L : (dfsLoadHeadLive (retrieve.map liftRetrieve) (pre.map liftFunc) d
          (st.info, st.ctx.world)).2.2 ≠ Exit.nil := by rw [hh]; exact h1
      rw [dfsLoadDirLive_head_stop _ _ _ fuel d _ h1L,
        dfsLoadDir_head_stop retrieve pre post fuel d st h1, hh]

/-- `DFSLoad` is `DFSLoadLive`, with the budget that `DFSLoad` is given here, for
callbacks that only read the node and a retrieval function whose errors are the caller's
own. -/
theorem DFSLoadLive_lift {σ : Type} (d : Dir) (maxDepth numLimit sizeLimit : Int)
    (retrieve : Option (RetrieveNextDepthFilesFunc σ)) (pre post : Option (DirFunc σ))
    (c : Ctx σ) :
    (d.DFSLoadLive (d.loadFuel (d.dfsInfoInit maxDepth numLimit sizeLimit).maxDepth)
        maxDepth numLimit sizeLimit (retrieve.map liftRetrieve) (pre.map liftFunc)
        (post.map liftFunc) c.world).dir =
      (d.DFSLoad maxDepth numLimit sizeLimit retrieve pre post c).dir ∧
    (d.DFSLoadLive (d.loadFuel (d.dfsInfoInit maxDepth numLimit sizeLimit).maxDepth)
        maxDepth numLimit sizeLimit (retrieve.map liftRetrieve) (pre.map liftFunc)
        (post.map liftFunc) c.world).world =
      (d.DFSLoad maxDepth numLimit sizeLimit retrieve pre post c).ctx.world ∧
    (d.DFSLoadLive (d.loadFuel (d.dfsInfoInit maxDepth numLimit sizeLimit).maxDepth)
        maxDepth numLimit sizeLimit (retrieve.map liftRetrieve) (pre.map liftFunc)
        (post.map liftFunc) c.world).totalSize =
      (d.DFSLoad maxDepth numLimit sizeLimit retrieve pre post c).totalSize ∧
    (d.DFSLoadLive (d.loadFuel (d.dfsInfoInit maxDepth numLimit sizeLimit).maxDepth)
        maxDepth numLimit sizeLimit (retrieve.map liftRetrieve) (pre.map liftFunc)
        (post.map liftFunc) c.world).totalCount =
      (d.DFSLoad maxDepth numLimit sizeLimit retrieve pre post c).totalCount ∧
    (d.DFSLoadLive (d.loadFuel (d.dfsInfoInit maxDepth numLimit sizeLimit).maxDepth)
        maxDepth numLimit sizeLimit (retrieve.map liftRetrieve) (pre.map liftFunc)
        (post.map liftFunc) c.world).exit =
      (d.DFSLoad maxDepth numLimit sizeLimit retrieve pre post c).exit := by
  have h := dfsLoadDirLive_lift retrieve pre post
    (d.loadFuel (d.dfsInfoInit maxDepth numLimit sizeLimit).maxDepth) d
    ⟨d.dfsInfoInit maxDepth numLimit sizeLimit, c⟩
  unfold Dir.DFSLoadLive Dir.DFSLoad Dir.loadRun
  simp only
  rw [h]
  simp only
  split <;> exact ⟨rfl, rfl, rfl, rfl, rfl⟩

theorem height_le_heightList {c : Dir} {subs : List (Option Dir)} (h : some c ∈ subs) :
    c.height ≤ heightList subs := by
  induction subs with
  | nil => simp at h
  | cons hd tl ih =>
    cases hd with
    | none =>
      rw [heightList_none]
      rcases List.mem_cons.1 h with e | e
      · cases e
      · exact ih e
    | some x =>
      rw [heightList_some]
      rcases List.mem_cons.1 h with e | e
      · cases e; exact le_max_left _ _
      · exact le_trans (ih e) (le_max_right _ _)

theorem loopSubDirs_DfsWithFuncLive_lift {σ : Type} (pre post : Option (DirFunc σ))
    (fuel : Nat) (subs : List (Option Dir))
    (ih : ∀ s, some s ∈ subs → ∀ c : Ctx σ,
      DfsWithFuncLive (pre.map liftFunc) (post.map liftFunc) fuel s c.world =
        (s, (s.DfsWithFunc pre post c).1.world, (s.DfsWithFunc pre post c).2)) :
    ∀ c : Ctx σ,
      loopSubDirs (DfsWithFuncLive (pre.map liftFunc) (post.map liftFunc) fuel) subs c.world =
        (subs, (dfsSubDirs pre post subs c).1.world, (dfsSubDirs pre post subs c).2) := by
  induction subs with
  | nil => intro c; rfl
  | cons hd tl iht =>
    intro c
    cases hd with
    | none => rfl
    | some s =>
      have e := ih s (List.mem_cons_self _ _) c
      have it := iht (fun x hx => ih x (List.mem_cons_of_mem _ hx))
      by_cases hx : (s.DfsWithFunc pre post c).2 = Exit.nil
      · rw [loopSubDirs_some_nil _ s tl c.world (by rw [e]; exact hx),
          dfsSubDirs_some_nil pre post s tl c hx, e]
        simp only
        rw [it]
      · rw [loopSubDirs_some_stop _ s tl c.world (by rw [e]; exact hx),
          dfsSubDirs_some_stop pre post s tl c hx, e]

/-- `DfsWithFunc` is `DfsWithFuncLive`, with a budget of at least the height of the tree,
for callbacks that only read the node. -/
theorem DfsWithFuncLive_lift {σ : Type} (pre post : Option (DirFunc σ)) (d : Dir) :
    ∀ (fuel : Nat), d.height ≤ fuel → ∀ c : Ctx σ,
      DfsWithFuncLive (pre.map liftFunc) (post.map liftFunc) fuel d c.world =
        (d, (d.DfsWithFunc pre post c).1.world, (d.DfsWithFunc pre post c).2) := by
  refine Dir.induct_subDirs
    (fun d => ∀ (fuel : Nat), d.height ≤ fuel → ∀ c : Ctx σ,
      DfsWithFuncLive (pre.map liftFunc) (post.map liftFunc) fuel d c.world =
        (d, (d.DfsWithFunc pre post c).1.world, (d.DfsWithFunc pre post c).2)) ?_ d
  intro o subs files depth count size loaded ih fuel hfuel c
  rw [Dir.height_eq] at hfuel
  obtain ⟨f, rfl⟩ : ∃ f, fuel = f + 1 := ⟨fuel - 1, by omega⟩
  have hsub : heightList subs ≤ f := by
    have : heightList (Dir.mk o subs files depth count size loaded).subDirs = heightList subs :=
      rfl
    omega
  have hloop := loopSubDirs_DfsWithFuncLive_lift pre post f subs
    (fun s hs c => ih s hs f (le_trans (height_le_heightList hs) hsub) c)
  cases loaded with
  | false =>
    rw [DfsWithFuncLive_unloaded _ _ f _ c.world rfl, DfsWithFunc_unloaded _ _ _ c rfl]
  | true =>
    have hc := callLive_lift Event.preorder pre (Dir.mk o subs files depth count size true) c
    by_cases hp : (callDirFunc Event.preorder pre
        (Dir.mk o subs files depth count size true) c).2 = Exit.nil
    · have hpL : (callLive (pre.map liftFunc) (Dir.mk o subs files depth count size true)
          c.world).2.2 = Exit.nil := by rw [hc]; exact hp
      have hk := hloop (callDirFunc Event.preorder pre
        (Dir.mk o subs files depth count size true) c).1
      have hkL : loopSubDirs (DfsWithFuncLive (pre.map liftFunc) (post.map liftFunc) f)
          (callLive (pre.map liftFunc) (Dir.mk o subs files depth count size true)
            c.world).1.subDirs
          (callLive (pre.map liftFunc) (Dir.mk o subs files depth count size true)
            c.world).2.1 =
          (subs,
            (dfsSubDirs pre post subs (callDirFunc Event.preorder pre
              (Dir.mk o subs files depth count size true) c).1).1.world,
            (dfsSubDirs pre post subs (callDirFunc Event.preorder pre
              (Dir.mk o subs files depth count size true) c).1).2) := by
        rw [hc]
        exact hk
      by_cases hq : (dfsSubDirs pre post subs (callDirFunc Event.preorder pre
          (Dir.mk o subs files depth count size true) c).1).2 = Exit.nil
      · rw [DfsWithFuncLive_done _ _ f _ c.world rfl hpL (by rw [hkL]; exact hq),
          DfsWithFunc_done pre post _ c rfl hp hq, hkL, hc]
        exact callLive_lift Event.postorder post _ _
      · rw [DfsWithFuncLive_kids_stop _ _ f _ c.world rfl hpL (by rw [hkL]; exact hq),
          DfsWithFunc_kids_stop pre post _ c rfl hp hq, hkL, hc]
        rfl
    · have hpL : (callLive (pre.map liftFunc) (Dir.mk o subs files depth count size true)
          c.world).2.2 ≠ Exit.nil := by rw [hc]; exact hp
      rw [DfsWithFuncLive_pre_stop _ _ f _ c.world rfl hpL,
        DfsWithFunc_pre_stop pre post _ c rfl hp, hc]

theorem bfsLevelLive_lift {σ : Type} (callBack : Option (DirFunc σ)) :
    ∀ (curr next : List (Option Dir)) (c : Ctx σ),
      bfsLevelLive (callBack.map liftFunc) curr next c.world =
        ((bfsLevel callBack curr next c).1, (bfsLevel callBack curr next c).2.1.world,
          (bfsLevel callBack curr next c).2.2) := by
  intro curr
  induction curr with
  | nil => intro next c; rfl
  | cons hd tl ih =>
    intro next c
    cases hd with
    | none =>
      cases callBack with
      | none => rfl
      | some g => rfl
    | some d =>
      have hc := callLive_lift Event.bfs callBack d c
      by_cases hp : (callDirFunc Event.bfs callBack d c).2 = Exit.nil
      · rw [bfsLevelLive_some_nil _ _ _ _ c.world (by rw [hc]; exact hp),
          bfsLevel_some_nil callBack d tl next c hp, hc]
        exact ih _ _
      · rw [bfsLevelLive_some_stop _ _ _ _ c.world (by rw [hc]; exact hp),
          bfsLevel_some_stop callBack d tl next c hp, hc]

theorem bfsLoopLive_lift {σ : Type} (callBack : Option (DirFunc σ)) (fuel : Nat) :
    ∀ (curr : List (Option Dir)) (c : Ctx σ),
      bfsLoopLive (callBack.map liftFunc) fuel curr c.world =
        ((bfsLoop callBack fuel curr c).1.world, (bfsLoop callBack fuel curr c).2) := by
  induction fuel with
  | zero => intro curr c; rfl
  | succ fuel ih =>
    intro curr c
    cases curr with
    | nil => rfl
    | cons x xs =>
      have hl := bfsLevelLive_lift callBack (x :: xs) [] c
      by_cases hp : (bfsLevel callBack (x :: xs) [] c).2.2 = Exit.nil
      · rw [bfsLoopLive_succ_cons_nil _ _ _ _ c.world (by rw [hl]; exact hp),
          bfsLoop_succ_cons_nil callBack fuel x xs c hp, hl]
        exact ih _ _
      · rw [bfsLoopLive_succ_cons_stop _ _ _ _ c.world (by rw [hl]; exact hp),
          bfsLoop_succ_cons_stop callBack fuel x xs c hp, hl]

/-- `BfsWithFunc` is `BfsWithFuncLive`, with the budget that `BfsWithFunc` is given here,
for a callback that only reads the node (and so panics when it is handed nil). -/
theorem BfsWithFuncLive_lift {σ : Type} (callBack : Option (DirFunc σ)) (d : Dir)
    (c : Ctx σ) :
    d.BfsWithFuncLive (d.height + 1) (callBack.map liftFunc) c.world =
      ((d.BfsWithFunc callBack c).1.world, (d.BfsWithFunc callBack c).2) := by
  unfold Dir.BfsWithFuncLive Dir.BfsWithFunc
  cases d.loaded with
  | false => rfl
  | true => exact bfsLoopLive_lift callBack _ _ c

/-- On a root that is not loaded `GetAllFoldersAndFilesOnLevel` returns the one level that
its walk has set up, unless that level is the largest `int64`. -/
theorem GetAllFoldersAndFilesOnLevel_unloaded_root (d : Dir) (hl : d.loaded = false)
    (hlo : -9223372036854775808 ≤ d.depth) (hhi : d.depth ≤ 9223372036854775807)
    (hne : d.levelInit.1 ≠ 9223372036854775807) :
    d.GetAllFoldersAndFilesOnLevel = some [d.rootEntry] := by
  have hr := wrap64_range (d.depth + 1)
  have hmin : -9223372036854775808 ≤ d.levelInit.1 ∧ d.levelInit.1 ≤ 9223372036854775807 := by
    unfold Dir.levelInit
    cases d.IsVirtualDir with
    | true =>
      simp only [Bool.not_true, Bool.false_eq_true, if_false]
      omega
    | false =>
      simp only [Bool.not_false, if_true]
      omega
  have hmap : d.levelInit.2 d.levelInit.1 = d.rootEntry := by
    unfold Dir.levelInit Dir.rootEntry
    cases d.IsVirtualDir with
    | true => simp
    | false => simp
  unfold Dir.GetAllFoldersAndFilesOnLevel Dir.BfsWithFunc
  rw [hl]
  simp only [Bool.not_false, if_true]
  have hfuel : (d.levelInit.1 - d.levelInit.1 + 2).toNat = 1 + 1 := by omega
  rw [hfuel, collectLevels_succ, if_pos (le_refl _),
    wrap64_of_range (d.levelInit.1 + 1) (by omega) (by omega), collectLevels_succ,
    if_neg (by omega), hmap]
  rfl

/-- On a root that is not loaded, when the level that the walk of
`GetAllFoldersAndFilesOnLevel` has set up is the largest `int64`, its closing loop uses up
every budget. -/
theorem GetAllFoldersAndFilesOnLevel_unloaded_diverges (d : Dir) (hl : d.loaded = false)
    (he : d.levelInit.1 = 9223372036854775807) :
    d.GetAllFoldersAndFilesOnLevel = none ∧
    ∀ fuel : Nat, collectLevels d.levelInit.2 d.levelInit.1 fuel d.levelInit.1 [] = none := by
  have hall : ∀ fuel : Nat,
      collectLevels d.levelInit.2 d.levelInit.1 fuel d.levelInit.1 [] = none := by
    intro fuel
    rw [he]
    exact collectLevels_diverges _ fuel _ _ (le_refl _)
  refine ⟨?_, hall⟩
  unfold Dir.GetAllFoldersAndFilesOnLevel Dir.BfsWithFunc
  rw [hl]
  simp only [Bool.not_false, if_true]
  exact hall _

/-- The level at which the walk of `GetAllFoldersAndFilesOnLevel` starts is the largest
`int64` exactly at depth 2^63 - 1, and for a virtual root at depth 2^63 - 2. -/
theorem levelInit_eq_max_iff (d : Dir) (hlo : -9223372036854775808 ≤ d.depth)
    (hhi : d.depth ≤ 9223372036854775807) :
    d.levelInit.1 = 9223372036854775807 ↔
      d.depth = (if d.IsVirtualDir then 9223372036854775806 else 9223372036854775807) := by
  unfold Dir.levelInit
  cases d.IsVirtualDir with
  | true =>
    simp only [Bool.not_true, Bool.false_eq_true, if_false, if_true]
    by_cases h : d.depth = 9223372036854775807
    · rw [h]
      have hw : wrap64 (9223372036854775807 + 1) = -9223372036854775808 := by
        unfold wrap64; decide
      rw [hw]
      constructor <;> (intro k; omega)
    · rw [wrap64_of_range (d.depth + 1) (by omega) (by omega)]
      constructor <;> (intro k; omega)
  | false =>
    simp only [Bool.not_false, if_true, Bool.false_eq_true, if_false]

/-! ## Where `errTotalSizeLimit` comes from when there is no size limit -/

theorem callLive_sizeLimit_logged {σ : Type} (f : Option (LiveFunc σ)) (d : Dir)
    (w : σ × List GoRet)
    (h : (callLive (f.map loggedLive) d w).2.2 = Exit.error Err.errTotalSizeLimit) :
    GoRet.error Err.errTotalSizeLimit ∈ (callLive (f.map loggedLive) d w).2.1.2 := by
  cases f with
  | none => cases h
  | some g =>
    have h2 : (g.onDir w.1 d).2.2.toExit = Exit.error Err.errTotalSizeLimit := h
    show GoRet.error Err.errTotalSizeLimit ∈ w.2 ++ [(g.onDir w.1 d).2.2]
    cases hr : (g.onDir w.1 d).2.2 with
    | nil => rw [hr] at h2; cases h2
    | error e =>
      rw [hr] at h2
      cases h2
      simp
    | panic => rw [hr] at h2; cases h2

theorem dfsLoadFetchLive_sizeLimit_logged {σ : Type} (retrieve : Option (LiveRetrieve σ))
    (d : Dir) (w : σ × List GoRet)
    (h : (dfsLoadFetchLive (retrieve.map loggedLiveRetrieve) d w).2.2 =
      Exit.error Err.errTotalSizeLimit) :
    GoRet.error Err.errTotalSizeLimit ∈
      (dfsLoadFetchLive (retrieve.map loggedLiveRetrieve) d w).2.1.2 := by
  cases hl : d.loaded with
  | true => rw [dfsLoadFetchLive_of_loaded _ d w hl] at h; cases h
  | false =>
    cases retrieve with
    | none =>
      have hnone : (none : Option (LiveRetrieve σ)).map loggedLiveRetrieve = none := rfl
      rw [hnone, dfsLoadFetchLive_no_func d w hl] at h
      cases h
    | some r =>
      have hsome : (some r).map loggedLiveRetrieve = some (loggedLiveRetrieve r) := rfl
      rw [hsome] at h ⊢
      cases hr : (r w.1 d.originInfo.VolumeId d.originInfo.Id).2 with
      | error e =>
        rw [dfsLoadFetchLive_error (loggedLiveRetrieve r) d w hl e hr] at h ⊢
        cases h
        show GoRet.error Err.errTotalSizeLimit ∈
          w.2 ++ [fetchRet (r w.1 d.originInfo.VolumeId d.originInfo.Id).2]
        rw [hr]
        simp [fetchRet]
      | ok v =>
        obtain ⟨files, folders⟩ := v
        rw [dfsLoadFetchLive_ok (loggedLiveRetrieve r) d w hl files folders hr] at h
        cases h

theorem dfsLoadHeadLive_sizeLimit_logged {σ : Type} (retrieve : Option (LiveRetrieve σ))
    (pre : Option (LiveFunc σ)) (d : Dir) (st : dsfLoadInfo × (σ × List GoRet))
    (hs : st.1.sizeLimit < 0)
    (h : (dfsLoadHeadLive (retrieve.map loggedLiveRetrieve) (pre.map loggedLive) d st).2.2 =
      Exit.error Err.errTotalSizeLimit) :
    GoRet.error Err.errTotalSizeLimit ∈
      (dfsLoadHeadLive (retrieve.map loggedLiveRetrieve) (pre.map loggedLive) d st).2.1.2.2 := by
  cases hf : d.originInfo.IsFolder with
  | false => rw [dfsLoadHeadLive_not_folder _ _ d st hf] at h; cases h
  | true =>
    by_cases hd : d.depth ≥ st.1.maxDepth
    · rw [dfsLoadHeadLive_too_deep _ _ d st hf hd] at h; cases h
    · have hd2 : d.depth < st.1.maxDepth := by omega
      by_cases hp : (callLive (pre.map loggedLive) d st.2).2.2 = Exit.nil
      · by_cases hx : (dfsLoadFetchLive (retrieve.map loggedLiveRetrieve)
            (callLive (pre.map loggedLive) d st.2).1
            (callLive (pre.map loggedLive) d st.2).2.1).2.2 = Exit.nil
        · rw [dfsLoadHeadLive_account _ _ d st hf hd2 hp hx] at h
          exact absurd h (dfsLoadAccount_ne_sizeLimit _ _ _ hs)
        · rw [dfsLoadHeadLive_fetch_stop _ _ d st hf hd2 hp hx] at h ⊢
          exact dfsLoadFetchLive_sizeLimit_logged retrieve _ _ h
      · rw [dfsLoadHeadLive_pre_stop _ _ d st hf hd2 hp] at h ⊢
        exact callLive_sizeLimit_logged pre d st.2 h

theorem loopSubDirs_sizeLimit_logged {σ : Type}
    (walk : Dir → dsfLoadInfo × (σ × List GoRet) → Dir × (dsfLoadInfo × (σ × List GoRet)) × Exit)
    (hlim : ∀ c st, sameLimits (walk c st).2.1.1 st.1)
    (hw : ∀ c st, st.1.sizeLimit < 0 → (walk c st).2.2 = Exit.error Err.errTotalSizeLimit →
      GoRet.error Err.errTotalSizeLimit ∈ (walk c st).2.1.2.2)
    (subs : List (Option Dir)) (st : dsfLoadInfo × (σ × List GoRet))
    (hst : st.1.sizeLimit < 0)
    (h : (loopSubDirs walk subs st).2.2 = Exit.error Err.errTotalSizeLimit) :
    GoRet.error Err.errTotalSizeLimit ∈ (loopSubDirs walk subs st).2.1.2.2 := by
  induction subs generalizing st with
  | nil => rw [loopSubDirs_nil] at h; cases h
  | cons hd tl ih =>
    cases hd with
    | none => rw [loopSubDirs_none] at h; cases h
    | some c =>
      by_cases hx : (walk c st).2.2 = Exit.nil
      · rw [loopSubDirs_some_nil walk c tl st hx] at h ⊢
        exact ih _ (by rw [(hlim c st).2.1]; exact hst) h
      · rw [loopSubDirs_some_stop walk c tl st hx] at h ⊢
        exact hw c st hst h

/-- With a negative size limit, when `dfsLoadDirLive` ends with `errTotalSizeLimit`, one
of the calls of the caller's functions that it has made returned that error. -/
theorem dfsLoadDirLive_sizeLimit_logged {σ : Type} (retrieve : Option (LiveRetrieve σ))
    (pre post : Option (LiveFunc σ)) (fuel : Nat) :
    ∀ (d : Dir) (st : dsfLoadInfo × (σ × List GoRet)), st.1.sizeLimit < 0 →
      (dfsLoadDirLive (retrieve.map loggedLiveRetrieve) (pre.map loggedLive)
        (post.map loggedLive) fuel d st).2.2 = Exit.error Err.errTotalSizeLimit →
      GoRet.error Err.errTotalSizeLimit ∈
        (dfsLoadDirLive (retrieve.map loggedLiveRetrieve) (pre.map loggedLive)
          (post.map loggedLive) fuel d st).2.1.2.2 := by
  induction fuel with
  | zero => intro d st _ h; rw [dfsLoadDirLive_zero] at h; cases h
  | succ fuel ih =>
    intro d st hs h
    by_cases hh : (dfsLoadHeadLive (retrieve.map loggedLiveRetrieve) (pre.map loggedLive)
        d st).2.2 = Exit.nil
    · by_cases hk : (dfsLoadKidsLive (retrieve.map loggedLiveRetrieve) (pre.map loggedLive)
          (post.map loggedLive) fuel d st).2.2 = Exit.nil
      · rw [dfsLoadDirLive_kids_done _ _ _ fuel d st hh hk] at h ⊢
        exact callLive_sizeLimit_logged post _ _ h
      · rw [dfsLoadDirLive_kids_stop _ _ _ fuel d st hh hk] at h ⊢
        exact loopSubDirs_sizeLimit_logged _
          (dfsLoadDirLive_limits _ _ _ fuel) ih _ _
          (by rw [(dfsLoadHeadLive_limits _ _ d st).2.1]; exact hs) h
    · rw [dfsLoadDirLive_head_stop _ _ _ fuel d st hh] at h ⊢
      exact dfsLoadHeadLive_sizeLimit_logged retrieve pre d st hs h
/-! # The claims -/

/-- C1: `FillDirNoRecurse` is callable exactly once per node.  On a node that is not
loaded it returns no error and leaves the node loaded, whatever the two lists are, and any
further call on the node then fails; on a loaded node it returns `errDirAlreadyLoaded` and
leaves the node (all its fields) as it was. -/
theorem C1_fill_once (d : Dir) (subFiles subFolders : List File) :
    (d.loaded = false →
      (d.FillDirNoRecurse subFiles subFolders).2 = none ∧
      (d.FillDirNoRecurse subFiles subFolders).1.loaded = true ∧
      ∀ files2 folders2 : List File,
        (d.FillDirNoRecurse subFiles subFolders).1.FillDirNoRecurse files2 folders2 =
          ((d.FillDirNoRecurse subFiles subFolders).1, some Err.errDirAlreadyLoaded)) ∧
    (d.loaded = true →
      (d.FillDirNoRecurse subFiles subFolders).2 = some Err.errDirAlreadyLoaded ∧
      (d.FillDirNoRecurse subFiles subFolders).1 = d) := by
  constructor
  · intro h
    have hl : (d.FillDirNoRecurse subFiles subFolders).1.loaded = true := by
      rw [FillDirNoRecurse_unloaded d _ _ h]
    refine ⟨by rw [FillDirNoRecurse_unloaded d _ _ h], hl, ?_⟩
    intro files2 folders2
    exact FillDirNoRecurse_loaded _ _ _ hl
  · intro h
    rw [FillDirNoRecurse_loaded d _ _ h]
    exact ⟨rfl, rfl⟩


/-- C1 at the fixture's virtual root, not loaded when created: the first fill returns
no error and a second one fails with `errDirAlreadyLoaded`. -/
theorem C1_fill_once_witness :
    fixtureRoot.loaded = false ∧
    (fixtureRoot.FillDirNoRecurse [] [folderDesc 7 0]).2 = none ∧
    ((fixtureRoot.FillDirNoRecurse [] [folderDesc 7 0]).1.FillDirNoRecurse [] []).2 =
      some Err.errDirAlreadyLoaded :=
  ⟨rfl, ((C1_fill_once fixtureRoot [] [folderDesc 7 0]).1 rfl).1,
    by rw [((C1_fill_once fixtureRoot [] [folderDesc 7 0]).1 rfl).2.2 [] []]⟩

/-- C2: in every tree built with `NewDir` or `NewVirtualDir` followed by any sequence of
`FillDirNoRecurse` and `DFSLoad` calls (successful or failed, on any node), every loaded
node has `count == int64(len(subFiles) + len(subDirs))`, which is the number of its direct
children whenever that number is an `int64`, and `size` equal to the `int64` sum of the
`Size` fields of its `subFiles`; sub-folders contribute nothing to `size`. -/
theorem C2_loaded_node_books {d : Dir} (hb : Built d) (n : Dir) (hn : n ∈ d.nodes)
    (hl : n.loaded = true) :
    n.count = wrap64 ((n.subFiles.length + n.subDirs.length : Nat) : Int) ∧
    (((n.subFiles.length + n.subDirs.length : Nat) : Int) < 9223372036854775808 →
      n.count = ((n.subFiles.length + n.subDirs.length : Nat) : Int)) ∧
    n.size = sum64 (n.subFiles.map File.Size) := by
  have h := (Built.treeInv hb n hn).1 hl
  refine ⟨h.1, ?_, h.2⟩
  intro hlt
  rw [h.1]
  exact wrap64_of_range _ (by omega) hlt

/-- C2 at the fixture: the virtual root after the unrestricted load of the tests is
loaded, has two files and two sub-directories, `count = 4` and `size = 2`. -/
theorem C2_loaded_node_books_witness :
    newNewVirtualDirForTest = some fixtureRoot ∧
    (fixtureLoad (-1) (-1) (-1)).dir.loaded = true ∧
    (fixtureLoad (-1) (-1) (-1)).dir.subFiles.length = 2 ∧
    (fixtureLoad (-1) (-1) (-1)).dir.subDirs.length = 2 ∧
    (fixtureLoad (-1) (-1) (-1)).dir.count = 4 ∧
    (fixtureLoad (-1) (-1) (-1)).dir.size = 2 := by
  have hb : Built (fixtureLoad (-1) (-1) (-1)).dir :=
    Built.load (d := fixtureRoot) [] (-1) (-1) (-1) (some (getSubFilesMock buildTreeForTest))
      none none ⟨(), []⟩ (Built.newDir ⟨0, unKnown, 1, "", typeFolder, 0, 0, 0, 0, 0, 0⟩
        0 unKnown unKnown rfl)
  have hl : (fixtureLoad (-1) (-1) (-1)).dir.loaded = true := by with_unfolding_all decide
  have h := C2_loaded_node_books hb (fixtureLoad (-1) (-1) (-1)).dir
    (Dir.self_mem_nodes _) hl
  refine ⟨rfl, hl, by with_unfolding_all decide, by with_unfolding_all decide, ?_, ?_⟩
  · rw [h.1]; with_unfolding_all decide
  · rw [h.2.2]; with_unfolding_all decide

/-- C3: a successful `FillDirNoRecurse(files, folders)` on a node of depth `k`, with
Folder-kind descriptors in `folders`, leaves `subFiles` equal to `files` in the same
order and `subDirs` with one child per element of `folders` in the same order, the i-th
child wrapping `folders[i]`, not loaded, at depth `k + 1` (`int64` addition, which is
`k + 1` unless `k` is the largest `int64`), with count `-1`, size `-1` and no children;
the node's own depth and descriptor are unchanged. -/
theorem C3_fill_postcondition (d : Dir) (files folders : List File)
    (hl : d.loaded = false) (hk : ∀ f ∈ folders, f.IsFolder = true) :
    (d.FillDirNoRecurse files folders).2 = none ∧
    (d.FillDirNoRecurse files folders).1.subFiles = files ∧
    (d.FillDirNoRecurse files folders).1.subDirs =
      folders.map (fun f => some (Dir.mk f [] [] (wrap64 (d.depth + 1)) (-1) (-1) false)) ∧
    (-9223372036854775808 ≤ d.depth → d.depth < 9223372036854775807 →
      wrap64 (d.depth + 1) = d.depth + 1) ∧
    (d.FillDirNoRecurse files folders).1.depth = d.depth ∧
    (d.FillDirNoRecurse files folders).1.originInfo = d.originInfo ∧
    (d.FillDirNoRecurse files folders).1.loaded = true := by
  rw [FillDirNoRecurse_unloaded d _ _ hl]
  refine ⟨rfl, rfl, ?_, ?_, rfl, rfl, rfl⟩
  · simp only [Dir.subDirs_mk]
    apply List.map_congr_left
    intro f hf
    simp [NewDir, hk f hf, unKnown]
  · intro h1 h2
    exact wrap64_of_range _ (by omega) (by omega)

/-- C3 at the fixture: filling the virtual root (depth 0) with the root's two files and
two folders gives children for the folders 12 and 13, in this order, at depth 1. -/
theorem C3_fill_postcondition_witness :
    (fixtureRoot.FillDirNoRecurse
        (filterFilesAndFolders ((buildTreeForTest.map Prod.snd).headD [])).1
        (filterFilesAndFolders ((buildTreeForTest.map Prod.snd).headD [])).2).1.subDirs.map
      (Option.map (fun c => (c.originInfo.Id, c.depth, c.count, c.size, c.loaded))) =
      [some (12, 1, -1, -1, false), some (13, 1, -1, -1, false)] := by
  have h := C3_fill_postcondition fixtureRoot
    (filterFilesAndFolders ((buildTreeForTest.map Prod.snd).headD [])).1
    (filterFilesAndFolders ((buildTreeForTest.map Prod.snd).headD [])).2 rfl (by decide)
  rw [h.2.2.1]
  with_unfolding_all decide

/-- C4: when `DFSLoad` returns `(s, c, nil)`, every node of the tree below the root is
loaded afterwards (and no child is nil), `GetTotalSizeAndCount` on the same root returns
exactly `(s, c, nil)`, and `c` is the `int64` sum of the nodes' counts plus one for the
root itself exactly when the root is not virtual; `s` is the `int64` sum of the nodes'
sizes.  This holds for every root, retrieval function, pair of callbacks and limits. -/
theorem C4_load_then_totals {σ : Type} (d : Dir) (maxDepth numLimit sizeLimit : Int)
    (retrieve : Option (RetrieveNextDepthFilesFunc σ)) (pre post : Option (DirFunc σ))
    (c : Ctx σ)
    (h : (d.DFSLoad maxDepth numLimit sizeLimit retrieve pre post c).exit = Exit.nil) :
    (∀ n ∈ (d.DFSLoad maxDepth numLimit sizeLimit retrieve pre post c).dir.nodes,
      n.loaded = true) ∧
    (d.DFSLoad maxDepth numLimit sizeLimit retrieve pre post c).dir.fullyLoaded = true ∧
    (d.DFSLoad maxDepth numLimit sizeLimit retrieve pre post c).dir.GetTotalSizeAndCount =
      ((d.DFSLoad maxDepth numLimit sizeLimit retrieve pre post c).totalSize,
        (d.DFSLoad maxDepth numLimit sizeLimit retrieve pre post c).totalCount, Exit.nil) ∧
    (d.DFSLoad maxDepth numLimit sizeLimit retrieve pre post c).totalCount =
      wrap64 ((if d.IsVirtualDir then 0 else 1) +
        ((d.DFSLoad maxDepth numLimit sizeLimit retrieve pre post c).dir.nodes.map
          Dir.count).sum) ∧
    (d.DFSLoad maxDepth numLimit sizeLimit retrieve pre post c).totalSize =
      wrap64 ((d.DFSLoad maxDepth numLimit sizeLimit retrieve pre post c).dir.nodes.map
        Dir.size).sum := by
  rw [DFSLoad_exit] at h
  obtain ⟨ht1, ht2⟩ := DFSLoad_totals d maxDepth numLimit sizeLimit retrieve pre post c h
  rw [ht1, ht2, DFSLoad_dir]
  have hv : (d.loadRun maxDepth numLimit sizeLimit retrieve pre post c).1.IsVirtualDir =
      d.IsVirtualDir := IsVirtualDir_congr (loadRun_originInfo d _ _ _ _ _ _ _)
  obtain ⟨k1, k2, k3⟩ := dfsLoadDir_nil_fold retrieve pre post _ d _ h
  have k2' : (d.loadRun maxDepth numLimit sizeLimit retrieve pre post c).2.1.info.totalCount =
      (d.loadRun maxDepth numLimit sizeLimit retrieve pre post c).1.nodes.foldl
        (fun a n => wrap64 (a + n.count)) (if !d.IsVirtualDir then wrap64 (0 + 1) else 0) := k2
  have k3' : (d.loadRun maxDepth numLimit sizeLimit retrieve pre post c).2.1.info.totalSize =
      (d.loadRun maxDepth numLimit sizeLimit retrieve pre post c).1.nodes.foldl
        (fun a n => wrap64 (a + n.size)) 0 := k3
  have k1' : (d.loadRun maxDepth numLimit sizeLimit retrieve pre post c).1.fullyLoaded =
      true := k1
  refine ⟨Dir.fullyLoaded_nodes _ k1', k1', ?_, ?_, ?_⟩
  · rw [GetTotalSizeAndCount_fullyLoaded _ k1', hv, k2', k3']
  · rw [k2']
    cases hvd : d.IsVirtualDir with
    | true =>
      simp only [Bool.not_true, Bool.false_eq_true, if_false, if_true]
      have e := foldl_wrap64_map Dir.count
        (d.loadRun maxDepth numLimit sizeLimit retrieve pre post c).1.nodes 0
      rw [wrap64_zero] at e
      exact e
    | false =>
      simp only [Bool.not_false, if_true, Bool.false_eq_true, if_false]
      have e := foldl_wrap64_map Dir.count
        (d.loadRun maxDepth numLimit sizeLimit retrieve pre post c).1.nodes (0 + 1)
      simpa using e
  · rw [k3']
    have e := foldl_wrap64_map Dir.size
      (d.loadRun maxDepth numLimit sizeLimit retrieve pre post c).1.nodes 0
    rw [wrap64_zero] at e
    simpa using e

/-- C4 at the fixture: the unrestricted load of the virtual root returns `(10, 19, nil)`
and `GetTotalSizeAndCount` on the loaded root returns the same. -/
theorem C4_load_then_totals_witness :
    fixtureRoot.IsVirtualDir = true ∧
    (fixtureLoad (-1) (-1) (-1)).exit = Exit.nil ∧
    (fixtureLoad (-1) (-1) (-1)).totalSize = 10 ∧
    (fixtureLoad (-1) (-1) (-1)).totalCount = 19 ∧
    (fixtureLoad (-1) (-1) (-1)).dir.GetTotalSizeAndCount = (10, 19, Exit.nil) := by
  have hx : (fixtureLoad (-1) (-1) (-1)).exit = Exit.nil := by with_unfolding_all decide
  have hs : (fixtureLoad (-1) (-1) (-1)).totalSize = 10 := by with_unfolding_all decide
  have hc : (fixtureLoad (-1) (-1) (-1)).totalCount = 19 := by with_unfolding_all decide
  have h := (C4_load_then_totals fixtureRoot (-1) (-1) (-1)
    (some (getSubFilesMock buildTreeForTest)) none none ⟨(), []⟩ hx).2.2.1
  refine ⟨by decide, hx, hs, hc, ?_⟩
  have h' : (fixtureLoad (-1) (-1) (-1)).dir.GetTotalSizeAndCount =
      ((fixtureLoad (-1) (-1) (-1)).totalSize, (fixtureLoad (-1) (-1) (-1)).totalCount,
        Exit.nil) := h
  rw [h', hs, hc]

/-- C5: the count limit is an error, never a truncation.  For a finite backing hierarchy
served by a retrieval function that does not fail, with no callbacks, no size limit
(`sizeLimit < 0`), every folder at a depth below `maxDepth` (100 when negative) and a
count limit `L ≥ 0`, `DFSLoad` from the hierarchy's root node, not loaded yet, returns
`errFileNumLimit` if and only if the number of entries below the root, plus one when the
root is not virtual, is greater than `L`; otherwise it returns nil with exactly that
count.  (`maxDepth` is an `int64`, and so is the number of entries: a tree holds each of
them in memory.) -/
theorem C5_count_limit {σ : Type} (r : RetrieveNextDepthFilesFunc σ) (h : Hier) (d : Dir)
    (maxDepth L sizeLimit : Int) (c : Ctx σ) (hs : h.Serves r)
    (hl : d.loaded = false) (ho : d.originInfo = h.folder)
    (hm : maxDepth < 9223372036854775808)
    (hdepth : ∀ s ∈ h.steps d.depth, s.1 < if maxDepth < 0 then defMaxDepth else maxDepth)
    (hsl : sizeLimit < 0) (hL : 0 ≤ L)
    (hmem : (h.entries : Int) + 1 < 9223372036854775808) :
    ((d.DFSLoad maxDepth L sizeLimit (some r) none none c).exit =
        Exit.error Err.errFileNumLimit ↔
      (if d.IsVirtualDir then 0 else 1) + (h.entries : Int) > L) ∧
    ((if d.IsVirtualDir then 0 else 1) + (h.entries : Int) ≤ L →
      (d.DFSLoad maxDepth L sizeLimit (some r) none none c).exit = Exit.nil ∧
      (d.DFSLoad maxDepth L sizeLimit (some r) none none c).totalCount =
        (if d.IsVirtualDir then 0 else 1) + (h.entries : Int)) := by
  obtain ⟨e1, e2⟩ := DFSLoad_served r h d maxDepth L sizeLimit c hs hl ho hm
  obtain ⟨c1, c2⟩ := Hier.steps_counts h d.depth (by omega)
  have htc := dfsInfoInit_totalCount d maxDepth L sizeLimit
  have hnum : (d.dfsInfoInit maxDepth L sizeLimit).numLimit = L := by
    unfold Dir.dfsInfoInit
    have : ¬ L < 0 := by omega
    simp only [this, if_false]
  have h01 : (0 : Int) ≤ (if d.IsVirtualDir then 0 else 1) ∧
      (if d.IsVirtualDir then 0 else 1 : Int) ≤ 1 := by
    split <;> omega
  have key := walkSteps_count (h.steps d.depth) (d.dfsInfoInit maxDepth L sizeLimit)
    (Hier.steps_ne_nil _ _) hdepth hsl c1 (by rw [htc]; exact h01.1)
    (by rw [htc, c2]; omega)
  rw [htc, c2, hnum] at key
  rw [e1]
  constructor
  · constructor
    · intro hx
      by_contra hle
      have := (key.2 (by omega)).1
      rw [this] at hx
      cases hx
    · exact key.1
  · intro hle
    have hnil := (key.2 hle).1
    refine ⟨hnil, ?_⟩
    have hrun : (d.loadRun maxDepth L sizeLimit (some r) none none c).2.2 = Exit.nil := by
      rw [← DFSLoad_exit, e1]; exact hnil
    rw [(DFSLoad_totals d maxDepth L sizeLimit (some r) none none c hrun).2, e2]
    exact (key.2 hle).2

/-- C5 at the fixture: nineteen entries below the virtual root, so the load with the
count limit 18 returns `errFileNumLimit` and the load with the limit 19 returns nil with
the count 19. -/
theorem C5_count_limit_witness :
    fixtureHier.entries = 19 ∧
    (fixtureLoad (-1) 18 (-1)).exit = Exit.error Err.errFileNumLimit ∧
    (fixtureLoad (-1) 19 (-1)).exit = Exit.nil ∧
    (fixtureLoad (-1) 19 (-1)).totalCount = 19 := by
  have hd : ∀ s ∈ fixtureHier.steps fixtureRoot.depth,
      s.1 < if (-1 : Int) < 0 then defMaxDepth else -1 := by with_unfolding_all decide
  have he : fixtureHier.entries = 19 := by with_unfolding_all decide
  have h18 := C5_count_limit (getSubFilesMock buildTreeForTest) fixtureHier fixtureRoot
    (-1) 18 (-1) ⟨(), []⟩ fixtureHier_serves rfl rfl (by decide) hd (by decide) (by decide)
    (by rw [he]; decide)
  have h19 := C5_count_limit (getSubFilesMock buildTreeForTest) fixtureHier fixtureRoot
    (-1) 19 (-1) ⟨(), []⟩ fixtureHier_serves rfl rfl (by decide) hd (by decide) (by decide)
    (by rw [he]; decide)
  refine ⟨he, h18.1.2 (by rw [he]; decide), (h19.2 (by rw [he]; decide)).1, ?_⟩
  have := (h19.2 (by rw [he]; decide)).2
  rw [he] at this
  exact this

/-- C6, as amended: for every tree the package can build, every depth limit `D ≥ 0`,
every retrieval function and every pair of callbacks that do not themselves change the
tree, after `DFSLoad` with `maxDepth = D` (whether it returns nil or an error) every node
of depth `≥ D` that was not loaded before the call is still in its place, unchanged: not
loaded, with empty `subDirs` and `subFiles`.  Every invocation of the retrieval function
made by the call is for a node of depth `< D`, with that node's volume id and id; so it is
invoked with the id of a node of depth `≥ D` only if a node of depth `< D` has the same
id. -/
theorem C6_deep_nodes_untouched {σ : Type} {d : Dir} (hb : Built d) (D : Int) (hD : 0 ≤ D)
    (numLimit sizeLimit : Int) (retrieve : Option (RetrieveNextDepthFilesFunc σ))
    (pre post : Option (DirFunc σ)) (c : Ctx σ) :
    (∀ (p : List Nat) (n : Dir), d.nodeAt p = some n → n.loaded = false → n.depth ≥ D →
      (d.DFSLoad D numLimit sizeLimit retrieve pre post c).dir.nodeAt p = some n ∧
      n.subDirs = [] ∧ n.subFiles = []) ∧
    ∃ new, (d.DFSLoad D numLimit sizeLimit retrieve pre post c).ctx.trace = c.trace ++ new ∧
      RetrievesFor new (d.DFSLoad D numLimit sizeLimit retrieve pre post c).dir.nodes D := by
  have hinv := Built.treeInv hb
  have hmax := dfsInfoInit_maxDepth d D numLimit sizeLimit hD
  constructor
  · intro p n hp hl hd
    refine ⟨?_, (hinv n (Dir.nodeAt_mem_nodes p d n hp)).2 hl⟩
    rw [DFSLoad_dir]
    exact dfsLoadDir_keeps_deep retrieve pre post D _ d _ hmax hinv p n hp hl hd
  · rw [DFSLoad_ctx, DFSLoad_dir]
    exact dfsLoadDir_trace retrieve pre post D _ d _ hmax

/-- C6 at the tree with two folders of id 7, loaded with `maxDepth = 2`: the node of the
second folder 7 (depth 2, not loaded) is unchanged after the call. -/
theorem C6_deep_nodes_untouched_witness :
    Built dupTree ∧ dupTree.nodeAt [1, 0] = some dupDeepNode ∧
    (dupTree.DFSLoad 2 (-1) (-1) (some emptyStore) none none ⟨(), []⟩).dir.nodeAt [1, 0] =
      some dupDeepNode := by
  have hb : Built dupTree :=
    Built.fill [1] [] [folderDesc 7 8]
      (Built.fill (d := fixtureRoot) [] [] [folderDesc 7 0, folderDesc 8 0]
        (Built.newDir ⟨0, unKnown, 1, "", typeFolder, 0, 0, 0, 0, 0, 0⟩ 0 unKnown unKnown rfl))
  have hn : dupTree.nodeAt [1, 0] = some dupDeepNode := by with_unfolding_all rfl
  exact ⟨hb, hn,
    ((C6_deep_nodes_untouched hb 2 (by decide) (-1) (-1) (some emptyStore) none none
      ⟨(), []⟩).1 [1, 0] dupDeepNode hn rfl (by decide)).1⟩

/-- C6 as stated fails, in both halves.  In the tree with two folders of id 7, the node
of the second one has depth 2 and is not loaded; `DFSLoad` with `maxDepth = 2` returns
`errMaxPathDepthLimit`, and its only invocation of the retrieval function, made for the
first folder 7 at depth 1, has the id of that node.  And in the fixture with only its first
level loaded, the folder 12 has depth 1 and is not loaded; `DFSLoad` with `maxDepth = 1`
and a pre-order callback that fills the children of the node it is handed returns
`errMaxPathDepthLimit`, and the folder 12 is loaded after the call. -/
theorem C6_counterexample :
    (Built dupTree ∧ dupTree.nodeAt [1, 0] = some dupDeepNode ∧
      dupDeepNode.loaded = false ∧ dupDeepNode.depth ≥ 2 ∧
      (dupTree.DFSLoad 2 (-1) (-1) (some emptyStore) none none ⟨(), []⟩).exit =
        Exit.error Err.errMaxPathDepthLimit ∧
      (dupTree.DFSLoad 2 (-1) (-1) (some emptyStore) none none ⟨(), []⟩).ctx.trace =
        [Event.retrieve dupDeepNode.originInfo.VolumeId dupDeepNode.originInfo.Id]) ∧
    (Built seededRoot ∧
      (seededRoot.nodeAt [0]).map (fun n => (n.originInfo.Id, n.depth, n.loaded)) =
        some (12, 1, false) ∧
      (seededRoot.DFSLoadLive 10 1 (-1) (-1) none (some fillSubDirs) none ()).exit =
        Exit.error Err.errMaxPathDepthLimit ∧
      ((seededRoot.DFSLoadLive 10 1 (-1) (-1) none (some fillSubDirs) none ()).dir.nodeAt
          [0]).map (fun n => (n.originInfo.Id, n.depth, n.loaded)) = some (12, 1, true)) := by
  refine ⟨⟨?_, by with_unfolding_all rfl, rfl, by decide, by with_unfolding_all decide,
    by with_unfolding_all rfl⟩, ?_, by with_unfolding_all decide,
    by with_unfolding_all decide, by with_unfolding_all decide⟩
  · exact Built.fill [1] [] [folderDesc 7 8]
      (Built.fill (d := fixtureRoot) [] [] [folderDesc 7 0, folderDesc 8 0]
        (Built.newDir ⟨0, unKnown, 1, "", typeFolder, 0, 0, 0, 0, 0, 0⟩ 0 unKnown unKnown rfl))
  · exact Built.fill (d := fixtureRoot) [] (mockAnswer buildTreeForTest 0).1
      (mockAnswer buildTreeForTest 0).2
      (Built.newDir ⟨0, unKnown, 1, "", typeFolder, 0, 0, 0, 0, 0, 0⟩ 0 unKnown unKnown rfl)

/-- C7: the depth limit is an error, not a cut-off.  For a finite backing hierarchy
served by a retrieval function that does not fail, with no callbacks, with count and size
limits that the running totals never exceed, and a depth limit `D ≥ 0`, `DFSLoad` from
the hierarchy's root node at depth 0, not loaded yet, returns `errMaxPathDepthLimit` if
and only if the hierarchy contains a folder (the root included) whose depth is `≥ D`, and
returns nil otherwise; in particular `D = 0` always fails. -/
theorem C7_depth_limit {σ : Type} (r : RetrieveNextDepthFilesFunc σ) (h : Hier) (d : Dir)
    (D numLimit sizeLimit : Int) (c : Ctx σ) (hs : h.Serves r)
    (hl : d.loaded = false) (ho : d.originInfo = h.folder) (hd0 : d.depth = 0)
    (hD : 0 ≤ D) (hD64 : D < 9223372036854775808)
    (hlim : ∀ t ∈ runningTotals (if d.IsVirtualDir then 0 else 1) 0 (h.steps 0),
      t.1 ≤ (if numLimit < 0 then defMaxTotalCount else numLimit) ∧
      (sizeLimit ≥ 0 → t.2 ≤ sizeLimit)) :
    ((d.DFSLoad D numLimit sizeLimit (some r) none none c).exit =
        Exit.error Err.errMaxPathDepthLimit ↔ ∃ s ∈ h.steps 0, s.1 ≥ D) ∧
    ((∀ s ∈ h.steps 0, s.1 < D) →
      (d.DFSLoad D numLimit sizeLimit (some r) none none c).exit = Exit.nil) ∧
    (D = 0 →
      (d.DFSLoad D numLimit sizeLimit (some r) none none c).exit =
        Exit.error Err.errMaxPathDepthLimit) := by
  obtain ⟨e1, _⟩ := DFSLoad_served r h d D numLimit sizeLimit c hs hl ho hD64
  rw [hd0] at e1
  have hmax := dfsInfoInit_maxDepth d D numLimit sizeLimit hD
  have htc := dfsInfoInit_totalCount d D numLimit sizeLimit
  have key := walkSteps_depth (h.steps 0) (d.dfsInfoInit D numLimit sizeLimit) (by
    rw [htc]
    exact hlim)
  rw [hmax] at key
  rw [e1]
  have hiff : (walkSteps (d.dfsInfoInit D numLimit sizeLimit) (h.steps 0)).2 =
      Exit.error Err.errMaxPathDepthLimit ↔ ∃ s ∈ h.steps 0, s.1 ≥ D := by
    constructor
    · intro hx
      by_contra hne
      have hall : ∀ s ∈ h.steps 0, s.1 < D := by
        intro s hs
        by_contra hlt
        exact hne ⟨s, hs, by omega⟩
      rw [key.2 hall] at hx
      cases hx
    · exact key.1
  refine ⟨hiff, key.2, ?_⟩
  intro h0
  have hmem : ((0 : Int), wrap64 ((h.files.length + h.subs.length : Nat) : Int),
      sum64 (h.files.map File.Size)) ∈ h.steps 0 := by
    rw [Hier.steps_eq]
    exact List.mem_cons_self _ _
  exact hiff.2 ⟨_, hmem, by rw [h0]⟩

/-- C7 at the fixture, whose deepest folders are at depth 3: the load with `maxDepth = 2`
returns `errMaxPathDepthLimit`, as does the one with `maxDepth = 3`; the load with
`maxDepth = 4` returns nil. -/
theorem C7_depth_limit_witness :
    (fixtureHier.steps 0).map (fun s => s.1) = [0, 1, 2, 3, 2, 3, 3, 1, 2, 3] ∧
    (fixtureLoad 2 (-1) (-1)).exit = Exit.error Err.errMaxPathDepthLimit ∧
    (fixtureLoad 3 (-1) (-1)).exit = Exit.error Err.errMaxPathDepthLimit ∧
    (fixtureLoad 4 (-1) (-1)).exit = Exit.nil := by
  have hlim : ∀ t ∈ runningTotals (if fixtureRoot.IsVirtualDir then 0 else 1) 0
      (fixtureHier.steps 0),
      t.1 ≤ (if (-1 : Int) < 0 then defMaxTotalCount else -1) ∧
      ((-1 : Int) ≥ 0 → t.2 ≤ -1) := by with_unfolding_all decide
  have h2 := C7_depth_limit (getSubFilesMock buildTreeForTest) fixtureHier fixtureRoot
    2 (-1) (-1) ⟨(), []⟩ fixtureHier_serves rfl rfl rfl (by decide) (by decide) hlim
  have h3 := C7_depth_limit (getSubFilesMock buildTreeForTest) fixtureHier fixtureRoot
    3 (-1) (-1) ⟨(), []⟩ fixtureHier_serves rfl rfl rfl (by decide) (by decide) hlim
  have h4 := C7_depth_limit (getSubFilesMock buildTreeForTest) fixtureHier fixtureRoot
    4 (-1) (-1) ⟨(), []⟩ fixtureHier_serves rfl rfl rfl (by decide) (by decide) hlim
  exact ⟨by with_unfolding_all decide, h2.1.2 (by with_unfolding_all decide),
    h3.1.2 (by with_unfolding_all decide), h4.2.1 (by with_unfolding_all decide)⟩

/-- C8, as amended: for a finite backing hierarchy whose file sizes are all non-negative
and add up to less than 2^63 (so that no `int64` total wraps around), served by a
retrieval function that does not fail, with no callbacks, every folder below the depth
limit, a count limit that the running count never exceeds, and a size limit `S ≥ 0`,
`DFSLoad` from the hierarchy's root node, not loaded yet, returns `errTotalSizeLimit` if
and only if the sum of all file sizes is greater than `S`, and otherwise returns nil with
that sum; so `S = 0` succeeds exactly when every file has size 0.  When the count limit
is exceeded at a node the error is `errFileNumLimit`, whether or not the size limit is
exceeded there too. -/
theorem C8_size_limit {σ : Type} (r : RetrieveNextDepthFilesFunc σ) (h : Hier) (d : Dir)
    (maxDepth numLimit S : Int) (c : Ctx σ) (hs : h.Serves r)
    (hl : d.loaded = false) (ho : d.originInfo = h.folder)
    (hm : maxDepth < 9223372036854775808)
    (hdepth : ∀ s ∈ h.steps d.depth, s.1 < if maxDepth < 0 then defMaxDepth else maxDepth)
    (hcount : ∀ t ∈ runningTotals (if d.IsVirtualDir then 0 else 1) 0 (h.steps d.depth),
      t.1 ≤ if numLimit < 0 then defMaxTotalCount else numLimit)
    (hS : 0 ≤ S) (hnn : ∀ x ∈ h.fileSizes, 0 ≤ x)
    (hsum : h.fileSizes.sum < 9223372036854775808) :
    ((d.DFSLoad maxDepth numLimit S (some r) none none c).exit =
        Exit.error Err.errTotalSizeLimit ↔ h.fileSizes.sum > S) ∧
    (h.fileSizes.sum ≤ S →
      (d.DFSLoad maxDepth numLimit S (some r) none none c).exit = Exit.nil ∧
      (d.DFSLoad maxDepth numLimit S (some r) none none c).totalSize = h.fileSizes.sum) ∧
    (S = 0 →
      ((d.DFSLoad maxDepth numLimit S (some r) none none c).exit = Exit.nil ↔
        ∀ x ∈ h.fileSizes, x = 0)) ∧
    (∀ (count size : Int) (info : dsfLoadInfo),
      wrap64 (info.totalCount + count) > info.numLimit →
      (dfsLoadAccount count size info).2 = Exit.error Err.errFileNumLimit) := by
  obtain ⟨e1, e2⟩ := DFSLoad_served r h d maxDepth numLimit S c hs hl ho hm
  obtain ⟨c1, c2⟩ := Hier.steps_sizes h d.depth hnn hsum
  have htc := dfsInfoInit_totalCount d maxDepth numLimit S
  have key := walkSteps_size (h.steps d.depth) (d.dfsInfoInit maxDepth numLimit S)
    (Hier.steps_ne_nil _ _) hdepth (by rw [htc]; exact hcount) hS c1 (le_refl _)
    (by
      show (0 : Int) + ((h.steps d.depth).map (fun s => s.2.2)).sum < 9223372036854775808
      rw [c2]; omega)
  have key' : (h.fileSizes.sum > S →
      (walkSteps (d.dfsInfoInit maxDepth numLimit S) (h.steps d.depth)).2 =
        Exit.error Err.errTotalSizeLimit) ∧
      (h.fileSizes.sum ≤ S →
        (walkSteps (d.dfsInfoInit maxDepth numLimit S) (h.steps d.depth)).2 = Exit.nil ∧
        (walkSteps (d.dfsInfoInit maxDepth numLimit S) (h.steps d.depth)).1.totalSize =
          h.fileSizes.sum) := by
    have k1 := key.1
    have k2 := key.2
    rw [c2] at k1 k2
    constructor
    · intro hgt
      exact k1 (by show (0 : Int) + h.fileSizes.sum > S; omega)
    · intro hle
      obtain ⟨a, b⟩ := k2 (by show (0 : Int) + h.fileSizes.sum ≤ S; omega)
      refine ⟨a, ?_⟩
      rw [b]
      show (0 : Int) + h.fileSizes.sum = h.fileSizes.sum
      omega
  rw [e1]
  have hiff : (walkSteps (d.dfsInfoInit maxDepth numLimit S) (h.steps d.depth)).2 =
      Exit.error Err.errTotalSizeLimit ↔ h.fileSizes.sum > S := by
    constructor
    · intro hx
      by_contra hle
      rw [(key'.2 (by omega)).1] at hx
      cases hx
    · exact key'.1
  refine ⟨hiff, ?_, ?_, fun count size info hc => dfsLoadAccount_count_stop count size info hc⟩
  · intro hle
    have hnil := (key'.2 hle).1
    refine ⟨hnil, ?_⟩
    have hrun : (d.loadRun maxDepth numLimit S (some r) none none c).2.2 = Exit.nil := by
      rw [← DFSLoad_exit, e1]; exact hnil
    rw [(DFSLoad_totals d maxDepth numLimit S (some r) none none c hrun).1, e2]
    exact (key'.2 hle).2
  · intro hS0
    have h0 := list_sum_nonneg h.fileSizes hnn
    rw [← list_sum_eq_zero h.fileSizes hnn]
    constructor
    · intro hx
      by_contra hne
      rw [key'.1 (by omega)] at hx
      cases hx
    · intro hz
      exact (key'.2 (by omega)).1

/-- C8 at the fixture, whose ten files have one byte each: the load with the size limit 9
returns `errTotalSizeLimit`, the load with the size limit 10 returns nil with the size
10, and the load with count limit 0 and size limit 0, both exceeded at the root, returns
`errFileNumLimit`. -/
theorem C8_size_limit_witness :
    fixtureHier.fileSizes.sum = 10 ∧
    (fixtureLoad (-1) (-1) 9).exit = Exit.error Err.errTotalSizeLimit ∧
    (fixtureLoad (-1) (-1) 10).exit = Exit.nil ∧
    (fixtureLoad (-1) (-1) 10).totalSize = 10 ∧
    (fixtureLoad (-1) 0 0).exit = Exit.error Err.errFileNumLimit := by
  have hd : ∀ s ∈ fixtureHier.steps fixtureRoot.depth,
      s.1 < if (-1 : Int) < 0 then defMaxDepth else -1 := by with_unfolding_all decide
  have hc : ∀ t ∈ runningTotals (if fixtureRoot.IsVirtualDir then 0 else 1) 0
      (fixtureHier.steps fixtureRoot.depth),
      t.1 ≤ if (-1 : Int) < 0 then defMaxTotalCount else -1 := by with_unfolding_all decide
  have hn : ∀ x ∈ fixtureHier.fileSizes, 0 ≤ x := by with_unfolding_all decide
  have he : fixtureHier.fileSizes.sum = 10 := by with_unfolding_all decide
  have h9 := C8_size_limit (getSubFilesMock buildTreeForTest) fixtureHier fixtureRoot
    (-1) (-1) 9 ⟨(), []⟩ fixtureHier_serves rfl rfl (by decide) hd hc (by decide) hn
    (by rw [he]; decide)
  have h10 := C8_size_limit (getSubFilesMock buildTreeForTest) fixtureHier fixtureRoot
    (-1) (-1) 10 ⟨(), []⟩ fixtureHier_serves rfl rfl (by decide) hd hc (by decide) hn
    (by rw [he]; decide)
  have h10' := h10.2.1 (by rw [he])
  refine ⟨he, h9.1.2 (by rw [he]; decide), h10'.1, ?_, by with_unfolding_all decide⟩
  have := h10'.2
  rw [he] at this
  exact this

/-- C8 as stated fails where the sizes overflow `int64`.  Two files of 2^62 bytes: the
sizes are non-negative and add up to 2^63 > 0, yet the load with the size limit 0 returns
nil, the `int64` total having wrapped to -2^63.  And one file of 2^63 - 1 bytes in the
root with 2^63 + 1 bytes more in a sub-folder: the load with the size limit 0 returns
`errTotalSizeLimit` at the root, although the `int64` sum of all the sizes is 0. -/
theorem C8_counterexample :
    (bigHier.Serves bigStore ∧ (∀ x ∈ bigHier.fileSizes, 0 ≤ x) ∧
      bigHier.fileSizes.sum > 0 ∧
      (fixtureRoot.DFSLoad (-1) (-1) 0 (some bigStore) none none ⟨(), []⟩).exit = Exit.nil ∧
      (fixtureRoot.DFSLoad (-1) (-1) 0 (some bigStore) none none ⟨(), []⟩).totalSize =
        -9223372036854775808) ∧
    (wrapHier.Serves wrapStore ∧ (∀ x ∈ wrapHier.fileSizes, 0 ≤ x) ∧
      sum64 wrapHier.fileSizes = 0 ∧
      (fixtureRoot.DFSLoad (-1) (-1) 0 (some wrapStore) none none ⟨(), []⟩).exit =
        Exit.error Err.errTotalSizeLimit) := by
  refine ⟨⟨?_, by with_unfolding_all decide, by with_unfolding_all decide,
    by with_unfolding_all decide, by with_unfolding_all decide⟩,
    ⟨?_, by with_unfolding_all decide, by with_unfolding_all decide,
      by with_unfolding_all decide⟩⟩
  · exact (Hier.Serves_eq _ _).2 ⟨rfl, fun _ => rfl, trivial⟩
  · refine (Hier.Serves_eq _ _).2 ⟨rfl, fun _ => rfl, ?_⟩
    exact (servesList_cons _ _ _).2 ⟨(Hier.Serves_eq _ _).2 ⟨rfl, fun _ => rfl, trivial⟩,
      trivial⟩

/-- C9, as amended: the defaults of `DFSLoad`.  For every tree, every retrieval function
and pair of callbacks of the caller (which may change the nodes they are handed and return
any error value), every caller state and every budget: with any negative `maxDepth` it
returns the same result and produces the same tree as with `maxDepth = 100`; with any
negative `numLimit` the same as with `numLimit = 100000`; and with any negative
`sizeLimit` it does not return `errTotalSizeLimit`, whatever the file sizes are, unless
the retrieval function or a callback itself returns that error: when none of them ever
returns it, `DFSLoad` does not return it; and, with the caller's functions made to log what
each of their calls returns, whenever `DFSLoad` returns it, one of the calls that it has
made returned it. -/
theorem C9_defaults {σ : Type} (d : Dir) (fuel : Nat) (retrieve : Option (LiveRetrieve σ))
    (pre post : Option (LiveFunc σ)) (w : σ) :
    (∀ maxDepth numLimit sizeLimit : Int, maxDepth < 0 →
      d.DFSLoadLive fuel maxDepth numLimit sizeLimit retrieve pre post w =
        d.DFSLoadLive fuel 100 numLimit sizeLimit retrieve pre post w) ∧
    (∀ maxDepth numLimit sizeLimit : Int, numLimit < 0 →
      d.DFSLoadLive fuel maxDepth numLimit sizeLimit retrieve pre post w =
        d.DFSLoadLive fuel maxDepth 100000 sizeLimit retrieve pre post w) ∧
    (∀ maxDepth numLimit sizeLimit : Int, sizeLimit < 0 →
      RetrieveNeverReturns Err.errTotalSizeLimit retrieve →
      FuncNeverReturns Err.errTotalSizeLimit pre →
      FuncNeverReturns Err.errTotalSizeLimit post →
      (d.DFSLoadLive fuel maxDepth numLimit sizeLimit retrieve pre post w).exit ≠
        Exit.error Err.errTotalSizeLimit) ∧
    (∀ maxDepth numLimit sizeLimit : Int, sizeLimit < 0 →
      (d.DFSLoadLive fuel maxDepth numLimit sizeLimit (retrieve.map loggedLiveRetrieve)
        (pre.map loggedLive) (post.map loggedLive) (w, [])).exit =
        Exit.error Err.errTotalSizeLimit →
      GoRet.error Err.errTotalSizeLimit ∈
        (d.DFSLoadLive fuel maxDepth numLimit sizeLimit (retrieve.map loggedLiveRetrieve)
          (pre.map loggedLive) (post.map loggedLive) (w, [])).world.2) := by
  refine ⟨?_, ?_, ?_, ?_⟩
  · intro maxDepth numLimit sizeLimit h
    unfold Dir.DFSLoadLive
    rw [dfsInfoInit_neg_maxDepth d maxDepth numLimit sizeLimit h]
  · intro maxDepth numLimit sizeLimit h
    unfold Dir.DFSLoadLive
    rw [dfsInfoInit_neg_numLimit d maxDepth numLimit sizeLimit h]
  · intro maxDepth numLimit sizeLimit h hr hpre hpost
    rw [DFSLoadLive_exit]
    exact dfsLoadDirLive_ne_sizeLimit retrieve pre post hr hpre hpost fuel d _ h
  · intro maxDepth numLimit sizeLimit h hx
    rw [DFSLoadLive_exit] at hx
    rw [DFSLoadLive_world]
    exact dfsLoadDirLive_sizeLimit_logged retrieve pre post fuel d _ h hx

/-- C9 at the fixture: the load that the tests make with all three limits negative is
the load with `maxDepth = 100` and `numLimit = 100000`, it returns `(10, 19, nil)`, and it
does not return `errTotalSizeLimit`: the mock never fails.  With a retrieval function
that returns `errTotalSizeLimit` the load returns that error, and the log shows the call
that returned it. -/
theorem C9_defaults_witness :
    fixtureRoot.DFSLoadLive 10 (-1) (-1) (-1)
        (some (liftRetrieve (getSubFilesMock buildTreeForTest))) none none () =
      fixtureRoot.DFSLoadLive 10 100 100000 (-1)
        (some (liftRetrieve (getSubFilesMock buildTreeForTest))) none none () ∧
    ((fixtureRoot.DFSLoadLive 10 (-1) (-1) (-1)
        (some (liftRetrieve (getSubFilesMock buildTreeForTest))) none none ()).totalSize,
      (fixtureRoot.DFSLoadLive 10 (-1) (-1) (-1)
        (some (liftRetrieve (getSubFilesMock buildTreeForTest))) none none ()).totalCount,
      (fixtureRoot.DFSLoadLive 10 (-1) (-1) (-1)
        (some (liftRetrieve (getSubFilesMock buildTreeForTest))) none none ()).exit) =
      (10, 19, Exit.nil) ∧
    (fixtureRoot.DFSLoadLive 10 (-1) (-1) (-1)
        (some (liftRetrieve (getSubFilesMock buildTreeForTest))) none none ()).exit ≠
      Exit.error Err.errTotalSizeLimit ∧
    GoRet.error Err.errTotalSizeLimit ∈
      (fixtureRoot.DFSLoadLive 10 (-1) (-1) (-1) ((some sizeLimitStore).map loggedLiveRetrieve)
        ((none : Option (LiveFunc Unit)).map loggedLive)
        ((none : Option (LiveFunc Unit)).map loggedLive) ((), [])).world.2 := by
  have h := C9_defaults fixtureRoot 10
    (some (liftRetrieve (getSubFilesMock buildTreeForTest))) none none ()
  refine ⟨?_, by with_unfolding_all decide,
    h.2.2.1 (-1) (-1) (-1) (by decide) ?_ (fun g hg => by cases hg)
      (fun g hg => by cases hg),
    (C9_defaults fixtureRoot 10 (some sizeLimitStore) none none ()).2.2.2 (-1) (-1) (-1)
      (by decide) (by with_unfolding_all decide)⟩
  · rw [h.1 (-1) (-1) (-1) (by decide), h.2.1 100 (-1) (-1) (by decide)]
  · intro g hg w volumeId folderId hx
    cases hg
    cases hx

/-- C9 as stated fails in its third part.  The error value `errTotalSizeLimit` reaches
the caller as the result of a `DFSLoad` with a size limit (here the fixture with
`sizeLimit = 0`).  A retrieval function that returns this value makes `DFSLoad` with
`sizeLimit = -1` return it: `dfsLoadDir` hands the error of the retrieval function back
as it is, so `DFSLoad` returns `(0, 0, errTotalSizeLimit)`, with no file at all in the
tree. -/
theorem C9_counterexample :
    (fixtureLoad (-1) (-1) 0).exit = Exit.error Err.errTotalSizeLimit ∧
    (fixtureRoot.DFSLoadLive 10 (-1) (-1) (-1) (some sizeLimitStore) none none ()).exit =
      Exit.error Err.errTotalSizeLimit ∧
    (fixtureRoot.DFSLoadLive 10 (-1) (-1) (-1) (some sizeLimitStore) none none ()).totalSize =
      0 ∧
    (fixtureRoot.DFSLoadLive 10 (-1) (-1) (-1) (some sizeLimitStore) none none ()).totalCount =
      0 ∧
    (fixtureRoot.DFSLoadLive 10 (-1) (-1) (-1) (some sizeLimitStore) none none ()).dir =
      fixtureRoot :=
  ⟨by with_unfolding_all decide, by with_unfolding_all decide, by with_unfolding_all decide,
    by with_unfolding_all decide, by with_unfolding_all rfl⟩

/-- C10: on every fully loaded tree that the package can build, the totals of
`GetTotalSizeAndCount` agree with the enumerations: `totalCount` is the length of
`GetAllFoldersAndFiles` as an `int64` (so the length itself whenever it is below 2^63),
the root's own descriptor being counted in both exactly when the root is not virtual, and
`totalSize` is the `int64` sum of the `Size` fields over `GetAllPureFiles` (so their plain
sum whenever that is an `int64`). -/
theorem C10_totals_agree {d : Dir} (hb : Built d) (hf : d.fullyLoaded = true) :
    ∃ all pure : List File,
      d.GetAllFoldersAndFiles = some all ∧ d.GetAllPureFiles = some pure ∧
      d.GetTotalSizeAndCount = (sum64 (pure.map File.Size), wrap64 (all.length : Int), Exit.nil) ∧
      ((all.length : Int) < 9223372036854775808 →
        d.GetTotalSizeAndCount = (sum64 (pure.map File.Size), (all.length : Int), Exit.nil)) ∧
      (-9223372036854775808 ≤ (pure.map File.Size).sum →
        (pure.map File.Size).sum < 9223372036854775808 →
        d.GetTotalSizeAndCount.1 = (pure.map File.Size).sum) ∧
      all.length = (if d.IsVirtualDir then 0 else 1) +
        (d.nodes.map (fun n => n.subDirs.length + n.subFiles.length)).sum := by
  have hinv := Built.treeInv hb
  have hsub := Dir.fullyLoaded_sub d hf
  have hload := Dir.fullyLoaded_nodes d hf
  have hlen : (d.nodes.foldl (fun acc n => acc ++ (n.GetSubFoldersAndFiles).getD [])
      (if !d.IsVirtualDir then [d.originInfo] else [])).length =
      (if d.IsVirtualDir then 0 else 1) +
        (d.nodes.map (fun n => n.subDirs.length + n.subFiles.length)).sum := by
    rw [foldl_append_length]
    congr 1
    · cases d.IsVirtualDir <;> rfl
    · congr 1
      apply List.map_congr_left
      intro n hn
      obtain ⟨l, hl, he⟩ := GetSubFoldersAndFiles_length n (hsub n hn)
      rw [he]
      exact hl
  have hcount : d.nodes.foldl (fun a n => wrap64 (a + n.count))
      (if !d.IsVirtualDir then wrap64 (0 + 1) else 0) =
      wrap64 (((if d.IsVirtualDir then 0 else 1) +
        (d.nodes.map (fun n => n.subDirs.length + n.subFiles.length)).sum : Nat) : Int) := by
    have hinit : (if !d.IsVirtualDir then wrap64 (0 + 1) else 0) =
        wrap64 ((if d.IsVirtualDir then 0 else 1 : Nat) : Int) := by
      cases d.IsVirtualDir with
      | true => exact wrap64_zero.symm
      | false => rfl
    rw [hinit, foldl_wrap64_map Dir.count]
    have hmap : d.nodes.map Dir.count = d.nodes.map
        (fun n => wrap64 ((n.subDirs.length + n.subFiles.length : Nat) : Int)) := by
      apply List.map_congr_left
      intro n hn
      rw [((hinv n hn).1 (hload n hn)).1, Nat.add_comm]
    rw [hmap, wrap64_sum_map_wrap64, Nat.cast_add, cast_sum_map]
  have hsize : d.nodes.foldl (fun a n => wrap64 (a + n.size)) 0 =
      sum64 ((d.nodes.foldl (fun acc n => acc ++ n.subFiles) []).map File.Size) := by
    have h0 : (0 : Int) = wrap64 0 := wrap64_zero.symm
    rw [sum64_eq, foldl_append_sum]
    conv_lhs => rw [h0]
    rw [foldl_wrap64_map Dir.size]
    have hmap : d.nodes.map Dir.size = d.nodes.map
        (fun n => wrap64 ((n.subFiles.map File.Size).sum)) := by
      apply List.map_congr_left
      intro n hn
      rw [((hinv n hn).1 (hload n hn)).2, sum64_eq]
    rw [hmap, wrap64_sum_map_wrap64]
    simp only [List.map_nil, List.sum_nil]
  have htot := GetTotalSizeAndCount_fullyLoaded d hf
  rw [hcount, hsize, ← hlen] at htot
  refine ⟨_, _, GetAllFoldersAndFiles_fullyLoaded d hf, GetAllPureFiles_fullyLoaded d hf,
    htot, ?_, ?_, hlen⟩
  · intro hlt
    rw [htot, wrap64_of_range _ (by omega) hlt]
  · intro hlo hhi
    rw [htot, sum64_eq]
    exact wrap64_of_range _ hlo hhi

/-- C10 at the fixture after the unrestricted load: `GetAllFoldersAndFiles` has 19
entries, the ten files of `GetAllPureFiles` have 10 bytes in all, and
`GetTotalSizeAndCount` returns `(10, 19, nil)`. -/
theorem C10_totals_agree_witness :
    (fixtureLoad (-1) (-1) (-1)).dir.fullyLoaded = true ∧
    ((fixtureLoad (-1) (-1) (-1)).dir.GetAllFoldersAndFiles.map List.length) = some 19 ∧
    ((fixtureLoad (-1) (-1) (-1)).dir.GetAllPureFiles.map
      (fun l => (l.length, sum64 (l.map File.Size)))) = some (10, 10) ∧
    (fixtureLoad (-1) (-1) (-1)).dir.GetTotalSizeAndCount = (10, 19, Exit.nil) := by
  have hb : Built (fixtureLoad (-1) (-1) (-1)).dir :=
    Built.load (d := fixtureRoot) [] (-1) (-1) (-1) (some (getSubFilesMock buildTreeForTest))
      none none ⟨(), []⟩ (Built.newDir ⟨0, unKnown, 1, "", typeFolder, 0, 0, 0, 0, 0, 0⟩
        0 unKnown unKnown rfl)
  have hf : (fixtureLoad (-1) (-1) (-1)).dir.fullyLoaded = true := by
    with_unfolding_all decide
  have ha : ((fixtureLoad (-1) (-1) (-1)).dir.GetAllFoldersAndFiles.map List.length) =
      some 19 := by with_unfolding_all decide
  have hp : ((fixtureLoad (-1) (-1) (-1)).dir.GetAllPureFiles.map
      (fun l => (l.length, sum64 (l.map File.Size)))) = some (10, 10) := by
    with_unfolding_all decide
  obtain ⟨all, pure, h1, h2, h3, _, _, _⟩ := C10_totals_agree hb hf
  refine ⟨hf, ha, hp, ?_⟩
  rw [h1] at ha
  rw [h2] at hp
  simp only [Option.map_some', Option.some.injEq, Prod.mk.injEq] at ha hp
  rw [h3, ha, hp.2]
  with_unfolding_all decide

/-- C11: on every fully loaded tree both enumerations return a list, and the list of
`GetAllFoldersAndFilesByBfs` is a permutation of the list of `GetAllFoldersAndFiles`:
the same entries with the same multiplicities. -/
theorem C11_bfs_perm_dfs (d : Dir) (hf : d.fullyLoaded = true) :
    ∃ bfs dfs : List File,
      d.GetAllFoldersAndFilesByBfs = some bfs ∧ d.GetAllFoldersAndFiles = some dfs ∧
      bfs.Perm dfs := by
  have hl : d.loaded = true := Dir.fullyLoaded_nodes d hf d (Dir.self_mem_nodes d)
  refine ⟨_, _, GetAllFoldersAndFilesByBfs_noNil d hl (Dir.fullyLoaded_noNil d hf),
    GetAllFoldersAndFiles_flatMap d hf, ?_⟩
  exact List.Perm.append_left _ (List.Perm.flatMap_right _ (Dir.bfsNodes_perm d))

/-- C11 at the fixture after the unrestricted load: the two enumerations of the tests,
by the ids of their nineteen entries; they are in different orders and permutations of
each other. -/
theorem C11_bfs_perm_dfs_witness :
    (fixtureLoad (-1) (-1) (-1)).dir.fullyLoaded = true ∧
    ((fixtureLoad (-1) (-1) (-1)).dir.GetAllFoldersAndFilesByBfs.map (List.map File.Id)) =
      some [12, 13, 10, 11, 22, 23, 20, 21, 24, 33, 30, 31, 32, 35, 36, 34, 37, 41, 42] ∧
    ((fixtureLoad (-1) (-1) (-1)).dir.GetAllFoldersAndFiles.map (List.map File.Id)) =
      some [12, 13, 10, 11, 22, 23, 20, 21, 33, 30, 31, 32, 41, 35, 36, 34, 24, 37, 42] ∧
    ∃ bfs dfs : List File,
      (fixtureLoad (-1) (-1) (-1)).dir.GetAllFoldersAndFilesByBfs = some bfs ∧
      (fixtureLoad (-1) (-1) (-1)).dir.GetAllFoldersAndFiles = some dfs ∧ bfs.Perm dfs :=
  ⟨by with_unfolding_all decide, by with_unfolding_all decide, by with_unfolding_all decide,
    C11_bfs_perm_dfs _ (by with_unfolding_all decide)⟩

/-- C12, as amended: for every fully loaded tree in which each child is at its parent's
depth plus one and every depth is below 2^63 - 2, `GetAllFoldersAndFilesOnLevel` and
`GetAllFoldersAndFilesByBfs` both return, and the lists of the first, concatenated in
order, are the list of the second (the same sequence).  The cut points are the depth
boundaries: after a list with the root's own descriptor (absent for a virtual root) there
is one list for each level of the tree, holding what the directories of that level
contribute; the directories of the `j`-th level are at the root's depth plus `j`, so what a
directory of depth `k` contributes lies in the list at index `k + 1 - minLevel`, where
`minLevel` is the root's depth for a non-virtual root and the root's depth plus one for a
virtual root. -/
theorem C12_levels_partition_bfs (d : Dir) (hf : d.fullyLoaded = true)
    (hd : d.depthsOk = true)
    (hb : ∀ n ∈ d.nodes, -9223372036854775808 ≤ n.depth ∧ n.depth < 9223372036854775806) :
    ∃ (levels : List (List File)) (bfs : List File),
      d.GetAllFoldersAndFilesOnLevel = some levels ∧
      d.GetAllFoldersAndFilesByBfs = some bfs ∧
      levels.flatten = bfs ∧
      levels = (if d.IsVirtualDir then [] else [[d.originInfo]]) ++
        d.levels.map (fun l => l.flatMap Dir.foldersAndFiles) ∧
      (∀ (j : Nat) (l : List Dir), d.levels[j]? = some l → ∀ n ∈ l, n.depth = d.depth + j) ∧
      (∀ n ∈ d.nodes, ∃ l,
        levels[(n.depth + 1 - (if d.IsVirtualDir then d.depth + 1 else d.depth)).toNat]? =
          some l ∧ ∀ f ∈ n.foldersAndFiles, f ∈ l) := by
  have hl : d.loaded = true := Dir.fullyLoaded_nodes d hf d (Dir.self_mem_nodes d)
  have hn := Dir.fullyLoaded_noNil d hf
  refine ⟨_, _, GetAllFoldersAndFilesOnLevel_levels d hl hn hd hb,
    GetAllFoldersAndFilesByBfs_noNil d hl hn, ?_, rfl, Dir.levels_depth d hd, ?_⟩
  · rw [List.flatten_append, flatten_map_flatMap]
    unfold Dir.rootEntry Dir.bfsNodes
    cases d.IsVirtualDir <;> rfl
  · intro n hnode
    have hbfs : n ∈ d.bfsNodes := (Dir.bfsNodes_perm d).symm.subset hnode
    obtain ⟨l, hlm, hnl⟩ := List.mem_flatten.1 hbfs
    obtain ⟨j, hj, hjl⟩ := List.getElem_of_mem hlm
    have hget : d.levels[j]? = some l := by rw [List.getElem?_eq_getElem hj, hjl]
    have hdep := Dir.levels_depth d hd j l hget n hnl
    refine ⟨l.flatMap Dir.foldersAndFiles, ?_, ?_⟩
    · cases d.IsVirtualDir with
      | true =>
        have hi : (n.depth + 1 - (d.depth + 1)).toNat = j := by omega
        simp only [if_true, List.nil_append]
        rw [hi, List.getElem?_map, hget]
        rfl
      | false =>
        have hi : (n.depth + 1 - d.depth).toNat = j + 1 := by omega
        simp only [Bool.false_eq_true, if_false]
        rw [hi, List.singleton_append, List.getElem?_cons_succ, List.getElem?_map, hget]
        rfl
    · intro f hfm
      exact List.mem_flatMap.2 ⟨n, hnl, hfm⟩

/-- C12 at the fixture after the unrestricted load: the four lists that the tests print,
by the ids of their entries. -/
theorem C12_levels_partition_bfs_witness :
    (fixtureLoad (-1) (-1) (-1)).dir.fullyLoaded = true ∧
    (fixtureLoad (-1) (-1) (-1)).dir.depthsOk = true ∧
    ((fixtureLoad (-1) (-1) (-1)).dir.GetAllFoldersAndFilesOnLevel.map
      (List.map (List.map File.Id))) =
      some [[12, 13, 10, 11], [22, 23, 20, 21, 24], [33, 30, 31, 32, 35, 36, 34, 37],
        [41, 42]] ∧
    ∃ (levels : List (List File)) (bfs : List File),
      (fixtureLoad (-1) (-1) (-1)).dir.GetAllFoldersAndFilesOnLevel = some levels ∧
      (fixtureLoad (-1) (-1) (-1)).dir.GetAllFoldersAndFilesByBfs = some bfs ∧
      levels.flatten = bfs := by
  have hf : (fixtureLoad (-1) (-1) (-1)).dir.fullyLoaded = true := by
    with_unfolding_all decide
  have hd : (fixtureLoad (-1) (-1) (-1)).dir.depthsOk = true := by
    with_unfolding_all decide
  obtain ⟨levels, bfs, h1, h2, h3, _⟩ :=
    C12_levels_partition_bfs (fixtureLoad (-1) (-1) (-1)).dir hf hd
      (by with_unfolding_all decide)
  exact ⟨hf, hd, by with_unfolding_all decide, levels, bfs, h1, h2, h3⟩

/-- C12 as stated fails at the largest depth.  The folder 7 created by `NewDir` at depth
2^63 - 1 and filled with nothing is a fully loaded tree built by the library;
`GetAllFoldersAndFilesByBfs` returns its one entry, but in `GetAllFoldersAndFilesOnLevel`
both `minLevel` and `maxLevel` are 2^63 - 1 and the closing loop never ends, whatever its
budget. -/
theorem C12_counterexample :
    Built deepLeaf ∧ deepLeaf.fullyLoaded = true ∧ deepLeaf.depthsOk = true ∧
    deepLeaf.depth = 9223372036854775807 ∧
    deepLeaf.GetAllFoldersAndFilesByBfs = some [folderDesc 7 0] ∧
    (deepLeaf.BfsWithFunc (some addLevelFoldersAndFiles) ⟨deepLeaf.levelInit, []⟩).1.world.1 =
      9223372036854775807 ∧
    (∀ fuel : Nat,
      collectLevels
        (deepLeaf.BfsWithFunc (some addLevelFoldersAndFiles)
          ⟨deepLeaf.levelInit, []⟩).1.world.2
        9223372036854775807 fuel deepLeaf.levelInit.1 [] = none) ∧
    deepLeaf.GetAllFoldersAndFilesOnLevel = none := by
  refine ⟨?_, by with_unfolding_all decide, by with_unfolding_all decide,
    by with_unfolding_all decide, by with_unfolding_all decide,
    by with_unfolding_all decide, ?_, by with_unfolding_all decide⟩
  · exact Built.fill (d := Dir.mk (folderDesc 7 0) [] [] 9223372036854775807 unKnown unKnown
      false) [] [] [] (Built.newDir (folderDesc 7 0) 9223372036854775807 unKnown unKnown rfl)
  · intro fuel
    exact collectLevels_diverges _ fuel _ _ (by with_unfolding_all decide)

/-- C13: for every `Dir`, loaded or not.  Each of `GetAllFolders`, `GetAllFoldersAndFiles`
and `GetAllFoldersAndFilesByBfs` returns the root's entry followed by what its walk
collects from the traversed nodes, the root's entry being the root's own descriptor for a
root that is not virtual and nothing for a virtual root.  So for a root that is not
virtual the first element of each result is the root's descriptor; for a virtual root each
result is only what the walk collects, and it is the result for the same tree under a
descriptor that is not virtual without its head element. -/
theorem C13_root_descriptor (d : Dir) :
    (d.GetAllFolders = (d.dfsEntries addSubFolders).map (fun body => d.rootEntry ++ body) ∧
      d.GetAllFoldersAndFiles =
        (d.dfsEntries addSubFoldersAndFiles).map (fun body => d.rootEntry ++ body) ∧
      d.GetAllFoldersAndFilesByBfs =
        (d.bfsEntries addSubFoldersAndFiles).map (fun body => d.rootEntry ++ body)) ∧
    (d.IsVirtualDir = false →
      ∀ l, (d.GetAllFolders = some l ∨ d.GetAllFoldersAndFiles = some l ∨
          d.GetAllFoldersAndFilesByBfs = some l) →
        l.head? = some d.originInfo) ∧
    (d.IsVirtualDir = true →
      (d.GetAllFolders = d.dfsEntries addSubFolders ∧
        d.GetAllFoldersAndFiles = d.dfsEntries addSubFoldersAndFiles ∧
        d.GetAllFoldersAndFilesByBfs = d.bfsEntries addSubFoldersAndFiles) ∧
      ∀ o, (d.withOrigin o).IsVirtualDir = false →
        ((d.withOrigin o).GetAllFolders = d.GetAllFolders.map (fun l => o :: l) ∧
          (d.withOrigin o).GetAllFoldersAndFiles =
            d.GetAllFoldersAndFiles.map (fun l => o :: l) ∧
          (d.withOrigin o).GetAllFoldersAndFilesByBfs =
            d.GetAllFoldersAndFilesByBfs.map (fun l => o :: l)) ∧
        (d.GetAllFolders = (d.withOrigin o).GetAllFolders.map List.tail ∧
          d.GetAllFoldersAndFiles = (d.withOrigin o).GetAllFoldersAndFiles.map List.tail ∧
          d.GetAllFoldersAndFilesByBfs =
            (d.withOrigin o).GetAllFoldersAndFilesByBfs.map List.tail)) := by
  refine ⟨⟨GetAllFolders_entries d, GetAllFoldersAndFiles_entries d,
    GetAllFoldersAndFilesByBfs_entries d⟩, ?_, ?_⟩
  · intro hv l hl
    rcases hl with h | h | h
    · rw [GetAllFolders_entries, enum_not_virtual d hv] at h
      exact head_of_enum _ _ _ h
    · rw [GetAllFoldersAndFiles_entries, enum_not_virtual d hv] at h
      exact head_of_enum _ _ _ h
    · rw [GetAllFoldersAndFilesByBfs_entries, enum_not_virtual d hv] at h
      exact head_of_enum _ _ _ h
  · intro hv
    have e1 : d.GetAllFolders = d.dfsEntries addSubFolders := by
      rw [GetAllFolders_entries, rootEntry_virtual d hv, option_map_nil_append]
    have e2 : d.GetAllFoldersAndFiles = d.dfsEntries addSubFoldersAndFiles := by
      rw [GetAllFoldersAndFiles_entries, rootEntry_virtual d hv, option_map_nil_append]
    have e3 : d.GetAllFoldersAndFilesByBfs = d.bfsEntries addSubFoldersAndFiles := by
      rw [GetAllFoldersAndFilesByBfs_entries, rootEntry_virtual d hv, option_map_nil_append]
    refine ⟨⟨e1, e2, e3⟩, ?_⟩
    intro o ho
    have f1 : (d.withOrigin o).GetAllFolders = d.GetAllFolders.map (fun l => o :: l) := by
      rw [GetAllFolders_entries, enum_not_virtual _ ho, e1,
        dfsEntries_withOrigin addSubFolders_appends d o (fun _ => rfl)]
      rfl
    have f2 : (d.withOrigin o).GetAllFoldersAndFiles =
        d.GetAllFoldersAndFiles.map (fun l => o :: l) := by
      rw [GetAllFoldersAndFiles_entries, enum_not_virtual _ ho, e2,
        dfsEntries_withOrigin addSubFoldersAndFiles_appends d o (fun _ => rfl)]
      rfl
    have f3 : (d.withOrigin o).GetAllFoldersAndFilesByBfs =
        d.GetAllFoldersAndFilesByBfs.map (fun l => o :: l) := by
      rw [GetAllFoldersAndFilesByBfs_entries, enum_not_virtual _ ho, e3,
        bfsEntries_withOrigin addSubFoldersAndFiles_appends d o (fun _ => rfl)]
      rfl
    refine ⟨⟨f1, f2, f3⟩, ?_, ?_, ?_⟩
    · rw [f1, option_map_tail_cons]
    · rw [f2, option_map_tail_cons]
    · rw [f3, option_map_tail_cons]

/-- C13 at the fixture after the unrestricted load: under the virtual root `GetAllFolders`
returns the nine folders below the root; under the descriptor of a folder with id 1 in
its place, the same preceded by that descriptor. -/
theorem C13_root_descriptor_witness :
    (fixtureLoad (-1) (-1) (-1)).dir.IsVirtualDir = true ∧
    ((fixtureLoad (-1) (-1) (-1)).dir.withOrigin (folderDesc 1 0)).IsVirtualDir = false ∧
    ((fixtureLoad (-1) (-1) (-1)).dir.GetAllFolders.map (List.map File.Id)) =
      some [12, 13, 22, 23, 33, 35, 36, 24, 37] ∧
    ((((fixtureLoad (-1) (-1) (-1)).dir.withOrigin (folderDesc 1 0)).GetAllFolders).map
      (List.map File.Id)) = some [1, 12, 13, 22, 23, 33, 35, 36, 24, 37] ∧
    (fixtureLoad (-1) (-1) (-1)).dir.GetAllFolders =
      ((fixtureLoad (-1) (-1) (-1)).dir.withOrigin (folderDesc 1 0)).GetAllFolders.map
        List.tail :=
  ⟨by with_unfolding_all decide, by with_unfolding_all decide, by with_unfolding_all decide,
    by with_unfolding_all decide,
    (((C13_root_descriptor (fixtureLoad (-1) (-1) (-1)).dir).2.2
      (by with_unfolding_all decide)).2 (folderDesc 1 0) (by with_unfolding_all decide)).2.1⟩

/-- C14: on every fully loaded tree each depth-first enumeration is the recursive
pre-order reference `body(d) = contribution(d) ++ body(c1) ++ ... ++ body(cn)` over the
sub-directories `c1..cn` of `d` in stored order: `GetAllPureFiles` with the node's files as
its contribution, `GetAllFolders` with the descriptors of its sub-directories, and
`GetAllFoldersAndFiles` with those descriptors followed by the files, the last two
preceded by the root's descriptor when the root is not virtual.  Every subtree occupies
one contiguous block of the enumeration. -/
theorem C14_dfs_reference (d : Dir) (hf : d.fullyLoaded = true) :
    d.GetAllPureFiles = some (d.body Dir.subFiles) ∧
    d.GetAllFolders = some (d.rootEntry ++ d.body Dir.subFolders) ∧
    d.GetAllFoldersAndFiles = some (d.rootEntry ++ d.body Dir.foldersAndFiles) ∧
    ∀ (contribution : Dir → List File), ∀ n ∈ d.nodes,
      ∃ p s, d.body contribution = p ++ n.body contribution ++ s := by
  refine ⟨?_, ?_, ?_, fun g => Dir.body_block g d⟩
  · rw [GetAllPureFiles_flatMap d hf, Dir.body_eq_flatMap]
  · rw [GetAllFolders_flatMap d hf, Dir.body_eq_flatMap]
  · rw [GetAllFoldersAndFiles_flatMap d hf, Dir.body_eq_flatMap]

/-- C14 at the fixture after the unrestricted load: the three enumerations of the tests,
by the ids of their entries, are the reference bodies. -/
theorem C14_dfs_reference_witness :
    (fixtureLoad (-1) (-1) (-1)).dir.fullyLoaded = true ∧
    ((fixtureLoad (-1) (-1) (-1)).dir.body Dir.subFiles).map File.Id =
      [10, 11, 20, 21, 30, 31, 32, 41, 34, 42] ∧
    ((fixtureLoad (-1) (-1) (-1)).dir.body Dir.subFolders).map File.Id =
      [12, 13, 22, 23, 33, 35, 36, 24, 37] ∧
    (fixtureLoad (-1) (-1) (-1)).dir.rootEntry = [] ∧
    (fixtureLoad (-1) (-1) (-1)).dir.GetAllPureFiles =
      some ((fixtureLoad (-1) (-1) (-1)).dir.body Dir.subFiles) ∧
    (fixtureLoad (-1) (-1) (-1)).dir.GetAllFolders =
      some ((fixtureLoad (-1) (-1) (-1)).dir.rootEntry ++
        (fixtureLoad (-1) (-1) (-1)).dir.body Dir.subFolders) :=
  ⟨by with_unfolding_all decide, by with_unfolding_all decide, by with_unfolding_all decide,
    by with_unfolding_all decide,
    (C14_dfs_reference _ (by with_unfolding_all decide)).1,
    (C14_dfs_reference _ (by with_unfolding_all decide)).2.1⟩

/-- C16, as amended: for every tree without nil children and every pair of callbacks
that do not fail and do not change the tree, or are absent, `DfsWithFunc` returns
`errDirNotLoad` if and only if the tree reachable from the node, the node itself
included, contains a node that is not loaded, and returns nil otherwise; and
`GetTotalSizeAndCount` returns `(0, 0, errDirNotLoad)` exactly in that case. -/
theorem C16_not_loaded {σ : Type} (d : Dir) (hn : d.noNil = true)
    (pre post : Option (DirFunc σ)) (hpre : NonFailing pre) (hpost : NonFailing post)
    (c : Ctx σ) :
    ((d.DfsWithFunc pre post c).2 = Exit.error Err.errDirNotLoad ↔
      ∃ n ∈ d.nodes, n.loaded = false) ∧
    ((∀ n ∈ d.nodes, n.loaded = true) → (d.DfsWithFunc pre post c).2 = Exit.nil) ∧
    (d.GetTotalSizeAndCount = (0, 0, Exit.error Err.errDirNotLoad) ↔
      ∃ n ∈ d.nodes, n.loaded = false) := by
  have hex := DfsWithFunc_exit pre post hpre hpost d hn c
  have hex2 := DfsWithFunc_exit (some addSizeAndCount) none (fun g hg w n => by cases hg; rfl)
    (fun g hg => by cases hg) d hn
    ⟨(0, if !d.IsVirtualDir then wrap64 (0 + 1) else 0), []⟩
  rw [← Dir.not_fullyLoaded_iff d hn]
  refine ⟨?_, ?_, ?_⟩
  · rw [hex]
    cases d.fullyLoaded <;> simp
  · intro hall
    rw [hex, Dir.fullyLoaded_of_nodes d hn hall]
    rfl
  · unfold Dir.GetTotalSizeAndCount
    simp only
    rw [hex2]
    cases d.fullyLoaded <;> simp

/-- C16 at the tree with two folders of id 7, in which the root and the folder 8 are
loaded and the two folders 7 are not: the walk returns `errDirNotLoad`, and so does
`GetTotalSizeAndCount`, with zero totals. -/
theorem C16_not_loaded_witness :
    dupTree.noNil = true ∧ (∃ n ∈ dupTree.nodes, n.loaded = false) ∧
    (dupTree.DfsWithFunc (some recordId) (some recordId) ⟨[], []⟩).2 =
      Exit.error Err.errDirNotLoad ∧
    dupTree.GetTotalSizeAndCount = (0, 0, Exit.error Err.errDirNotLoad) := by
  have hn : dupTree.noNil = true := by with_unfolding_all decide
  have hex : ∃ n ∈ dupTree.nodes, n.loaded = false :=
    ⟨dupDeepNode, Dir.nodeAt_mem_nodes [1, 0] dupTree dupDeepNode (by with_unfolding_all rfl),
      rfl⟩
  have h := C16_not_loaded dupTree hn (some recordId) (some recordId)
    (fun g hg w n => by cases hg; rfl) (fun g hg w n => by cases hg; rfl) ⟨[], []⟩
  exact ⟨hn, hex, h.1.2 hex, h.2.2.2 hex⟩

/-- C16 as stated fails on a tree with a nil child, and with a callback that changes the
tree.  The root whose one child is nil is loaded and is the only node, yet `DfsWithFunc`
does not return nil: it panics, and so does `GetTotalSizeAndCount`.  In the root whose
children are nil and the folder 7, the folder 7 is not loaded, yet `DfsWithFunc` does not
return `errDirNotLoad`: it panics at the nil child, and so does `GetTotalSizeAndCount`.
And in the fixture with only its first level loaded the folders 12 and 13 are not loaded,
yet `DfsWithFunc` with a pre-order callback that fills the children of the node it is
handed, and never fails, returns nil. -/
theorem C16_counterexample :
    (Built nilChildRoot ∧ nilChildRoot.subDirs = [none] ∧
      nilChildRoot.nodes.map (fun n => (n.originInfo.Id, n.loaded)) = [(0, true)] ∧
      (nilChildRoot.DfsWithFunc (none : Option (DirFunc Unit)) none ⟨(), []⟩).2 =
        Exit.panic ∧
      nilChildRoot.GetTotalSizeAndCount = (0, 0, Exit.panic)) ∧
    (nilAndFolder.nodes.map (fun n => (n.originInfo.Id, n.loaded)) =
        [(0, true), (7, false)] ∧
      (nilAndFolder.DfsWithFunc (none : Option (DirFunc Unit)) none ⟨(), []⟩).2 =
        Exit.panic ∧
      nilAndFolder.GetTotalSizeAndCount = (0, 0, Exit.panic)) ∧
    (seededRoot.nodes.map (fun n => (n.originInfo.Id, n.loaded)) =
        [(0, true), (12, false), (13, false)] ∧
      (DfsWithFuncLive (some fillSubDirs) none 10 seededRoot ()).2.2 = Exit.nil) := by
  refine ⟨⟨?_, by with_unfolding_all rfl, by with_unfolding_all decide,
    by with_unfolding_all decide, by with_unfolding_all decide⟩,
    ⟨by with_unfolding_all decide, by with_unfolding_all decide,
      by with_unfolding_all decide⟩,
    by with_unfolding_all decide, by with_unfolding_all decide⟩
  exact Built.fill (d := fixtureRoot) [] [] [smallFile]
    (Built.newDir ⟨0, unKnown, 1, "", typeFolder, 0, 0, 0, 0, 0, 0⟩ 0 unKnown unKnown rfl)

/-- C17, what the code does: `BfsWithFunc` tests `loaded` only on the node it is called
on.  On every tree whose root is loaded, with a callback that never fails, it calls the
callback on every node in breadth-first order, loaded or not, and returns nil; so on a
tree with a node that is not loaded below the root it does not return `errDirNotLoad`,
where `DfsWithFunc` on the same tree does, and its callback is called on that node. -/
theorem C17_bfs_ignores_unloaded {σ : Type} (f : DirFunc σ)
    (hf : ∀ w n, (f w n).2 = CallRet.nil) (d : Dir) (hl : d.loaded = true)
    (hn : d.noNil = true) (c : Ctx σ) :
    d.BfsWithFunc (some f) c =
      (⟨d.bfsNodes.foldl (fun w n => (f w n).1) c.world,
        c.trace ++ d.bfsNodes.map Event.bfs⟩, Exit.nil) ∧
    d.bfsNodes.Perm d.nodes ∧
    ∀ n ∈ d.nodes, n.loaded = false →
      (d.BfsWithFunc (some f) c).2 ≠ Exit.error Err.errDirNotLoad ∧
      (d.DfsWithFunc (some f) none c).2 = Exit.error Err.errDirNotLoad ∧
      Event.bfs n ∈ (d.BfsWithFunc (some f) c).1.trace := by
  have hb := BfsWithFunc_fold f d c hl hn (fun n _ w => hf w n)
  refine ⟨hb, Dir.bfsNodes_perm d, ?_⟩
  intro n hm hnl
  refine ⟨by rw [hb]; simp, ?_, ?_⟩
  · rw [DfsWithFunc_exit (some f) none (fun g hg w x => by cases hg; exact hf w x)
      (fun g hg => by cases hg) d hn c,
      (Dir.not_fullyLoaded_iff d hn).2 ⟨n, hm, hnl⟩]
    rfl
  · rw [hb]
    exact List.mem_append_right _
      (List.mem_map.2 ⟨n, (Dir.bfsNodes_perm d).symm.subset hm, rfl⟩)

/-- C17 at the fixture with only its first level loaded: the breadth-first walk with a
callback that records the ids visits the root and the two sub-directories that are not
loaded and returns nil; the depth-first walk stops at the first of them with
`errDirNotLoad`. -/
theorem C17_bfs_ignores_unloaded_witness :
    seededRoot.loaded = true ∧ seededRoot.noNil = true ∧
    seededRoot.nodes.map (fun n => (n.originInfo.Id, n.loaded)) =
      [(0, true), (12, false), (13, false)] ∧
    (seededRoot.BfsWithFunc (some recordId) ⟨[], []⟩).1.world = [0, 12, 13] ∧
    (seededRoot.BfsWithFunc (some recordId) ⟨[], []⟩).2 = Exit.nil ∧
    (seededRoot.DfsWithFunc (some recordId) none ⟨[], []⟩).1.world = [0] ∧
    (seededRoot.DfsWithFunc (some recordId) none ⟨[], []⟩).2 =
      Exit.error Err.errDirNotLoad := by
  have hl : seededRoot.loaded = true := by with_unfolding_all decide
  have hn : seededRoot.noNil = true := by with_unfolding_all decide
  have h := C17_bfs_ignores_unloaded recordId (fun _ _ => rfl) seededRoot hl hn ⟨[], []⟩
  refine ⟨hl, hn, by with_unfolding_all decide, by with_unfolding_all decide, ?_,
    by with_unfolding_all decide, by with_unfolding_all decide⟩
  rw [h.1]

/-- C18, as amended: on every tree without nil children that contains a node that is
not loaded, `GetTotalSizeAndCount` surfaces the condition: it returns
`(0, 0, errDirNotLoad)`.  The list helpers have no error result and discard the error of
their walk: `GetAllPureFiles`, `GetAllFolders` and `GetAllFoldersAndFiles` return the
partial list collected from the nodes that precede the first node that is not loaded, in
pre-order (after the root's descriptor where they include it); and when the root itself is
not loaded, these three and `GetAllFoldersAndFilesByBfs` return the root's descriptor
alone, and nothing for a virtual root, and so does `GetAllFoldersAndFilesOnLevel` unless
the root's depth is 2^63 - 1 (2^63 - 2 for a virtual root), where it does not return: its
closing loop does not end. -/
theorem C18_not_loaded_helpers (d : Dir) (hn : d.noNil = true)
    (hex : ∃ n ∈ d.nodes, n.loaded = false) :
    d.GetTotalSizeAndCount = (0, 0, Exit.error Err.errDirNotLoad) ∧
    d.GetAllPureFiles = some ((d.nodes.takeWhile Dir.loaded).flatMap Dir.subFiles) ∧
    d.GetAllFolders =
      some (d.rootEntry ++ (d.nodes.takeWhile Dir.loaded).flatMap Dir.subFolders) ∧
    d.GetAllFoldersAndFiles =
      some (d.rootEntry ++ (d.nodes.takeWhile Dir.loaded).flatMap Dir.foldersAndFiles) ∧
    (d.nodes.takeWhile Dir.loaded).length < d.nodes.length ∧
    (d.loaded = false →
      d.GetAllPureFiles = some [] ∧ d.GetAllFolders = some d.rootEntry ∧
      d.GetAllFoldersAndFiles = some d.rootEntry ∧
      d.GetAllFoldersAndFilesByBfs = some d.rootEntry ∧
      (-9223372036854775808 ≤ d.depth → d.depth ≤ 9223372036854775807 →
        (d.depth ≠ (if d.IsVirtualDir then 9223372036854775806 else 9223372036854775807) →
          d.GetAllFoldersAndFilesOnLevel = some [d.rootEntry]) ∧
        (d.depth = (if d.IsVirtualDir then 9223372036854775806 else 9223372036854775807) →
          d.GetAllFoldersAndFilesOnLevel = none))) := by
  refine ⟨GetTotalSizeAndCount_not_loaded d hn ((Dir.not_fullyLoaded_iff d hn).2 hex),
    GetAllPureFiles_truncated d hn, GetAllFolders_truncated d hn,
    GetAllFoldersAndFiles_truncated d hn, takeWhile_lt_of_stop _ _ hex, ?_⟩
  intro hl
  have ht := takeWhile_of_head_false d hl
  refine ⟨?_, ?_, ?_, GetAllFoldersAndFilesByBfs_unloaded d hl,
    fun hlo hhi =>
      ⟨fun hne => GetAllFoldersAndFilesOnLevel_unloaded_root d hl hlo hhi
          (fun he => hne ((levelInit_eq_max_iff d hlo hhi).1 he)),
        fun he => (GetAllFoldersAndFilesOnLevel_unloaded_diverges d hl
          ((levelInit_eq_max_iff d hlo hhi).2 he)).1⟩⟩
  · rw [GetAllPureFiles_truncated d hn, ht]; rfl
  · rw [GetAllFolders_truncated d hn, ht]; simp
  · rw [GetAllFoldersAndFiles_truncated d hn, ht]; simp

/-- C18 at the fixture.  With only its first level loaded, `GetTotalSizeAndCount` returns
`(0, 0, errDirNotLoad)`, while `GetAllPureFiles` returns the root's two files and
`GetAllFoldersAndFiles` the root's four entries, of the ten files and nineteen entries of
the fixture.  On the root before any load, a virtual root of depth 0, the five list
helpers return nothing at all, `GetAllFoldersAndFilesOnLevel` as one empty level. -/
theorem C18_not_loaded_helpers_witness :
    (seededRoot.noNil = true ∧ (∃ n ∈ seededRoot.nodes, n.loaded = false) ∧
      seededRoot.GetTotalSizeAndCount = (0, 0, Exit.error Err.errDirNotLoad) ∧
      seededRoot.GetAllPureFiles.map (List.map File.Id) = some [10, 11] ∧
      seededRoot.GetAllFoldersAndFiles.map (List.map File.Id) = some [12, 13, 10, 11]) ∧
    (fixtureRoot.noNil = true ∧ fixtureRoot.loaded = false ∧ fixtureRoot.rootEntry = [] ∧
      fixtureRoot.GetTotalSizeAndCount = (0, 0, Exit.error Err.errDirNotLoad) ∧
      fixtureRoot.GetAllPureFiles = some [] ∧ fixtureRoot.GetAllFolders = some [] ∧
      fixtureRoot.GetAllFoldersAndFiles = some [] ∧
      fixtureRoot.GetAllFoldersAndFilesByBfs = some [] ∧
      fixtureRoot.GetAllFoldersAndFilesOnLevel = some [[]]) := by
  have hn : seededRoot.noNil = true := by with_unfolding_all decide
  have hex : ∃ n ∈ seededRoot.nodes, n.loaded = false :=
    (Dir.not_fullyLoaded_iff seededRoot hn).1 (by with_unfolding_all decide)
  have hn0 : fixtureRoot.noNil = true := by with_unfolding_all decide
  have hex0 : ∃ n ∈ fixtureRoot.nodes, n.loaded = false :=
    ⟨fixtureRoot, Dir.self_mem_nodes fixtureRoot, rfl⟩
  have h0 := C18_not_loaded_helpers fixtureRoot hn0 hex0
  obtain ⟨a1, a2, a3, a4, a5⟩ := h0.2.2.2.2.2 rfl
  exact ⟨⟨hn, hex, (C18_not_loaded_helpers seededRoot hn hex).1,
      by with_unfolding_all decide, by with_unfolding_all decide⟩,
    hn0, rfl, rfl, h0.1, a1, a2, a3, a4,
    (a5 (by with_unfolding_all decide) (by with_unfolding_all decide)).1
      (by with_unfolding_all decide)⟩

/-- C18 as stated fails for the five list helpers, and on a tree with a nil child.  In
the fixture with only its first level loaded the sub-directories 12 and 13 are not loaded,
yet `GetAllPureFiles`, `GetAllFolders` and `GetAllFoldersAndFiles` each return a list, and
the same list as on the fully loaded tree in which 12 and 13 are empty.  On the root of
the fixture before any load, `GetAllFoldersAndFilesByBfs` and
`GetAllFoldersAndFilesOnLevel` return what they return on the same root loaded and empty.
In neither case can the caller tell that anything was not loaded.  In the root whose
children are nil and the folder 7, which is not loaded, `GetTotalSizeAndCount` does not
return `errDirNotLoad`: it panics at the nil child, and so do the five list helpers.  And
on the folder 7 at depth 2^63 - 1, not loaded, and on the virtual root at depth 2^63 - 2,
not loaded, `GetAllFoldersAndFilesOnLevel` does not return: its closing loop does not
end, whatever the budget. -/
theorem C18_counterexample :
    ((∃ n ∈ seededRoot.nodes, n.loaded = false) ∧ seededEmpty.fullyLoaded = true ∧
      seededRoot.GetAllPureFiles.map (List.map File.Id) = some [10, 11] ∧
      seededRoot.GetAllFolders.map (List.map File.Id) = some [12, 13] ∧
      seededRoot.GetAllFoldersAndFiles.map (List.map File.Id) = some [12, 13, 10, 11] ∧
      seededRoot.GetAllPureFiles = seededEmpty.GetAllPureFiles ∧
      seededRoot.GetAllFolders = seededEmpty.GetAllFolders ∧
      seededRoot.GetAllFoldersAndFiles = seededEmpty.GetAllFoldersAndFiles ∧
      fixtureRoot.loaded = false ∧ emptyRoot.fullyLoaded = true ∧
      fixtureRoot.GetAllFoldersAndFilesByBfs = some [] ∧
      fixtureRoot.GetAllFoldersAndFilesOnLevel = some [[]] ∧
      fixtureRoot.GetAllFoldersAndFilesByBfs = emptyRoot.GetAllFoldersAndFilesByBfs ∧
      fixtureRoot.GetAllFoldersAndFilesOnLevel = emptyRoot.GetAllFoldersAndFilesOnLevel) ∧
    (nilAndFolder.subDirs.map (Option.map (fun n => (n.originInfo.Id, n.loaded))) =
        [none, some (7, false)] ∧
      nilAndFolder.GetTotalSizeAndCount = (0, 0, Exit.panic) ∧
      nilAndFolder.GetAllPureFiles = none ∧ nilAndFolder.GetAllFolders = none ∧
      nilAndFolder.GetAllFoldersAndFiles = none ∧
      nilAndFolder.GetAllFoldersAndFilesByBfs = none ∧
      nilAndFolder.GetAllFoldersAndFilesOnLevel = none) ∧
    (deepUnloaded.loaded = false ∧ deepUnloaded.depth = 9223372036854775807 ∧
      deepUnloaded.GetAllFoldersAndFilesByBfs = some [folderDesc 7 0] ∧
      (deepUnloaded.BfsWithFunc (some addLevelFoldersAndFiles)
        ⟨deepUnloaded.levelInit, []⟩).2 = Exit.error Err.errDirNotLoad ∧
      deepUnloaded.GetAllFoldersAndFilesOnLevel = none ∧
      ∀ fuel : Nat,
        collectLevels deepUnloaded.levelInit.2 deepUnloaded.levelInit.1 fuel
          deepUnloaded.levelInit.1 [] = none) ∧
    (deepVirtualUnloaded.loaded = false ∧ deepVirtualUnloaded.IsVirtualDir = true ∧
      deepVirtualUnloaded.depth = 9223372036854775806 ∧
      deepVirtualUnloaded.GetAllFoldersAndFilesByBfs = some [] ∧
      deepVirtualUnloaded.GetAllFoldersAndFilesOnLevel = none ∧
      ∀ fuel : Nat,
        collectLevels deepVirtualUnloaded.levelInit.2 deepVirtualUnloaded.levelInit.1 fuel
          deepVirtualUnloaded.levelInit.1 [] = none) :=
  ⟨⟨(Dir.not_fullyLoaded_iff seededRoot (by with_unfolding_all decide)).1
      (by with_unfolding_all decide),
    by with_unfolding_all decide, by with_unfolding_all decide, by with_unfolding_all decide,
    by with_unfolding_all decide, by with_unfolding_all decide, by with_unfolding_all decide,
    by with_unfolding_all decide, by with_unfolding_all decide, by with_unfolding_all decide,
    by with_unfolding_all decide, by with_unfolding_all decide, by with_unfolding_all decide,
    by with_unfolding_all decide⟩,
    ⟨by with_unfolding_all decide, by with_unfolding_all decide, by with_unfolding_all decide,
      by with_unfolding_all decide, by with_unfolding_all decide,
      by with_unfolding_all decide, by with_unfolding_all decide⟩,
    ⟨rfl, rfl, by with_unfolding_all decide, by with_unfolding_all decide,
      by with_unfolding_all decide,
      fun fuel => by
        have h : deepUnloaded.levelInit.1 = 9223372036854775807 := by
          with_unfolding_all decide
        rw [h]
        exact collectLevels_diverges _ fuel _ _ (le_refl _)⟩,
    ⟨rfl, by with_unfolding_all decide, rfl, by with_unfolding_all decide,
      by with_unfolding_all decide,
      fun fuel => by
        have h : deepVirtualUnloaded.levelInit.1 = 9223372036854775807 := by
          with_unfolding_all decide
        rw [h]
        exact collectLevels_diverges _ fuel _ _ (le_refl _)⟩⟩

/-- C19: the first error wins and is passed through unchanged.  Let the visit callbacks
and the retrieval function be any functions of the caller: they may change the node they
are handed and what is below it, and they may return any error value, one of the
package's own included.  Let them log what each of their calls returns, and let the walk
start with an empty log, on any tree, nil children included, with any budget.  If some
call returned an error `e` (or panicked), then it is the last call of the log, so no
callback or retrieval call was made after it and none had failed before it, and the walk
returns exactly `e`; this holds for `DfsWithFunc`, for `BfsWithFunc` (which hands its
callback a nil child before it dereferences it) and for `DFSLoad`, which then returns
`(0, 0, e)`. -/
theorem C19_first_error_wins {σ : Type} (d : Dir) (fuel : Nat)
    (pre post callBack : Option (LiveFunc σ)) (retrieve : Option (LiveRetrieve σ))
    (maxDepth numLimit sizeLimit : Int) (w : σ) :
    (∀ (i : Nat) (r : GoRet),
      (DfsWithFuncLive (pre.map loggedLive) (post.map loggedLive) fuel d (w, [])).2.1.2[i]? =
        some r →
      r ≠ GoRet.nil →
      i + 1 =
        (DfsWithFuncLive (pre.map loggedLive) (post.map loggedLive) fuel d
          (w, [])).2.1.2.length ∧
      (DfsWithFuncLive (pre.map loggedLive) (post.map loggedLive) fuel d (w, [])).2.2 =
        r.toExit) ∧
    (∀ (i : Nat) (r : GoRet),
      (d.BfsWithFuncLive fuel (callBack.map loggedLive) (w, [])).1.2[i]? = some r →
      r ≠ GoRet.nil →
      i + 1 = (d.BfsWithFuncLive fuel (callBack.map loggedLive) (w, [])).1.2.length ∧
      (d.BfsWithFuncLive fuel (callBack.map loggedLive) (w, [])).2 = r.toExit) ∧
    (∀ (i : Nat) (r : GoRet),
      (d.DFSLoadLive fuel maxDepth numLimit sizeLimit (retrieve.map loggedLiveRetrieve)
        (pre.map loggedLive) (post.map loggedLive) (w, [])).world.2[i]? = some r →
      r ≠ GoRet.nil →
      i + 1 = (d.DFSLoadLive fuel maxDepth numLimit sizeLimit
        (retrieve.map loggedLiveRetrieve) (pre.map loggedLive) (post.map loggedLive)
        (w, [])).world.2.length ∧
      (d.DFSLoadLive fuel maxDepth numLimit sizeLimit (retrieve.map loggedLiveRetrieve)
        (pre.map loggedLive) (post.map loggedLive) (w, [])).exit = r.toExit ∧
      (d.DFSLoadLive fuel maxDepth numLimit sizeLimit (retrieve.map loggedLiveRetrieve)
        (pre.map loggedLive) (post.map loggedLive) (w, [])).totalSize = 0 ∧
      (d.DFSLoadLive fuel maxDepth numLimit sizeLimit (retrieve.map loggedLiveRetrieve)
        (pre.map loggedLive) (post.map loggedLive) (w, [])).totalCount = 0) := by
  refine ⟨?_, ?_, ?_⟩
  · intro i r hi hr
    exact FirstErrorWinsGo_index (DfsWithFuncLive_wins pre post fuel d (w, []) CleanGo_nil)
      i r hi hr
  · intro i r hi hr
    exact FirstErrorWinsGo_index (BfsWithFuncLive_wins callBack d fuel (w, []) CleanGo_nil)
      i r hi hr
  · intro i r hi hr
    obtain ⟨h1, h2⟩ := FirstErrorWinsGo_index
      (DFSLoadLive_wins d fuel maxDepth numLimit sizeLimit retrieve pre post (w, [])
        CleanGo_nil) i r hi hr
    refine ⟨h1, h2, ?_⟩
    apply DFSLoadLive_totals_fail
    rw [h2]
    exact goRet_toExit_ne_nil hr

/-- C19 on three walks.  `DfsWithFunc` on the fixture after the unrestricted load, with a
pre-order callback that records the ids and fails with the error 5 on the folder 23: the
walk visits 0, 12, 22, 33 and 23, the fifth call is the one that failed and the last one,
and the walk returns the error 5.  `BfsWithFunc` on the root whose one child is nil, with
a callback that fails with the error 9 when it is handed nil: the second call is the one
that failed and the last one, and the walk returns the error 9.  `DFSLoad` on the root of
the fixture with a retrieval function that returns `errTotalSizeLimit`: the first call is
the one that failed and the last one, and `DFSLoad` returns `(0, 0, errTotalSizeLimit)`. -/
theorem C19_first_error_wins_witness :
    ((DfsWithFuncLive ((some (liftFunc (recordIdFailAt 23 5))).map loggedLive)
        ((none : Option (LiveFunc (List Int))).map loggedLive) 10
        (fixtureLoad (-1) (-1) (-1)).dir ([], [])).2.1 =
        ([0, 12, 22, 33, 23],
          [GoRet.nil, GoRet.nil, GoRet.nil, GoRet.nil, GoRet.error (Err.external 5)]) ∧
      4 + 1 = (DfsWithFuncLive ((some (liftFunc (recordIdFailAt 23 5))).map loggedLive)
        ((none : Option (LiveFunc (List Int))).map loggedLive) 10
        (fixtureLoad (-1) (-1) (-1)).dir ([], [])).2.1.2.length ∧
      (DfsWithFuncLive ((some (liftFunc (recordIdFailAt 23 5))).map loggedLive)
        ((none : Option (LiveFunc (List Int))).map loggedLive) 10
        (fixtureLoad (-1) (-1) (-1)).dir ([], [])).2.2 = Exit.error (Err.external 5)) ∧
    ((nilChildRoot.BfsWithFuncLive 10 ((some (failOnNil (Err.external 9))).map loggedLive)
        ([], [])).1 = ([true, false], [GoRet.nil, GoRet.error (Err.external 9)]) ∧
      1 + 1 = (nilChildRoot.BfsWithFuncLive 10
        ((some (failOnNil (Err.external 9))).map loggedLive) ([], [])).1.2.length ∧
      (nilChildRoot.BfsWithFuncLive 10 ((some (failOnNil (Err.external 9))).map loggedLive)
        ([], [])).2 = Exit.error (Err.external 9)) ∧
    ((fixtureRoot.DFSLoadLive 10 (-1) (-1) (-1) ((some sizeLimitStore).map loggedLiveRetrieve)
        ((none : Option (LiveFunc Unit)).map loggedLive)
        ((none : Option (LiveFunc Unit)).map loggedLive) ((), [])).world.2 =
        [GoRet.error Err.errTotalSizeLimit] ∧
      0 + 1 = (fixtureRoot.DFSLoadLive 10 (-1) (-1) (-1)
        ((some sizeLimitStore).map loggedLiveRetrieve)
        ((none : Option (LiveFunc Unit)).map loggedLive)
        ((none : Option (LiveFunc Unit)).map loggedLive) ((), [])).world.2.length ∧
      (fixtureRoot.DFSLoadLive 10 (-1) (-1) (-1) ((some sizeLimitStore).map loggedLiveRetrieve)
        ((none : Option (LiveFunc Unit)).map loggedLive)
        ((none : Option (LiveFunc Unit)).map loggedLive) ((), [])).exit =
        Exit.error Err.errTotalSizeLimit ∧
      (fixtureRoot.DFSLoadLive 10 (-1) (-1) (-1) ((some sizeLimitStore).map loggedLiveRetrieve)
        ((none : Option (LiveFunc Unit)).map loggedLive)
        ((none : Option (LiveFunc Unit)).map loggedLive) ((), [])).totalSize = 0 ∧
      (fixtureRoot.DFSLoadLive 10 (-1) (-1) (-1) ((some sizeLimitStore).map loggedLiveRetrieve)
        ((none : Option (LiveFunc Unit)).map loggedLive)
        ((none : Option (LiveFunc Unit)).map loggedLive) ((), [])).totalCount = 0) :=
  ⟨⟨by with_unfolding_all decide,
      (C19_first_error_wins (fixtureLoad (-1) (-1) (-1)).dir 10
        (some (liftFunc (recordIdFailAt 23 5))) none none
        (none : Option (LiveRetrieve (List Int))) 0 0 0 []).1 4
        (GoRet.error (Err.external 5)) (by with_unfolding_all decide) (by decide)⟩,
    ⟨by with_unfolding_all decide,
      (C19_first_error_wins nilChildRoot 10 none none (some (failOnNil (Err.external 9)))
        (none : Option (LiveRetrieve (List Bool))) 0 0 0 []).2.1 1
        (GoRet.error (Err.external 9)) (by with_unfolding_all decide) (by decide)⟩,
    ⟨by with_unfolding_all decide,
      (C19_first_error_wins fixtureRoot 10 none none none (some sizeLimitStore)
        (-1) (-1) (-1) ()).2.2 0
        (GoRet.error Err.errTotalSizeLimit) (by with_unfolding_all decide) (by decide)⟩⟩

/-- C20: manual pre-seeding is equivalent to letting the loader fetch the first level.
For every deterministic retrieval function that does not fail, every triple of limits and
every root that is not loaded, with no callbacks: `FillDirNoRecurse` on the root with the
lists that the retrieval function returns for the root succeeds, and `DFSLoad` after it
returns the same `(totalSize, totalCount, error)` as `DFSLoad` on the root as it was; and
whenever the load succeeds the two resulting trees are equal, node for node. -/
theorem C20_preseed_equiv {σ : Type} (g : Int → Int → List File × List File) (d : Dir)
    (hl : d.loaded = false) (maxDepth numLimit sizeLimit : Int)
    (hm : maxDepth < 9223372036854775808) (c : Ctx σ) :
    (d.FillDirNoRecurse (g d.originInfo.VolumeId d.originInfo.Id).1
      (g d.originInfo.VolumeId d.originInfo.Id).2).2 = none ∧
    ((d.FillDirNoRecurse (g d.originInfo.VolumeId d.originInfo.Id).1
      (g d.originInfo.VolumeId d.originInfo.Id).2).1.DFSLoad maxDepth numLimit sizeLimit
        (some (pureRetrieve g)) none none c).totalSize =
      (d.DFSLoad maxDepth numLimit sizeLimit (some (pureRetrieve g)) none none c).totalSize ∧
    ((d.FillDirNoRecurse (g d.originInfo.VolumeId d.originInfo.Id).1
      (g d.originInfo.VolumeId d.originInfo.Id).2).1.DFSLoad maxDepth numLimit sizeLimit
        (some (pureRetrieve g)) none none c).totalCount =
      (d.DFSLoad maxDepth numLimit sizeLimit (some (pureRetrieve g)) none none c).totalCount ∧
    ((d.FillDirNoRecurse (g d.originInfo.VolumeId d.originInfo.Id).1
      (g d.originInfo.VolumeId d.originInfo.Id).2).1.DFSLoad maxDepth numLimit sizeLimit
        (some (pureRetrieve g)) none none c).exit =
      (d.DFSLoad maxDepth numLimit sizeLimit (some (pureRetrieve g)) none none c).exit ∧
    ((d.DFSLoad maxDepth numLimit sizeLimit (some (pureRetrieve g)) none none c).exit =
        Exit.nil →
      ((d.FillDirNoRecurse (g d.originInfo.VolumeId d.originInfo.Id).1
        (g d.originInfo.VolumeId d.originInfo.Id).2).1.DFSLoad maxDepth numLimit sizeLimit
          (some (pureRetrieve g)) none none c).dir =
        (d.DFSLoad maxDepth numLimit sizeLimit (some (pureRetrieve g)) none none c).dir) := by
  have hfill : (d.FillDirNoRecurse (g d.originInfo.VolumeId d.originInfo.Id).1
      (g d.originInfo.VolumeId d.originInfo.Id).2).2 = none := by
    rw [FillDirNoRecurse_unloaded d _ _ hl]
  have hinfo := dfsInfoInit_congr
    (FillDirNoRecurse_originInfo d (g d.originInfo.VolumeId d.originInfo.Id).1
      (g d.originInfo.VolumeId d.originInfo.Id).2) maxDepth numLimit sizeLimit
  have hseed := @dfsLoadDir_seeded σ g d hl
  generalize (d.FillDirNoRecurse (g d.originInfo.VolumeId d.originInfo.Id).1
    (g d.originInfo.VolumeId d.originInfo.Id).2).1 = seeded at hinfo hseed ⊢
  refine ⟨hfill, ?_⟩
  obtain ⟨k, hk⟩ : ∃ k, max (d.loadFuel (d.dfsInfoInit maxDepth numLimit sizeLimit).maxDepth)
      (seeded.loadFuel (d.dfsInfoInit maxDepth numLimit sizeLimit).maxDepth) = k + 1 := by
    have := Dir.loadFuel_pos (d.dfsInfoInit maxDepth numLimit sizeLimit).maxDepth d
    exact ⟨max (d.loadFuel (d.dfsInfoInit maxDepth numLimit sizeLimit).maxDepth)
      (seeded.loadFuel (d.dfsInfoInit maxDepth numLimit sizeLimit).maxDepth) - 1, by omega⟩
  have hA := loadRun_eq_of_le d maxDepth numLimit sizeLimit hm (some (pureRetrieve g)) none
    none c (k + 1) (by rw [← hk]; exact le_max_left _ _)
  have hB := loadRun_eq_of_le seeded maxDepth numLimit sizeLimit hm (some (pureRetrieve g))
    none none c (k + 1) (by rw [hinfo, ← hk]; exact le_max_right _ _)
  rw [hinfo] at hB
  obtain ⟨s1, s2, s3⟩ := hseed k ⟨d.dfsInfoInit maxDepth numLimit sizeLimit, c⟩
  rw [← hA, ← hB] at s1 s2 s3
  have hexit : (seeded.DFSLoad maxDepth numLimit sizeLimit (some (pureRetrieve g)) none none
      c).exit =
      (d.DFSLoad maxDepth numLimit sizeLimit (some (pureRetrieve g)) none none c).exit := by
    rw [DFSLoad_exit, DFSLoad_exit, s2]
  by_cases hnil : (d.loadRun maxDepth numLimit sizeLimit (some (pureRetrieve g)) none none
      c).2.2 = Exit.nil
  · obtain ⟨a1, a2⟩ := DFSLoad_totals d maxDepth numLimit sizeLimit (some (pureRetrieve g))
      none none c hnil
    obtain ⟨b1, b2⟩ := DFSLoad_totals seeded maxDepth numLimit sizeLimit
      (some (pureRetrieve g)) none none c (s2.trans hnil)
    refine ⟨by rw [a1, b1, s1], by rw [a2, b2, s1], hexit, fun _ => ?_⟩
    rw [DFSLoad_dir, DFSLoad_dir, s3 hnil]
  · obtain ⟨a1, a2⟩ := DFSLoad_totals_fail d maxDepth numLimit sizeLimit
      (some (pureRetrieve g)) none none c hnil
    obtain ⟨b1, b2⟩ := DFSLoad_totals_fail seeded maxDepth numLimit sizeLimit
      (some (pureRetrieve g)) none none c (by rw [s2]; exact hnil)
    refine ⟨by rw [a1, b1], by rw [a2, b2], hexit, fun h => ?_⟩
    rw [DFSLoad_exit] at h
    exact absurd h hnil

/-- C20 at the fixture, as in `ExampleManualLoadTraverse` and `ExampleTraverse`: the
virtual root filled by hand with what the mock returns for it and then loaded with
`maxDepth = 10`, against the root loaded directly.  Both return `(10, 19, nil)` and leave
the same tree. -/
theorem C20_preseed_equiv_witness :
    fixtureRoot.loaded = false ∧
    (fixtureRoot.DFSLoad 10 (-1) (-1)
      (some (pureRetrieve (fun _ folderId => mockAnswer buildTreeForTest folderId)))
      none none ⟨(), []⟩).exit = Exit.nil ∧
    (seededRoot.DFSLoad 10 (-1) (-1)
      (some (pureRetrieve (fun _ folderId => mockAnswer buildTreeForTest folderId)))
      none none ⟨(), []⟩).exit = Exit.nil ∧
    (seededRoot.DFSLoad 10 (-1) (-1)
      (some (pureRetrieve (fun _ folderId => mockAnswer buildTreeForTest folderId)))
      none none ⟨(), []⟩).totalSize = 10 ∧
    (seededRoot.DFSLoad 10 (-1) (-1)
      (some (pureRetrieve (fun _ folderId => mockAnswer buildTreeForTest folderId)))
      none none ⟨(), []⟩).totalCount = 19 ∧
    (seededRoot.DFSLoad 10 (-1) (-1)
      (some (pureRetrieve (fun _ folderId => mockAnswer buildTreeForTest folderId)))
      none none ⟨(), []⟩).dir =
    (fixtureRoot.DFSLoad 10 (-1) (-1)
      (some (pureRetrieve (fun _ folderId => mockAnswer buildTreeForTest folderId)))
      none none ⟨(), []⟩).dir := by
  have h := @C20_preseed_equiv Unit
    (fun _ folderId => mockAnswer buildTreeForTest folderId) fixtureRoot rfl 10 (-1) (-1)
    (by decide) ⟨(), []⟩
  have hx : (fixtureRoot.DFSLoad 10 (-1) (-1)
      (some (pureRetrieve (fun _ folderId => mockAnswer buildTreeForTest folderId)))
      none none ⟨(), []⟩).exit = Exit.nil := by with_unfolding_all decide
  exact ⟨rfl, hx, h.2.2.2.1.trans hx, by with_unfolding_all decide,
    by with_unfolding_all decide, h.2.2.2.2 hx⟩

/-- C21, as amended: for every `virtualFolderId ≤ 0` and every `volumeId`,
`NewVirtualDir(virtualFolderId, volumeId, typeFolder)` returns a node that is not loaded,
of depth 0, with `count` and `size` unknown (-1), no children, and a descriptor with the
given id and volume and the parent id unknown (-1); `IsVirtualDir` reports true for it.
So it is not counted in `DFSLoad`'s `totalCount`: the count starts at 0, and after a
`DFSLoad` that returns nil, with any retrieval function, callbacks and limits, the
`totalCount` is the `int64` sum of the nodes' counts, with nothing added for the root.
And it is not returned by `GetAllFolders`: on the node itself, and on the tree that a
`DFSLoad` leaves, `GetAllFolders` is only what the walk collects from the traversed nodes
(after a `DFSLoad` that returns nil, the descriptors of the sub-directories of the nodes,
in pre-order), with no root descriptor in front. -/
theorem C21_virtual_dir {σ : Type} (virtualFolderId volumeId : Int)
    (hv : virtualFolderId ≤ 0) :
    ∃ d, NewVirtualDir virtualFolderId volumeId typeFolder = some d ∧
      d.loaded = false ∧ d.depth = 0 ∧ d.count = -1 ∧ d.size = -1 ∧
      d.subDirs = [] ∧ d.subFiles = [] ∧
      d.originInfo.Id = virtualFolderId ∧ d.originInfo.VolumeId = volumeId ∧
      d.originInfo.ParentId = -1 ∧ d.originInfo.IsFolder = true ∧
      d.IsVirtualDir = true ∧
      d.GetAllFolders = d.dfsEntries addSubFolders ∧
      ∀ (maxDepth numLimit sizeLimit : Int)
        (retrieve : Option (RetrieveNextDepthFilesFunc σ)) (pre post : Option (DirFunc σ))
        (c : Ctx σ),
        (d.dfsInfoInit maxDepth numLimit sizeLimit).totalCount = 0 ∧
        (d.DFSLoad maxDepth numLimit sizeLimit retrieve pre post c).dir.IsVirtualDir = true ∧
        (d.DFSLoad maxDepth numLimit sizeLimit retrieve pre post c).dir.GetAllFolders =
          (d.DFSLoad maxDepth numLimit sizeLimit retrieve pre post c).dir.dfsEntries
            addSubFolders ∧
        ((d.DFSLoad maxDepth numLimit sizeLimit retrieve pre post c).exit = Exit.nil →
          (d.DFSLoad maxDepth numLimit sizeLimit retrieve pre post c).totalCount =
            wrap64 ((d.DFSLoad maxDepth numLimit sizeLimit retrieve pre post c).dir.nodes.map
              Dir.count).sum ∧
          (d.DFSLoad maxDepth numLimit sizeLimit retrieve pre post c).dir.GetAllFolders =
            some ((d.DFSLoad maxDepth numLimit sizeLimit retrieve pre post
              c).dir.nodes.flatMap Dir.subFolders)) := by
  have hvirt : (Dir.mk ⟨virtualFolderId, unKnown, volumeId, "", typeFolder, 0, 0, 0, 0, 0, 0⟩
      [] [] 0 unKnown unKnown false).IsVirtualDir = true := by
    unfold Dir.IsVirtualDir
    exact decide_eq_true hv
  have hentries : ∀ t : Dir, t.IsVirtualDir = true →
      t.GetAllFolders = t.dfsEntries addSubFolders := by
    intro t ht
    rw [GetAllFolders_entries, rootEntry_virtual t ht, option_map_nil_append]
  refine ⟨Dir.mk ⟨virtualFolderId, unKnown, volumeId, "", typeFolder, 0, 0, 0, 0, 0, 0⟩
    [] [] 0 unKnown unKnown false, rfl, rfl, rfl, rfl, rfl, rfl, rfl, rfl, rfl, rfl, rfl,
    hvirt, hentries _ hvirt, ?_⟩
  intro maxDepth numLimit sizeLimit retrieve pre post c
  have hv2 : ((Dir.mk ⟨virtualFolderId, unKnown, volumeId, "", typeFolder, 0, 0, 0, 0, 0, 0⟩
      [] [] 0 unKnown unKnown false).DFSLoad maxDepth numLimit sizeLimit retrieve pre post
        c).dir.IsVirtualDir = true := by
    rw [DFSLoad_dir, IsVirtualDir_congr (loadRun_originInfo _ _ _ _ _ _ _ _)]
    exact hvirt
  refine ⟨?_, hv2, hentries _ hv2, ?_⟩
  · rw [dfsInfoInit_totalCount, hvirt]
    rfl
  · intro h
    rw [DFSLoad_exit] at h
    obtain ⟨_, ht2⟩ := DFSLoad_totals _ maxDepth numLimit sizeLimit retrieve pre post c h
    obtain ⟨k1, k2, _⟩ := dfsLoadDir_nil_fold retrieve pre post _ _ _ h
    constructor
    · rw [ht2, DFSLoad_dir]
      have k2' := k2
      rw [show ((Dir.mk ⟨virtualFolderId, unKnown, volumeId, "", typeFolder, 0, 0, 0, 0, 0, 0⟩
          [] [] 0 unKnown unKnown false).dfsInfoInit maxDepth numLimit sizeLimit).totalCount =
          wrap64 0 by rw [dfsInfoInit_totalCount, hvirt, wrap64_zero]; rfl,
        foldl_wrap64_map Dir.count, zero_add] at k2'
      exact k2'
    · have hfull : ((Dir.mk ⟨virtualFolderId, unKnown, volumeId, "", typeFolder, 0, 0, 0, 0,
          0, 0⟩ [] [] 0 unKnown unKnown false).DFSLoad maxDepth numLimit sizeLimit retrieve
            pre post c).dir.fullyLoaded = true := by
        rw [DFSLoad_dir]; exact k1
      rw [GetAllFolders_flatMap _ hfull, rootEntry_virtual _ hv2, List.nil_append]

/-- C21 at the fixture: `newNewVirtualDirForTest` calls `NewVirtualDir(0, 1, typeFolder)`;
the node is virtual, the unrestricted load of the tests counts 19 entries, none of them
the root, and `GetAllFolders` then returns the nine folders below the root. -/
theorem C21_virtual_dir_witness :
    (0 : Int) ≤ 0 ∧ newNewVirtualDirForTest = some fixtureRoot ∧
    fixtureRoot.IsVirtualDir = true ∧ fixtureRoot.loaded = false ∧
    fixtureRoot.GetAllFolders = some [] ∧
    (fixtureLoad (-1) (-1) (-1)).totalCount = 19 ∧
    (((fixtureLoad (-1) (-1) (-1)).dir.nodes.map Dir.count).sum) = 19 ∧
    ((fixtureLoad (-1) (-1) (-1)).dir.GetAllFolders.map (List.map File.Id)) =
      some [12, 13, 22, 23, 33, 35, 36, 24, 37] ∧
    ∃ d, NewVirtualDir 0 1 typeFolder = some d ∧ d.IsVirtualDir = true ∧
      d.GetAllFolders = d.dfsEntries addSubFolders := by
  obtain ⟨d, h1, _, _, _, _, _, _, _, _, _, _, h2, h3, _⟩ :=
    @C21_virtual_dir Unit 0 1 (le_refl 0)
  exact ⟨le_refl 0, rfl, by decide, rfl, by with_unfolding_all decide,
    by with_unfolding_all decide, by with_unfolding_all decide,
    by with_unfolding_all decide, d, h1, h2, h3⟩

/-- C21 as stated fails for a positive id.  `NewVirtualDir(5, 1, typeFolder)` returns a
node for which `IsVirtualDir` reports false (the test is `Id <= 0`); loaded from a store
in which every folder is empty, `DFSLoad` returns the `totalCount` 1, the root itself,
and `GetAllFolders` returns the root's descriptor. -/
theorem C21_counterexample :
    NewVirtualDir 5 1 typeFolder = some rootFive ∧
    rootFive.IsVirtualDir = false ∧
    (rootFive.DFSLoad (-1) (-1) (-1) (some emptyStore) none none ⟨(), []⟩).exit = Exit.nil ∧
    (rootFive.DFSLoad (-1) (-1) (-1) (some emptyStore) none none ⟨(), []⟩).totalCount = 1 ∧
    (rootFive.DFSLoad (-1) (-1) (-1) (some emptyStore) none none ⟨(), []⟩).dir.nodes.map
      Dir.count = [0] ∧
    (rootFive.DFSLoad (-1) (-1) (-1) (some emptyStore) none none
      ⟨(), []⟩).dir.GetAllFolders = some [rootFive.originInfo] :=
  ⟨rfl, by decide, by with_unfolding_all decide, by with_unfolding_all decide,
    by with_unfolding_all decide, by with_unfolding_all decide⟩

/-- C22, as amended: `DFSLoad` without a retrieval function, on every tree without nil
children, with callbacks that do not fail and do not change the tree, and any limits.  The
tree is left as it is, and the call ends as the checks of `dfsLoadDir` decide on the
nodes in pre-order (`walkLoaded`): it
fails with `errNoRetrieveNextDepthFilesFunc` exactly when the walk reaches a node that is
not loaded (a folder below the depth limit) before any other check has failed, that is,
when every node before it in pre-order is loaded and those nodes respect the limits.  On a
fully loaded tree, with any retrieval function or none, `DFSLoad` returns nil exactly when
the nodes respect the limits; it leaves the tree unchanged, calls the retrieval function
zero times, and when it returns nil its totals are those of `GetTotalSizeAndCount`.  So
after a `DFSLoad` that returned nil, a second `DFSLoad` with the same limits returns nil
too, with the same totals, the same tree and no call of the retrieval function. -/
theorem C22_load_without_retrieve {σ : Type} (d : Dir) (hn : d.noNil = true)
    (pre post : Option (DirFunc σ)) (hpre : NonFailing pre) (hpost : NonFailing post)
    (maxDepth numLimit sizeLimit : Int) (hm : maxDepth < 9223372036854775808) (c : Ctx σ) :
    ((d.DFSLoad maxDepth numLimit sizeLimit none pre post c).dir = d ∧
      (d.DFSLoad maxDepth numLimit sizeLimit none pre post c).exit =
        (walkLoaded (d.dfsInfoInit maxDepth numLimit sizeLimit) d.nodes).2 ∧
      ((d.DFSLoad maxDepth numLimit sizeLimit none pre post c).exit =
          Exit.error Err.errNoRetrieveNextDepthFilesFunc ↔
        ∃ before n after, d.nodes = before ++ n :: after ∧
          (∀ m ∈ before, m.loaded = true) ∧
          WithinLimits (d.dfsInfoInit maxDepth numLimit sizeLimit) before ∧
          n.loaded = false ∧ n.originInfo.IsFolder = true ∧
          n.depth < (d.dfsInfoInit maxDepth numLimit sizeLimit).maxDepth)) ∧
    (d.fullyLoaded = true → ∀ retrieve : Option (RetrieveNextDepthFilesFunc σ),
      ((d.DFSLoad maxDepth numLimit sizeLimit retrieve pre post c).exit = Exit.nil ↔
        WithinLimits (d.dfsInfoInit maxDepth numLimit sizeLimit) d.nodes) ∧
      (d.DFSLoad maxDepth numLimit sizeLimit retrieve pre post c).dir = d ∧
      (∃ new, (d.DFSLoad maxDepth numLimit sizeLimit retrieve pre post c).ctx.trace =
        c.trace ++ new ∧ NoRetrieve new) ∧
      ((d.DFSLoad maxDepth numLimit sizeLimit retrieve pre post c).exit = Exit.nil →
        d.GetTotalSizeAndCount =
          ((d.DFSLoad maxDepth numLimit sizeLimit retrieve pre post c).totalSize,
            (d.DFSLoad maxDepth numLimit sizeLimit retrieve pre post c).totalCount,
            Exit.nil))) ∧
    (∀ (t : Dir) (first again : Option (RetrieveNextDepthFilesFunc σ))
      (pre1 post1 : Option (DirFunc σ)) (c1 : Ctx σ),
      (t.DFSLoad maxDepth numLimit sizeLimit first pre1 post1 c1).exit = Exit.nil →
      ((t.DFSLoad maxDepth numLimit sizeLimit first pre1 post1 c1).dir.DFSLoad
        maxDepth numLimit sizeLimit again pre post c).exit = Exit.nil ∧
      ((t.DFSLoad maxDepth numLimit sizeLimit first pre1 post1 c1).dir.DFSLoad
        maxDepth numLimit sizeLimit again pre post c).dir =
        (t.DFSLoad maxDepth numLimit sizeLimit first pre1 post1 c1).dir ∧
      ((t.DFSLoad maxDepth numLimit sizeLimit first pre1 post1 c1).dir.DFSLoad
        maxDepth numLimit sizeLimit again pre post c).totalSize =
        (t.DFSLoad maxDepth numLimit sizeLimit first pre1 post1 c1).totalSize ∧
      ((t.DFSLoad maxDepth numLimit sizeLimit first pre1 post1 c1).dir.DFSLoad
        maxDepth numLimit sizeLimit again pre post c).totalCount =
        (t.DFSLoad maxDepth numLimit sizeLimit first pre1 post1 c1).totalCount ∧
      ∃ new,
        ((t.DFSLoad maxDepth numLimit sizeLimit first pre1 post1 c1).dir.DFSLoad
          maxDepth numLimit sizeLimit again pre post c).ctx.trace = c.trace ++ new ∧
        NoRetrieve new) := by
  obtain ⟨h1, h2, _⟩ := DFSLoad_none d hn pre post hpre hpost maxDepth numLimit sizeLimit hm c
  refine ⟨⟨h1, h2, ?_⟩, ?_, ?_⟩
  · rw [h2]
    exact walkLoaded_noRetrieve_iff _ _
  · intro hf retrieve
    exact DFSLoad_fullyLoaded d hf pre post hpre hpost maxDepth numLimit sizeLimit hm
      retrieve c
  · intro t first again pre1 post1 c1 hx
    obtain ⟨hfull, htot⟩ :=
      DFSLoad_nil_totals t maxDepth numLimit sizeLimit first pre1 post1 c1 hx
    have hwithin := DFSLoad_nil_within t maxDepth numLimit sizeLimit first pre1 post1 c1 hx
    obtain ⟨k1, k2, k3, k4⟩ := DFSLoad_fullyLoaded _ hfull pre post hpre hpost maxDepth
      numLimit sizeLimit hm again c
    have hx2 := k1.2 hwithin
    have ht2 := k4 hx2
    rw [htot] at ht2
    have hs : (t.DFSLoad maxDepth numLimit sizeLimit first pre1 post1 c1).totalSize =
        ((t.DFSLoad maxDepth numLimit sizeLimit first pre1 post1 c1).dir.DFSLoad
          maxDepth numLimit sizeLimit again pre post c).totalSize :=
      congrArg Prod.fst ht2
    have hc : (t.DFSLoad maxDepth numLimit sizeLimit first pre1 post1 c1).totalCount =
        ((t.DFSLoad maxDepth numLimit sizeLimit first pre1 post1 c1).dir.DFSLoad
          maxDepth numLimit sizeLimit again pre post c).totalCount :=
      congrArg (fun x => x.2.1) ht2
    exact ⟨hx2, k2, hs.symm, hc.symm, k3⟩

/-- C22 at the fixture.  With only the first level loaded and no retrieval function,
`DFSLoad` fails with `errNoRetrieveNextDepthFilesFunc` at the folder 12; with the count
limit 3 it fails at the root, with `errFileNumLimit`, before it reaches a folder that is
not loaded.  After the unrestricted load of the tests, `DFSLoad` without a retrieval
function returns `(10, 19, nil)` as the first load did and leaves the tree unchanged. -/
theorem C22_load_without_retrieve_witness :
    seededRoot.noNil = true ∧ (10 : Int) < 9223372036854775808 ∧
    (seededRoot.DFSLoad 10 (-1) (-1) none none none ⟨(), []⟩).exit =
      Exit.error Err.errNoRetrieveNextDepthFilesFunc ∧
    (seededRoot.DFSLoad 10 3 (-1) none none none ⟨(), []⟩).exit =
      Exit.error Err.errFileNumLimit ∧
    (seededRoot.DFSLoad 10 (-1) (-1) none none none ⟨(), []⟩).dir = seededRoot ∧
    (fixtureLoad 10 (-1) (-1)).exit = Exit.nil ∧
    ((fixtureLoad 10 (-1) (-1)).dir.DFSLoad 10 (-1) (-1) none none none ⟨(), []⟩).exit =
      Exit.nil ∧
    ((fixtureLoad 10 (-1) (-1)).dir.DFSLoad 10 (-1) (-1) none none none ⟨(), []⟩).dir =
      (fixtureLoad 10 (-1) (-1)).dir ∧
    ((fixtureLoad 10 (-1) (-1)).dir.DFSLoad 10 (-1) (-1) none none none ⟨(), []⟩).totalSize =
      10 ∧
    ((fixtureLoad 10 (-1) (-1)).dir.DFSLoad 10 (-1) (-1) none none none
      ⟨(), []⟩).totalCount = 19 := by
  have hn : seededRoot.noNil = true := by with_unfolding_all decide
  have hnf : NonFailing (none : Option (DirFunc Unit)) := fun g h => by cases h
  have h := C22_load_without_retrieve seededRoot hn none none hnf hnf 10 (-1) (-1)
    (by decide) ⟨(), []⟩
  have hx : (fixtureLoad 10 (-1) (-1)).exit = Exit.nil := by with_unfolding_all decide
  obtain ⟨a1, a2, a3, a4, _⟩ := h.2.2 fixtureRoot (some (getSubFilesMock buildTreeForTest))
    none none none ⟨(), []⟩ hx
  have hs : (fixtureLoad 10 (-1) (-1)).totalSize = 10 := by with_unfolding_all decide
  have hc : (fixtureLoad 10 (-1) (-1)).totalCount = 19 := by with_unfolding_all decide
  exact ⟨hn, by decide, by with_unfolding_all decide, by with_unfolding_all decide,
    h.1.1, hx, a1, a2, a3.trans hs, a4.trans hc⟩

/-- C22 as stated fails on a tree with a nil child, and with a callback that changes the
tree.  The root whose one child is nil is loaded and is the only node, a folder of depth 0
with `count = 1` and `size = 0`, within the default limits; yet `DFSLoad` without a
retrieval function does not succeed: it panics at the nil child.  On the root of the
fixture, which is not loaded, `DFSLoad` without a retrieval function and with a pre-order
callback that fills the node it is handed, and never fails, does not fail with
`errNoRetrieveNextDepthFilesFunc`: it returns `(0, 0, nil)` and the root is loaded
afterwards.  And on the fixture with only its first level loaded, with a pre-order
callback that fills the children of the node it is handed, it returns `(2, 4, nil)` and
every node is loaded afterwards. -/
theorem C22_counterexample :
    (Built nilChildRoot ∧ nilChildRoot.subDirs = [none] ∧
      nilChildRoot.nodes.map
        (fun n => (n.originInfo.Id, n.loaded, n.originInfo.IsFolder, n.depth, n.count,
          n.size)) = [(0, true, true, 0, 1, 0)] ∧
      (nilChildRoot.DFSLoad (-1) (-1) (-1) (none : Option (RetrieveNextDepthFilesFunc Unit))
        none none ⟨(), []⟩).exit = Exit.panic) ∧
    (fixtureRoot.loaded = false ∧
      (fixtureRoot.DFSLoadLive 10 (-1) (-1) (-1) none (some fillSelf) none ()).exit =
        Exit.nil ∧
      (fixtureRoot.DFSLoadLive 10 (-1) (-1) (-1) none (some fillSelf) none ()).totalSize =
        0 ∧
      (fixtureRoot.DFSLoadLive 10 (-1) (-1) (-1) none (some fillSelf) none ()).totalCount =
        0 ∧
      (fixtureRoot.DFSLoadLive 10 (-1) (-1) (-1) none (some fillSelf) none ()).dir.loaded =
        true) ∧
    (seededRoot.nodes.map (fun n => (n.originInfo.Id, n.loaded)) =
        [(0, true), (12, false), (13, false)] ∧
      (seededRoot.DFSLoadLive 10 (-1) (-1) (-1) none (some fillSubDirs) none ()).exit =
        Exit.nil ∧
      (seededRoot.DFSLoadLive 10 (-1) (-1) (-1) none (some fillSubDirs) none ()).totalSize =
        2 ∧
      (seededRoot.DFSLoadLive 10 (-1) (-1) (-1) none (some fillSubDirs) none ()).totalCount =
        4 ∧
      (seededRoot.DFSLoadLive 10 (-1) (-1) (-1) none (some fillSubDirs) none ()).dir.nodes.map
        (fun n => (n.originInfo.Id, n.loaded)) = [(0, true), (12, true), (13, true)]) := by
  refine ⟨⟨?_, by with_unfolding_all rfl, by with_unfolding_all decide,
    by with_unfolding_all decide⟩,
    ⟨rfl, by with_unfolding_all decide, by with_unfolding_all decide,
      by with_unfolding_all decide, by with_unfolding_all decide⟩,
    by with_unfolding_all decide, by with_unfolding_all decide, by with_unfolding_all decide,
    by with_unfolding_all decide, by with_unfolding_all decide⟩
  exact Built.fill (d := fixtureRoot) [] [] [smallFile]
    (Built.newDir ⟨0, unKnown, 1, "", typeFolder, 0, 0, 0, 0, 0, 0⟩ 0 unKnown unKnown rfl)

/-- C23, as amended: for every loaded root of a tree without nil children in which each
child is at its parent's depth plus one and every depth is below 2^63 - 2,
`GetAllFoldersAndFilesOnLevel` returns.  If the root is virtual, the first list is the
root's own direct children, the descriptors of its sub-folders first and then its files
(what `GetSubFoldersAndFiles` returns for the root).  If the root is not virtual, the first
list holds the root's own descriptor and nothing else, and the root's direct children are
the second list.  The number of lists is `maxLevel - minLevel + 1`, which is the height of
the tree, plus one for a root that is not virtual.  Each level of the tree has its list,
holding what the directories of the level contribute, and a level whose directories have
no entries has the empty list. -/
theorem C23_first_level (d : Dir) (hl : d.loaded = true) (hn : d.noNil = true)
    (hd : d.depthsOk = true)
    (hb : ∀ n ∈ d.nodes, -9223372036854775808 ≤ n.depth ∧ n.depth < 9223372036854775806) :
    ∃ levels : List (List File),
      d.GetAllFoldersAndFilesOnLevel = some levels ∧
      d.GetSubFoldersAndFiles = some (d.subFolders ++ d.subFiles) ∧
      (d.IsVirtualDir = true → levels[0]? = some (d.subFolders ++ d.subFiles)) ∧
      (d.IsVirtualDir = false →
        levels[0]? = some [d.originInfo] ∧ levels[1]? = some (d.subFolders ++ d.subFiles)) ∧
      (levels.length : Int) =
        (d.BfsWithFunc (some addLevelFoldersAndFiles) ⟨d.levelInit, []⟩).1.world.1 -
          d.levelInit.1 + 1 ∧
      levels.length = d.height + (if d.IsVirtualDir then 0 else 1) ∧
      (∀ (j : Nat) (l : List Dir), d.levels[j]? = some l →
        levels[j + (if d.IsVirtualDir then 0 else 1)]? =
          some (l.flatMap Dir.foldersAndFiles)) ∧
      (∀ (j : Nat) (l : List Dir), d.levels[j]? = some l →
        (∀ n ∈ l, n.subDirs = [] ∧ n.subFiles = []) →
        levels[j + (if d.IsVirtualDir then 0 else 1)]? = some []) := by
  obtain ⟨hmin, hmax⟩ := levelInit_bounds d hl hn hd hb
  have hlen := Dir.levels_length d hn
  have hfirst : d.levels[0]? = some [d] := by rw [Dir.levels_eq, List.getElem?_cons_zero]
  have hown : [d].flatMap Dir.foldersAndFiles = d.subFolders ++ d.subFiles := by
    simp [Dir.foldersAndFiles]
  have hget : ∀ (j : Nat) (l : List Dir), d.levels[j]? = some l →
      ((if d.IsVirtualDir then [] else [[d.originInfo]]) ++
        d.levels.map (fun l => l.flatMap Dir.foldersAndFiles))[j +
          (if d.IsVirtualDir then 0 else 1)]? = some (l.flatMap Dir.foldersAndFiles) := by
    intro j l hj
    cases d.IsVirtualDir with
    | true =>
      simp only [if_true, List.nil_append, Nat.add_zero]
      rw [List.getElem?_map, hj]
      rfl
    | false =>
      simp only [Bool.false_eq_true, if_false]
      rw [List.singleton_append, List.getElem?_cons_succ, List.getElem?_map, hj]
      rfl
  refine ⟨_, GetAllFoldersAndFilesOnLevel_levels d hl hn hd hb,
    by rw [GetSubFoldersAndFiles_noNil d hn]; rfl, ?_, ?_, ?_, ?_, hget, ?_⟩
  · intro hv
    have h0 := hget 0 [d] hfirst
    rw [hv] at h0 ⊢
    rw [hown] at h0
    exact h0
  · intro hv
    have h0 := hget 0 [d] hfirst
    rw [hv] at h0 ⊢
    rw [hown] at h0
    refine ⟨?_, h0⟩
    simp only [Bool.false_eq_true, if_false, List.singleton_append, List.getElem?_cons_zero]
  · rw [hmin, hmax, List.length_append, List.length_map, hlen]
    cases d.IsVirtualDir with
    | true => simp only [if_true, List.length_nil]; push_cast; omega
    | false => simp only [Bool.false_eq_true, if_false, List.length_singleton]; push_cast; omega
  · rw [List.length_append, List.length_map, hlen]
    cases d.IsVirtualDir with
    | true => simp
    | false => simp only [Bool.false_eq_true, if_false, List.length_singleton]; omega
  · intro j l hj hempty
    rw [hget j l hj]
    have : l.flatMap Dir.foldersAndFiles = [] := by
      rw [List.flatMap_eq_nil_iff]
      intro n hnl
      obtain ⟨h1, h2⟩ := hempty n hnl
      unfold Dir.foldersAndFiles Dir.subFolders
      rw [h1, h2]
      rfl
    rw [this]

/-- C23 at the fixture after the unrestricted load: a virtual root, four lists, and the
first is the root's own children, the folders 12 and 13 and then the files 10 and 11.  At
the virtual root filled with nothing there is one level, which is empty. -/
theorem C23_first_level_witness :
    (fixtureLoad (-1) (-1) (-1)).dir.IsVirtualDir = true ∧
    (fixtureLoad (-1) (-1) (-1)).dir.loaded = true ∧
    ((fixtureLoad (-1) (-1) (-1)).dir.GetAllFoldersAndFilesOnLevel.map List.length) =
      some 4 ∧
    ((fixtureLoad (-1) (-1) (-1)).dir.GetAllFoldersAndFilesOnLevel.map
      (fun levels => (levels.head?.map (List.map File.Id)))) = some (some [12, 13, 10, 11]) ∧
    ((fixtureLoad (-1) (-1) (-1)).dir.GetSubFoldersAndFiles.map (List.map File.Id)) =
      some [12, 13, 10, 11] ∧
    emptyRoot.GetAllFoldersAndFilesOnLevel = some [[]] ∧
    ∃ levels : List (List File),
      (fixtureLoad (-1) (-1) (-1)).dir.GetAllFoldersAndFilesOnLevel = some levels ∧
      levels[0]? = some ((fixtureLoad (-1) (-1) (-1)).dir.subFolders ++
        (fixtureLoad (-1) (-1) (-1)).dir.subFiles) ∧
      levels.length = (fixtureLoad (-1) (-1) (-1)).dir.height := by
  have hv : (fixtureLoad (-1) (-1) (-1)).dir.IsVirtualDir = true := by
    with_unfolding_all decide
  have hl : (fixtureLoad (-1) (-1) (-1)).dir.loaded = true := by with_unfolding_all decide
  obtain ⟨levels, h1, _, h3, _, _, h6, _⟩ :=
    C23_first_level (fixtureLoad (-1) (-1) (-1)).dir hl (by with_unfolding_all decide)
      (by with_unfolding_all decide) (by with_unfolding_all decide)
  rw [hv] at h6
  exact ⟨hv, hl, by with_unfolding_all decide, by with_unfolding_all decide,
    by with_unfolding_all decide, by with_unfolding_all decide, levels, h1, h3 hv, h6⟩

/-- C23 as stated fails for a root that is not virtual, and at the largest depths.  The
folder 7 filled with one file is a loaded root that is not virtual:
`GetAllFoldersAndFilesOnLevel` returns two lists, the first holds the root's own
descriptor and the root's one child is in the second.  The virtual root created by `NewDir`
at depth 2^63 - 2 and filled with nothing is loaded: `minLevel` and `maxLevel` are both
2^63 - 1 and the closing loop never ends, whatever its budget, so no list is returned. -/
theorem C23_counterexample :
    (folderSeven.loaded = true ∧ folderSeven.IsVirtualDir = false ∧
      folderSeven.fullyLoaded = true ∧
      folderSeven.GetSubFoldersAndFiles = some [smallFile] ∧
      folderSeven.GetAllFoldersAndFilesOnLevel = some [[folderDesc 7 0], [smallFile]]) ∧
    (Built deepVirtual ∧ deepVirtual.loaded = true ∧ deepVirtual.IsVirtualDir = true ∧
      deepVirtual.fullyLoaded = true ∧ deepVirtual.depthsOk = true ∧
      deepVirtual.depth = 9223372036854775806 ∧
      deepVirtual.levelInit.1 = 9223372036854775807 ∧
      (deepVirtual.BfsWithFunc (some addLevelFoldersAndFiles)
        ⟨deepVirtual.levelInit, []⟩).1.world.1 = 9223372036854775807 ∧
      (∀ fuel : Nat,
        collectLevels
          (deepVirtual.BfsWithFunc (some addLevelFoldersAndFiles)
            ⟨deepVirtual.levelInit, []⟩).1.world.2
          9223372036854775807 fuel deepVirtual.levelInit.1 [] = none) ∧
      deepVirtual.GetAllFoldersAndFilesOnLevel = none) := by
  refine ⟨⟨by with_unfolding_all decide, by with_unfolding_all decide,
    by with_unfolding_all decide, by with_unfolding_all decide,
    by with_unfolding_all decide⟩, ?_, by with_unfolding_all decide,
    by with_unfolding_all decide, by with_unfolding_all decide,
    by with_unfolding_all decide, by with_unfolding_all decide,
    by with_unfolding_all decide, by with_unfolding_all decide, ?_,
    by with_unfolding_all decide⟩
  · exact Built.fill (d := Dir.mk (folderDesc 0 0) [] [] 9223372036854775806 unKnown unKnown
      false) [] [] [] (Built.newDir (folderDesc 0 0) 9223372036854775806 unKnown unKnown rfl)
  · intro fuel
    exact collectLevels_diverges _ fuel _ _ (by with_unfolding_all decide)

/-- C24: `DFSLoad` comes to an end for every tree, retrieval function, pair of callbacks
and limits (the retrieval function and the callbacks are total, and the lists they return
are finite).  The recursion budget that `DFSLoad` hands to `dfsLoadDir` is never used up,
and every larger budget gives the same result.  The reason: when `dfsLoadDir` goes on to
the loop over the children of a node, the node is below the depth limit, each child needs
a strictly smaller budget than the node, and the children of a node that was not loaded
are at the node's depth plus one; no node at or beyond the depth limit is expanded, every
call of the retrieval function being for a node below the limit.  For a retrieval function
that always returns one more folder (a hierarchy without a bottom, or a cycle), `DFSLoad`
with default limits from the node that `NewVirtualDir` returns fails with
`errMaxPathDepthLimit`. -/
theorem C24_load_terminates {σ : Type} (d : Dir) (maxDepth numLimit sizeLimit : Int)
    (hm : maxDepth < 9223372036854775808)
    (retrieve : Option (RetrieveNextDepthFilesFunc σ)) (pre post : Option (DirFunc σ))
    (c : Ctx σ) :
    (d.DFSLoad maxDepth numLimit sizeLimit retrieve pre post c).exit ≠ Exit.fuel ∧
    (∀ fuel, d.loadFuel (d.dfsInfoInit maxDepth numLimit sizeLimit).maxDepth ≤ fuel →
      dfsLoadDir retrieve pre post fuel d ⟨d.dfsInfoInit maxDepth numLimit sizeLimit, c⟩ =
        d.loadRun maxDepth numLimit sizeLimit retrieve pre post c) ∧
    (∀ (n : Dir) (st : LoadState σ),
      st.info.maxDepth = (d.dfsInfoInit maxDepth numLimit sizeLimit).maxDepth →
      (dfsLoadHead retrieve pre n st).2.2 = Exit.nil →
      n.depth < st.info.maxDepth ∧
      ∀ ch, some ch ∈ (dfsLoadHead retrieve pre n st).1.subDirs →
        ch.loadFuel st.info.maxDepth + 1 ≤ n.loadFuel st.info.maxDepth ∧
        (n.loaded = false → -9223372036854775808 ≤ n.depth →
          ch.depth = n.depth + 1 ∧ ch.loaded = false)) ∧
    (∃ new,
      (d.DFSLoad maxDepth numLimit sizeLimit retrieve pre post c).ctx.trace =
        c.trace ++ new ∧
      ∀ v i, Event.retrieve v i ∈ new →
        ∃ x ∈ (d.DFSLoad maxDepth numLimit sizeLimit retrieve pre post c).dir.nodes,
          x.depth < (d.dfsInfoInit maxDepth numLimit sizeLimit).maxDepth ∧
          x.originInfo.VolumeId = v ∧ x.originInfo.Id = i) ∧
    (∀ r : RetrieveNextDepthFilesFunc σ, Bottomless r →
      ∀ virtualFolderId volumeId : Int, ∃ root,
        NewVirtualDir virtualFolderId volumeId typeFolder = some root ∧
        (root.DFSLoad (-1) (-1) (-1) (some r) none none c).exit =
          Exit.error Err.errMaxPathDepthLimit) := by
  have hM : (d.dfsInfoInit maxDepth numLimit sizeLimit).maxDepth < 9223372036854775808 := by
    unfold Dir.dfsInfoInit
    simp only
    split
    · unfold defMaxDepth; decide
    · exact hm
  have hne := DFSLoad_ne_fuel d maxDepth numLimit sizeLimit hm retrieve pre post c
  refine ⟨hne, ?_, ?_, ?_, ?_⟩
  · intro fuel hfuel
    rw [DFSLoad_exit] at hne
    exact dfsLoadDir_fuel_mono retrieve pre post _ d _ hne fuel hfuel
  · intro n st hst hh
    have hm2 : st.info.maxDepth < 9223372036854775808 := by rw [hst]; exact hM
    refine ⟨(dfsLoadHead_nil retrieve pre n st hh).2.1, ?_⟩
    intro ch hch
    refine ⟨dfsLoadHead_child_fuel retrieve pre n st hm2 hh ch hch, ?_⟩
    intro hl hlo
    exact (dfsLoadHead_child_depth retrieve pre n st hm2 hlo hl hh ch hch).2
  · rw [DFSLoad_ctx, DFSLoad_dir]
    exact dfsLoadDir_trace retrieve pre post _ _ d _ rfl
  · intro r hr virtualFolderId volumeId
    refine ⟨Dir.mk ⟨virtualFolderId, unKnown, volumeId, "", typeFolder, 0, 0, 0, 0, 0, 0⟩
      [] [] 0 unKnown unKnown false, rfl, ?_⟩
    have hmd : ∀ x : Dir, (x.dfsInfoInit (-1) (-1) (-1)).maxDepth = 100 := fun _ => rfl
    have hnl : ∀ x : Dir, (x.dfsInfoInit (-1) (-1) (-1)).numLimit = 100000 := fun _ => rfl
    have htc : ∀ x : Dir, 0 ≤ (x.dfsInfoInit (-1) (-1) (-1)).totalCount ∧
        (x.dfsInfoInit (-1) (-1) (-1)).totalCount ≤ 1 := by
      intro x
      rw [dfsInfoInit_totalCount]
      split <;> omega
    rw [DFSLoad_exit]
    unfold Dir.loadRun
    refine dfsLoadDir_bottomless r hr 100 _ _ _ ?_ rfl rfl ?_ ?_ ?_ ?_ ?_ ?_ rfl
    · rw [Dir.loadFuel_eq, hmd]
      simp only [Dir.loaded_mk, Dir.depth_mk, Bool.false_eq_true, if_false]
      omega
    · simp only [Dir.depth_mk]; omega
    · simp only [Dir.depth_mk, hmd]; omega
    · simp only [hmd]; omega
    · exact (htc _).1
    · have := (htc (Dir.mk ⟨virtualFolderId, unKnown, volumeId, "", typeFolder, 0, 0, 0, 0,
        0, 0⟩ [] [] 0 unKnown unKnown false)).2
      simp only [hnl]
      omega
    · simp only [hnl]; omega

/-- C24 at the fixture's virtual root with the store in which the folder `i` holds the
folder `i + 1`, and with the store in which every folder holds itself: `DFSLoad` with the
default limits ends, with `errMaxPathDepthLimit`. -/
theorem C24_load_terminates_witness :
    (-1 : Int) < 9223372036854775808 ∧
    newNewVirtualDirForTest = some fixtureRoot ∧
    (fixtureRoot.DFSLoad (-1) (-1) (-1) (some oneMoreFolder) none none ⟨(), []⟩).exit ≠
      Exit.fuel ∧
    (fixtureRoot.DFSLoad (-1) (-1) (-1) (some oneMoreFolder) none none ⟨(), []⟩).exit =
      Exit.error Err.errMaxPathDepthLimit ∧
    (fixtureRoot.DFSLoad (-1) (-1) (-1) (some selfFolder) none none ⟨(), []⟩).exit =
      Exit.error Err.errMaxPathDepthLimit := by
  have h := C24_load_terminates fixtureRoot (-1) (-1) (-1) (by decide) (some oneMoreFolder)
    none none ⟨(), []⟩
  obtain ⟨r1, e1, x1⟩ := h.2.2.2.2 oneMoreFolder oneMoreFolder_bottomless 0 1
  obtain ⟨r2, e2, x2⟩ := h.2.2.2.2 selfFolder selfFolder_bottomless 0 1
  have e1' : r1 = fixtureRoot := (Option.some.inj e1).symm
  have e2' : r2 = fixtureRoot := (Option.some.inj e2).symm
  rw [e1'] at x1
  rw [e2'] at x2
  exact ⟨by decide, rfl, h.1, x1, x2⟩

end dirtree
